import Mathlib

/-!
# LuaJIT trace compiler: exit patching, loop optimisation, register allocation
and machine code areas

A shallow embedding of `lj_asm_patchexit` (lj_asm.c), of the loop optimiser
(lj_opt_loop.c), of the register allocator with its spill slots, of the exit
stubs, the guard branches and the conflict search of the memory operand fusion
(lj_asm.c), of the management of the machine code areas (lj_mcode.c) and of the
opcode enumeration (lj_ir.h), with the properties of the specification that
concern them. The embedding also covers the choice of the operand order
(`swapops`), the condition codes of the comparisons, the hash of a table key
and the instructions that compute it, the fixup of the tail of a trace, the
preparation of snapshots, the backward walk of `asm_trace` with the retry loop
of `lj_asm_trace`, and the loader of the luabins library (load.c).

Conventions of the embedding:

* the build only supports the 32-bit x86 target (`buildvm.c` rejects every other
  architecture), so code addresses are 32-bit: pointers are integers and two
  pointers are equal when they agree modulo `2^32` (`wrap32`);
* the machine code of a trace is a map from the byte offset relative to
  `T->mcode` to a byte; the code does not wrap around the address space, so the
  pointer comparison `p < pe` of the scan is a comparison of offsets;
* arrays behind pointers (IR, snapshots, snapshot map, slots) are maps from the
  index to the element;
* a `for` loop that counts upwards is a recursive function with its loop test
  and a bound on the number of iterations that the loop cannot reach
  (`patchLoop_fuel`, `unroll_loop_fuel`, `phi_pass3_fuel`);
* a function that can throw returns the thrown error together with the state
  at the throw (`Res`); the parts of the program that are not among the sources
  (the fold engine, the allocator, the recorder) are parameters (`Extern`);
* the constants of the target header that the spill slot allocation uses are
  parameters (`Target`), and so are the page size, the protection flags and
  the page allocator of the operating system (`Host`);
* the machine code areas lie within the address space, so the address
  arithmetic on them does not wrap around, while sizes of type `size_t` are
  taken modulo `2^32` (`size_t`); the build is the default one, without
  `LUAJIT_UNPROTECT_MCODE`;
* the search of `lj_mcode_patch` through the list of areas has a bound on the
  number of steps, which the length of the list covers
  (`mcode_search_finds`);
* register sets are bit masks of 32 bits (`rset_test`, `rset_set`,
  `rset_clear`); the register numbers, the hint encoding of the register field
  and the layout of the register cost come from the target header and are
  fields of `Target`, with the facts the allocator relies on collected in
  `Target.WF`;
* the register allocator is modelled up to the machine code it emits: the
  moves, loads and stores of `ra_rematk`, `ra_restore` and `ra_rename` are not
  represented, their effect on the allocator state and on the IR is;
* the code that the assembler writes (exit stubs, branches) goes to the map
  `mem` of the assembler state, indexed by the address;
* the instructions that `asm_href` emits for the hash of a key are a list of
  symbolic instructions (`Emit`) in the order of execution, and `X86State.exec`
  gives them the meaning of the x86 instructions on the registers and the
  memory;
* the code generators of the single instructions are not represented: in the
  backward walk they are functions of the state of the assembler and the trace
  (`AsmGen`), of which only the frame `AsmGen.Frame` is assumed; a part of the
  assembler returns, throws, fails an assertion or exceeds the bound of the
  model (`Walk`);
* the loader of luabins reads from a list of bytes; a read at an offset outside
  of the list is an outcome of its own (`Run.oob`), and the constants of the
  headers that are not among the sources are parameters (`LuabinsConf`).
-/

set_option autoImplicit false

namespace LuaJIT

/-! ## Machine code bytes -/

/-- A machine-code byte (`typedef uint8_t MCode`, lj_jit.h). -/
abbrev MCode := Fin 256

/-- The bytes of a trace, indexed by the offset from `T->mcode`. -/
abbrev MCodeBuf := Nat → MCode

/-- Reduction of an address computation to a 32-bit pointer value. -/
def wrap32 (x : Int) : Int := x % 4294967296

/-- The value of `x` as a 32-bit unsigned integer (`uint32_t`, `MSize`). -/
def u32 (x : Int) : Nat := (x % 4294967296).toNat

/-- The byte with value `n % 256`. -/
def toByte (n : Nat) : MCode := ⟨n % 256, Nat.mod_lt n (by decide)⟩

/-- The load `*(uint16_t *)p` at offset `o` (little endian). -/
def read_u16 (m : MCodeBuf) (o : Nat) : Nat :=
  (m o).val + 256 * (m (o + 1)).val

/-- The unsigned value of the four bytes at offset `o` (little endian). -/
def read_u32 (m : MCodeBuf) (o : Nat) : Nat :=
  (m o).val + 256 * (m (o + 1)).val + 65536 * (m (o + 2)).val + 16777216 * (m (o + 3)).val

/-- The load `*(int32_t *)p` at offset `o`. -/
def read_i32 (m : MCodeBuf) (o : Nat) : Int :=
  if read_u32 m o < 2147483648 then (read_u32 m o : Int) else (read_u32 m o : Int) - 4294967296

/-- The store `*(int32_t *)p = (int32_t)v` at offset `o`: the low 32 bits of `v`. -/
def write_i32 (m : MCodeBuf) (o : Nat) (v : Int) : MCodeBuf :=
  fun i =>
    if i = o then toByte (wrap32 v).toNat
    else if i = o + 1 then toByte ((wrap32 v).toNat / 256)
    else if i = o + 2 then toByte ((wrap32 v).toNat / 65536)
    else if i = o + 3 then toByte ((wrap32 v).toNat / 16777216)
    else m i

/-! ## Exit stubs (lj_jit.h) -/

def EXITSTUB_SPACING : Nat := 2 + 2

def EXITSTUBS_PER_GROUP : Nat := 32

/-- The address of an exit stub; `exitstubgroup` is `J->exitstubgroup`. -/
def exitstub_addr (exitstubgroup : Nat → Int) (exitno : Nat) : Int :=
  exitstubgroup (exitno / EXITSTUBS_PER_GROUP) +
    ((EXITSTUB_SPACING * (exitno % EXITSTUBS_PER_GROUP) : Nat) : Int)

/-- Modelled from the spec: the opcode byte `XI_JMP` of the x86 near jump, whose
definition (lj_target_x86.h) is not among the sources; the trailing jump of a
trace is the byte `0xE9` followed by a 32-bit displacement. -/
def XI_JMP : MCode := 0xe9

/-! ## IR instructions (lj_ir.h) -/

/-- Update of one element of an array. -/
def upd {α : Type} (f : Nat → α) (i : Nat) (v : α) : Nat → α :=
  fun j => if j = i then v else f j

def IR_NOP : Nat := 0
def IR_BASE : Nat := 1
def IR_LOOP : Nat := 2
def IR_PHI : Nat := 3
def IR_ADD : Nat := 34
def IR_MUL : Nat := 36
def IR_SLOAD : Nat := 60
def IR_TONUM : Nat := 72
def IR_TOINT : Nat := 73
def IR_STRTO : Nat := 76

/-- The table `lj_ir_mode`: the mode byte `IRMODE(name, m, m1, m2)` of every
opcode of `IRDEF`, in the order of the enumeration, and a final 0. -/
def lj_ir_mode_table : List Nat :=
  [0x0f, 0x05, 0x8f, 0x60, 0x64,
   0x0f, 0x0e, 0x0e, 0x0e, 0x0e, 0x0e, 0x04,
   0x90, 0x90, 0x80, 0x80, 0x80, 0x80, 0x80, 0x80, 0x80, 0x80, 0x80, 0x80,
   0x0c, 0x0c, 0x10, 0x10, 0x10, 0x00, 0x00, 0x00, 0x00, 0x00,
   0x10, 0x00, 0x10, 0x00, 0x04, 0x00, 0x00, 0x00, 0x00, 0x00, 0x10, 0x10,
   0x90, 0x80,
   0x00, 0x80, 0x40, 0x60, 0xc4, 0xc4, 0x04, 0x00,
   0xcc, 0xcc, 0xcc, 0x44, 0xc5, 0x44, 0x60, 0x60, 0x60, 0x60,
   0x00, 0x25, 0x2c, 0x4c, 0x6c, 0x60,
   0x0c, 0x04, 0x00, 0x0c, 0x8c, 0x00]

def lj_ir_mode (o : Nat) : Nat := lj_ir_mode_table.getD o 0

def IRM_N : Nat := 0x00
def IRM_S : Nat := 0x60

def irm_kind (m : Nat) : Nat := m &&& IRM_S

def IRT_NIL : Nat := 0
def IRT_FALSE : Nat := 1
def IRT_TRUE : Nat := 2
def IRT_LIGHTUD : Nat := 3
def IRT_STR : Nat := 4
def IRT_PTR : Nat := 5
def IRT_THREAD : Nat := 6
def IRT_PROTO : Nat := 7
def IRT_FUNC : Nat := 8
def IRT_TAB : Nat := 10
def IRT_UDATA : Nat := 11
def IRT_NUM : Nat := 12
def IRT_INT : Nat := 13
def IRT_I8 : Nat := 14
def IRT_U8 : Nat := 15
def IRT_I16 : Nat := 16
def IRT_U16 : Nat := 17
def IRT_MARK : Nat := 0x20
def IRT_GUARD : Nat := 0x40
def IRT_ISPHI : Nat := 0x80
def IRT_TYPE : Nat := 0x1f

/-- `IRT(o, t)`: combined opcode and type, `((o)<<8) | (t)`. -/
def IRT (o t : Nat) : Nat := (o <<< 8) ||| t

def IRTN (o : Nat) : Nat := IRT o IRT_NUM

def IRTG (o t : Nat) : Nat := IRT o (IRT_GUARD ||| t)

/-- The type part of a stored type byte. -/
def irt_type (t : Nat) : Nat := t &&& IRT_TYPE

def irt_sametype (t1 t2 : Nat) : Prop := ((t1 ^^^ t2) &&& IRT_TYPE) = 0

instance (t1 t2 : Nat) : Decidable (irt_sametype t1 t2) := by
  unfold irt_sametype; infer_instance

/-- The range test `(uint32_t)((t).irt & IRT_TYPE) - (uint32_t)(first) <=
(uint32_t)(last-first)`, with the unsigned subtraction wrapping modulo `2^32`. -/
def irt_typerange (t first last : Nat) : Prop :=
  ((t &&& IRT_TYPE) + 4294967296 - first) % 4294967296 ≤ last - first

instance (t first last : Nat) : Decidable (irt_typerange t first last) := by
  unfold irt_typerange; infer_instance

def irt_ispri (t : Nat) : Prop := irt_type t ≤ IRT_TRUE

instance (t : Nat) : Decidable (irt_ispri t) := by unfold irt_ispri; infer_instance

def irt_isnum (t : Nat) : Prop := irt_type t = IRT_NUM

instance (t : Nat) : Decidable (irt_isnum t) := by unfold irt_isnum; infer_instance

def irt_isinteger (t : Nat) : Prop := irt_typerange t IRT_INT IRT_U16

instance (t : Nat) : Decidable (irt_isinteger t) := by unfold irt_isinteger; infer_instance

def irt_isguard (t : Nat) : Prop := (t &&& IRT_GUARD) ≠ 0

instance (t : Nat) : Decidable (irt_isguard t) := by unfold irt_isguard; infer_instance

def irt_ismarked (t : Nat) : Prop := (t &&& IRT_MARK) ≠ 0

instance (t : Nat) : Decidable (irt_ismarked t) := by unfold irt_ismarked; infer_instance

def irt_isphi (t : Nat) : Prop := (t &&& IRT_ISPHI) ≠ 0

instance (t : Nat) : Decidable (irt_isphi t) := by unfold irt_isphi; infer_instance

def irt_setmark (t : Nat) : Nat := t ||| IRT_MARK

/-- `(t).irt &= ~IRT_MARK` on the 8-bit type byte. -/
def irt_clearmark (t : Nat) : Nat := t &&& (0xff ^^^ IRT_MARK)

def irt_setphi (t : Nat) : Nat := t ||| IRT_ISPHI

/-- `(t).irt &= ~IRT_ISPHI` on the 8-bit type byte. -/
def irt_clearphi (t : Nat) : Nat := t &&& (0xff ^^^ IRT_ISPHI)

def REF_BIAS : Nat := 0x8000
def REF_BASE : Nat := REF_BIAS
def REF_FIRST : Nat := REF_BIAS + 1
def REF_DROP : Nat := 0xffff

def irref_isk (ref : Nat) : Prop := ref < REF_BIAS

instance (ref : Nat) : Decidable (irref_isk ref) := by unfold irref_isk; infer_instance

/-- `tref_ref(tr)`: the cast of a tagged reference to the 16-bit `IRRef1`. -/
def tref_ref (tr : Nat) : Nat := tr % 65536

/-- `TREF(ref, t)`: a tagged reference. -/
def TREF (ref t : Nat) : Nat := ref + (t <<< 16)

/-- `snap_ref(sn)`: the reference stored in a snapshot map entry. -/
def snap_ref (sn : Nat) : Nat := sn % 65536

/-- An IR instruction: 16-bit operands, the type byte `t`, the opcode `o` and the
chain link `prev`. The combined field `ot` overlays `t` (low byte) and `o`. -/
structure IRIns where
  op1 : Nat := 0
  op2 : Nat := 0
  t : Nat := 0
  o : Nat := 0
  prev : Nat := 0
  deriving DecidableEq, Inhabited

/-- The combined field `ir->ot`. -/
def IRIns.ot (ir : IRIns) : Nat := IRT ir.o ir.t

/-! ## Traces and the compiler state (lj_jit.h) -/

/-- Stack snapshot header. -/
structure SnapShot where
  mapofs : Nat := 0
  ref : Nat := 0
  nslots : Nat := 0
  nframelinks : Nat := 0
  count : Nat := 0
  deriving DecidableEq, Inhabited

/-- The fields of a `Trace` that exit patching and the loop optimiser use. The
arrays behind the pointers `ir`, `snap`, `snapmap` and `mcode` are maps from
the index to the element. -/
structure Trace where
  /-- IR instructions, indexed by the biased reference. -/
  ir : Nat → IRIns := fun _ => {}
  /-- Next IR instruction. -/
  nins : Nat := REF_FIRST
  /-- Snapshot array. -/
  snap : Nat → SnapShot := fun _ => {}
  /-- Snapshot map. -/
  snapmap : Nat → Nat := fun _ => 0
  /-- Number of snapshots. -/
  nsnap : Nat := 0
  /-- Number of snapshot map elements. -/
  nsnapmap : Nat := 0
  /-- Address of the start of the machine code (`T->mcode`). -/
  mcode : Int := 0
  /-- Size of the machine code (`T->szmcode`). -/
  szmcode : Nat := 0
  /-- The bytes stored at `mcode`. -/
  code : MCodeBuf := fun _ => 0
  /-- Stack pointer adjustment (offset in bytes), a 16-bit value. -/
  spadjust : Nat := 0
  /-- Lowest IR constant (`T->nk`), a biased reference. -/
  nk : Nat := REF_BIAS

/-- Linked list of MCode areas (lj_mcode.c): the header at the base of an area,
with the base of the next area (0 is `NULL`) and the size of the area. -/
structure MCLink where
  next : Nat := 0
  size : Nat := 0
  deriving DecidableEq, Inhabited

/-- The fields of `jit_State` that the loop optimiser and the management of the
machine code areas use. With them the state carries the part of the memory of
the process that the areas occupy: the headers of the areas and the protection
of the pages. -/
structure jit_State where
  /-- Current trace. -/
  cur : Trace := {}
  /-- The instruction of the fold state (`J->fold.ins`). -/
  fold_ins : IRIns := {}
  /-- Accumulated IRT_GUARD for emitted instructions. -/
  guardemit : Nat := 0
  /-- Unroll counter for instable loops. -/
  instunroll : Int := 0
  /-- Upper limit of the instruction buffer (biased). -/
  irtoplim : Nat := 0x10000
  /-- Size of the snapshot buffer. -/
  sizesnap : Nat := 0
  /-- Size of the snapshot map buffer. -/
  sizesnapmap : Nat := 0
  /-- IR instruction chain anchors, indexed by the opcode. -/
  chain : Nat → Nat := fun _ => 0
  /-- Stack slot map. -/
  slot : Nat → Nat := fun _ => 0
  /-- Current frame base, offset into the slots. -/
  baseslot : Nat := 1
  /-- Number of slots relative to `baseslot`. -/
  maxslot : Nat := 0
  /-- The parameter `J->param[JIT_P_maxsnap]`. -/
  maxsnap : Int := 100
  /-- The parameter `J->param[JIT_P_sizemcode]`: size of each machine code area
  (in KBytes). -/
  sizemcode : Int := 32
  /-- The parameter `J->param[JIT_P_maxmcode]`: max. total size of all machine
  code areas (in KBytes). -/
  maxmcode : Int := 512
  /-- Base of current mcode area (0 is `NULL`). -/
  mcarea : Nat := 0
  /-- Top of current mcode area. -/
  mctop : Nat := 0
  /-- Bottom of current mcode area. -/
  mcbot : Nat := 0
  /-- Size of current mcode area. -/
  szmcarea : Nat := 0
  /-- Total size of all allocated mcode areas. -/
  szallmcarea : Nat := 0
  /-- Protection of current mcode area. -/
  mcprot : Nat := 0
  /-- The header of the area at a base address. -/
  mclink : Nat → MCLink := fun _ => {}
  /-- The protection of the page at an address. -/
  pageprot : Nat → Nat := fun _ => 0

/-! ## lj_asm_patchexit (lj_asm.c) -/

/-- The test `(*(uint16_t *)p & 0xf0ff) == 0x800f` of the scan at offset `o`. -/
def isJcc (m : MCodeBuf) (o : Nat) : Prop :=
  (read_u16 m o &&& 0xf0ff) = 0x800f

instance (m : MCodeBuf) (o : Nat) : Decidable (isJcc m o) := by
  unfold isJcc; infer_instance

/-- The test `p + *(int32_t *)(p+2) == px` of the scan at offset `o`. -/
def jccRefs (mcode : Int) (px : Int) (m : MCodeBuf) (o : Nat) : Prop :=
  wrap32 (mcode + o + read_i32 m (o + 2)) = wrap32 px

instance (mcode px : Int) (m : MCodeBuf) (o : Nat) : Decidable (jccRefs mcode px m o) := by
  unfold jccRefs; infer_instance

/-- The test of the trailing jump:
`len > 5 && p[len-5] == XI_JMP && p+len-6 + *(int32_t *)(p+len-4) == px`. -/
def tailRefs (mcode : Int) (len : Nat) (px : Int) (m : MCodeBuf) : Prop :=
  len > 5 ∧ m (len - 5) = XI_JMP ∧
    wrap32 (mcode + len - 6 + read_i32 m (len - 4)) = wrap32 px

instance (mcode px : Int) (len : Nat) (m : MCodeBuf) : Decidable (tailRefs mcode len px m) := by
  unfold tailRefs; infer_instance

/-- The first statement of `lj_asm_patchexit`: patch the trailing jump. -/
def patchTail (mcode : Int) (len : Nat) (px target : Int) (m : MCodeBuf) : MCodeBuf :=
  if tailRefs mcode len px m then write_i32 m (len - 4) (target - (mcode + len)) else m

/-- The scan `for (; p < pe; p++)` of `lj_asm_patchexit`, from offset `o`, with
`pe = p+len-6`. A patched jump advances the scan by 6 bytes, any other byte by 1.
The first argument bounds the number of iterations. -/
def patchLoop (mcode : Int) (len : Nat) (px target : Int) : Nat → Nat → MCodeBuf → MCodeBuf
  | 0, _, m => m
  | fuel + 1, o, m =>
    if o + 6 < len then
      if isJcc m o ∧ jccRefs mcode px m o then
        patchLoop mcode len px target fuel (o + 6)
          (write_i32 m (o + 2) (target - (mcode + o + 6)))
      else
        patchLoop mcode len px target fuel (o + 1) m
    else m

/-- Patch exit jumps of existing machine code to a new target; the result is the
machine code after the call. The scan stops after at most `len` iterations. -/
def lj_asm_patchexit (exitstubgroup : Nat → Int) (T : Trace) (exitno : Nat) (target : Int) :
    MCodeBuf :=
  let len := T.szmcode
  let px := exitstub_addr exitstubgroup exitno - 6
  patchLoop T.mcode len px target len 0 (patchTail T.mcode len px target T.code)

/-- The offsets that the scan of `lj_asm_patchexit` examines, in order (the
values of `p - T->mcode` at the loop test that succeed). -/
def scanVisits (mcode : Int) (len : Nat) (px target : Int) : Nat → Nat → MCodeBuf → List Nat
  | 0, _, _ => []
  | fuel + 1, o, m =>
    if o + 6 < len then
      if isJcc m o ∧ jccRefs mcode px m o then
        o :: scanVisits mcode len px target fuel (o + 6)
          (write_i32 m (o + 2) (target - (mcode + o + 6)))
      else
        o :: scanVisits mcode len px target fuel (o + 1) m
    else []

/-- Destination of a 6-byte near conditional jump at offset `o`: the address of
the byte after the jump plus its displacement. -/
def jccDest (mcode : Int) (m : MCodeBuf) (o : Nat) : Int :=
  wrap32 (mcode + o + 6 + read_i32 m (o + 2))

/-- Destination of a 5-byte near jump at offset `o`. -/
def jmpDest (mcode : Int) (m : MCodeBuf) (o : Nat) : Int :=
  wrap32 (mcode + o + 5 + read_i32 m (o + 1))

/-- A buffer given by its first bytes, zero elsewhere. -/
def bufOfList (l : List Nat) : MCodeBuf := fun i => toByte (l.getD i 0)

/-! ## Errors and the IR buffer -/

/-- Modelled from the spec: the trace errors. The header lj_traceerr.h is not
among the sources; these are the errors of the specification's taxonomy, under
the names the sources use for them (`LJ_TRERR_*`), and `IROV` for the overflow
of the IR buffer. -/
inductive TraceError where
  | IROV | TYPEINS | GFAIL | SNAPOV | PHIOV | SPILLOV
  | MCODEOV | MCODEAL | MCODELM | BADRA | NYICOAL | NYIPHI | NYIGCF | NYIIR
  deriving DecidableEq, Repr

/-- What a protected call catches: a trace error (thrown as a number with
`LUA_ERRRUN`) or any other error, given by its error code. -/
inductive Thrown where
  | trace (e : TraceError)
  | other (errcode : Nat)
  deriving DecidableEq, Repr

/-- Outcome of a computation on the compiler state: a value, or a thrown error;
in both cases with the state it leaves behind. -/
inductive Res (α : Type) where
  | ok (a : α) (J : jit_State)
  | raise (e : Thrown) (J : jit_State)

/-- The state an outcome leaves behind. -/
def Res.state {α : Type} : Res α → jit_State
  | .ok _ J => J
  | .raise _ J => J

/-- The outcome is the trace error `e`. -/
def Res.raises {α : Type} (r : Res α) (e : TraceError) : Prop :=
  match r with
  | .ok _ _ => False
  | .raise e' _ => e' = Thrown.trace e

instance {α : Type} (r : Res α) (e : TraceError) : Decidable (r.raises e) := by
  unfold Res.raises; cases r <;> infer_instance

/-- The outcome is a value. -/
def Res.isOk {α : Type} (r : Res α) : Prop :=
  match r with
  | .ok _ _ => True
  | .raise _ _ => False

instance {α : Type} (r : Res α) : Decidable r.isOk := by
  unfold Res.isOk; cases r <;> infer_instance

/-- Apply `f` to the type byte of `IR(ref)`. -/
def setT (ir : Nat → IRIns) (ref : Nat) (f : Nat → Nat) : Nat → IRIns :=
  upd ir ref { ir ref with t := f (ir ref).t }

/-- Apply `f` to the type byte of `IR(ref)` of the current trace. -/
def jit_State.setT (J : jit_State) (ref : Nat) (f : Nat → Nat) : jit_State :=
  { J with cur := { J.cur with ir := LuaJIT.setT J.cur.ir ref f } }

/-- Modelled from the spec: `lj_ir_set` (lj_iropt.h is not among the sources)
sets the fold state to the instruction `ot a b` before `fold()` or `emit()` is
invoked; the three fields are 16 bits wide. -/
def lj_ir_set (J : jit_State) (ot a b : Nat) : jit_State :=
  { J with fold_ins :=
      { J.fold_ins with t := ot % 256, o := ot / 256 % 256, op1 := a % 65536, op2 := b % 65536 } }

/-- Modelled from the spec: the state after `lj_ir_emit` (lj_ir.c is not among the
sources) has appended the instruction of the fold state to the IR buffer. The
instruction is linked into the chain of its opcode (`J->chain`, the anchor that
`loop_emit_phi` reads for `IR_LOOP`) and its type byte is accumulated in
`J->guardemit`. -/
def jit_State.appendIns (J : jit_State) : jit_State :=
  { J with
    cur := { J.cur with
      ir := upd J.cur.ir J.cur.nins
        { op1 := J.fold_ins.op1, op2 := J.fold_ins.op2, t := J.fold_ins.t, o := J.fold_ins.o,
          prev := J.chain J.fold_ins.o }
      nins := J.cur.nins + 1 }
    chain := upd J.chain J.fold_ins.o J.cur.nins
    guardemit := J.guardemit ||| J.fold_ins.t }

/-- Modelled from the spec: `lj_ir_emit` (lj_ir.c is not among the sources) appends
the instruction of the fold state to the IR buffer and returns its tagged
reference; it fails with the IR overflow error if the buffer has reached its
upper limit. -/
def lj_ir_emit (J : jit_State) : Res Nat :=
  if J.cur.nins ≥ J.irtoplim then .raise (.trace .IROV) J
  else .ok (TREF J.cur.nins J.fold_ins.t) J.appendIns

/-- Modelled from the spec: `lj_ir_rollback` (lj_ir.c is not among the sources)
truncates the IR buffer to `ref`. -/
def lj_ir_rollback (J : jit_State) (ref : Nat) : jit_State :=
  { J with cur := { J.cur with nins := ref } }

/-- The parts of the program that the loop optimiser calls and that are not
among the sources, and the constant `LJ_MAX_PHI` (lj_def.h). -/
structure Extern where
  /-- The FOLD/CSE pipeline `lj_opt_fold`, applied to the state with the fold
  instruction set; it returns a tagged reference or throws. -/
  lj_opt_fold : jit_State → Res Nat
  /-- The new size that `lj_mem_growvec` gives a vector of size `size` with the
  limit `limit`. -/
  lj_mem_growvec : (size limit : Nat) → Nat
  /-- Maximum number of PHIs. -/
  LJ_MAX_PHI : Nat
  /-- The contents of the temporary buffer that holds the substitution table. -/
  tmpbuf : Nat → Nat

/-- `emitir(ot, a, b)`: pass IR on to the next optimisation in the chain (FOLD). -/
def emitir (E : Extern) (J : jit_State) (ot a b : Nat) : Res Nat :=
  E.lj_opt_fold (lj_ir_set J ot a b)

/-- `emitir_raw(ot, a, b)`: emit raw IR without passing through optimisations. -/
def emitir_raw (J : jit_State) (ot a b : Nat) : Res Nat :=
  lj_ir_emit (lj_ir_set J ot a b)

/-! ## PHI elimination (lj_opt_loop.c) -/

/-- Pass #1 of `loop_emit_phi`, over the remaining candidates: mark redundant and
potentially redundant PHIs. The flag tells whether pass #2 is needed. -/
def phi_pass1 (subst : Nat → Nat) : List Nat → (Nat → IRIns) → Bool → (Nat → IRIns) × Bool
  | [], ir, pass2 => (ir, pass2)
  | lref :: rest, ir, pass2 =>
    if lref = subst lref ∨ subst lref = REF_DROP then
      phi_pass1 subst rest (setT ir lref irt_setmark) pass2
    else if ¬ ((ir (subst lref)).op1 = lref ∨ (ir (subst lref)).op2 = lref) then
      phi_pass1 subst rest (setT ir lref irt_setmark) true
    else
      phi_pass1 subst rest ir pass2

/-- One step of pass #2 at the instruction `i`: clear the marks of its operands. -/
def phi_unmark_ops (ir : Nat → IRIns) (i : Nat) : Nat → IRIns :=
  let ir1 := if ¬ irref_isk (ir i).op1 then setT ir (ir i).op1 irt_clearmark else ir
  if ¬ irref_isk (ir1 i).op2 then setT ir1 (ir1 i).op2 irt_clearmark else ir1

/-- Pass #2 of `loop_emit_phi`, the loop `for (i = n-1; i > invar; i--)`: traverse
the variant part and clear the marks of non-redundant PHIs. -/
def phi_pass2 (invar : Nat) : Nat → (Nat → IRIns) → (Nat → IRIns)
  | 0, ir => ir
  | i + 1, ir => if i > invar then phi_pass2 invar i (phi_unmark_ops ir i) else ir

/-- Pass #3 of `loop_emit_phi`, the loop `for (; i < nslots; i++)`: add PHIs for
variant slots without a corresponding SLOAD. The first argument bounds the
number of iterations. -/
def phi_pass3 (LJ_MAX_PHI : Nat) (subst : Nat → Nat) (nslots : Nat) :
    Nat → Nat → List Nat → jit_State → Res (List Nat)
  | 0, _, phi, J => .ok phi J
  | fuel + 1, i, phi, J =>
    if i < nslots then
      let ref := tref_ref (J.slot i)
      if ¬ irref_isk ref ∧ ref ≠ subst ref then
        let J1 := J.setT ref irt_clearmark
        if ¬ irt_isphi (J1.cur.ir ref).t ∧ ¬ irt_ispri (J1.cur.ir ref).t then
          let J2 := J1.setT ref irt_setphi
          if phi.length ≥ LJ_MAX_PHI then .raise (.trace .PHIOV) J2
          else phi_pass3 LJ_MAX_PHI subst nslots fuel (i + 1) (phi ++ [ref]) J2
        else phi_pass3 LJ_MAX_PHI subst nslots fuel (i + 1) phi J1
      else phi_pass3 LJ_MAX_PHI subst nslots fuel (i + 1) phi J
    else .ok phi J

/-- Pass #4 of `loop_emit_phi`, over the remaining candidates: emit PHI
instructions or eliminate PHIs. -/
def phi_pass4 (subst : Nat → Nat) (invar : Nat) : List Nat → jit_State → Res Unit
  | [], J => .ok () J
  | lref :: rest, J =>
    if ¬ irt_ismarked (J.cur.ir lref).t then
      let rref := subst lref
      let J1 := if rref > invar then J.setT rref irt_setphi else J
      match emitir_raw J1 (IRT IR_PHI (irt_type (J1.cur.ir lref).t)) lref rref with
      | .ok _ J2 => phi_pass4 subst invar rest J2
      | .raise e J2 => .raise e J2
    else
      phi_pass4 subst invar rest ((J.setT lref irt_clearmark).setT lref irt_clearphi)

/-- Passes #1 and #2 of `loop_emit_phi`: the state with the marks set. -/
def phi_mark (J : jit_State) (subst : Nat → Nat) (phi : List Nat) : jit_State :=
  let invar := J.chain IR_LOOP
  let p1 := phi_pass1 subst phi J.cur.ir false
  { J with cur := { J.cur with
      ir := if p1.2 then phi_pass2 invar J.cur.nins p1.1 else p1.1 } }

/-- Emit or eliminate collected PHIs. The candidates `phi[0..nphi)` are a list; the
third pass stops after at most `nslots` iterations. -/
def loop_emit_phi (LJ_MAX_PHI : Nat) (J : jit_State) (subst : Nat → Nat) (phi : List Nat) :
    Res Unit :=
  let invar := J.chain IR_LOOP
  let nslots := J.baseslot + J.maxslot
  match phi_pass3 LJ_MAX_PHI subst nslots nslots 1 phi (phi_mark J subst phi) with
  | .raise e J3 => .raise e J3
  | .ok phi3 J3 => phi_pass4 subst invar phi3 J3

/-! ## Loop unrolling using copy-substitution (lj_opt_loop.c) -/

/-- The local variables of `loop_unroll` that change in its main loop. The
pointers `snap` and `osnap` are indexes into the snapshot array. -/
structure UnrollState where
  subst : Nat → Nat
  phi : List Nat
  snap : Nat
  osnap : Nat
  osnapref : Nat
  nsnapmap : Nat

/-- Ensure size for the copy-substituted snapshots: the capacity check on the
snapshot array, which throws `SNAPOV`, and the growth of the snapshot map. The
sizes are 32-bit unsigned. Failure of the allocator is not modelled. -/
def unroll_reserve (E : Extern) (J : jit_State) : Res Unit :=
  let r1 : Res Unit :=
    if u32 (2 * (J.cur.nsnap : Int) - 2) > J.sizesnap then
      if u32 (2 * (J.cur.nsnap : Int) - 2) > u32 J.maxsnap then .raise (.trace .SNAPOV) J
      else .ok () { J with sizesnap := E.lj_mem_growvec J.sizesnap (u32 J.maxsnap) }
    else .ok () J
  match r1 with
  | .raise e J1 => .raise e J1
  | .ok _ J1 =>
    if J1.cur.nsnapmap * 2 > J1.sizesnapmap then
      .ok () { J1 with sizesnapmap := u32 (2 * (J1.sizesnapmap : Int)) }
    else .ok () J1

/-- Substitute the snapshot slots `s .. s+n-1`: `omap`, `nmap` and `loopmap` are
offsets into the snapshot map. -/
def snap_subst_slots (subst : Nat → Nat) (loopmap loopslots omap nmap : Nat) :
    Nat → Nat → (Nat → Nat) → (Nat → Nat)
  | 0, _, m => m
  | n + 1, s, m =>
    let ref := snap_ref (m (omap + s))
    let ref1 :=
      if ref ≠ 0 then (if ¬ irref_isk ref then subst ref else ref)
      else if s < loopslots then m (loopmap + s) else ref
    snap_subst_slots subst loopmap loopslots omap nmap n (s + 1) (upd m (nmap + s) ref1)

/-- Copy the frame links `s .. s+n-1` from offset `omap` to offset `nmap`. -/
def snap_copy_links (omap nmap : Nat) : Nat → Nat → (Nat → Nat) → (Nat → Nat)
  | 0, _, m => m
  | n + 1, s, m => snap_copy_links omap nmap n (s + 1) (upd m (nmap + s) (m (omap + s)))

/-- Copy-substitute the snapshot `osnap` (the block under `if (ins >= osnapref)`). -/
def unroll_snapshot (loopmap loopslots : Nat) (S : UnrollState) (J : jit_State) :
    UnrollState × jit_State :=
  let omap := (J.cur.snap S.osnap).mapofs
  let guard := irt_isguard J.guardemit
  let nmapofs := if guard then S.nsnapmap else (J.cur.snap S.snap).mapofs
  let snap := if guard then S.snap + 1 else S.snap
  let nslots := (J.cur.snap S.osnap).nslots
  let nframelinks := (J.cur.snap S.osnap).nframelinks
  let snaps := upd J.cur.snap snap
    { mapofs := nmapofs % 65536, ref := J.cur.nins % 65536, nslots := nslots % 256,
      nframelinks := nframelinks % 256, count := 0 }
  let osnap := S.osnap + 1
  let map1 := snap_subst_slots S.subst loopmap loopslots omap nmapofs nslots 0 J.cur.snapmap
  let map2 := snap_copy_links (omap + nslots) (nmapofs + nslots) nframelinks 0 map1
  ({ S with
      snap := snap
      osnap := osnap
      osnapref := (snaps osnap).ref
      nsnapmap := nmapofs + nslots + nframelinks },
   { J with guardemit := 0, cur := { J.cur with snap := snaps, snapmap := map2 } })

/-- Check a loop-carried dependency for type instability: `t` is the type of the
original instruction `ins`, `ref` the re-emitted reference. -/
def unroll_typecheck (E : Extern) (ins ref t : Nat) (subst : Nat → Nat) (J : jit_State) :
    Res (Nat → Nat) :=
  if ¬ irt_sametype t (J.cur.ir ref).t then
    if irt_isnum t ∧ irt_isinteger (J.cur.ir ref).t then
      match emitir E J (IRTN IR_TONUM) ref 0 with
      | .ok tr J1 => .ok (upd subst ins (tref_ref tr)) J1
      | .raise e J1 => .raise e J1
    else if ¬ (irt_isinteger t ∧ irt_isinteger (J.cur.ir ref).t) then
      .raise (.trace .TYPEINS) J
    else .ok subst J
  else .ok subst J

/-- The handling of a loop-carried dependency (`ref != ins && ref < invar`): the
collection of the PHI candidate and the type check. -/
def unroll_carried (E : Extern) (ins ref t : Nat) (S : UnrollState) (J : jit_State) :
    Res UnrollState :=
  if ¬ irref_isk ref ∧ ¬ irt_isphi (J.cur.ir ref).t ∧ ¬ irt_ispri (J.cur.ir ref).t then
    if S.phi.length ≥ E.LJ_MAX_PHI then .raise (.trace .PHIOV) (J.setT ref irt_setphi)
    else
      match unroll_typecheck E ins ref t S.subst (J.setT ref irt_setphi) with
      | .ok subst J1 => .ok { S with subst := subst, phi := S.phi ++ [ref] } J1
      | .raise e J1 => .raise e J1
  else
    match unroll_typecheck E ins ref t S.subst J with
    | .ok subst J1 => .ok { S with subst := subst } J1
    | .raise e J1 => .raise e J1

/-- Substitute the operands of the instruction `ins` and re-emit it (the second
part of an iteration of the main loop of `loop_unroll`). -/
def unroll_subst (E : Extern) (invar ins : Nat) (S : UnrollState) (J : jit_State) :
    Res UnrollState :=
  let ir := J.cur.ir ins
  let op1 := if ¬ irref_isk ir.op1 then S.subst ir.op1 else ir.op1
  let op2 := if ¬ irref_isk ir.op2 then S.subst ir.op2 else ir.op2
  if irm_kind (lj_ir_mode ir.o) = IRM_N ∧ op1 = ir.op1 ∧ op2 = ir.op2 then
    .ok { S with subst := upd S.subst ins (ins % 65536) } J
  else
    match emitir E J (ir.ot &&& (0xffff ^^^ IRT_ISPHI)) op1 op2 with
    | .raise e J1 => .raise e J1
    | .ok tr J1 =>
      if tref_ref tr ≠ ins ∧ tref_ref tr < invar then
        unroll_carried E ins (tref_ref tr) ir.t { S with subst := upd S.subst ins (tref_ref tr) } J1
      else .ok { S with subst := upd S.subst ins (tref_ref tr) } J1

/-- One iteration of the main loop of `loop_unroll`, for the instruction `ins`: the
copy-substitution of a snapshot, if one is due, and of the instruction. -/
def unroll_ins (E : Extern) (invar loopmap loopslots ins : Nat) (S : UnrollState)
    (J : jit_State) : Res UnrollState :=
  if ins ≥ S.osnapref then
    unroll_subst E invar ins (unroll_snapshot loopmap loopslots S J).1
      (unroll_snapshot loopmap loopslots S J).2
  else unroll_subst E invar ins S J

/-- The main loop of `loop_unroll`, `for (; ins < invar; ins++)`. The first
argument bounds the number of iterations. -/
def unroll_loop (E : Extern) (invar loopmap loopslots : Nat) :
    Nat → Nat → UnrollState → jit_State → Res UnrollState
  | 0, _, S, J => .ok S J
  | fuel + 1, ins, S, J =>
    if ins < invar then
      match unroll_ins E invar loopmap loopslots ins S J with
      | .raise e J1 => .raise e J1
      | .ok S1 J1 => unroll_loop E invar loopmap loopslots fuel (ins + 1) S1 J1
    else .ok S J

/-- The statements of `loop_unroll` before the call of `loop_emit_phi`; the value
holds the substitution table and the PHI candidates. Every trace has the
snapshot #0, so that `nsnap-1` is the index of the loop snapshot. The main loop
runs from `REF_FIRST` and stops after at most `invar` iterations. -/
def unroll_body (E : Extern) (J : jit_State) : Res UnrollState :=
  let invar := J.cur.nins
  match emitir_raw J (IRTG IR_LOOP IRT_NIL) 0 0 with
  | .raise e J1 => .raise e J1
  | .ok _ J1 =>
    match unroll_reserve E J1 with
    | .raise e J2 => .raise e J2
    | .ok _ J2 =>
      let snap := J2.cur.nsnap - 1
      let S0 : UnrollState :=
        { subst := upd E.tmpbuf REF_BASE REF_BASE, phi := [], snap := snap, osnap := 1,
          osnapref := (J2.cur.snap 1).ref, nsnapmap := J2.cur.nsnapmap }
      match unroll_loop E invar (J2.cur.snap snap).mapofs (J2.cur.snap snap).nslots
          invar REF_FIRST S0 J2 with
      | .raise e J3 => .raise e J3
      | .ok S J3 =>
        if irt_isguard J3.guardemit then
          .ok { S with snap := S.snap + 1 }
            { J3 with cur := { J3.cur with
                nsnapmap := S.nsnapmap % 65536
                nsnap := (S.snap + 1) % 65536 } }
        else
          .ok S
            { J3 with cur := { J3.cur with
                nsnapmap := (J3.cur.snap S.snap).mapofs % 65536
                nsnap := S.snap % 65536 } }

/-- Unroll loop. -/
def loop_unroll (E : Extern) (J : jit_State) : Res Unit :=
  match unroll_body E J with
  | .raise e J1 => .raise e J1
  | .ok S J1 => loop_emit_phi E.LJ_MAX_PHI J1 S.subst S.phi

/-- The loop `for (ins--; ins >= REF_FIRST; ins--)` of `loop_undo`: remove the
flags of the instructions below `ins`. -/
def undo_flags : Nat → (Nat → IRIns) → (Nat → IRIns)
  | 0, ir => ir
  | ins + 1, ir =>
    if ins ≥ REF_FIRST then undo_flags ins (setT (setT ir ins irt_clearphi) ins irt_clearmark)
    else ir

/-- Undo any partial changes made by the loop optimization. -/
def loop_undo (J : jit_State) (ins : Nat) : jit_State :=
  let J1 := lj_ir_rollback J ins
  { J1 with cur := { J1.cur with ir := undo_flags ins J1.cur.ir } }

/-- Loop optimization. The protected call of `loop_unroll` yields the thrown
error, if any; the result 1 tells the recorder to continue recording. -/
def lj_opt_loop (E : Extern) (J : jit_State) : Res Int :=
  let nins := J.cur.nins
  match loop_unroll E J with
  | .ok _ J1 => .ok 0 J1
  | .raise (.trace e) J1 =>
    if e = .TYPEINS ∨ e = .GFAIL then
      if J1.instunroll - 1 < 0 then
        .raise (.trace e) { J1 with instunroll := J1.instunroll - 1 }
      else
        .ok 1 (loop_undo { J1 with instunroll := J1.instunroll - 1, guardemit := 0 } nins)
    else .raise (.trace e) J1
  | .raise e J1 => .raise e J1

/-! ## Example traces for the loop optimiser -/

/-- A fold engine for the examples: a load of a stack slot is forwarded to the
reference that the slot map holds for that slot, every other instruction is
emitted as it is. -/
def forwardFold (J : jit_State) : Res Nat :=
  if J.fold_ins.o = IR_SLOAD ∧ tref_ref (J.slot J.fold_ins.op1) ≠ 0 then
    .ok (J.slot J.fold_ins.op1) J
  else lj_ir_emit J

/-- The externals of the examples: `forwardFold`, vectors that grow to their
limit, at most 32 PHIs and a zeroed temporary buffer. -/
def exampleExtern : Extern :=
  { lj_opt_fold := forwardFold, lj_mem_growvec := fun _ limit => limit,
    LJ_MAX_PHI := 32, tmpbuf := fun _ => 0 }

/-- An IR buffer given by its instructions from `REF_FIRST` on. -/
def irOfList (l : List IRIns) : Nat → IRIns :=
  fun ref => if REF_FIRST ≤ ref then l.getD (ref - REF_FIRST) {} else {}

/-- The integer increment loop: `0x8001: x = SLOAD #1 (int)`, `0x8002: ADD x k
(int)`, with slot 1 holding the sum at the end of the recording. Snapshot #0 and
the loop snapshot are empty. -/
def incLoop : jit_State :=
  { cur :=
      { ir := irOfList
          [{ o := IR_SLOAD, t := IRT_INT, op1 := 1, op2 := 0 },
           { o := IR_ADD, t := IRT_INT, op1 := 0x8001, op2 := 0x7fff }]
        nins := 0x8003
        snap := fun i => if i = 0 then { ref := 0x8001 } else { ref := 0x8003 }
        nsnap := 2 }
    slot := fun i => if i = 1 then TREF 0x8002 IRT_INT else 0
    baseslot := 1
    maxslot := 1
    sizesnap := 8
    sizesnapmap := 8
    instunroll := 4 }

/-- A loop that assigns an invariant to a variable and has a two-step recurrence:
`0x8001: t = SLOAD #3`, `0x8002: a = SLOAD #1`, `0x8003: MUL a a`,
`0x8004: b = SLOAD #2`, `0x8005: ADD b k`, `0x8006: ADD 0x8005 k`; at the end of the
recording slot 1 holds `t` (the assignment `a = t`), slot 2 holds `0x8006` and
slot 3 still holds `t`. -/
def invPhiLoop : jit_State :=
  { cur :=
      { ir := irOfList
          [{ o := IR_SLOAD, t := IRT_INT, op1 := 3, op2 := 0 },
           { o := IR_SLOAD, t := IRT_INT, op1 := 1, op2 := 0 },
           { o := IR_MUL, t := IRT_INT, op1 := 0x8002, op2 := 0x8002 },
           { o := IR_SLOAD, t := IRT_INT, op1 := 2, op2 := 0 },
           { o := IR_ADD, t := IRT_INT, op1 := 0x8004, op2 := 0x7fff },
           { o := IR_ADD, t := IRT_INT, op1 := 0x8005, op2 := 0x7fff }]
        nins := 0x8007
        snap := fun i => if i = 0 then { ref := 0x8001 } else { ref := 0x8007 }
        nsnap := 2 }
    slot := fun i =>
      if i = 1 then TREF 0x8001 IRT_INT else if i = 2 then TREF 0x8006 IRT_INT
      else if i = 3 then TREF 0x8001 IRT_INT else 0
    baseslot := 1
    maxslot := 3
    sizesnap := 8
    sizesnapmap := 8
    instunroll := 4 }

/-- A loop that swaps two variables: `0x8001: a = SLOAD #1`, `0x8002: b = SLOAD #2`;
at the end of the recording slot 1 holds `b` and slot 2 holds `a`. -/
def swapLoop : jit_State :=
  { cur :=
      { ir := irOfList
          [{ o := IR_SLOAD, t := IRT_INT, op1 := 1, op2 := 0 },
           { o := IR_SLOAD, t := IRT_INT, op1 := 2, op2 := 0 }]
        nins := 0x8003
        snap := fun i => if i = 0 then { ref := 0x8001 } else { ref := 0x8003 }
        nsnap := 2 }
    slot := fun i =>
      if i = 1 then TREF 0x8002 IRT_INT else if i = 2 then TREF 0x8001 IRT_INT else 0
    baseslot := 1
    maxslot := 2
    sizesnap := 8
    sizesnapmap := 8
    instunroll := 4 }

/-- A loop whose slot 1 is a string at the start of the recording and a number at
its end: `0x8001: x = SLOAD #1 (str)`, `0x8002: STRTO x (num)`. -/
def strNumLoop : jit_State :=
  { cur :=
      { ir := irOfList
          [{ o := IR_SLOAD, t := IRT_STR, op1 := 1, op2 := 0 },
           { o := IR_STRTO, t := IRT_NUM ||| IRT_GUARD, op1 := 0x8001, op2 := 0 }]
        nins := 0x8003
        snap := fun i => if i = 0 then { ref := 0x8001 } else { ref := 0x8003 }
        nsnap := 2 }
    slot := fun i => if i = 1 then TREF 0x8002 IRT_NUM else 0
    baseslot := 1
    maxslot := 1
    sizesnap := 8
    sizesnapmap := 8
    instunroll := 2 }

/-- A loop whose slot 1 is an integer in the pre-roll and a number (float) when
the body ends: `0x8001: x = SLOAD #1 (int)`, `0x8002: TONUM x (num)`. -/
def intNumLoop : jit_State :=
  { cur :=
      { ir := irOfList
          [{ o := IR_SLOAD, t := IRT_INT, op1 := 1, op2 := 0 },
           { o := IR_TONUM, t := IRT_NUM, op1 := 0x8001, op2 := 0 }]
        nins := 0x8003
        snap := fun i => if i = 0 then { ref := 0x8001 } else { ref := 0x8003 }
        nsnap := 2 }
    slot := fun i => if i = 1 then TREF 0x8002 IRT_NUM else 0
    baseslot := 1
    maxslot := 1
    sizesnap := 8
    sizesnapmap := 8
    instunroll := 4 }

/-- A loop whose slot 1 is a number in the pre-roll and an integer at the end of
the body: `0x8001: x = SLOAD #1 (num)`, `0x8002: TOINT x (int)`. -/
def numIntLoop : jit_State :=
  { cur :=
      { ir := irOfList
          [{ o := IR_SLOAD, t := IRT_NUM, op1 := 1, op2 := 0 },
           { o := IR_TOINT, t := IRT_INT, op1 := 0x8001, op2 := 2 }]
        nins := 0x8003
        snap := fun i => if i = 0 then { ref := 0x8001 } else { ref := 0x8003 }
        nsnap := 2 }
    slot := fun i => if i = 1 then TREF 0x8002 IRT_INT else 0
    baseslot := 1
    maxslot := 1
    sizesnap := 8
    sizesnapmap := 8
    instunroll := 4 }

/-- The increment loop with as many snapshots as the ceiling `maxsnap` allows, in
a snapshot buffer of that size. -/
def fullSnapLoop : jit_State :=
  { incLoop with
    cur := { incLoop.cur with nsnap := 100 }
    sizesnap := 100
    maxsnap := 100 }

/-- The value of an outcome, if it is one. -/
def Res.value? {α : Type} : Res α → Option α
  | .ok a _ => some a
  | .raise _ _ => none

/-- The state `J'` has the unroll counter and the snapshot counts of `J`. -/
def Keeps (J J' : jit_State) : Prop :=
  J'.instunroll = J.instunroll ∧ J'.cur.nsnap = J.cur.nsnap ∧ J'.cur.nsnapmap = J.cur.nsnapmap

/-- An instruction is a PHI whose left operand is below `bound` and whose right
operand is the substitution of the left one. -/
def IsPhiOf (subst : Nat → Nat) (bound : Nat) (i : IRIns) : Prop :=
  i.o = IR_PHI ∧ i.op1 < bound ∧ i.op2 = subst i.op1 % 65536

/-- The condition of the capacity check of `loop_unroll` on the snapshot array:
`2*nsnap-2`, computed in 32 bits, exceeds the size of the snapshot buffer and
the parameter `maxsnap`. -/
def snapOverflow (J : jit_State) : Prop :=
  u32 (2 * (J.cur.nsnap : Int) - 2) > J.sizesnap ∧
    u32 (2 * (J.cur.nsnap : Int) - 2) > u32 J.maxsnap

instance (J : jit_State) : Decidable (snapOverflow J) := by
  unfold snapOverflow; infer_instance

/-- The state in which the invocation number `k` (counted from 0) of the loop
optimiser starts, for a recording that starts the first invocation in the state
`J0`: after an invocation that returns 1 the recorder `rec` continues recording
and the optimiser is invoked again; after any other outcome there is no further
invocation. -/
def invocationState (E : Extern) (rec : jit_State → jit_State) (J0 : jit_State) :
    Nat → Option jit_State
  | 0 => some J0
  | k + 1 =>
    match invocationState E rec J0 k with
    | none => none
    | some J =>
      match lj_opt_loop E J with
      | .ok r J1 => if r = 1 then some (rec J1) else none
      | .raise _ _ => none

/-- The substitution table that `loop_unroll` hands to `loop_emit_phi`. -/
def unrollSubst (E : Extern) (J : jit_State) : Nat → Nat :=
  match unroll_body E J with
  | .ok S _ => S.subst
  | .raise _ _ => fun _ => 0

/-- The machine code between the two steps of `lj_asm_patchexit`: after the
trailing jump has been handled and before the scan starts. -/
def midCode (exitstubgroup : Nat → Int) (T : Trace) (exitno : Nat) (target : Int) : MCodeBuf :=
  patchTail T.mcode T.szmcode (exitstub_addr exitstubgroup exitno - 6) target T.code

/-- The offsets that the scan of `lj_asm_patchexit` examines during the call. -/
def patchVisits (exitstubgroup : Nat → Int) (T : Trace) (exitno : Nat) (target : Int) :
    List Nat :=
  scanVisits T.mcode T.szmcode (exitstub_addr exitstubgroup exitno - 6) target T.szmcode 0
    (midCode exitstubgroup T exitno target)

/-- Trace of the frame example: a `0F 80` pair at offset 0 whose displacement
field covers the opcode of the trailing jump at offset 4. -/
def frameTrace : Trace :=
  { mcode := 0x1000, szmcode := 9,
    code := bufOfList [0x0f, 0x80, 0, 0, 0xe9, 0xfd, 0xff, 0xe8, 0x00] }

/-- Exit stub groups of the frame example: exit 0 has its stub at `0x1000 + 6 + 0xE90000`. -/
def frameStubs : Nat → Int := fun _ => 0xe91006

/-- Trace of the redirection example: as `frameTrace`, for a stub at `0x5E91006`. -/
def tailTrace : Trace :=
  { mcode := 0x1000, szmcode := 9,
    code := bufOfList [0x0f, 0x80, 0, 0, 0xe9, 0xfd, 0xff, 0xe8, 0x05] }

/-- Exit stub groups of the redirection example. -/
def tailStubs : Nat → Int := fun _ => 0x5e91006

/-- A trace with one conditional jump to the stub of exit 33 and a trailing jump
to the same stub: `jcc +0x2000; nop * 5; jmp +0x1ff6`. -/
def sideTrace : Trace :=
  { mcode := 0x4000, szmcode := 16,
    code := bufOfList [0x0f, 0x85, 0x00, 0x20, 0, 0, 0x90, 0x90, 0x90, 0x90, 0x90,
      0xe9, 0xf6, 0x1f, 0, 0] }

/-- Exit stub groups for `sideTrace`: group 1 starts at `0x6002`, so that the stub
of exit 33 is at `0x6006`. -/
def sideStubs : Nat → Int := fun g => if g = 1 then 0x6002 else 0x7000

/-- The trace `T` with the bytes `m` as its machine code. -/
def Trace.withCode (T : Trace) (m : MCodeBuf) : Trace := { T with code := m }

/-- Trace of the repetition example: one conditional jump to the stub at
`0x1008`, followed by zero bytes. -/
def twiceTrace : Trace :=
  { mcode := 0x1000, szmcode := 16,
    code := bufOfList [0x0f, 0x80, 0x02, 0, 0, 0, 0, 0, 0, 0, 0, 0, 0, 0, 0, 0] }

/-- Exit stub groups of the repetition example. -/
def twiceStubs : Nat → Int := fun _ => 0x1008

/-! ## The opcode enumeration (lj_ir.h) -/

/-- The IR opcodes, in the order of `IRDEF`; the number of an opcode is its
position in the enumeration. -/
inductive IROp where
  | NOP | BASE | LOOP | PHI | RENAME
  | KPRI | KINT | KGC | KPTR | KNULL | KNUM | KSLOT
  | EQ | NE
  | ABC | FRAME
  | LT | GE | LE | GT
  | ULT | UGE | ULE | UGT
  | BNOT | BSWAP | BAND | BOR | BXOR | BSHL | BSHR | BSAR | BROL | BROR
  | ADD | SUB | MUL | DIV
  | FPMATH | POWI
  | NEG | ABS | ATAN2 | LDEXP | MIN | MAX
  | ADDOV | SUBOV
  | AREF | HREFK | HREF | NEWREF | UREFO | UREFC | FREF | STRREF
  | ALOAD | HLOAD | ULOAD | FLOAD | SLOAD | XLOAD
  | ASTORE | HSTORE | USTORE | FSTORE
  | SNEW
  | TNEW | TDUP | TLEN | TBAR | OBAR
  | TONUM | TOINT | TOBIT | TOSTR | STRTO
  | IR__MAX
  deriving DecidableEq, Repr

/-- The number of an opcode. -/
def IROp.num (o : IROp) : Nat := o.toCtorIdx

def IR_EQ : Nat := IROp.EQ.num
def IR_NE : Nat := IROp.NE.num
def IR_LT : Nat := IROp.LT.num
def IR_GE : Nat := IROp.GE.num
def IR_LE : Nat := IROp.LE.num
def IR_GT : Nat := IROp.GT.num
def IR_ULT : Nat := IROp.ULT.num
def IR_UGE : Nat := IROp.UGE.num
def IR_ULE : Nat := IROp.ULE.num
def IR_UGT : Nat := IROp.UGT.num

def IR_ALOAD : Nat := IROp.ALOAD.num
def IR_HLOAD : Nat := IROp.HLOAD.num
def IR_ULOAD : Nat := IROp.ULOAD.num
def IR_FLOAD : Nat := IROp.FLOAD.num
def IR_XLOAD : Nat := IROp.XLOAD.num
def IR_ASTORE : Nat := IROp.ASTORE.num
def IR_HSTORE : Nat := IROp.HSTORE.num
def IR_USTORE : Nat := IROp.USTORE.num
def IR_FSTORE : Nat := IROp.FSTORE.num
def IR_SNEW : Nat := IROp.SNEW.num
def IR_TNEW : Nat := IROp.TNEW.num

/-- Delta between xLOAD and xSTORE. -/
def IRDELTA_L2S : Nat := IR_ASTORE - IR_ALOAD

/-- The comparison opcodes: equality, the ordered and the unordered
comparisons. -/
def comparisonOps : List Nat :=
  [IR_EQ, IR_NE, IR_LT, IR_GE, IR_LE, IR_GT, IR_ULT, IR_UGE, IR_ULE, IR_UGT]

/-- The ordered comparisons. -/
def orderedOps : List Nat := [IR_LT, IR_GE, IR_LE, IR_GT]

/-- The unordered comparisons. -/
def unorderedOps : List Nat := [IR_ULT, IR_UGE, IR_ULE, IR_UGT]

/-- The LOAD opcodes that have a STORE opcode, each with its STORE. -/
def loadStorePairs : List (Nat × Nat) :=
  [(IR_ALOAD, IR_ASTORE), (IR_HLOAD, IR_HSTORE), (IR_ULOAD, IR_USTORE), (IR_FLOAD, IR_FSTORE)]

/-- The STORE opcodes. -/
def storeOps : List Nat := [IR_ASTORE, IR_HSTORE, IR_USTORE, IR_FSTORE]

/-! ## Mode bits (lj_ir.h) -/

def IRM_C : Nat := 0x10
def IRM_R : Nat := IRM_N
def IRM_A : Nat := 0x20
def IRM_L : Nat := 0x40
def IRM_G : Nat := 0x80

def IRMref : Nat := 0
def IRMlit : Nat := 1
def IRMcst : Nat := 2
def IRMnone : Nat := 3

def irm_isguard (m : Nat) : Nat := m &&& IRM_G

/-- Stores or any other op with a guard has a side-effect. -/
def irm_sideeff (m : Nat) : Prop := m ≥ IRM_S

instance (m : Nat) : Decidable (irm_sideeff m) := by unfold irm_sideeff; infer_instance

/-- `IRMODE(name, m, m1, m2)`: the operand modes `m1` and `m2` and the mode
bits `m`. -/
def IRMODE (m m1 m2 : Nat) : Nat := m1 ||| (m2 <<< 2) ||| m

/-- The mode bits that `IRDEF` combines: one kind (Normal/Ref, Alloc, Load,
Store), with or without the commutative bit and the guard bit. -/
def modeBits (kind : Fin 4) (comm guard : Bool) : Nat :=
  [IRM_N, IRM_A, IRM_L, IRM_S].getD kind.val 0 ||| (if comm then IRM_C else 0) |||
    (if guard then IRM_G else 0)

/-! ## Spill slot allocation (lj_asm.c) -/

/-- The register `ir->r`: the low byte of the storage that `prev` overlays. -/
def IRIns.r (ir : IRIns) : Nat := ir.prev % 256

/-- The spill slot `ir->s`: the high byte of the storage that `prev` overlays. -/
def IRIns.s (ir : IRIns) : Nat := ir.prev / 256 % 256

/-- The assignment `ir->s = (uint8_t)slot`. -/
def IRIns.setS (ir : IRIns) (slot : Nat) : IRIns :=
  { ir with prev := ir.r + 256 * (slot % 256) }

/-- Modelled from the spec: a spill slot of 0 means that there is none
(`ra_hasspill` is defined in the target header, which is not among the
sources). -/
def ra_hasspill (s : Nat) : Prop := s ≠ 0

instance (s : Nat) : Decidable (ra_hasspill s) := by unfold ra_hasspill; infer_instance

/-- What the assembler takes from the target header, which is not among the
sources: the first spill slot and the scaling of slots, the numbers of the
registers, the encoding of a register field without register, the register
costs, and the opcodes and addressing modes that the exit stubs and the
branches use. -/
structure Target where
  /-- First spill slot for general use. -/
  SPS_FIRST : Nat
  /-- The stack offset `sps_scale(slot)` of a spill slot. -/
  sps_scale : Nat → Int
  RID_EAX : Nat
  RID_ECX : Nat
  RID_EDX : Nat
  RID_EBX : Nat
  RID_ESP : Nat
  RID_EBP : Nat
  RID_ESI : Nat
  RID_EDI : Nat
  RID_XMM0 : Nat
  RID_XMM1 : Nat
  RID_XMM2 : Nat
  RID_XMM3 : Nat
  RID_XMM4 : Nat
  RID_XMM5 : Nat
  RID_XMM6 : Nat
  RID_XMM7 : Nat
  /-- The first register number behind the general purpose registers. -/
  RID_MAX_GPR : Nat
  /-- The register that holds the interpreter BASE. -/
  RID_BASE : Nat
  /-- The register field of an instruction without register and without hint. -/
  RID_INIT : Nat
  /-- The set of all registers that can be allocated. -/
  RSET_ALL : Nat
  /-- The test `ra_noreg(r)`: the register field `r` holds no register. -/
  ra_noreg : Nat → Bool
  /-- The test `ra_hashint(r)`, meant for a field that holds no register: the
  field holds a hint. -/
  ra_hashint : Nat → Bool
  /-- The hint `ra_gethint(r)` of a register field. -/
  ra_gethint : Nat → Nat
  /-- The value that `ra_sethint(rr, r)` stores in the register field `rr`: no
  register, with the hint `r`. -/
  ra_sethint : Nat → Nat
  /-- The register cost `REGCOST(cost, t)`. -/
  REGCOST : Nat → Nat → Nat
  /-- The register cost `REGCOST_REF_T(ref, t)` of an instruction and its type. -/
  REGCOST_REF_T : Nat → Nat → Nat
  /-- The reference `regcost_ref(cost)` that a register cost records. -/
  regcost_ref : Nat → Nat
  /-- Opcode of the push of a sign-extended byte. -/
  XI_PUSHi8 : Nat
  /-- Opcode of the short jump. -/
  XI_JMPs : Nat
  /-- Opcode of the store of a 32-bit immediate. -/
  XI_MOVmi : Nat
  /-- Opcode of the short conditional jump with the condition 0. -/
  XI_JCCs : Nat
  /-- Second opcode byte of the near conditional jump with the condition 0. -/
  XI_JCCn : Nat
  /-- Addressing mode with an 8-bit offset. -/
  XM_OFS8 : Nat
  /-- Scale factor 1 of an index register. -/
  XM_SCALE1 : Nat
  /-- The test `ra_samehint(r1, r2)`: two register fields hold the same hint. -/
  ra_samehint : Nat → Nat → Bool
  /-- The set of the general purpose registers that can be allocated. -/
  RSET_GPR : Nat
  /-- The set of the floating point registers. -/
  RSET_FPR : Nat
  /-- The first floating point register. -/
  RID_MIN_FPR : Nat
  /-- The first register number behind the floating point registers. -/
  RID_MAX_FPR : Nat
  /-- Opcode of the load of an effective address. -/
  XI_LEA : Nat
  /-- Opcode of the arithmetic group with a sign-extended 8-bit immediate. -/
  XI_ARITHi8 : Nat
  /-- Opcode of the arithmetic group with a 32-bit immediate. -/
  XI_ARITHi : Nat
  /-- Opcode of the no-operation instruction. -/
  XI_NOP : Nat
  /-- Addressing mode with a 32-bit offset. -/
  XM_OFS32 : Nat
  /-- Addressing mode of a register operand. -/
  XM_REG : Nat
  /-- Number of the addition in the arithmetic group. -/
  XOg_ADD : Nat
  /-- The initial register/spill field `REGSP_INIT` of an instruction. -/
  REGSP_INIT : Nat
  /-- The register/spill field `REGSP_HINT(r)` that holds the hint `r`. -/
  REGSP_HINT : Nat → Nat
  /-- The register `RID_RET` that holds the result of a C call. -/
  RID_RET : Nat
  /-- The set `RSET_SCRATCH` of the registers that a C call does not preserve. -/
  RSET_SCRATCH : Nat
  /-- The register `regsp_reg(rs)` of a register/spill pair. -/
  regsp_reg : Nat → Nat
  /-- The spill slot `regsp_spill(rs)` of a register/spill pair. -/
  regsp_spill : Nat → Nat

/-- The fields of `ASMState` that the register and spill slot allocation, the
reservation of machine code, the exit stubs and the guards use. With them the
state carries the memory that holds the machine code (`mem`), indexed by the
address. -/
structure ASMState where
  /-- Reference and blended allocation cost for regs. -/
  cost : Nat → Nat := fun _ => 0
  /-- Current MCode pointer (grows down). -/
  mcp : Nat := 0
  /-- Lower limit for MCode memory + red zone. -/
  mclim : Nat := 0
  /-- Copy of the pointer to the IR instructions, indexed by the biased
  reference. -/
  ir : Nat → IRIns := fun _ => {}
  /-- Set of free registers. -/
  freeset : Nat := 0
  /-- Set of registers modified inside the loop. -/
  modset : Nat := 0
  /-- Set of PHI registers. -/
  phiset : Nat := 0
  /-- Loop branch inversion (0:no, 1:yes, 2:yes+CC_P). -/
  loopinv : Nat := 0
  /-- Next even spill slot. -/
  evenspill : Nat := 0
  /-- Next odd spill slot (or 0). -/
  oddspill : Nat := 0
  /-- Reference of current instruction. -/
  curins : Nat := 0
  /-- Current snapshot number. -/
  snapno : Nat := 0
  /-- Reference of LOOP instruction (or 0). -/
  loopref : Nat := 0
  /-- Bottom of reserved MCode. -/
  mcbot : Nat := 0
  /-- Top of generated MCode. -/
  mctop : Nat := 0
  /-- Points to invertible loop branch (or 0 for `NULL`). -/
  invmcp : Nat := 0
  /-- Realign loop if not 0 (`NULL`). -/
  realign : Nat := 0
  /-- PHI register references. -/
  phireg : Nat → Nat := fun _ => 0
  /-- The bytes of the machine code memory. -/
  mem : MCodeBuf := fun _ => 0
  /-- Copy of `J->flags`. -/
  flags : Nat := 0
  /-- Stop assembly before hitting this instruction. -/
  stopins : Nat := 0
  /-- Original `T->nins`. -/
  orignins : Nat := 0
  /-- Current snapshot is active after this reference. -/
  snapref : Nat := 0
  /-- Rename highwater mark for snapshot check. -/
  snaprename : Nat := 0
  /-- Section base reference (loopref or 0). -/
  sectref : Nat := 0
  /-- Fusion limit (loopref, 0 or `FUSE_DISABLED`). -/
  fuseref : Nat := 0
  /-- Loop snapshot number. -/
  loopsnapno : Nat := 0
  /-- Pointer to loop MCode (or 0 for `NULL`). -/
  mcloop : Nat := 0
  /-- Pending opportunity to remove test r,r (or 0 for `NULL`). -/
  testmcp : Nat := 0
  /-- Highest stack slot for calls. -/
  topslot : Nat := 0
  /-- Accumulated number of GC steps (per section). -/
  gcsteps : Nat := 0

/-- Setup register allocator: initially all registers (except the stack pointer)
are free for use, and the stack pointer gets the cost `REGCOST(~0u, 0u)`; the
start slots for spill slot allocation are `(SPS_FIRST+1)&~1` and
`(SPS_FIRST&1) ? SPS_FIRST : 0`. -/
def ra_setup (T : Target) (as : ASMState) : ASMState :=
  { as with
    freeset := T.RSET_ALL
    modset := 0
    phiset := 0
    phireg := fun _ => 0
    cost := upd (fun _ => 0) T.RID_ESP (T.REGCOST 0xffffffff 0)
    evenspill := (T.SPS_FIRST + 1) - (T.SPS_FIRST + 1) % 2
    oddspill := if T.SPS_FIRST % 2 ≠ 0 then T.SPS_FIRST else 0 }

/-- The choice of a new slot in `ra_spill` for an instruction of type `t`: the
slot and the allocator state after the choice. -/
def ra_spill_slot (as : ASMState) (t : Nat) : Nat × ASMState :=
  if irt_isnum t then
    (as.evenspill, { as with evenspill := as.evenspill + 2 })
  else if as.oddspill ≠ 0 then
    (as.oddspill, { as with oddspill := 0 })
  else
    (as.evenspill, { as with oddspill := as.evenspill + 1, evenspill := as.evenspill + 2 })

/-- `ra_spill(as, IR(ref))`: force a spill; allocate a new spill slot if needed.
The result is the scaled slot and the new state, or the thrown error. -/
def ra_spill (T : Target) (as : ASMState) (ref : Nat) : Except Thrown (Int × ASMState) :=
  if ¬ ra_hasspill (as.ir ref).s then
    let p := ra_spill_slot as (as.ir ref).t
    if p.2.evenspill > 256 then
      .error (.trace .SPILLOV)
    else
      .ok (T.sps_scale p.1, { p.2 with ir := upd p.2.ir ref ((p.2.ir ref).setS p.1) })
  else
    .ok (T.sps_scale (as.ir ref).s, as)

/-- A sequence of calls of `ra_spill`, one for each reference of the list; it
ends at the first call that throws. -/
def ra_spills (T : Target) : ASMState → List Nat → Except Thrown ASMState
  | as, [] => .ok as
  | as, ref :: refs =>
    match ra_spill T as ref with
    | .ok r => ra_spills T r.2 refs
    | .error e => .error e

/-- The number of slots that the value of an instruction of type `t` occupies:
a number occupies a pair of slots. -/
def slotWidth (t : Nat) : Nat := if irt_isnum t then 2 else 1

/-- What holds of the allocator between two calls of `ra_spill`: the next even
slot is even, and a free odd slot is odd and lies below it. -/
def SpillInv (as : ASMState) : Prop :=
  as.evenspill % 2 = 0 ∧ (as.oddspill = 0 ∨ (as.oddspill % 2 = 1 ∧ as.oddspill < as.evenspill))

/-- The slots of the instructions `a` and `b` do not overlap. -/
def slotsDisjoint (as : ASMState) (a b : Nat) : Prop :=
  (as.ir a).s + slotWidth (as.ir a).t ≤ (as.ir b).s ∨
    (as.ir b).s + slotWidth (as.ir b).t ≤ (as.ir a).s

instance (as : ASMState) (a b : Nat) : Decidable (slotsDisjoint as a b) := by
  unfold slotsDisjoint; infer_instance

/-- The allocator state after the calls of `ra_spill` for `refs`, starting from
`ra_setup`; the start state if one of the calls throws. -/
def spilledState (T : Target) (as0 : ASMState) (refs : List Nat) : ASMState :=
  match ra_spills T (ra_setup T as0) refs with
  | .ok as => as
  | .error _ => ra_setup T as0

/-- A target whose first spill slot is 2 and whose slots are 4 bytes wide, with
the registers numbered as the x86 instruction encoding numbers them and the
eight XMM registers behind them, a register field without register marked by
the bit `0x80`, the cost `(ref << 16) | type` of the specification, and the
opcodes of the x86 instruction set. The interpreter BASE is in EDX. -/
def exampleTarget : Target :=
  { SPS_FIRST := 2
    sps_scale := fun slot => 4 * (slot : Int)
    RID_EAX := 0
    RID_ECX := 1
    RID_EDX := 2
    RID_EBX := 3
    RID_ESP := 4
    RID_EBP := 5
    RID_ESI := 6
    RID_EDI := 7
    RID_XMM0 := 8
    RID_XMM1 := 9
    RID_XMM2 := 10
    RID_XMM3 := 11
    RID_XMM4 := 12
    RID_XMM5 := 13
    RID_XMM6 := 14
    RID_XMM7 := 15
    RID_MAX_GPR := 8
    RID_BASE := 2
    RID_INIT := 0xff
    RSET_ALL := 0xffef
    ra_noreg := fun r => r &&& 0x80 != 0
    ra_hashint := fun r => r != 0xff
    ra_gethint := fun r => r &&& 0x7f
    ra_sethint := fun r => (r ||| 0x80) % 256
    REGCOST := fun cost t => u32 (((cost <<< 16) ||| t : Nat) : Int)
    REGCOST_REF_T := fun ref t => (ref <<< 16) ||| t
    regcost_ref := fun cost => cost >>> 16
    XI_PUSHi8 := 0x6a
    XI_JMPs := 0xeb
    XI_MOVmi := 0xc7
    XI_JCCs := 0x70
    XI_JCCn := 0x80
    XM_OFS8 := 0x40
    XM_SCALE1 := 0x00
    ra_samehint := fun r1 r2 => ((r1 ^^^ r2) &&& 0x7f) == 0
    RSET_GPR := 0x00ef
    RSET_FPR := 0xff00
    RID_MIN_FPR := 8
    RID_MAX_FPR := 16
    XI_LEA := 0x8d
    XI_ARITHi8 := 0x83
    XI_ARITHi := 0x81
    XI_NOP := 0x90
    XM_OFS32 := 0x80
    XM_REG := 0xc0
    XOg_ADD := 0
    REGSP_INIT := 0xff
    REGSP_HINT := fun r => r ||| 0x80
    RID_RET := 0
    RSET_SCRATCH := 0xff07
    regsp_reg := fun rs => rs &&& 255
    regsp_spill := fun rs => rs >>> 8 }

/-- IR in which every instruction from `REF_FIRST` on is an integer without
register and spill slot. -/
def intIR : Nat → IRIns := fun _ => { t := IRT_INT, o := IR_ADD, prev := 0xff }

/-- IR with numbers at the first 126 references from `REF_FIRST` on and
integers behind them, all without register and spill slot. -/
def spillIR : Nat → IRIns := fun ref =>
  { t := if ref < REF_FIRST + 126 then IRT_NUM else IRT_INT, o := IR_ADD, prev := 0xff }

/-- The references `REF_FIRST`, ..., `REF_FIRST + n - 1`. -/
def firstRefs (n : Nat) : List Nat := (List.range n).map (fun i => REF_FIRST + i)

/-- The instructions `done` have slots below the next even slot that overlap
neither each other nor the free odd slot, and the numbers among them have even
slots. -/
def SlotsInv (as : ASMState) (done : List Nat) : Prop :=
  (∀ a ∈ done, (as.ir a).s + slotWidth (as.ir a).t ≤ as.evenspill ∧
    (as.oddspill ≠ 0 →
      as.oddspill < (as.ir a).s ∨ (as.ir a).s + slotWidth (as.ir a).t ≤ as.oddspill) ∧
    (irt_isnum (as.ir a).t → (as.ir a).s % 2 = 0)) ∧
  (∀ a ∈ done, ∀ b ∈ done, a ≠ b → slotsDisjoint as a b)

/-- IR with a number at `REF_FIRST` and at `REF_FIRST + 2` and integers at the
other references, all without register and spill slot. -/
def mixedIR : Nat → IRIns := fun ref =>
  { t := if ref = REF_FIRST ∨ ref = REF_FIRST + 2 then IRT_NUM else IRT_INT,
    o := IR_ADD, prev := 0xff }

/-! ## Machine code areas (lj_mcode.c) -/

/-- What the management of the machine code areas takes from outside the
sources: the page size (lj_def.h), the protection flags of the operating
system, and its allocator of pages. -/
structure Host where
  /-- The constant `LJ_PAGESIZE`. -/
  LJ_PAGESIZE : Nat
  /-- Protection flags for read and write access. -/
  MCPROT_RW : Nat
  /-- Protection flags for read and execute access. -/
  MCPROT_RX : Nat
  /-- The call of `mmap` or `VirtualAlloc` for `sz` bytes in the state `J`: the
  address of the new region, or nothing if the system fails to provide it. -/
  os_alloc : jit_State → Nat → Option Nat

/-- The protection of an area while the assembler generates machine code. This
is the default build, without `LUAJIT_UNPROTECT_MCODE`. -/
def MCPROT_GEN (H : Host) : Nat := H.MCPROT_RW

/-- The protection of an area at all other times. -/
def MCPROT_RUN (H : Host) : Nat := H.MCPROT_RX

/-- A value of type `size_t`, which is 32 bits wide on the target. -/
def size_t (x : Int) : Nat := u32 x

/-- The size of the header `MCLink`: a pointer and a `size_t`. -/
def sizeof_MCLink : Nat := 8

/-- Sparse limit checks using a red zone before the actual limit (lj_asm.c). -/
def MCLIM_REDZONE : Nat := 64

/-- The address `a` lies in the `sz` bytes from `p`. -/
def inArea (p sz a : Nat) : Prop := p ≤ a ∧ a < p + sz

instance (p sz a : Nat) : Decidable (inArea p sz a) := by unfold inArea; infer_instance

/-- `mcode_setprot(p, sz, prot)`: the system call that changes the protection
of the pages of a region. -/
def mcode_setprot (J : jit_State) (p sz prot : Nat) : jit_State :=
  { J with pageprot := fun a => if inArea p sz a then prot else J.pageprot a }

/-- `mcode_alloc(J, sz, prot)`: a new region with the protection `prot`; the
allocation error is thrown if the system fails to provide it. -/
def mcode_alloc (H : Host) (J : jit_State) (sz prot : Nat) : Res Nat :=
  match H.os_alloc J sz with
  | none => .raise (.trace .MCODEAL) J
  | some p => .ok p (mcode_setprot J p sz prot)

/-- Change protection of MCode area. -/
def mcode_protect (J : jit_State) (prot : Nat) : jit_State :=
  if J.mcprot ≠ prot then
    { mcode_setprot J J.mcarea J.szmcarea prot with mcprot := prot }
  else J

/-- The size of an area that `mcode_allocarea` and `lj_mcode_limiterr` compute:
`(size_t)J->param[JIT_P_sizemcode] << 10`, rounded up with
`(sz + LJ_PAGESIZE-1) & ~(size_t)(LJ_PAGESIZE - 1)`. -/
def mcode_areasize (H : Host) (J : jit_State) : Nat :=
  size_t ((size_t (J.sizemcode * 1024) : Int) + H.LJ_PAGESIZE - 1) &&&
    size_t (-(H.LJ_PAGESIZE : Int))

/-- The limit `(size_t)J->param[JIT_P_maxmcode] << 10` that `lj_mcode_limiterr`
computes. -/
def mcode_maxsize (J : jit_State) : Nat := size_t (J.maxmcode * 1024)

/-- Allocate a new MCode area. -/
def mcode_allocarea (H : Host) (J : jit_State) : Res Unit :=
  let oldarea := J.mcarea
  let sz := mcode_areasize H J
  match mcode_alloc H J sz (MCPROT_GEN H) with
  | .raise e J1 => .raise e J1
  | .ok p J1 =>
    .ok ()
      { J1 with
        mcarea := p
        szmcarea := sz
        mcprot := MCPROT_GEN H
        mctop := p + sz
        mcbot := p + sizeof_MCLink
        mclink := upd J1.mclink p { next := oldarea, size := sz }
        szallmcarea := size_t ((J1.szallmcarea : Int) + sz) }

/-- Reserve the remainder of the current MCode area: the returned top of the
area and the limit stored in `*lim`. -/
def lj_mcode_reserve (H : Host) (J : jit_State) : Res (Nat × Nat) :=
  if J.mcarea = 0 then
    match mcode_allocarea H J with
    | .raise e J1 => .raise e J1
    | .ok _ J1 => .ok (J1.mctop, J1.mcbot) J1
  else
    .ok ((mcode_protect J (MCPROT_GEN H)).mctop, (mcode_protect J (MCPROT_GEN H)).mcbot)
      (mcode_protect J (MCPROT_GEN H))

/-- Commit the top part of the current MCode area. -/
def lj_mcode_commit (H : Host) (J : jit_State) (top : Nat) : jit_State :=
  mcode_protect { J with mctop := top } (MCPROT_RUN H)

/-- Abort the reservation. -/
def lj_mcode_abort (H : Host) (J : jit_State) : jit_State :=
  mcode_protect J (MCPROT_RUN H)

/-- Limit of MCode reservation reached. -/
def lj_mcode_limiterr (H : Host) (J : jit_State) (need : Nat) : Res Unit :=
  let J1 := lj_mcode_abort H J
  let sizemcode := mcode_areasize H J1
  let maxmcode := mcode_maxsize J1
  if need > sizemcode then
    .raise (.trace .MCODEOV) J1
  else if size_t ((J1.szallmcarea : Int) + sizemcode) > maxmcode then
    .raise (.trace .MCODEAL) J1
  else
    match mcode_allocarea H J1 with
    | .raise e J2 => .raise e J2
    | .ok _ J2 => .raise (.trace .MCODELM) J2

/-- `asm_mclimit` (lj_asm.c): the assembler, with the top `mctop` of the
reservation and the current position `mcp`, reports that the limit is reached. -/
def asm_mclimit (H : Host) (J : jit_State) (mctop mcp : Nat) : Res Unit :=
  lj_mcode_limiterr H J (size_t ((mctop : Int) - mcp + 4 * MCLIM_REDZONE))

/-- The outcome of the search through the list of MCode areas. -/
inductive AreaSearch where
  /-- The area with this base contains the pointer. -/
  | found (mc : Nat)
  /-- The list ended: the assertion `mc != NULL` fails. -/
  | ended
  /-- The search is still running after the given number of steps. -/
  | running
  deriving DecidableEq, Repr

/-- The loop of `lj_mcode_patch` that searches through the list of MCode areas,
starting behind the area `mc`, for at most `fuel` steps. -/
def mcode_search (J : jit_State) (ptr : Nat) : Nat → Nat → AreaSearch
  | 0, _ => .running
  | fuel + 1, mc =>
    if (J.mclink mc).next = 0 then .ended
    else if inArea (J.mclink mc).next (J.mclink (J.mclink mc).next).size ptr then
      .found (J.mclink mc).next
    else mcode_search J ptr fuel (J.mclink mc).next

/-- Set/reset protection to allow patching of MCode areas. The result is the
returned pointer (0 is `NULL`) and the new state; there is none if the search
does not return within `fuel` steps. -/
def lj_mcode_patch (H : Host) (J : jit_State) (ptr : Nat) (finish : Bool) (fuel : Nat) :
    Option (Nat × jit_State) :=
  if finish then
    if J.mcarea = ptr then
      some (0, mcode_protect J (MCPROT_RUN H))
    else
      some (0, mcode_setprot J ptr (J.mclink ptr).size (MCPROT_RUN H))
  else
    -- Try current area first to use the protection cache.
    if inArea J.mcarea J.szmcarea ptr then
      some (J.mcarea, mcode_protect J (MCPROT_GEN H))
    else
      -- Otherwise search through the list of MCode areas.
      match mcode_search J ptr fuel J.mcarea with
      | .found mc => some (mc, mcode_setprot J mc (J.mclink mc).size (MCPROT_GEN H))
      | .ended => none
      | .running => none

/-- The list of MCode areas that starts at `mc` consists of the areas `areas`. -/
def MCChain (J : jit_State) : Nat → List Nat → Prop
  | mc, [] => mc = 0
  | mc, a :: rest => mc = a ∧ a ≠ 0 ∧ MCChain J (J.mclink a).next rest

instance (J : jit_State) (mc : Nat) (areas : List Nat) : Decidable (MCChain J mc areas) := by
  induction areas generalizing mc with
  | nil => unfold MCChain; infer_instance
  | cons a rest ih => unfold MCChain; infer_instance

/-- All pages of the area with the base `base` have the protection `prot`. -/
def areaProt (J : jit_State) (base prot : Nat) : Prop :=
  ∀ a, inArea base (J.mclink base).size a → J.pageprot a = prot

/-- The calls of the interface of the machine code areas. -/
inductive MCodeOp where
  | reserve
  | commit (top : Nat)
  | abort
  | limiterr (need : Nat)
  deriving DecidableEq, Repr

/-- The state after one call of the interface, whether it returns or throws. -/
def mcode_op (H : Host) (J : jit_State) : MCodeOp → jit_State
  | .reserve => (lj_mcode_reserve H J).state
  | .commit top => lj_mcode_commit H J top
  | .abort => lj_mcode_abort H J
  | .limiterr need => (lj_mcode_limiterr H J need).state

/-- The state after a sequence of calls of the interface. -/
def mcode_ops (H : Host) (J : jit_State) (ops : List MCodeOp) : jit_State :=
  ops.foldl (mcode_op H) J

/-- A host with pages of 4096 bytes whose allocator hands out consecutive
regions from the address 0x10000 on, as long as there is room below
`0x10000 + room`. -/
def exampleHost (room : Nat) : Host :=
  { LJ_PAGESIZE := 4096
    MCPROT_RW := 3
    MCPROT_RX := 5
    os_alloc := fun J sz =>
      if J.szallmcarea + sz ≤ room then some (0x10000 + J.szallmcarea) else none }

/-- The three statements of `lj_asm_trace` (lj_asm.c) that reserve MCode
memory. -/
def lj_asm_trace_reserve (H : Host) (J : jit_State) (as : ASMState) : Res ASMState :=
  match lj_mcode_reserve H J with
  | .raise e J1 => .raise e J1
  | .ok r J1 =>
    .ok { as with mctop := r.1, mcbot := r.2, mcp := r.1, mclim := r.2 + MCLIM_REDZONE } J1

/-- The arena after a reservation, a limit error that adds a second area, and
the end of the reservation: the current area at 0x18000 and the older area at
0x10000, both in the protection for running code. -/
def twoAreas : jit_State :=
  mcode_ops (exampleHost 0x100000) {} [.reserve, .limiterr 0, .abort]

/-! ## Examples for pass 1 and for the main loop of the loop optimiser -/

/-- The condition under which pass #1 of `loop_emit_phi` marks the candidate
`l`: its right reference is `l` itself or `REF_DROP`, or the instruction at
the right reference does not refer to `l` as one of its operands. -/
def phiMarked (subst : Nat → Nat) (ir : Nat → IRIns) (l : Nat) : Prop :=
  l = subst l ∨ subst l = REF_DROP ∨
    ¬ ((ir (subst l)).op1 = l ∨ (ir (subst l)).op2 = l)

instance (subst : Nat → Nat) (ir : Nat → IRIns) (l : Nat) : Decidable (phiMarked subst ir l) := by
  unfold phiMarked; infer_instance

/-- The state in which `loop_unroll` calls `loop_emit_phi`. -/
def unrollState (E : Extern) (J : jit_State) : jit_State := (unroll_body E J).state

/-- The PHI candidates that `loop_unroll` hands to `loop_emit_phi`. -/
def unrollPhi (E : Extern) (J : jit_State) : List Nat :=
  match unroll_body E J with
  | .ok S _ => S.phi
  | .raise _ _ => []

/-- The operand `op` of an instruction after substitution: a constant stays,
another reference is looked up in the substitution table. -/
def substOp (subst : Nat → Nat) (op : Nat) : Nat :=
  if ¬ irref_isk op then subst op else op

/-- The test for a regular invariant instruction in `loop_unroll`: the kind of
the opcode is Normal and the substituted operands are the original ones. -/
def unrollShortcut (subst : Nat → Nat) (ir : IRIns) : Prop :=
  irm_kind (lj_ir_mode ir.o) = IRM_N ∧ substOp subst ir.op1 = ir.op1 ∧
    substOp subst ir.op2 = ir.op2

instance (subst : Nat → Nat) (ir : IRIns) : Decidable (unrollShortcut subst ir) := by
  unfold unrollShortcut; infer_instance

/-- The test of `loop_unroll` for a PHI candidate: the re-emitted reference `ref`
differs from the original reference `ins`, lies before the loop, is no
constant, is not flagged PHI and is not primitive-typed. -/
def phiCandidate (J : jit_State) (invar ins ref : Nat) : Prop :=
  ref ≠ ins ∧ ref < invar ∧ ¬ irref_isk ref ∧ ¬ irt_isphi (J.cur.ir ref).t ∧
    ¬ irt_ispri (J.cur.ir ref).t

instance (J : jit_State) (invar ins ref : Nat) : Decidable (phiCandidate J invar ins ref) := by
  unfold phiCandidate; infer_instance

/-- The test of `loop_unroll` for the conversion of a loop-carried integer to a
number: the original type `t` is a number and the type of the re-emitted
instruction is an integer. -/
def typeFix (J : jit_State) (t ref : Nat) : Prop :=
  ¬ irt_sametype t (J.cur.ir ref).t ∧ irt_isnum t ∧ irt_isinteger (J.cur.ir ref).t

instance (J : jit_State) (t ref : Nat) : Decidable (typeFix J t ref) := by
  unfold typeFix; infer_instance

/-- The state of an example loop after the LOOP instruction has been emitted. -/
def loopStart (J : jit_State) : jit_State :=
  (emitir_raw J (IRTG IR_LOOP IRT_NIL) 0 0).state

/-- The local variables of `loop_unroll` of an example loop at the start of its
main loop. -/
def unrollStart (J : jit_State) : UnrollState :=
  { subst := upd (fun _ => 0) REF_BASE REF_BASE, phi := [], snap := J.cur.nsnap - 1, osnap := 1,
    osnapref := (J.cur.snap 1).ref, nsnapmap := J.cur.nsnapmap }

/-- A loop with an invariant guard: `0x8001: x = SLOAD #1 (int)`,
`0x8002: LT x k (guard)`; slot 1 still holds `x` at the end of the recording. -/
def guardLoop : jit_State :=
  { cur :=
      { ir := irOfList
          [{ o := IR_SLOAD, t := IRT_INT, op1 := 1, op2 := 0 },
           { o := IR_LT, t := IRT_INT ||| IRT_GUARD, op1 := 0x8001, op2 := 0x7fff }]
        nins := 0x8003
        snap := fun i => if i = 0 then { ref := 0x8001 } else { ref := 0x8003 }
        nsnap := 2 }
    slot := fun i => if i = 1 then TREF 0x8001 IRT_INT else 0
    baseslot := 1
    maxslot := 1
    sizesnap := 8
    sizesnapmap := 8
    instunroll := 4 }

/-- The value and the state of an outcome that is a value. -/
def Res.get (r : Res Nat) : Nat := r.value?.getD 0

/-- The entry that the copy of a snapshot gets for the slot `s`, in the words
of the specification: the original reference if it is a constant other than
0, the substitution of the reference if it is an instruction, the entry of
the loop snapshot for `s` if the original reference is 0 and `s` is below the
number of slots of the loop snapshot, and 0 otherwise. -/
def snapEntrySpec (subst : Nat → Nat) (loopmap loopslots omap : Nat) (m : Nat → Nat)
    (s : Nat) : Nat :=
  if snap_ref (m (omap + s)) ≠ 0 ∧ irref_isk (snap_ref (m (omap + s))) then
    snap_ref (m (omap + s))
  else if ¬ irref_isk (snap_ref (m (omap + s))) then subst (snap_ref (m (omap + s)))
  else if s < loopslots then m (loopmap + s)
  else 0

/-- The offset in the snapshot map at which `loop_unroll` writes the copy of a
snapshot: behind the maps written so far if a guard was emitted since the last
snapshot, and over the map of the last snapshot otherwise. -/
def snapNewOfs (S : UnrollState) (J : jit_State) : Nat :=
  if irt_isguard J.guardemit then S.nsnapmap else (J.cur.snap S.snap).mapofs

/-- A trace with three snapshots for the copy of snapshots: the snapshot #1 at
offset 1 has three slots, holding a constant, the instruction `0x8001` and
nothing, and one frame link; the loop snapshot at offset 5 has three slots. -/
def snapLoop : jit_State :=
  { cur :=
      { ir := irOfList
          [{ o := IR_SLOAD, t := IRT_INT, op1 := 1, op2 := 0 },
           { o := IR_ADD, t := IRT_INT, op1 := 0x8001, op2 := 0x7fff }]
        nins := 0x8004
        snap := fun i =>
          if i = 0 then { ref := 0x8001, mapofs := 0, nslots := 0, nframelinks := 1 }
          else if i = 1 then { ref := 0x8002, mapofs := 1, nslots := 3, nframelinks := 1 }
          else { ref := 0x8003, mapofs := 5, nslots := 3, nframelinks := 1 }
        snapmap := fun i => [0x11, 0x7ffe, 0x8001, 0, 0x22, 0x7ffd, 0x8002, 0x8001, 0x33].getD i 0
        nsnap := 3
        nsnapmap := 9 }
    guardemit := IRT_GUARD
    sizesnap := 8
    sizesnapmap := 32 }

/-- The local variables of `loop_unroll` for `snapLoop` when the copy of the
snapshot #1 is due, with `0x8002` as the substitution of `0x8001`. -/
def snapLoopState : UnrollState :=
  { subst := upd (fun _ => 0) 0x8001 0x8002, phi := [], snap := 2, osnap := 1,
    osnapref := 0x8002, nsnapmap := 9 }

/-! ## Memory operand fusion (lj_asm.c) -/

/-- Limit linear search to this distance. Avoids O(n^2) behavior. -/
def CONFLICT_SEARCH_LIM : Nat := 15

/-- The loop `while (--i > ref)` of `noconflict`, for at most `fuel` steps; the
references are 32-bit unsigned. There is no result if the loop is still
running after `fuel` steps. -/
def noconflict_loop (ir : Nat → IRIns) (ref conflict : Nat) : Nat → Nat → Option Bool
  | 0, _ => none
  | fuel + 1, i =>
    if u32 ((i : Int) - 1) > ref then
      if (ir (u32 ((i : Int) - 1))).o = conflict then some false  -- Conflict found.
      else noconflict_loop ir ref conflict fuel (u32 ((i : Int) - 1))
    else some true  -- Ok, no conflict.

/-- Check if there's no conflicting instruction between curins and ref. -/
def noconflict (as : ASMState) (ref conflict fuel : Nat) : Option Bool :=
  if as.curins > u32 ((ref : Int) + CONFLICT_SEARCH_LIM) then
    some false  -- Give up, ref is too far away.
  else noconflict_loop as.ir ref conflict fuel as.curins

/-- The opcode that `asm_fuseload` passes to `noconflict` for a load with the
opcode `o`: `IR_FSTORE` for a field load, `o + IRDELTA_L2S` for an array, hash
or upvalue load; the other loads are fused without this check or not at all. -/
def fuseload_conflict (o : Nat) : Option Nat :=
  if o = IR_SLOAD then none
  else if o = IR_FLOAD then some IR_FSTORE
  else if o = IR_ALOAD ∨ o = IR_HLOAD ∨ o = IR_ULOAD then some (o + IRDELTA_L2S)
  else none

/-- IR with a field store at `0x8003` and additions elsewhere. -/
def storeIR : Nat → IRIns := fun ref =>
  { o := if ref = 0x8003 then IR_FSTORE else IR_ADD, t := IRT_INT }

/-! ## Branches and exit stubs (lj_asm.c) -/

/-- The byte `MODRM(mode, r1, r2)`. -/
def MODRM (mode r1 r2 : Nat) : MCode := toByte (mode + ((r1 &&& 7) <<< 3) + (r2 &&& 7))

/-- `emit_sjcc`: jcc short target. -/
def emit_sjcc (T : Target) (as : ASMState) (cc : Nat) (target : Int) : ASMState :=
  { as with
    mem := upd (upd as.mem (as.mcp - 1) (toByte (u32 (target - as.mcp))))
      (as.mcp - 2) (toByte (T.XI_JCCs + (cc &&& 15)))
    mcp := as.mcp - 2 }

/-- `emit_jcc`: jcc target. -/
def emit_jcc (T : Target) (as : ASMState) (cc : Nat) (target : Int) : ASMState :=
  { as with
    mem := upd (upd (write_i32 as.mem (as.mcp - 4) (target - as.mcp))
      (as.mcp - 5) (toByte (T.XI_JCCn + (cc &&& 15)))) (as.mcp - 6) 0x0f
    mcp := as.mcp - 6 }

/-- Emit conditional branch to exit for guard; `exitstubgroup` is
`J->exitstubgroup`. -/
def asm_guardcc (T : Target) (exitstubgroup : Nat → Int) (as : ASMState) (cc : Nat) : ASMState :=
  if as.mcp = as.invmcp then
    if as.realign ≠ 0 then
      emit_sjcc T
        { as with
          loopinv := 1
          mem := write_i32 as.mem (as.mcp + 1)
            (exitstub_addr exitstubgroup as.snapno - ((as.mcp : Int) + 5)) }
        (cc ^^^ 1) as.mcp
    else
      emit_jcc T
        { as with
          loopinv := 1
          mem := write_i32 as.mem (as.mcp + 1)
            (exitstub_addr exitstubgroup as.snapno - ((as.mcp : Int) + 5)) }
        (cc ^^^ 1) as.mcp
  else emit_jcc T as cc (exitstub_addr exitstubgroup as.snapno)

/-- Destination of a 2-byte short jump at the address `o`. -/
def sjmpDest (m : MCodeBuf) (o : Nat) : Int :=
  (o : Int) + 2 + (if (m (o + 1)).val < 128 then ((m (o + 1)).val : Int)
    else ((m (o + 1)).val : Int) - 256)

/-- The loop `for (; i < EXITSTUBS_PER_GROUP; i++)` of `asm_exitstub_gen`: a
short jump to the end of the group and the push of the low byte of the exit
number for each stub but the first. The first argument bounds the number of
iterations. -/
def exitstub_loop (T : Target) (groupofs : Nat) : Nat → Nat → Nat → MCodeBuf → Nat × MCodeBuf
  | 0, _, mxp, m => (mxp, m)
  | fuel + 1, i, mxp, m =>
    if i < EXITSTUBS_PER_GROUP then
      exitstub_loop T groupofs fuel (i + 1) (mxp + 4)
        (upd (upd (upd (upd m mxp (toByte T.XI_JMPs))
          (mxp + 1) (toByte ((2 + 2) * (EXITSTUBS_PER_GROUP - i) - 2)))
          (mxp + 2) (toByte T.XI_PUSHi8))
          (mxp + 3) (toByte (groupofs + i)))
    else (mxp, m)

/-- The code that `asm_exitstub_gen` writes at `mxp` for the group `group`, and
the address behind it; `dispatch` is the address
`ptr2addr(J2GG(as->J)->dispatch)` and `handler` the address of
`lj_vm_exit_handler`. A pointer has 4 bytes. -/
def exitstub_code (T : Target) (dispatch handler : Int) (group mxp : Nat) (m : MCodeBuf) :
    Nat × MCodeBuf :=
  let groupofs := u32 ((group * EXITSTUBS_PER_GROUP : Nat) : Int) &&& 0xff
  -- Push low byte of exitno for each exit stub.
  let m1 := upd (upd m mxp (toByte T.XI_PUSHi8)) (mxp + 1) (toByte groupofs)
  let r := exitstub_loop T groupofs EXITSTUBS_PER_GROUP 1 (mxp + 2) m1
  -- Push the high byte of the exitno for each exit stub group.
  let m2 := upd (upd r.2 r.1 (toByte T.XI_PUSHi8)) (r.1 + 1)
    (toByte (u32 ((group * EXITSTUBS_PER_GROUP : Nat) : Int) >>> 8))
  -- Store DISPATCH in ExitInfo->dispatch. Account for the two push ops.
  let m3 := upd (upd (upd (upd m2 (r.1 + 2) (toByte T.XI_MOVmi))
    (r.1 + 3) (MODRM T.XM_OFS8 0 T.RID_ESP))
    (r.1 + 4) (MODRM T.XM_SCALE1 T.RID_ESP T.RID_ESP))
    (r.1 + 5) (toByte (2 * 4))
  let m4 := write_i32 m3 (r.1 + 6) dispatch
  -- Jump to exit handler which fills in the ExitState.
  let m5 := upd m4 (r.1 + 10) XI_JMP
  (r.1 + 15, write_i32 m5 (r.1 + 11) (handler - ((r.1 + 15 : Nat) : Int)))

/-- Modelled from the spec: `lj_mcode_commitbot` (lj_mcode.h is not among the
sources) commits the bottom part of the reserved area, where the exit stubs
are emitted: the bottom of the current area moves behind them. -/
def lj_mcode_commitbot (J : jit_State) (m : Nat) : jit_State := { J with mcbot := m }

/-- Generate an exit stub group at the bottom of the reserved MCode memory: the
address of the group and the new state, or the error of `asm_mclimit`. -/
def asm_exitstub_gen (T : Target) (H : Host) (dispatch handler : Int) (J : jit_State)
    (as : ASMState) (group : Nat) : Res (Nat × ASMState) :=
  if as.mcbot + (2 + 2) * EXITSTUBS_PER_GROUP + 8 + 5 ≥ as.mctop then
    match asm_mclimit H J as.mctop as.mcp with
    | .raise e J1 => .raise e J1
    | .ok _ J1 =>
      .ok (as.mcbot,
        { as with
          mem := (exitstub_code T dispatch handler group as.mcbot as.mem).2
          mcbot := (exitstub_code T dispatch handler group as.mcbot as.mem).1
          mclim := (exitstub_code T dispatch handler group as.mcbot as.mem).1 + MCLIM_REDZONE })
        (lj_mcode_commitbot J1 (exitstub_code T dispatch handler group as.mcbot as.mem).1)
  else
    .ok (as.mcbot,
      { as with
        mem := (exitstub_code T dispatch handler group as.mcbot as.mem).2
        mcbot := (exitstub_code T dispatch handler group as.mcbot as.mem).1
        mclim := (exitstub_code T dispatch handler group as.mcbot as.mem).1 + MCLIM_REDZONE })
      (lj_mcode_commitbot J (exitstub_code T dispatch handler group as.mcbot as.mem).1)

/-! ## Register allocation (lj_asm.c) -/

def IR_RENAME : Nat := IROp.RENAME.num
def IR_KNUM : Nat := IROp.KNUM.num

/-- The set `RID2RSET(r)` that holds the register `r` only. The register sets of
lj_asm.c are bit masks of 32 bits, with the bit `r` for the register `r`: the
assembler combines them with `&`, `|` and `~` and compares `allow` with
`RID2RSET(RID_MAX_GPR)`. -/
def RID2RSET (r : Nat) : Nat := 1 <<< r

/-- `rset_test(rs, r)`: the register `r` is in the set. -/
def rset_test (rs r : Nat) : Bool := rs.testBit r

/-- `rset_set(rs, r)`: `rs |= RID2RSET(r)`. -/
def rset_set (rs r : Nat) : Nat := rs ||| RID2RSET r

/-- `rset_clear(rs, r)`: `rs &= ~RID2RSET(r)`. -/
def rset_clear (rs r : Nat) : Nat := rs &&& (0xffffffff ^^^ RID2RSET r)

/-- Modelled from the spec: `rset_picktop` picks the top of a set of registers,
the highest register in it (lj_def.h, which defines the bit scan, is not among
the sources). -/
def rset_picktop (rs : Nat) : Nat :=
  ((List.range 32).reverse.find? (fun r => rs.testBit r)).getD 0

/-- Modelled from the spec: `rset_pickbot` picks the lowest register of a set. -/
def rset_pickbot (rs : Nat) : Nat :=
  ((List.range 32).find? (fun r => rs.testBit r)).getD 0

/-- The assignment `ir->r = (uint8_t)r`. -/
def IRIns.setR (ir : IRIns) (r : Nat) : IRIns :=
  { ir with prev := r % 256 + 256 * ir.s }

/-- `ra_free(as, r)`. -/
def ra_free (as : ASMState) (r : Nat) : ASMState :=
  { as with freeset := rset_set as.freeset r }

/-- `ra_modified(as, r)`. -/
def ra_modified (as : ASMState) (r : Nat) : ASMState :=
  { as with modset := rset_set as.modset r }

/-- Rematerialize constants: the register of the instruction `ref` becomes free
and the instruction keeps no hint, except that the BASE keeps the hint for its
register. The load that is emitted is not represented. -/
def ra_rematk (T : Target) (as : ASMState) (ref : Nat) : Nat × ASMState :=
  let r := (as.ir ref).r
  let as1 := ra_modified (ra_free as r) r
  let as2 := { as1 with ir := upd as1.ir ref ((as1.ir ref).setR T.RID_INIT) }
  if (as2.ir ref).o = IR_KNUM then (r, as2)
  else if (as2.ir ref).o = IR_BASE then
    (r, { as2 with ir := upd as2.ir ref ((as2.ir ref).setR (T.ra_sethint T.RID_BASE)) })
  else (r, as2)

/-- Restore a register (marked as free). Rematerialize or force a spill. The
load from the spill slot that is emitted is not represented. -/
def ra_restore (T : Target) (as : ASMState) (ref : Nat) : Except Thrown (Nat × ASMState) :=
  if irref_isk ref ∨ ref = REF_BASE then .ok (ra_rematk T as ref)
  else
    let r := (as.ir ref).r
    let as1 := ra_modified (ra_free as r) r
    let as2 := { as1 with ir := upd as1.ir ref ((as1.ir ref).setR (T.ra_sethint r)) }
    match ra_spill T as2 ref with
    | .error e => .error e
    | .ok p => .ok (r, p.2)

/-- `MINCOST(r)`: the lower one of `cost` and the cost of `r`, if `r` is allowed. -/
def MINCOST (as : ASMState) (allow r cost : Nat) : Nat :=
  if allow &&& RID2RSET r ≠ 0 ∧ as.cost r < cost then as.cost r else cost

/-- The general purpose registers that `ra_evict` examines, in its order. -/
def evictGPR (T : Target) : List Nat :=
  [T.RID_EAX, T.RID_ECX, T.RID_EDX, T.RID_EBX, T.RID_EBP, T.RID_ESI, T.RID_EDI]

/-- The floating point registers that `ra_evict` examines, in its order. -/
def evictFPR (T : Target) : List Nat :=
  [T.RID_XMM0, T.RID_XMM1, T.RID_XMM2, T.RID_XMM3, T.RID_XMM4, T.RID_XMM5, T.RID_XMM6,
    T.RID_XMM7]

/-- The registers that `ra_evict` examines for the set `allow`. -/
def evictClass (T : Target) (allow : Nat) : List Nat :=
  if allow < RID2RSET T.RID_MAX_GPR then evictGPR T else evictFPR T

/-- The lowest cost that `ra_evict` finds, starting from `~(RegCost)0`. -/
def evictCost (T : Target) (as : ASMState) (allow : Nat) : Nat :=
  (evictClass T allow).foldl (fun cost r => MINCOST as allow r cost) 0xffffffff

/-- Evict the register with the lowest cost, forcing a restore. -/
def ra_evict (T : Target) (as : ASMState) (allow : Nat) : Except Thrown (Nat × ASMState) :=
  ra_restore T as (T.regcost_ref (evictCost T as allow))

/-- The choice of a register in `ra_allocref`, up to the label `found`: the
register and the state, in which the register is free. -/
def ra_allocref_pick (T : Target) (as : ASMState) (ref allow : Nat) :
    Except Thrown (Nat × ASMState) :=
  if as.freeset &&& allow ≠ 0 then
    -- First check register hint from propagation or PHI.
    if T.ra_hashint (as.ir ref).r = true ∧
        rset_test (as.freeset &&& allow) (T.ra_gethint (as.ir ref).r) = true then
      .ok (T.ra_gethint (as.ir ref).r, as)
    -- Rematerialization is cheaper than missing a hint.
    else if T.ra_hashint (as.ir ref).r = true ∧
        rset_test allow (T.ra_gethint (as.ir ref).r) = true ∧
        irref_isk (T.regcost_ref (as.cost (T.ra_gethint (as.ir ref).r))) then
      .ok (T.ra_gethint (as.ir ref).r,
        (ra_rematk T as (T.regcost_ref (as.cost (T.ra_gethint (as.ir ref).r)))).2)
    -- Invariants should preferably get unmodified registers.
    else if ref < as.loopref ∧ ¬ irt_isphi (as.ir ref).t then
      if (as.freeset &&& allow) &&& (0xffffffff ^^^ as.modset) ≠ 0 then
        .ok (rset_pickbot ((as.freeset &&& allow) &&& (0xffffffff ^^^ as.modset)), as)
      else .ok (rset_pickbot (as.freeset &&& allow), as)
    else .ok (rset_picktop (as.freeset &&& allow), as)
  else ra_evict T as allow

/-- Allocate a register for ref from the allowed set of registers. Picks an
optimal register, sets the cost and marks the register as non-free. -/
def ra_allocref (T : Target) (as : ASMState) (ref allow : Nat) :
    Except Thrown (Nat × ASMState) :=
  match ra_allocref_pick T as ref allow with
  | .error e => .error e
  | .ok p =>
    .ok (p.1,
      { p.2 with
        ir := upd p.2.ir ref ((p.2.ir ref).setR p.1)
        freeset := rset_clear p.2.freeset p.1
        cost := upd p.2.cost p.1 (T.REGCOST_REF_T ref (p.2.ir ref).t) })

/-- The bookkeeping of `ra_rename` before the move is emitted: the register `up`
takes over the cost and the instruction of `down`. -/
def ra_rename_regs (T : Target) (as : ASMState) (down up : Nat) : ASMState :=
  { as with
    cost := upd (upd as.cost up (as.cost down)) down 0
    ir := upd as.ir (T.regcost_ref (as.cost down))
      ((as.ir (T.regcost_ref (as.cost down))).setR up)
    freeset := rset_clear (rset_set as.freeset down) up }

/-- Rename register allocation and emit move. The move that is emitted is not
represented. The pointers `as->ir` and `J->cur.ir` refer to the same array: the
state of the assembler holds it, and it is handed to the compiler state for the
emission of the RENAME and taken back afterwards. -/
def ra_rename (T : Target) (J : jit_State) (as : ASMState) (down up : Nat) : Res ASMState :=
  let ref := T.regcost_ref (as.cost down)
  let as1 := ra_rename_regs T as down up
  if ¬ ra_hasspill (as1.ir ref).s then  -- Add the rename to the IR.
    match lj_ir_emit (lj_ir_set { J with cur := { J.cur with ir := as1.ir } }
        (IRT IR_RENAME IRT_NIL) ref as1.snapno) with
    | .raise e J1 => .raise e J1
    | .ok tr J1 =>
      .ok { as1 with
          ir := upd J1.cur.ir (tref_ref tr) (((J1.cur.ir (tref_ref tr)).setR down).setS 0) }
        { J1 with cur := { J1.cur with
          ir := upd J1.cur.ir (tref_ref tr) (((J1.cur.ir (tref_ref tr)).setR down).setS 0) } }
  else .ok as1 { J with cur := { J.cur with ir := as1.ir } }

/-- What the register allocation assumes of the target header: the registers
that can be allocated are among the first 32 and are read from a register
field as a register; a register field that `ra_sethint` or `RID_INIT` fills
is one byte that holds no register; the register cost of a 16-bit reference
and a type byte records this reference. -/
def Target.WF (T : Target) : Prop :=
  T.RSET_ALL < 4294967296 ∧
  (∀ r, r < 32 → rset_test T.RSET_ALL r = true → T.ra_noreg r = false) ∧
  (∀ r, r < 256 → T.ra_sethint r < 256 ∧ T.ra_noreg (T.ra_sethint r) = true) ∧
  T.RID_INIT < 256 ∧ T.ra_noreg T.RID_INIT = true ∧ T.RID_BASE < 256 ∧
  (∀ ref, ref < 65536 → ∀ t, t < 256 → T.regcost_ref (T.REGCOST_REF_T ref t) = ref)

/-- Every allocated register records in its cost an instruction below `nins`
whose register field is this register. -/
def RegInv (T : Target) (nins : Nat) (as : ASMState) : Prop :=
  ∀ r, rset_test T.RSET_ALL r = true → rset_test as.freeset r = false →
    T.regcost_ref (as.cost r) < nins ∧ (as.ir (T.regcost_ref (as.cost r))).r = r

/-- Two distinct allocated registers never record the same instruction. -/
def RegDistinct (T : Target) (as : ASMState) : Prop :=
  ∀ r1 r2, rset_test T.RSET_ALL r1 = true → rset_test as.freeset r1 = false →
    rset_test T.RSET_ALL r2 = true → rset_test as.freeset r2 = false → r1 ≠ r2 →
    T.regcost_ref (as.cost r1) ≠ T.regcost_ref (as.cost r2)

/-- An allocator state for the examples: the instructions `0x8001` (an integer
with the spill slot 3), `0x8002` and `0x8003` (integers without spill slot) own
the registers EAX, ECX and EDX, the number `0x8004` owns XMM0, and the other
registers are free. -/
def regsExample : ASMState :=
  { ir := fun ref =>
      if ref = 0x8001 then { o := IR_ADD, t := IRT_INT, prev := 0 + 256 * 3 }
      else if ref = 0x8002 then { o := IR_ADD, t := IRT_INT, prev := 1 }
      else if ref = 0x8003 then { o := IR_ADD, t := IRT_INT, prev := 2 }
      else if ref = 0x8004 then { o := IR_ADD, t := IRT_NUM, prev := 8 }
      else { prev := 0xff }
    cost := fun r =>
      if r = 0 then exampleTarget.REGCOST_REF_T 0x8001 IRT_INT
      else if r = 1 then exampleTarget.REGCOST_REF_T 0x8002 IRT_INT
      else if r = 2 then exampleTarget.REGCOST_REF_T 0x8003 IRT_INT
      else if r = 8 then exampleTarget.REGCOST_REF_T 0x8004 IRT_NUM
      else if r = 4 then exampleTarget.REGCOST 0xffffffff 0
      else 0
    freeset := 0xfee8
    evenspill := 4
    oddspill := 0
    snapno := 1 }

/-- The compiler state for the examples of `ra_rename`: five instructions have
been recorded. -/
def regsJit : jit_State := { cur := { nins := 0x8006 } }

/-! ## Operand swapping (lj_asm.c) -/

def IR_ABC : Nat := IROp.ABC.num
def IR_FRAME : Nat := IROp.FRAME.num

/-- `irm_iscomm(m)`: the mode of a commutative opcode. -/
def irm_iscomm (m : Nat) : Prop := m &&& IRM_C ≠ 0

instance (m : Nat) : Decidable (irm_iscomm m) := by unfold irm_iscomm; infer_instance

/-- `irt_isstr(t)`. -/
def irt_isstr (t : Nat) : Prop := irt_type t = IRT_STR

instance (t : Nat) : Decidable (irt_isstr t) := by unfold irt_isstr; infer_instance

/-- `opisfusableload(o)`. -/
def opisfusableload (o : Nat) : Prop :=
  o = IR_ALOAD ∨ o = IR_HLOAD ∨ o = IR_ULOAD ∨ o = IR_FLOAD ∨ o = IR_SLOAD ∨ o = IR_XLOAD

instance (o : Nat) : Decidable (opisfusableload o) := by unfold opisfusableload; infer_instance

/-- Find out whether swapping operands might be beneficial. -/
def swapops (T : Target) (as : ASMState) (ir : IRIns) : Bool :=
  if ¬ irm_iscomm (lj_ir_mode ir.o) then
    false  -- Can't swap non-commutative operations.
  else if irref_isk ir.op2 then
    false  -- Don't swap constants to the left.
  else if T.ra_noreg (as.ir ir.op1).r = false then
    true  -- Swap if left already has a register.
  else if T.ra_samehint ir.r (as.ir ir.op2).r = true then
    true  -- Swap if dest and right have matching hints.
  else if ir.op1 < as.loopref ∧ ¬ irt_isphi (as.ir ir.op1).t ∧
      ¬ (ir.op2 < as.loopref ∧ ¬ irt_isphi (as.ir ir.op2).t) then
    true  -- Swap invariants to the right.
  else if opisfusableload (as.ir ir.op1).o then
    true  -- Swap fusable loads to the right.
  else false  -- Otherwise don't swap.

/-- An allocator state for the examples of `swapops`: `0x8001` and `0x8003` are
loads from a stack slot, `0x8002` is an addition; no instruction has a
register or a hint, and there is no loop. -/
def swapExample : ASMState :=
  { ir := fun ref =>
      if ref = 0x8001 then { o := IR_SLOAD, t := IRT_INT, op1 := 1, prev := 0xff }
      else if ref = 0x8002 then
        { o := IR_ADD, t := IRT_INT, op1 := 0x8001, op2 := 0x8001, prev := 0xff }
      else if ref = 0x8003 then { o := IR_SLOAD, t := IRT_INT, op1 := 2, prev := 0xff }
      else { prev := 0xff } }

/-! ## Comparisons (lj_asm.c) -/

/-- Modelled from the spec: the numbers of the x86 condition codes, which the
bit tests of `asm_comp_` rely on (lj_target_x86.h is not among the sources). -/
def CC_O : Nat := 0
def CC_NO : Nat := 1
def CC_B : Nat := 2
def CC_AE : Nat := 3
def CC_E : Nat := 4
def CC_NE : Nat := 5
def CC_BE : Nat := 6
def CC_A : Nat := 7
def CC_S : Nat := 8
def CC_NS : Nat := 9
def CC_P : Nat := 10
def CC_NP : Nat := 11
def CC_L : Nat := 12
def CC_GE : Nat := 13
def CC_LE : Nat := 14
def CC_G : Nat := 15

/-- Virtual flags for unordered FP comparisons: unordered. -/
def VCC_U : Nat := 0x100
/-- Needs extra `CC_P` branch. -/
def VCC_P : Nat := 0x200
/-- Swap avoids `CC_P` branch. -/
def VCC_S : Nat := 0x400
def VCC_PS : Nat := VCC_P ||| VCC_S

/-- The condition code that the macro `asm_comp(as, ir, ci, cf, cu)` passes to
`asm_comp_`. -/
def asm_comp_cc (ci cf cu : Nat) : Nat := ci + (cf <<< 4) + cu

/-- The condition code that `asm_ir` passes to `asm_comp_` for the instruction
`ir`, if it is a comparison; the placeholder FRAME is not checked. -/
def asm_ir_comp (ir : IRIns) : Option Nat :=
  if ir.o = IR_LT then some (asm_comp_cc CC_GE CC_AE VCC_PS)
  else if ir.o = IR_GE then some (asm_comp_cc CC_L CC_B 0)
  else if ir.o = IR_LE then some (asm_comp_cc CC_G CC_A VCC_PS)
  else if ir.o = IR_GT then some (asm_comp_cc CC_LE CC_BE 0)
  else if ir.o = IR_ULT then some (asm_comp_cc CC_AE CC_AE VCC_U)
  else if ir.o = IR_UGE then some (asm_comp_cc CC_B CC_B (VCC_U ||| VCC_PS))
  else if ir.o = IR_ULE then some (asm_comp_cc CC_A CC_A VCC_U)
  else if ir.o = IR_ABC ∨ ir.o = IR_UGT then some (asm_comp_cc CC_BE CC_BE (VCC_U ||| VCC_PS))
  else if ir.o = IR_FRAME ∧ ir.op1 = ir.op2 then none
  else if ir.o = IR_FRAME ∨ ir.o = IR_EQ then some (asm_comp_cc CC_NE CC_NE VCC_P)
  else if ir.o = IR_NE then some (asm_comp_cc CC_E CC_E (VCC_U ||| VCC_P))
  else none

/-- The comparison opcodes of `asm_ir`. -/
def compOps : List Nat :=
  [IR_LT, IR_GE, IR_LE, IR_GT, IR_ULT, IR_UGE, IR_ULE, IR_ABC, IR_UGT, IR_EQ, IR_NE]

/-- The start of the floating point branch of `asm_comp_`: the condition code
and the left and right operand after the swap. -/
def asm_comp_num_swap (cc lref rref : Nat) : Nat × Nat × Nat :=
  if cc &&& VCC_S ≠ 0 then  -- Swap?
    (cc ^^^ (VCC_PS ||| (5 <<< 4)), rref, lref)  -- A <-> B, AE <-> BE, PS <-> none
  else (cc, lref, rref)

/-- The rewrite of the condition code in the integer branch of `asm_comp_`. -/
def asm_comp_int_cc (cc : Nat) : Nat :=
  if cc &&& 0xc = 0xc then cc ^^^ 3  -- L <-> G, LE <-> GE
  else if cc &&& 0xa = 0x2 then cc ^^^ 5  -- A <-> B, AE <-> BE
  else cc

/-- The start of the integer branch of `asm_comp_`: swap constants (only for
ABC) and fusable loads to the right. -/
def asm_comp_int_swap (as : ASMState) (cc lref rref : Nat) : Nat × Nat × Nat :=
  if irref_isk lref ∨ (¬ irref_isk rref ∧ opisfusableload (as.ir lref).o) then
    (asm_comp_int_cc cc, rref, lref)
  else (cc, lref, rref)

/-- The signed value of a 32-bit word. -/
def i32 (x : Nat) : Int := if x % 4294967296 < 2147483648 then (x % 4294967296 : Nat)
  else ((x % 4294967296 : Nat) : Int) - 4294967296

/-- Modelled from the spec: the condition `cc` after the instruction `cmp x, y`
on two 32-bit words, for the conditions that depend on the order of the
operands only (the meaning of the x86 condition codes is not part of the
sources). -/
def ccInt (cc : Nat) (x y : Nat) : Prop :=
  if cc &&& 15 = CC_B then x < y
  else if cc &&& 15 = CC_AE then x ≥ y
  else if cc &&& 15 = CC_E then x = y
  else if cc &&& 15 = CC_NE then x ≠ y
  else if cc &&& 15 = CC_BE then x ≤ y
  else if cc &&& 15 = CC_A then x > y
  else if cc &&& 15 = CC_L then i32 x < i32 y
  else if cc &&& 15 = CC_GE then i32 x ≥ i32 y
  else if cc &&& 15 = CC_LE then i32 x ≤ i32 y
  else if cc &&& 15 = CC_G then i32 x > i32 y
  else False

instance (cc x y : Nat) : Decidable (ccInt cc x y) := by unfold ccInt; infer_instance

/-- The outcome of the comparison of two floating point numbers `x` and `y`. -/
inductive FPCmp where
  | gt
  | lt
  | eq
  | unordered
  deriving DecidableEq, Repr

/-- The outcome for the swapped operands. -/
def FPCmp.swap : FPCmp → FPCmp
  | .gt => .lt
  | .lt => .gt
  | .eq => .eq
  | .unordered => .unordered

/-- Modelled from the spec: the condition `cc` after the instruction
`ucomisd x, y`, which sets the carry flag for `x < y`, the zero flag for
`x = y` and the carry, zero and parity flags for unordered operands. -/
def ccFP (cc : Nat) (r : FPCmp) : Bool :=
  if cc &&& 15 = CC_B then r = .lt ∨ r = .unordered
  else if cc &&& 15 = CC_AE then r = .gt ∨ r = .eq
  else if cc &&& 15 = CC_E then r = .eq ∨ r = .unordered
  else if cc &&& 15 = CC_NE then r = .gt ∨ r = .lt
  else if cc &&& 15 = CC_BE then r = .lt ∨ r = .eq ∨ r = .unordered
  else if cc &&& 15 = CC_A then r = .gt
  else if cc &&& 15 = CC_P then r = .unordered
  else if cc &&& 15 = CC_NP then r ≠ .unordered
  else false

/-- The branches that the floating point branch of `asm_comp_` emits behind the
`ucomisd`, read in execution order, when no loop branch is inverted: the guard
is left if the result is true. For an ordered comparison with `VCC_P` the
branch for `CC_P` leaves, too; for an unordered one it jumps around the guard. -/
def fpGuardExits (cc : Nat) (r : FPCmp) : Bool :=
  if cc &&& VCC_P ≠ 0 then
    if cc &&& VCC_U = 0 then ccFP CC_P r || ccFP (cc >>> 4) r
    else !ccFP CC_P r && ccFP (cc >>> 4) r
  else ccFP (cc >>> 4) r

/-! ## The hash of a table key (lj_asm.c) -/

def JIT_F_PREFER_IMUL : Nat := 0x00001000
def JIT_F_LEA_AGU : Nat := 0x00004000
def JIT_F_OPT_DCE : Nat := 0x00040000
def JIT_F_OPT_FUSE : Nat := 0x00800000

/-- The size of a `TValue` (lj_obj.h), a union with a `double`. -/
def sizeof_TValue : Nat := 8
/-- The size of a `Node` (lj_obj.h): the value, the key, the `MRef` of the chain
and an `int32_t`. -/
def sizeof_Node : Nat := sizeof_TValue + sizeof_TValue + 4 + 4
/-- The offset of `node` in `GCtab` (lj_obj.h), behind the header of 6 bytes,
`nomm`, `colo`, `array`, `gclist` and `metatable`. -/
def offsetof_GCtab_node : Nat := 6 + 1 + 1 + 4 + 4 + 4
/-- The offset of `hmask` in `GCtab`, behind `node` and `asize`. -/
def offsetof_GCtab_hmask : Nat := offsetof_GCtab_node + 4 + 4
/-- The offset of `hash` in `GCstr`, behind the header of 6 bytes, `reserved`
and `unused`. -/
def offsetof_GCstr_hash : Nat := 6 + 1 + 1

/-- Modelled from the spec: `lj_rol(x, n)` rotates a 32-bit word to the left by
`n` bits (lj_def.h is not among the sources). -/
def lj_rol (x n : Nat) : Nat :=
  ((x % 4294967296 <<< n) ||| (x % 4294967296 >>> (32 - n))) % 4294967296

/-- The last six statements of `ir_khash`, which must match `hashrot()` in
lj_tab.c. -/
def ir_khash_rot (lo hi : Nat) : Nat :=
  let lo1 := lo ^^^ hi
  let hi1 := lj_rol hi 14
  let lo2 := u32 ((lo1 : Int) - hi1)
  let hi2 := lj_rol hi1 5
  let hi3 := hi2 ^^^ lo2
  u32 ((hi3 : Int) - lj_rol lo2 27)

/-- The constants that a constant key refers to: the hash of a string, the two
words of a number, the address of an object. -/
structure KeyConst where
  kstr_hash : Nat := 0
  knum_lo : Nat := 0
  knum_hi : Nat := 0
  kgc : Nat := 0

/-- The hash of a constant key; `K` maps the instruction to the constant it
refers to. -/
def ir_khash (K : IRIns → KeyConst) (ir : IRIns) : Nat :=
  if irt_isstr ir.t then (K ir).kstr_hash
  else if irt_isnum ir.t then
    ir_khash_rot (K ir).knum_lo ((K ir).knum_hi &&& 0x7fffffff)
  else if irt_ispri ir.t then u32 ((irt_type ir.t : Int) - IRT_FALSE)
  else ir_khash_rot (K ir).kgc (u32 (((K ir).kgc : Int) - 0x04c11db7))

/-- The operations of the arithmetic group that the hash lookup uses. -/
inductive XOg where
  | ADD
  | AND
  | SUB
  | XOR
  deriving DecidableEq, Repr

/-- The operations of the shift group that the hash lookup uses. -/
inductive XOshift where
  | ROL
  | SHL
  deriving DecidableEq, Repr

/-- The opcodes of the instructions that the hash lookup computes with. -/
inductive x86Op where
  | XO_ARITH (g : XOg)
  | XO_MOV
  | XO_LEA
  | XO_MOVDto
  | XO_IMULi8
  deriving DecidableEq, Repr

/-- The scale of an index register. -/
inductive x86Scale where
  | XM_SCALE1
  | XM_SCALE2
  | XM_SCALE4
  | XM_SCALE8
  deriving DecidableEq, Repr

/-- The factor of a scale. -/
def x86Scale.factor : x86Scale → Nat
  | .XM_SCALE1 => 1
  | .XM_SCALE2 => 2
  | .XM_SCALE4 => 4
  | .XM_SCALE8 => 8

/-- The calls of the emitters of lj_asm.c, recorded with their arguments instead
of the bytes they store: the encoding of the opcodes (lj_target_x86.h) is not
among the sources. -/
inductive Emit where
  /-- The call `emit_rr(as, xo, r1, r2)`: op r1, r2. -/
  | rr (xo : x86Op) (r1 r2 : Nat)
  /-- The call `emit_rmro(as, xo, rr, rb, ofs)`: op r, [base+ofs]. -/
  | rmro (xo : x86Op) (rr rb : Nat) (ofs : Int)
  /-- The call `emit_rmrxo(as, xo, rr, rb, rx, scale, ofs)`:
  op r, [base+idx*scale+ofs]. -/
  | rmrxo (xo : x86Op) (rr rb rx : Nat) (scale : x86Scale) (ofs : Int)
  /-- The call `emit_shifti(as, xg, r, i)`. -/
  | shifti (xg : XOshift) (r : Nat) (i : Nat)
  /-- The call `emit_gri(as, XG_ARITHi(xg), rb, i)`: op r, i. -/
  | gri (xg : XOg) (rb : Nat) (i : Int)
  /-- The call `emit_i8(as, i)`. -/
  | i8 (i : Int)
  /-- The call `emit_loadi(as, r, i)`: mov r, i / xor r, r. -/
  | loadi (r : Nat) (i : Int)
  deriving DecidableEq, Repr

/-- The instructions that `asm_href` emits to scale the masked hash in `dest`
to the offset of a node, in the order of the calls. -/
def asm_href_scale (flags dest : Nat) : List Emit :=
  if flags &&& JIT_F_PREFER_IMUL ≠ 0 then
    [.i8 sizeof_Node, .rr .XO_IMULi8 dest dest]
  else
    [.shifti .SHL dest 3, .rmrxo .XO_LEA dest dest dest .XM_SCALE2 0]

/-- The instructions that `asm_href` emits to hash a key that is neither a
constant nor a string, behind the mask with `hmask`, in the order of the
calls; `spill` is the result of `ra_spill(as, irkey)`. -/
def asm_href_hashrot (RID_ESP kt dest key tmp : Nat) (spill : Int) : List Emit :=
  [.rr (.XO_ARITH .SUB) dest tmp,
   .shifti .ROL tmp 27,
   .rr (.XO_ARITH .XOR) dest tmp,
   .shifti .ROL dest 5,
   .rr (.XO_ARITH .SUB) tmp dest,
   .shifti .ROL dest 14,
   .rr (.XO_ARITH .XOR) tmp dest] ++
  (if irt_isnum kt then
    [.rmro (.XO_ARITH .AND) dest RID_ESP (spill + 4),
     .loadi dest 0x7fffffff,
     .rr .XO_MOVDto key tmp]
  else
    [.rr .XO_MOV tmp key,
     .rmro .XO_LEA dest key (-0x04c11db7)])

/-- The last part of `asm_href`: load main position relative to `tab->node` into
`dest`. The instructions are listed in the order of the calls of the emitters,
which is the reverse of the order of execution; `khash` is
`isk ? ir_khash(irkey) : 1`. -/
def asm_href_mainpos (RID_ESP flags : Nat) (isk : Bool) (kt khash dest tab key tmp : Nat)
    (spill : Int) : List Emit :=
  if khash = 0 then
    [.rmro .XO_MOV dest tab offsetof_GCtab_node]
  else
    [.rmro (.XO_ARITH .ADD) dest tab offsetof_GCtab_node] ++
    asm_href_scale flags dest ++
    (if isk then
      [.gri .AND dest khash,
       .rmro .XO_MOV dest tab offsetof_GCtab_hmask]
    else if irt_isstr kt then
      [.rmro (.XO_ARITH .AND) dest key offsetof_GCstr_hash,
       .rmro .XO_MOV dest tab offsetof_GCtab_hmask]
    else  -- Must match with hashrot() in lj_tab.c.
      .rmro (.XO_ARITH .AND) dest tab offsetof_GCtab_hmask ::
        asm_href_hashrot RID_ESP kt dest key tmp spill)

/-- The registers and the memory that the instructions of the hash lookup
work on: the 32-bit general purpose registers, the low word of the XMM
registers, and the 32-bit word at an address. -/
structure X86State where
  gpr : Nat → Nat := fun _ => 0
  xmmlo : Nat → Nat := fun _ => 0
  mem : Nat → Nat := fun _ => 0

/-- The address `[base+ofs]`. -/
def X86State.ea (s : X86State) (rb : Nat) (ofs : Int) : Nat := u32 ((s.gpr rb : Int) + ofs)

/-- Store a 32-bit result in a general purpose register. -/
def X86State.set (s : X86State) (r v : Nat) : X86State := { s with gpr := upd s.gpr r v }

/-- Modelled from the spec: the result of an operation of the arithmetic group
on 32-bit words. -/
def XOg.apply : XOg → Nat → Nat → Nat
  | .ADD, a, b => u32 ((a : Int) + b)
  | .AND, a, b => a &&& b
  | .SUB, a, b => u32 ((a : Int) - b)
  | .XOR, a, b => a ^^^ b

/-- Modelled from the spec: one instruction of the hash lookup without an
immediate byte; the result is `none` for an instruction outside of this
subset. -/
def X86State.step (s : X86State) : Emit → Option X86State
  | .rr xo r1 r2 =>
    match xo with
    | .XO_ARITH g => some (s.set r1 (g.apply (s.gpr r1) (s.gpr r2)))
    | .XO_MOV => some (s.set r1 (s.gpr r2))
    | .XO_MOVDto => some (s.set r2 (s.xmmlo r1))
    | _ => none
  | .rmro xo r rb ofs =>
    match xo with
    | .XO_ARITH g => some (s.set r (g.apply (s.gpr r) (s.mem (s.ea rb ofs))))
    | .XO_MOV => some (s.set r (s.mem (s.ea rb ofs)))
    | .XO_LEA => some (s.set r (s.ea rb ofs))
    | _ => none
  | .rmrxo xo r rb rx scale ofs =>
    match xo with
    | .XO_LEA => some (s.set r (u32 ((s.gpr rb : Int) + s.gpr rx * scale.factor + ofs)))
    | _ => none
  | .shifti xg r i =>
    match xg with
    | .ROL => some (s.set r (lj_rol (s.gpr r) i))
    | .SHL => some (s.set r ((s.gpr r <<< i) % 4294967296))
  | .gri g r i => some (s.set r (g.apply (s.gpr r) (u32 i)))
  | .loadi r i => some (s.set r (u32 i))
  | .i8 _ => none

/-- Modelled from the spec: the multiplication `imul r1, r2, i` with an
immediate byte, which follows the opcode in the order of execution. -/
def X86State.imul (s : X86State) (r1 r2 : Nat) (i : Int) : X86State :=
  s.set r1 (u32 ((s.gpr r2 : Int) * i))

/-- Execute the instructions of the list in its order, which is the reverse of
the order in which they were emitted. -/
def X86State.exec : List Emit → X86State → Option X86State
  | [], s => some s
  | .rr .XO_IMULi8 r1 r2 :: .i8 i :: rest, s => X86State.exec rest (s.imul r1 r2 i)
  | e :: rest, s =>
    match s.step e with
    | some s1 => X86State.exec rest s1
    | none => none

/-- The constants for the examples of the hash: a key object at `0x12345678` and
a number with the words `0x9abcdef0` and `0xc0091eb8`. -/
def hashConsts : IRIns → KeyConst :=
  fun _ => { kgc := 0x12345678, knum_lo := 0x9abcdef0, knum_hi := 0xc0091eb8 }

/-- A machine state for the examples of the hash: ECX holds the key object, EBX
the table at `0x1000` with `hmask = 0xff`, ESP is `0x2000`; the number key is
in an XMM register and in the spill slot at `[esp+8]`. -/
def hashExample : X86State :=
  { gpr := fun r => if r = 1 then 0x12345678 else if r = 3 then 0x1000
      else if r = 4 then 0x2000 else 0
    xmmlo := fun _ => 0x9abcdef0
    mem := fun a => if a = 0x2008 then 0x9abcdef0 else if a = 0x200c then 0xc0091eb8
      else if a = 0x1000 + offsetof_GCtab_hmask then 0xff else 0 }

/-! ## The tail of a trace (lj_asm.c) -/

/-- Fallback to interpreter. -/
def TRACE_INTERP : Nat := 0

/-- Modelled from the spec: `checki8(x)` tells whether the 32-bit integer `x`
fits into a signed byte (lj_def.h is not among the sources). -/
def checki8 (x : Int) : Prop := -128 ≤ x ∧ x ≤ 127

instance (x : Int) : Decidable (checki8 x) := by unfold checki8; infer_instance

/-- The loop `for (q = mctop-1; q >= p; q--) *q = XI_NOP` of `asm_tail_fixup`;
the argument is `q+1`. -/
def tail_nops (T : Target) (p : Nat) : Nat → MCodeBuf → MCodeBuf
  | 0, m => m
  | q + 1, m => if q ≥ p then tail_nops T p q (upd m q (toByte T.XI_NOP)) else m

/-- The end `p` of the code that `asm_tail_fixup` chooses, and the memory with the
patched stack adjustment. -/
def tail_spadj (T : Target) (as : ASMState) (spadj : Int) : Nat × MCodeBuf :=
  if spadj = 0 then
    (as.mctop - (if as.flags &&& JIT_F_LEA_AGU ≠ 0 then 7 else 6), as.mem)
  else
    -- Patch stack adjustment.
    let p := if checki8 spadj then as.mctop - 3 else as.mctop
    let p1 := if checki8 spadj then p - 6 else p - 9
    let m1 := if checki8 spadj then upd as.mem p1 (toByte (u32 spadj))
      else write_i32 as.mem p1 spadj
    if as.flags &&& JIT_F_LEA_AGU ≠ 0 then
      (p, upd (upd (upd m1 (p1 - 3) (toByte T.XI_LEA))
        (p1 - 2) (MODRM (if checki8 spadj then T.XM_OFS8 else T.XM_OFS32) T.RID_ESP T.RID_ESP))
        (p1 - 1) (MODRM T.XM_SCALE1 T.RID_ESP T.RID_ESP))
    else
      (p, upd (upd m1 (p1 - 2) (toByte (if checki8 spadj then T.XI_ARITHi8 else T.XI_ARITHi)))
        (p1 - 1) (MODRM T.XM_REG T.XOg_ADD T.RID_ESP))

/-- Fixup the tail code: patch the stack adjustment and the exit branch, and drop
the unused tail. The address of `lj_vm_exit_interp` and the machine code of
the traces (`J->trace[lnk]->mcode`) are parameters. -/
def asm_tail_fixup (T : Target) (exit_interp : Int) (trace_mcode : Nat → Int) (J : jit_State)
    (as : ASMState) (lnk : Nat) : ASMState :=
  let r := tail_spadj T as (J.cur.spadjust : Int)
  -- Patch exit branch.
  let target := if lnk = TRACE_INTERP then exit_interp else trace_mcode lnk
  let m2 := upd (write_i32 r.2 (r.1 - 4) (target - r.1)) (r.1 - 5) XI_JMP
  -- Drop unused mcode tail. Fill with NOPs to make the prefetcher happy.
  { as with mem := tail_nops T r.1 as.mctop m2, mctop := r.1 }

/-- The bytes of the memory `m` at the addresses `a`, ..., `a+n-1`. -/
def bytesAt (m : MCodeBuf) (a n : Nat) : List Nat := (List.range n).map (fun i => (m (a + i)).val)

/-- The assembler state before the tail of a root trace is fixed up: the
reserved area ends at `0x100` and holds no code yet. -/
def tailExample (flags : Nat) : ASMState := { mctop := 0x100, mcp := 0x80, flags := flags }

/-- A compiler state with the stack adjustment `spadj`. -/
def tailJit (spadj : Nat) : jit_State := { cur := { spadjust := spadj } }

/-- The state after the tail of a trace with the stack adjustment `0x208`, linked
to the trace 1 at `0x6000`, has been fixed up. -/
def tailResult : ASMState :=
  asm_tail_fixup exampleTarget 0x5000 (fun _ => 0x6000) (tailJit 0x208) (tailExample 0) 1

/-! ## Luabins: loading of serialized data (load.c) -/

/-- The constants and macros that load.c takes from headers that are not among
the sources (luabins.h, saveload.h, luainternals.h), and the representation of
the C types in the serialized data. -/
structure LuabinsConf where
  LUABINS_CNIL : Nat
  LUABINS_CFALSE : Nat
  LUABINS_CTRUE : Nat
  LUABINS_CNUMBER : Nat
  LUABINS_CSTRING : Nat
  LUABINS_CTABLE : Nat
  /-- The largest number of items of a tuple. -/
  LUABINS_MAXTUPLE : Nat
  /-- The size of an `int`. -/
  LUABINS_LINT : Nat
  /-- The size of a `lua_Number`. -/
  LUABINS_LNUMBER : Nat
  /-- The size of a `size_t`. -/
  LUABINS_LSIZET : Nat
  MAXASIZE : Int
  MAXBITS : Nat
  ceillog2 : Nat → Nat
  luabins_min_table_data_size : Nat → Nat
  /-- The number of values of a `size_t`. -/
  size_mod : Nat
  /-- The number of values of an `unsigned int`. -/
  uint_mod : Nat
  /-- The `int` that the bytes of an object of this type represent. -/
  int_of_bytes : List Nat → Int
  /-- The `size_t` that the bytes of an object of this type represent. -/
  size_of_bytes : List Nat → Nat
  /-- The test `luai_numisnan` on the bytes of a `lua_Number`. -/
  numisnan : List Nat → Bool

/-- The result codes of luabins. -/
inductive LuabinsResult where
  | LUABINS_ESUCCESS
  | LUABINS_EFAILURE
  | LUABINS_EBADDATA
  | LUABINS_EBADSIZE
  | LUABINS_ETAILEFT
  deriving DecidableEq, Repr

/-- Modelled from the spec: the Lua values that the loader pushes on the stack of
the Lua state (the Lua API is not among the sources): a number and a string
are given by their bytes, a table by the pairs stored with `lua_rawset`. -/
inductive LuaValue where
  | nil
  | boolean (b : Bool)
  | number (bytes : List Nat)
  | string (bytes : List Nat)
  | table (pairs : List (LuaValue × LuaValue))

/-- The stack of the Lua state, the top first. -/
abbrev LuaStack := List LuaValue

/-- Modelled from the spec: `lua_rawset(L, -3)` stores the value on the top
under the key below it in the table below both, and pops the two. -/
def lua_rawset3 : LuaStack → LuaStack
  | v :: k :: .table ps :: rest => .table (ps ++ [(k, v)]) :: rest
  | L => L

/-- Modelled from the spec: `lua_settop(L, base)` for a `base` that is not above
the top: the stack keeps its `base` lowest values. -/
def lua_settop (L : LuaStack) (base : Nat) : LuaStack := L.drop (L.length - base)

/-- The state of the loader: `pos` is the offset of the read pointer from the
start of the data (`none` for `NULL`), `unread` the number of bytes left. -/
structure lbs_LoadState where
  pos : Option Nat
  unread : Nat
  deriving DecidableEq, Repr

/-- The outcome of a part of the loader: a value, a read of the byte at an
offset that is not below the length of the data, which C leaves undefined, or
the end of the fuel that bounds the recursion of the model. -/
inductive Run (α : Type) where
  | done (a : α)
  | oob (offset : Nat)
  | nofuel

/-- Sequencing of outcomes. -/
def Run.bind {α β : Type} (r : Run α) (f : α → Run β) : Run β :=
  match r with
  | .done a => f a
  | .oob o => .oob o
  | .nofuel => .nofuel

/-- The read `*p` of the byte at the offset `o` of the data. -/
def readData (data : List Nat) (o : Nat) : Run Nat :=
  if h : o < data.length then .done (data.get ⟨o, h⟩) else .oob o

/-- The reads of `n` bytes from the offset `o` on, as `memcpy` and
`lua_pushlstring` make them. -/
def readDataN (data : List Nat) (o : Nat) : Nat → Run (List Nat)
  | 0 => .done []
  | n + 1 =>
    (readData data o).bind fun b =>
      (readDataN data (o + 1) n).bind fun bs => .done (b :: bs)

/-- `lbsLS_init`. -/
def lbsLS_init (len : Nat) : lbs_LoadState :=
  { pos := if len > 0 then some 0 else none, unread := len }

/-- `lbsLS_good(ls)`. -/
def lbsLS_good (ls : lbs_LoadState) : Bool := ls.pos.isSome

/-- `lbsLS_readbyte`: the byte and the new state. -/
def lbsLS_readbyte (C : LuabinsConf) (data : List Nat) (ls : lbs_LoadState) :
    Run (Nat × lbs_LoadState) :=
  match ls.pos with
  | some p =>
    (readData data p).bind fun b =>
      .done (b, { pos := some (p + 1), unread := (ls.unread + C.size_mod - 1) % C.size_mod })
  | none => .done (0, ls)

/-- `lbsLS_eat`: the result pointer and the new state. -/
def lbsLS_eat (ls : lbs_LoadState) (len : Nat) : Option Nat × lbs_LoadState :=
  match ls.pos with
  | some p =>
    if ls.unread ≥ len then (some p, { pos := some (p + len), unread := ls.unread - len })
    else (none, { pos := none, unread := 0 })
  | none => (none, ls)

/-- `lbsLS_readbytes`: the result code, the bytes copied to the buffer, and the
new state. -/
def lbsLS_readbytes (data : List Nat) (ls : lbs_LoadState) (len : Nat) :
    Run (LuabinsResult × List Nat × lbs_LoadState) :=
  match lbsLS_eat ls len with
  | (some p, ls1) => (readDataN data p len).bind fun bs => .done (.LUABINS_ESUCCESS, bs, ls1)
  | (none, ls1) => .done (.LUABINS_EBADDATA, [], ls1)

/-- The test of `load_table` on a key: a table key can't be nil or NaN. -/
def badKey (C : LuabinsConf) : LuaStack → Bool
  | .nil :: _ => true
  | .number bytes :: _ => C.numisnan bytes
  | _ => false

/-- The functions `load_value` (for `false`) and `load_table` with its loop (for
`true`, with the number of pairs still to load), which call each other; the
first argument bounds the number of calls. -/
def load_step (C : LuabinsConf) (data : List Nat) :
    Nat → Option Nat → LuaStack → lbs_LoadState → Run (LuabinsResult × LuaStack × lbs_LoadState)
  | 0, _, _, _ => .nofuel
  | fuel + 1, none, L, ls =>
    -- load_value
    (lbsLS_readbyte C data ls).bind fun r =>
      if ¬ lbsLS_good r.2 then .done (.LUABINS_EBADDATA, L, r.2)
      else if r.1 = C.LUABINS_CNIL then .done (.LUABINS_ESUCCESS, .nil :: L, r.2)
      else if r.1 = C.LUABINS_CFALSE then .done (.LUABINS_ESUCCESS, .boolean false :: L, r.2)
      else if r.1 = C.LUABINS_CTRUE then .done (.LUABINS_ESUCCESS, .boolean true :: L, r.2)
      else if r.1 = C.LUABINS_CNUMBER then
        (lbsLS_readbytes data r.2 C.LUABINS_LNUMBER).bind fun v =>
          if v.1 = .LUABINS_ESUCCESS then .done (.LUABINS_ESUCCESS, .number v.2.1 :: L, v.2.2)
          else .done (v.1, L, v.2.2)
      else if r.1 = C.LUABINS_CSTRING then
        (lbsLS_readbytes data r.2 C.LUABINS_LSIZET).bind fun v =>
          if v.1 = .LUABINS_ESUCCESS then
            match lbsLS_eat v.2.2 (C.size_of_bytes v.2.1) with
            | (some p, ls2) =>
              (readDataN data p (C.size_of_bytes v.2.1)).bind fun bs =>
                .done (.LUABINS_ESUCCESS, .string bs :: L, ls2)
            | (none, ls2) => .done (.LUABINS_EBADSIZE, L, ls2)
          else .done (v.1, L, v.2.2)
      else if r.1 = C.LUABINS_CTABLE then
        -- load_table
        (lbsLS_readbytes data r.2 C.LUABINS_LINT).bind fun a =>
          if a.1 ≠ .LUABINS_ESUCCESS then .done (a.1, L, a.2.2)
          else
            (lbsLS_readbytes data a.2.2 C.LUABINS_LINT).bind fun h =>
              if h.1 ≠ .LUABINS_ESUCCESS then .done (h.1, L, h.2.2)
              else
                let array_size := C.int_of_bytes a.2.1
                let hash_size := C.int_of_bytes h.2.1
                let total_size := ((array_size + hash_size) % (C.uint_mod : Int)).toNat
                if array_size < 0 ∨ array_size > C.MAXASIZE ∨ hash_size < 0 ∨
                    (hash_size > 0 ∧ C.ceillog2 hash_size.toNat > C.MAXBITS) ∨
                    h.2.2.unread < C.luabins_min_table_data_size total_size then
                  .done (.LUABINS_EBADSIZE, L, h.2.2)
                else load_step C data fuel (some total_size) (.table [] :: L) h.2.2
      else .done (.LUABINS_EBADDATA, L, r.2)
  | _ + 1, some 0, L, ls => .done (.LUABINS_ESUCCESS, L, ls)
  | fuel + 1, some (n + 1), L, ls =>
    -- One iteration of the loop of load_table: load key.
    (load_step C data fuel none L ls).bind fun k =>
      if k.1 ≠ .LUABINS_ESUCCESS then .done k
      else if badKey C k.2.1 then .done (.LUABINS_EBADDATA, k.2.1, k.2.2)
      else
        -- Load value.
        (load_step C data fuel none k.2.1 k.2.2).bind fun v =>
          if v.1 ≠ .LUABINS_ESUCCESS then .done v
          else load_step C data fuel (some n) (lua_rawset3 v.2.1) v.2.2

/-- `load_value`. -/
def load_value (C : LuabinsConf) (data : List Nat) (fuel : Nat) (L : LuaStack)
    (ls : lbs_LoadState) : Run (LuabinsResult × LuaStack × lbs_LoadState) :=
  load_step C data fuel none L ls

/-- The loop `for (i = 0; i < num_items && result == LUABINS_ESUCCESS; ++i)` of
`luabins_load`; the second argument is the number of items still to load. -/
def load_items (C : LuabinsConf) (data : List Nat) (fuel : Nat) :
    Nat → LuabinsResult → LuaStack → lbs_LoadState →
      Run (LuabinsResult × LuaStack × lbs_LoadState)
  | 0, result, L, ls => .done (result, L, ls)
  | n + 1, result, L, ls =>
    if result = .LUABINS_ESUCCESS then
      (load_value C data fuel L ls).bind fun r => load_items C data fuel n r.1 r.2.1 r.2.2
    else .done (result, L, ls)

/-- The message that `luabins_load` pushes for a failure. -/
def load_message : LuabinsResult → List Char
  | .LUABINS_EBADDATA => "corrupt data".toList
  | .LUABINS_EBADSIZE => "corrupt data: bad size".toList
  | .LUABINS_ETAILEFT => "extra data at end".toList
  | _ => "load failed".toList

/-- `luabins_load(L, data, len, count)` for a buffer `data` of `len` bytes: the
result code, the stack of the Lua state and the value stored in `*count`, if
one is stored. -/
def luabins_load (C : LuabinsConf) (L : LuaStack) (data : List Nat) (fuel : Nat) :
    Run (LuabinsResult × LuaStack × Option Nat) :=
  let base := L.length
  (lbsLS_readbyte C data (lbsLS_init data.length)).bind fun r =>
    let loaded : Run (LuabinsResult × LuaStack × lbs_LoadState) :=
      if ¬ lbsLS_good r.2 then .done (.LUABINS_EBADDATA, L, r.2)
      else if r.1 > C.LUABINS_MAXTUPLE then .done (.LUABINS_EBADSIZE, L, r.2)
      else load_items C data fuel r.1 .LUABINS_ESUCCESS L r.2
    loaded.bind fun v =>
      let result := if v.1 = .LUABINS_ESUCCESS ∧ v.2.2.unread > 0 then .LUABINS_ETAILEFT else v.1
      if result = .LUABINS_ESUCCESS then .done (result, v.2.1, some r.1)
      else
        .done (result,
          .string ((load_message result).map Char.toNat) :: lua_settop v.2.1 base, none)

/-- The constants of luabins for the examples: the type bytes are `-`, `0`, `1`,
`N`, `S` and `T`; `int` and `size_t` have 4 bytes, stored with the lowest byte
first, and a number has 8 bytes. -/
def exampleLuabins : LuabinsConf :=
  { LUABINS_CNIL := 0x2d
    LUABINS_CFALSE := 0x30
    LUABINS_CTRUE := 0x31
    LUABINS_CNUMBER := 0x4e
    LUABINS_CSTRING := 0x53
    LUABINS_CTABLE := 0x54
    LUABINS_MAXTUPLE := 250
    LUABINS_LINT := 4
    LUABINS_LNUMBER := 8
    LUABINS_LSIZET := 4
    MAXASIZE := 67108864
    MAXBITS := 26
    ceillog2 := fun x => Nat.log2 (x - 1) + 1
    luabins_min_table_data_size := fun n => 2 * n
    size_mod := 4294967296
    uint_mod := 4294967296
    int_of_bytes := fun bs =>
      let u : Nat := bs.foldr (fun b acc => b + 256 * acc) 0
      if u < 2147483648 then (u : Int) else (u : Int) - 4294967296
    size_of_bytes := fun bs => bs.foldr (fun b acc => b + 256 * acc) 0
    numisnan := fun bs =>
      (bs.getD 7 0 % 128 == 127) && (bs.getD 6 0 / 16 == 15) &&
        ((bs.getD 6 0 % 16 != 0) || (bs.take 6).any (fun b => b != 0)) }

/-- The code of an outcome, for the examples. -/
def Run.code {α : Type} (f : α → LuabinsResult) : Run α → Option (Option LuabinsResult)
  | .done a => some (some (f a))
  | .oob _ => some none
  | .nofuel => none

/-! ## The PHI candidates after pass 3 (lj_opt_loop.c) -/

/-- Coalesce with parent trace (`IRSLOAD_PARENT`, lj_ir.h). -/
def IRSLOAD_PARENT : Nat := 4

/-- `FUSE_DISABLED`: `~(IRRef)0`. -/
def FUSE_DISABLED : Nat := 0xffffffff

/-- Modelled from the spec: `ra_hasreg(r)` is the negation of `ra_noreg(r)` (both
are defined in the target header, which is not among the sources). -/
def ra_hasreg (T : Target) (r : Nat) : Prop := T.ra_noreg r = false

instance (T : Target) (r : Nat) : Decidable (ra_hasreg T r) := by
  unfold ra_hasreg; infer_instance

/-- `ra_used(ir)`: the instruction has a register or a spill slot. -/
def ra_used (T : Target) (ir : IRIns) : Prop := ra_hasreg T ir.r ∨ ra_hasspill ir.s

instance (T : Target) (ir : IRIns) : Decidable (ra_used T ir) := by
  unfold ra_used; infer_instance

/-- `iscrossref(as, ref)`. -/
def iscrossref (as : ASMState) (ref : Nat) : Prop := ref < as.sectref

instance (as : ASMState) (ref : Nat) : Decidable (iscrossref as ref) := by
  unfold iscrossref; infer_instance

/-- `neverfuse(as)`. -/
def neverfuse (as : ASMState) : Prop := as.fuseref = FUSE_DISABLED

instance (as : ASMState) : Decidable (neverfuse as) := by
  unfold neverfuse; infer_instance

/-- The outcome of a part of the assembler: it returns, it throws an error, an
assertion of the source fails, or the bound on the number of steps of the model
is reached. -/
inductive Walk (α : Type) where
  | done (a : α)
  | thrown (e : Thrown)
  | failed
  | nofuel

/-- The parts of the assembler that the backward walk calls and that are not
represented: the code generators of the single instructions, the shuffling of
the PHI registers, the check for a garbage collection step and the
synchronisation of the stack at the tail. Each of them gets the state of the
assembler and the trace, and returns them or throws. With them come the error
that `asm_mclimit` throws (it does not return) and the register/spill map of
the parent trace. -/
structure AsmGen where
  /-- The cases of `asm_ir` other than `IR_LOOP`, for the instruction `ref`. -/
  asm_ir_other : ASMState → Trace → Nat → Except Thrown (ASMState × Trace)
  asm_phi_shuffle : ASMState → Trace → Except Thrown (ASMState × Trace)
  /-- `asm_gc_check(as, &as->T->snap[snapno])`. -/
  asm_gc_check : ASMState → Trace → Nat → Except Thrown (ASMState × Trace)
  asm_tail_sync : ASMState → Trace → Except Thrown (ASMState × Trace)
  asm_mclimit : ASMState → Thrown
  /-- The array `as->parentmap`. -/
  parentmap : Nat → Nat

/-- `checkmclim(as)`. -/
def checkmclim (X : AsmGen) (as : ASMState) : Except Thrown Unit :=
  if as.mcp < as.mclim then .error (X.asm_mclimit as) else .ok ()

/-- Can we rematerialize a KNUM instead of forcing a spill? -/
def asm_snap_canremat (T : Target) (as : ASMState) : Prop :=
  ∃ r ∈ List.range T.RID_MAX_FPR, T.RID_MIN_FPR ≤ r ∧ irref_isk (T.regcost_ref (as.cost r))

instance (T : Target) (as : ASMState) : Decidable (asm_snap_canremat T as) := by
  unfold asm_snap_canremat; infer_instance

/-- The body of the loop of `asm_snap_alloc` for the reference `ref` of a slot. -/
def asm_snap_alloc_ref (X : AsmGen) (T : Target) (as : ASMState) (ref : Nat) :
    Except Thrown ASMState :=
  if ¬ irref_isk ref then
    if ¬ ra_used T (as.ir ref) ∧ (as.ir ref).o ≠ IR_FRAME then
      let allow := if irt_isnum (as.ir ref).t then T.RSET_FPR else T.RSET_GPR
      -- Not a var-to-invar ref and got a free register (or a remat)?
      if (¬ iscrossref as ref ∨ irt_isphi (as.ir ref).t) ∧
          (as.freeset &&& allow ≠ 0 ∨ (allow = T.RSET_FPR ∧ asm_snap_canremat T as)) then
        match ra_allocref T as ref allow with  -- Allocate a register.
        | .error e => .error e
        | .ok p =>
          match checkmclim X p.2 with
          | .error e => .error e
          | .ok _ => .ok p.2
      else
        match ra_spill T as ref with  -- Otherwise force a spill slot.
        | .error e => .error e
        | .ok p => .ok p.2
    else .ok as
  else .ok as

/-- The loop `for (s = 0; s < nslots; s++)` of `asm_snap_alloc`; the first argument
is `nslots - s`. -/
def asm_snap_alloc_loop (X : AsmGen) (T : Target) (map : Nat → Nat) :
    Nat → Nat → ASMState → Except Thrown ASMState
  | 0, _, as => .ok as
  | k + 1, s, as =>
    match asm_snap_alloc_ref X T as (snap_ref (map s)) with
    | .error e => .error e
    | .ok as1 => asm_snap_alloc_loop X T map k (s + 1) as1

/-- Allocate registers or spill slots for refs escaping to a snapshot. -/
def asm_snap_alloc (X : AsmGen) (T : Target) (as : ASMState) (Tr : Trace) :
    Except Thrown ASMState :=
  asm_snap_alloc_loop X T (fun s => Tr.snapmap ((Tr.snap as.snapno).mapofs + s))
    (Tr.snap as.snapno).nslots 0 as

/-- A renamed ref which has been used in a prior guard for the same snapshot is
forced into a spill slot: the search for `ren` among the slots of the current
snapshot, and the spill if it is found. -/
def asm_snap_checkrename (T : Target) (as : ASMState) (Tr : Trace) (ren : Nat) :
    Except Thrown (Bool × ASMState) :=
  if ∃ s ∈ List.range (Tr.snap as.snapno).nslots,
      snap_ref (Tr.snapmap ((Tr.snap as.snapno).mapofs + s)) = ren then
    match ra_spill T as ren with  -- Register renamed, so force a spill slot.
    | .error e => .error e
    | .ok p => .ok (true, p.2)
  else .ok (false, as)

/-- The loop `do { snapno--; snapref = snap[snapno].ref; } while (curins < snapref)`
of `asm_snap_prep`, from the snapshot number given: the new snapshot number and
its reference, or nothing if the assertion `as->snapno != 0` fails. -/
def snap_prep_loop (snap : Nat → SnapShot) (curins : Nat) : Nat → Option (Nat × Nat)
  | 0 => none
  | n + 1 =>
    if curins < (snap n).ref then snap_prep_loop snap curins n
    else some (n, (snap n).ref)

/-- The loop `for (; as->snaprename < as->T->nins; as->snaprename++)` of
`asm_snap_prep`, which processes the renames above the highwater mark; the
first argument is `T->nins - snaprename`, the second one `snaprename`. -/
def snap_rename_loop (T : Target) (Tr : Trace) : Nat → Nat → ASMState → Except Thrown ASMState
  | 0, _, as => .ok as
  | k + 1, i, as =>
    match asm_snap_checkrename T as Tr (as.ir i).op1 with
    | .error e => .error e
    | .ok p =>
      snap_rename_loop T Tr k (i + 1)
        (if p.1 then { p.2 with ir := upd p.2.ir i { p.2.ir i with op2 := REF_BIAS - 1 } }
         else p.2)

/-- Prepare snapshot for next guard instruction. -/
def asm_snap_prep (X : AsmGen) (T : Target) (as : ASMState) (Tr : Trace) : Walk ASMState :=
  if as.curins < as.snapref then
    match snap_prep_loop Tr.snap as.curins as.snapno with
    | none => .failed
    | some p =>
      match asm_snap_alloc X T { as with snapno := p.1, snapref := p.2 } Tr with
      | .error e => .thrown e
      | .ok as1 => .done { as1 with snaprename := Tr.nins }
  else
    match snap_rename_loop T Tr (Tr.nins - as.snaprename) as.snaprename as with
    | .error e => .thrown e
    | .ok as1 =>
      .done { as1 with
        snaprename := if as.snaprename < Tr.nins then Tr.nins else as.snaprename }

/-- Fixup the loop branch. The pointers are addresses; `as->T->nins` is the
field of the trace. -/
def asm_loop_fixup (T : Target) (as : ASMState) (Tr : Trace) : ASMState × Trace :=
  let p := as.mctop
  let target := as.mcp
  if as.realign ≠ 0 then  -- Realigned loops use short jumps.
    if as.loopinv ≠ 0 then  -- Inverted loop branch?
      let m1 := upd as.mem (p - 5) XI_JMP
      let m2 := upd m1 (p - 5 - 1) (toByte (u32 ((target : Int) - ((p : Int) - 5))))
      let m3 := if as.loopinv = 2 then
        upd m2 (p - 5 - 3) (toByte (u32 ((target : Int) - ((p : Int) - 5) + 2))) else m2
      ({ as with realign := 0, mem := m3 }, Tr)
    else
      let m1 := upd as.mem (p - 1) (toByte (u32 ((target : Int) - p)))
      ({ as with realign := 0, mem := upd m1 (p - 2) (toByte T.XI_JMPs) }, Tr)
  else
    let m1 := upd as.mem (p - 5) XI_JMP
    let p1 := if as.loopinv ≠ 0 then p - 5 else p
    let m2 := write_i32 m1 (p1 - 4) ((target : Int) - p1)
    let m3 := if as.loopinv = 2 then write_i32 m2 (p1 - 10) ((target : Int) - p1 + 6) else m2
    let newloop := if as.loopinv ≠ 0 then (if as.loopinv = 2 then target + 8 else target + 4)
      else target + 3
    -- Realign small loops and shorten the loop branch.
    if (newloop : Int) ≥ (p1 : Int) - 128 then
      ({ as with mem := m3, realign := newloop, curins := as.stopins },
        { Tr with nins := as.orignins })
    else ({ as with mem := m3 }, Tr)

/-- Middle part of a loop. -/
def asm_loop (X : AsmGen) (T : Target) (as : ASMState) (Tr : Trace) :
    Except Thrown (ASMState × Trace) :=
  -- LOOP is a guard, so the snapno is up to date.
  let as1 := { as with loopsnapno := as.snapno }
  match (if as1.gcsteps ≠ 0 then X.asm_gc_check as1 Tr as1.loopsnapno else .ok (as1, Tr)) with
  | .error e => .error e
  | .ok p2 =>
    -- LOOP marks the transition from the variant to the invariant part.
    match X.asm_phi_shuffle
        { p2.1 with testmcp := 0, invmcp := 0, sectref := 0,
                    fuseref := if ¬ neverfuse p2.1 then 0 else p2.1.fuseref } p2.2 with
    | .error e => .error e
    | .ok p3 =>
      .ok ({ (asm_loop_fixup T p3.1 p3.2).1 with mcloop := (asm_loop_fixup T p3.1 p3.2).1.mcp },
        (asm_loop_fixup T p3.1 p3.2).2)

/-- Assemble a single instruction: the case `IR_LOOP` of `asm_ir`; the other
cases are not represented. -/
def asm_ir (X : AsmGen) (T : Target) (as : ASMState) (Tr : Trace) (ref : Nat) :
    Except Thrown (ASMState × Trace) :=
  if (as.ir ref).o = IR_LOOP then asm_loop X T as Tr else X.asm_ir_other as Tr ref

/-- The statements `checkmclim(as); asm_ir(as, ir);` of the loop of `asm_trace`. -/
def asm_trace_ins (X : AsmGen) (T : Target) (as : ASMState) (Tr : Trace) (ref : Nat) :
    Walk (ASMState × Trace) :=
  match checkmclim X as with
  | .error e => .thrown e
  | .ok _ =>
    match asm_ir X T as Tr ref with
    | .error e => .thrown e
    | .ok p => .done p

/-- The body of the loop of `asm_trace` for the instruction `as->curins`. -/
def asm_trace_body (X : AsmGen) (T : Target) (as : ASMState) (Tr : Trace) :
    Walk (ASMState × Trace) :=
  if irt_isguard (as.ir as.curins).t then
    match asm_snap_prep X T as Tr with
    | .done as1 => asm_trace_ins X T as1 Tr as.curins
    | .thrown e => .thrown e
    | .failed => .failed
    | .nofuel => .nofuel
  else if ¬ ra_used T (as.ir as.curins) ∧ ¬ irm_sideeff (lj_ir_mode (as.ir as.curins).o) ∧
      as.flags &&& JIT_F_OPT_DCE ≠ 0 then
    .done (as, Tr)  -- Dead-code elimination can be soooo easy.
  else asm_trace_ins X T as Tr as.curins

/-- The loop of `asm_trace` from its test `as->curins > as->stopins` on; the first
argument bounds the number of iterations. -/
def asm_trace_loop (X : AsmGen) (T : Target) :
    Nat → ASMState → Trace → Walk (ASMState × Trace)
  | 0, _, _ => .nofuel
  | fuel + 1, as, Tr =>
    if as.curins > as.stopins then
      match asm_trace_body X T as Tr with
      | .done p =>
        asm_trace_loop X T fuel { p.1 with curins := u32 ((p.1.curins : Int) - 1) } p.2
      | .thrown e => .thrown e
      | .failed => .failed
      | .nofuel => .nofuel
    else .done (as, Tr)

/-- Assemble a trace in linear backwards order. -/
def asm_trace (X : AsmGen) (T : Target) (fuel : Nat) (as : ASMState) (Tr : Trace) :
    Walk (ASMState × Trace) :=
  asm_trace_loop X T fuel { as with curins := u32 ((as.curins : Int) - 1) } Tr

/-- The assignment `IR(i)->prev = v` of a 16-bit value. -/
def setPrev (as : ASMState) (i v : Nat) : ASMState :=
  { as with ir := upd as.ir i { as.ir i with prev := v % 65536 } }

/-- The loop `while (IR(nins-1)->o == IR_RENAME) nins--` at the start of
`asm_setup_regsp`, as a function of `nins`. -/
def strip_renames (ir : Nat → IRIns) : Nat → Nat
  | 0 => 0
  | n + 1 => if (ir n).o = IR_RENAME then strip_renames ir n else n + 1

/-- The body of the main loop of `asm_setup_regsp` for the instruction `i`; the
flag `inloop` goes with the state. -/
def setup_regsp_ins (T : Target) (parentmap : Nat → Nat) (i : Nat) (p : Bool × ASMState) :
    Bool × ASMState :=
  let o := (p.2.ir i).o
  if o = IR_LOOP then (true, setPrev p.2 i T.REGSP_INIT)
  else if o = IR_SLOAD then
    -- Set hints for slot loads from a parent trace.
    if (p.2.ir i).op2 &&& IRSLOAD_PARENT ≠ 0 then
      let rs := parentmap (p.2.ir i).op1
      if ¬ ra_hasspill (T.regsp_spill rs) ∧ ra_hasreg T (T.regsp_reg rs) then
        (p.1, setPrev { p.2 with stopins := i } i (T.REGSP_HINT (T.regsp_reg rs)))
      else (p.1, setPrev { p.2 with stopins := i } i T.REGSP_INIT)
    else (p.1, setPrev p.2 i T.REGSP_INIT)
  else if o = IR_FRAME then
    (p.1, setPrev
      (if i = p.2.stopins + 1 ∧ (p.2.ir i).op1 = (p.2.ir i).op2 then
        { p.2 with stopins := p.2.stopins + 1 } else p.2) i T.REGSP_INIT)
  else if o = IROp.SNEW.num ∨ o = IROp.TNEW.num ∨ o = IROp.TDUP.num ∨ o = IROp.TLEN.num ∨
      o = IROp.TOSTR.num ∨ o = IROp.NEWREF.num then
    -- C calls evict all scratch regs and return results in RID_RET.
    (p.1, if p.1 then { setPrev p.2 i (T.REGSP_HINT T.RID_RET) with modset := T.RSET_SCRATCH }
      else setPrev p.2 i (T.REGSP_HINT T.RID_RET))
  else if o = IROp.STRTO.num ∨ o = IROp.OBAR.num then
    (p.1, setPrev (if p.1 then { p.2 with modset := T.RSET_SCRATCH } else p.2) i T.REGSP_INIT)
  else if o = IROp.LT.num ∨ o = IROp.GE.num ∨ o = IROp.LE.num ∨ o = IROp.GT.num then
    -- Ordered string compares evict all integer scratch registers.
    (p.1, setPrev
      (if irt_isstr (p.2.ir i).t ∧ p.1 = true then
        { p.2 with modset := p.2.modset ||| (T.RSET_SCRATCH &&& T.RSET_GPR) } else p.2)
      i T.REGSP_INIT)
  else if o = IROp.BSHL.num ∨ o = IROp.BSHR.num ∨ o = IROp.BSAR.num ∨ o = IROp.BROL.num ∨
      o = IROp.BROR.num then
    -- Non-constant shift counts need to be in RID_ECX.
    (p.1, setPrev
      (if ¬ irref_isk (p.2.ir i).op2 ∧ T.ra_hashint (p.2.ir (p.2.ir i).op2).r = false then
        { p.2 with
          ir := upd p.2.ir (p.2.ir i).op2
                  ((p.2.ir (p.2.ir i).op2).setR (T.REGSP_HINT T.RID_ECX)) }
       else p.2) i T.REGSP_INIT)
  else if o = IR_TONUM ∨ o = IR_TOINT ∨ o = IROp.TOBIT.num then
    -- Do not propagate hints across type conversions.
    (p.1, setPrev p.2 i T.REGSP_INIT)
  else if irref_isk (p.2.ir i).op2 ∧ ¬ irref_isk (p.2.ir i).op1 then
    -- Propagate hints across likely 'op reg, imm' or 'op reg'.
    (p.1, setPrev p.2 i (p.2.ir (p.2.ir i).op1).prev)
  else (p.1, setPrev p.2 i T.REGSP_INIT)

/-- The loop `for (i = REF_FIRST; i < nins; i++)` of `asm_setup_regsp` from `i` on;
the first argument bounds the number of iterations. -/
def setup_regsp_loop (T : Target) (parentmap : Nat → Nat) (nins : Nat) :
    Nat → Nat → Bool × ASMState → Bool × ASMState
  | 0, _, p => p
  | fuel + 1, i, p =>
    if i < nins then
      setup_regsp_loop T parentmap nins fuel (i + 1) (setup_regsp_ins T parentmap i p)
    else p

/-- The loop `for (i = T->nk; i < REF_BIAS; i++) IR(i)->prev = REGSP_INIT` of
`asm_setup_regsp`: clear reg/sp for constants. -/
def setup_regsp_consts (T : Target) (as : ASMState) (nk : Nat) : ASMState :=
  { as with
    ir := fun i =>
      if nk ≤ i ∧ i < REF_BIAS then { as.ir i with prev := T.REGSP_INIT % 65536 } else as.ir i }

/-- Clear reg/sp for all instructions and add register hints. -/
def asm_setup_regsp (T : Target) (parentmap : Nat → Nat) (as : ASMState) (Tr : Trace) :
    ASMState × Trace :=
  -- REF_BASE is used for implicit references to the BASE register.
  let as2 := setPrev (setup_regsp_consts T as Tr.nk) REF_BASE (T.REGSP_HINT T.RID_BASE)
  -- Remove any renames left over from ASM restart.
  let nins := strip_renames as2.ir Tr.nins
  let as3 : ASMState :=
    { as2 with snaprename := nins, snapref := nins, snapno := Tr.nsnap, stopins := REF_BASE,
               orignins := nins, curins := nins }
  ((setup_regsp_loop T parentmap nins nins REF_FIRST (false, as3)).2, { Tr with nins := nins })

/-- The loop `while (i-- > 0) *--p = XI_NOP` of `lj_asm_trace`: `i` bytes below `p`
are filled. -/
def realign_nops (T : Target) : Nat → Nat → MCodeBuf → MCodeBuf
  | 0, _, m => m
  | i + 1, p, m => realign_nops T i (p - 1) (upd m (p - 1) (toByte T.XI_NOP))

/-- The statements of the body of the loop `do { ... } while (as->realign)` of
`lj_asm_trace` before the setup of the register allocation. -/
def asm_attempt_start (T : Target) (as : ASMState) (Tr : Trace) : ASMState :=
  let as1 := { as with mcp := as.mctop, curins := Tr.nins }
  -- Realign and leave room for backwards loop branch or exit branch.
  let as2 :=
    if as1.realign ≠ 0 then
      -- Fill unused mcode tail with NOPs to make the prefetcher happy.
      { as1 with
        mem := realign_nops T (as1.realign % 16) as1.mctop as1.mem
        mctop := as1.mctop - as1.realign % 16
        mcp := as1.mctop - as1.realign % 16 - (if as1.loopinv ≠ 0 then 5 else 2) }
    else { as1 with mcp := as1.mctop - 5 }
  { as2 with
    invmcp := as2.mcp, mcloop := 0, testmcp := 0, topslot := 0, gcsteps := 0
    sectref := as2.loopref
    fuseref := if as2.flags &&& JIT_F_OPT_FUSE ≠ 0 then as2.loopref else FUSE_DISABLED }

/-- The body of the loop `do { ... } while (as->realign)` of `lj_asm_trace`: one
attempt to assemble the trace; the first argument bounds the number of
iterations of the backward walk. -/
def asm_attempt (X : AsmGen) (T : Target) (fuel : Nat) (as : ASMState) (Tr : Trace) :
    Walk (ASMState × Trace) :=
  -- Setup register allocation.
  let p4 := asm_setup_regsp T X.parentmap (ra_setup T (asm_attempt_start T as Tr)) Tr
  if p4.1.loopref = 0 then
    -- Leave room for ESP adjustment: add esp, imm or lea esp, [esp+imm]
    match X.asm_tail_sync
        { p4.1 with
          mcp := p4.1.mcp - (if p4.1.flags &&& JIT_F_LEA_AGU ≠ 0 then 7 else 6)
          invmcp := 0 } p4.2 with
    | .error e => .thrown e
    | .ok p5 => asm_trace X T fuel p5.1 p5.2
  else asm_trace X T fuel p4.1 p4.2

/-- The loop `do { ... } while (as->realign)` of `lj_asm_trace`: the attempts are
repeated while the marker is set. The second argument bounds the number of
attempts. -/
def asm_retry (X : AsmGen) (T : Target) (fuel : Nat) :
    Nat → ASMState → Trace → Walk (ASMState × Trace)
  | 0, _, _ => .nofuel
  | n + 1, as, Tr =>
    match asm_attempt X T fuel as Tr with
    | .done p => if p.1.realign ≠ 0 then asm_retry X T fuel n p.1 p.2 else .done p
    | .thrown e => .thrown e
    | .failed => .failed
    | .nofuel => .nofuel

/-- The opcode and the operands of an instruction. -/
def IRIns.key (ir : IRIns) : Nat × Nat × Nat := (ir.o, ir.op1, ir.op2)

/-- The state `b` has the fields of `a` that control the backward walk and the
snapshot preparation, and its instructions have the opcodes and operands of
those of `a`. -/
def SameCtl (a b : ASMState) : Prop :=
  b.realign = a.realign ∧ b.curins = a.curins ∧ b.stopins = a.stopins ∧
  b.orignins = a.orignins ∧ b.snaprename = a.snaprename ∧ b.snapno = a.snapno ∧
  b.snapref = a.snapref ∧ ∀ i, (b.ir i).key = (a.ir i).key

/-- A part of the assembler that leads from `a` and `t` to `b` and `u` has not
assigned the fields `realign`, `curins`, `stopins`, `orignins` and `snaprename`,
has at most appended instructions to the trace, and has left the opcodes and
operands of the instructions below `orignins` as they were. -/
def KeepsWalk (a : ASMState) (t : Trace) (b : ASMState) (u : Trace) : Prop :=
  b.realign = a.realign ∧ b.curins = a.curins ∧ b.stopins = a.stopins ∧
  b.orignins = a.orignins ∧ b.snaprename = a.snaprename ∧ t.nins ≤ u.nins ∧
  ∀ i, i < a.orignins → (b.ir i).key = (a.ir i).key

/-- The parts of the assembler that are not represented do not assign the fields
that control the walk: in the source `as->realign` is assigned in
`lj_asm_trace` and `asm_loop_fixup` only, `as->curins` in `lj_asm_trace`,
`asm_trace` and `asm_loop_fixup`, `as->stopins` and `as->orignins` in
`asm_setup_regsp`, `as->snaprename` in `asm_setup_regsp` and `asm_snap_prep`;
`T->nins` grows by the RENAMEs that `lj_ir_emit` appends, and no opcode or
operand of an instruction is assigned but `op2` in `asm_snap_prep`. -/
def AsmGen.Frame (X : AsmGen) : Prop :=
  (∀ as Tr ref as1 Tr1, X.asm_ir_other as Tr ref = .ok (as1, Tr1) → KeepsWalk as Tr as1 Tr1) ∧
  (∀ as Tr as1 Tr1, X.asm_phi_shuffle as Tr = .ok (as1, Tr1) → KeepsWalk as Tr as1 Tr1) ∧
  (∀ as Tr n as1 Tr1, X.asm_gc_check as Tr n = .ok (as1, Tr1) → KeepsWalk as Tr as1 Tr1) ∧
  (∀ as Tr as1 Tr1, X.asm_tail_sync as Tr = .ok (as1, Tr1) → KeepsWalk as Tr as1 Tr1)

/-- The invariant of a backward walk with the stop `s0` over the `n0` instructions
whose opcodes and operands are those of `ir0`: the trace has not less than `n0`
instructions, and the highwater mark of the renames is not below `n0`. -/
def WalkInv (ir0 : Nat → IRIns) (s0 n0 : Nat) (as : ASMState) (Tr : Trace) : Prop :=
  as.stopins = s0 ∧ as.orignins = n0 ∧ n0 ≤ Tr.nins ∧ n0 ≤ as.snaprename ∧
  ∀ i, i < n0 → (as.ir i).key = (ir0 i).key

/-- The stop of the walk after the main loop of `asm_setup_regsp` has examined the
instruction `ir` at the reference `i`, if it was `s` before: a slot load from
the parent trace moves the stop to `i`, a FRAME with equal operands right
above the stop moves it by one. -/
def stopAfter (ir : IRIns) (i s : Nat) : Nat :=
  if ir.o = IR_LOOP then s
  else if ir.o = IR_SLOAD then (if ir.op2 &&& IRSLOAD_PARENT ≠ 0 then i else s)
  else if ir.o = IR_FRAME then (if i = s + 1 ∧ ir.op1 = ir.op2 then s + 1 else s)
  else s

/-- The value that a part of the assembler returns, if it returns. -/
def Walk.val? {α : Type} : Walk α → Option α
  | .done a => some a
  | _ => none

/-- Code generators for the examples: every instruction other than LOOP is
assembled to one byte, the other parts do nothing; `asm_mclimit` throws the
error of a full machine code area. -/
def walkGen : AsmGen :=
  { asm_ir_other := fun as Tr _ =>
      .ok ({ as with mcp := as.mcp - 1, mem := upd as.mem (as.mcp - 1) (toByte 0x90) }, Tr)
    asm_phi_shuffle := fun as Tr => .ok (as, Tr)
    asm_gc_check := fun as Tr _ => .ok (as, Tr)
    asm_tail_sync := fun as Tr => .ok (as, Tr)
    asm_mclimit := fun _ => .trace .MCODELM
    parentmap := fun _ => 0 }

/-- A trace with a small loop: `0x8001: SLOAD #1`, `0x8002: ADD 0x8001 k` with a
guard, `0x8003: LOOP`, `0x8004: ADD 0x8002 k` with a guard, `0x8005: MUL 0x8004
0x8004`, which nothing uses. The snapshots #0, #1 and #2 are taken at `0x8001`,
`0x8003` and `0x8004`; snapshot #1 holds the reference `0x8002` in its only
slot. -/
def walkTrace : Trace :=
  { nins := 0x8006
    nsnap := 3
    snap := fun i =>
      if i = 0 then { ref := 0x8001 }
      else if i = 1 then { ref := 0x8003, mapofs := 0, nslots := 1 }
      else { ref := 0x8004, mapofs := 1 }
    snapmap := fun i => if i = 0 then 0x8002 else 0 }

/-- The instructions of `walkTrace`, none of them with a register or a spill slot. -/
def walkIR : Nat → IRIns :=
  fun r =>
    if r = 0x8000 then { o := IR_BASE, prev := 0xff }
    else if r = 0x8001 then { o := IR_SLOAD, t := IRT_INT, op1 := 1, prev := 0xff }
    else if r = 0x8002 then
      { o := IR_ADD, t := IRT_INT ||| IRT_GUARD, op1 := 0x8001, op2 := 0x7fff, prev := 0xff }
    else if r = 0x8003 then { o := IR_LOOP, t := IRT_GUARD, prev := 0xff }
    else if r = 0x8004 then
      { o := IR_ADD, t := IRT_INT ||| IRT_GUARD, op1 := 0x8002, op2 := 0x7fff, prev := 0xff }
    else if r = 0x8005 then { o := IR_MUL, t := IRT_INT, op1 := 0x8004, op2 := 0x8004, prev := 0xff }
    else {}

/-- The state of the assembler in the walk over `walkTrace` at the instruction
`curins`, with the flags given, the snapshot number `snapno` and its reference
`snapref`; the machine code area ends at `0x1000`. -/
def walkState (flags curins snapno snapref : Nat) : ASMState :=
  { ir := walkIR, flags := flags, curins := curins, snapno := snapno, snapref := snapref
    stopins := 0x8000, orignins := 0x8006, snaprename := 0x8006, loopref := 0x8003
    mctop := 0x1000, mcp := 0x0ffb, mcbot := 0x800, mclim := 0x840
    evenspill := 4 }

/-- The state in which `lj_asm_trace` enters its loop for `walkTrace`. -/
def walkStart : ASMState :=
  { ir := walkIR, flags := JIT_F_OPT_DCE, loopref := 0x8003
    mctop := 0x1000, mcp := 0x1000, mcbot := 0x800, mclim := 0x840 }

/-- The bound on the number of steps of the model has been reached. -/
def Walk.outOfFuel {α : Type} : Walk α → Bool
  | .nofuel => true
  | _ => false

/-! ## A loop that fills the table of PHI candidates -/

/-- A loop with 32 integer recurrences and one more slot: `0x8001` to `0x8020`
load the slots 1 to 32 as integers, `0x8021` loads the slot 33 with the type
`tpre`, `0x8022` to `0x8041` add a constant to the 32 loads, and `0x8042` is the
instruction `obody 0x8021` of the type `tbody`. At the end of the recording the
slots 1 to 32 hold the sums and the slot 33 holds `0x8042`. -/
def phiFullLoop (tpre obody tbody : Nat) : jit_State :=
  { cur :=
      { ir := irOfList
          ((List.range 32).map (fun i => { o := IR_SLOAD, t := IRT_INT, op1 := i + 1, op2 := 0 }) ++
            [{ o := IR_SLOAD, t := tpre, op1 := 33, op2 := 0 }] ++
            (List.range 32).map
              (fun i => { o := IR_ADD, t := IRT_INT, op1 := 0x8001 + i, op2 := 0x7fff }) ++
            [{ o := obody, t := tbody, op1 := 0x8021, op2 := 0 }])
        nins := 0x8043
        snap := fun i => if i = 0 then { ref := 0x8001 } else { ref := 0x8043 }
        nsnap := 2 }
    slot := fun i =>
      if 1 ≤ i ∧ i ≤ 32 then TREF (0x8021 + i) IRT_INT
      else if i = 33 then TREF 0x8042 tbody else 0
    baseslot := 1
    maxslot := 33
    sizesnap := 8
    sizesnapmap := 8
    instunroll := 4 }

/-- The local variables and the state of `loop_unroll` of an example loop after
the first `n` iterations of its main loop; the values at the start of the main
loop if one of these iterations throws. -/
def unrollAfter (E : Extern) (J : jit_State) (n : Nat) : UnrollState × jit_State :=
  match unroll_loop E J.cur.nins ((loopStart J).cur.snap (J.cur.nsnap - 1)).mapofs
      ((loopStart J).cur.snap (J.cur.nsnap - 1)).nslots n REF_FIRST (unrollStart J)
      (loopStart J) with
  | .ok S J1 => (S, J1)
  | .raise _ _ => (unrollStart J, loopStart J)

/-! ## The check of a loop-carried dependency -/

/-- The test of `loop_unroll` for the PHI overflow at the reference `ref`,
re-emitted for `ins` in the state `J1`: `ref` is a PHI candidate and
`LJ_MAX_PHI` candidates are already recorded. -/
def phiOverflow (E : Extern) (S : UnrollState) (J1 : jit_State) (invar ins ref : Nat) : Prop :=
  phiCandidate J1 invar ins ref ∧ E.LJ_MAX_PHI ≤ S.phi.length

instance (E : Extern) (S : UnrollState) (J1 : jit_State) (invar ins ref : Nat) :
    Decidable (phiOverflow E S J1 invar ins ref) := by
  unfold phiOverflow; infer_instance

/-- The state in which `loop_unroll` checks the type of the loop-carried
dependency `ref`: the PHI flag of `IR(ref)` has been set if `ref` is a PHI
candidate. -/
def carriedState (J1 : jit_State) (invar ins ref : Nat) : jit_State :=
  if phiCandidate J1 invar ins ref then J1.setT ref irt_setphi else J1

/-- The local variables of `loop_unroll` when it checks the type of the
loop-carried dependency `ref`: `subst[ins]` is `ref`, and `ref` has been
appended to the PHI candidates if it is one. -/
def carriedLocals (S : UnrollState) (J1 : jit_State) (invar ins ref : Nat) : UnrollState :=
  { S with
    subst := upd S.subst ins ref
    phi := if phiCandidate J1 invar ins ref then S.phi ++ [ref] else S.phi }

/-! ## Loads and stores -/

theorem toByte_val (n : Nat) : (toByte n).val = n % 256 := rfl

theorem write_i32_outside (m : MCodeBuf) (o : Nat) (v : Int) (i : Nat)
    (h : i < o ∨ o + 4 ≤ i) : write_i32 m o v i = m i := by
  unfold write_i32
  have h0 : i ≠ o := by omega
  have h1 : i ≠ o + 1 := by omega
  have h2 : i ≠ o + 2 := by omega
  have h3 : i ≠ o + 3 := by omega
  simp [h0, h1, h2, h3]

theorem write_i32_changed (m : MCodeBuf) (o : Nat) (v : Int) (i : Nat)
    (h : write_i32 m o v i ≠ m i) : o ≤ i ∧ i < o + 4 := by
  by_contra hc
  exact h (write_i32_outside m o v i (by omega))

theorem read_u32_congr (m m' : MCodeBuf) (o : Nat)
    (h : ∀ j, o ≤ j → j < o + 4 → m j = m' j) : read_u32 m o = read_u32 m' o := by
  unfold read_u32
  rw [h o (by omega) (by omega), h (o + 1) (by omega) (by omega),
    h (o + 2) (by omega) (by omega), h (o + 3) (by omega) (by omega)]

theorem read_i32_congr (m m' : MCodeBuf) (o : Nat)
    (h : ∀ j, o ≤ j → j < o + 4 → m j = m' j) : read_i32 m o = read_i32 m' o := by
  unfold read_i32
  rw [read_u32_congr m m' o h]

theorem read_u32_lt (m : MCodeBuf) (o : Nat) : read_u32 m o < 4294967296 := by
  unfold read_u32
  have h0 := (m o).isLt
  have h1 := (m (o + 1)).isLt
  have h2 := (m (o + 2)).isLt
  have h3 := (m (o + 3)).isLt
  omega

theorem wrap32_read_i32 (m : MCodeBuf) (o : Nat) :
    wrap32 (read_i32 m o) = (read_u32 m o : Int) := by
  have h := read_u32_lt m o
  unfold read_i32 wrap32
  split <;> omega

theorem read_u32_write_i32 (m : MCodeBuf) (o : Nat) (v : Int) :
    (read_u32 (write_i32 m o v) o : Int) = wrap32 v := by
  have hw0 : 0 ≤ wrap32 v := by unfold wrap32; omega
  have hw1 : wrap32 v < 4294967296 := by unfold wrap32; omega
  obtain ⟨u, hu⟩ := Int.eq_ofNat_of_zero_le hw0
  have hlt : u < 4294967296 := by omega
  unfold read_u32 write_i32
  simp only [toByte_val, hu, Int.toNat_ofNat]
  have e1 : o + 1 ≠ o := by omega
  have e2 : o + 2 ≠ o := by omega
  have e3 : o + 3 ≠ o := by omega
  have e4 : o + 2 ≠ o + 1 := by omega
  have e5 : o + 3 ≠ o + 1 := by omega
  have e6 : o + 3 ≠ o + 2 := by omega
  simp only [e1, e2, e3, e4, e5, e6, if_true, if_false, ite_true, ite_false]
  simp only [toByte_val]
  omega

theorem wrap32_read_write (m : MCodeBuf) (o : Nat) (v : Int) :
    wrap32 (read_i32 (write_i32 m o v) o) = wrap32 v := by
  rw [wrap32_read_i32, read_u32_write_i32]

theorem isJcc_congr (m m' : MCodeBuf) (o : Nat)
    (h : ∀ j, o ≤ j → j < o + 2 → m j = m' j) : isJcc m o ↔ isJcc m' o := by
  unfold isJcc read_u16
  rw [h o (by omega) (by omega), h (o + 1) (by omega) (by omega)]

theorem jccRefs_congr (mcode px : Int) (m m' : MCodeBuf) (o : Nat)
    (h : ∀ j, o + 2 ≤ j → j < o + 6 → m j = m' j) :
    jccRefs mcode px m o ↔ jccRefs mcode px m' o := by
  unfold jccRefs
  rw [read_i32_congr m m' (o + 2) (fun j h1 h2 => h j h1 (by omega))]

theorem jccRefs_iff_dest (mcode stub : Int) (m : MCodeBuf) (o : Nat) :
    jccRefs mcode (stub - 6) m o ↔ jccDest mcode m o = wrap32 stub := by
  unfold jccRefs jccDest wrap32
  constructor <;> intro h <;> omega

theorem tailRefs_iff_dest (mcode stub : Int) (len : Nat) (m : MCodeBuf) :
    tailRefs mcode len (stub - 6) m ↔
      5 < len ∧ m (len - 5) = XI_JMP ∧ jmpDest mcode m (len - 5) = wrap32 stub := by
  unfold tailRefs jmpDest wrap32
  constructor
  · rintro ⟨h1, h2, h3⟩
    refine ⟨h1, h2, ?_⟩
    have e : len - 5 + 1 = len - 4 := by omega
    rw [e]
    have e2 : ((len - 5 : Nat) : Int) = (len : Int) - 5 := by omega
    rw [e2]
    omega
  · rintro ⟨h1, h2, h3⟩
    refine ⟨h1, h2, ?_⟩
    have e : len - 5 + 1 = len - 4 := by omega
    rw [e] at h3
    have e2 : ((len - 5 : Nat) : Int) = (len : Int) - 5 := by omega
    rw [e2] at h3
    omega

/-! ## The byte pattern of a near conditional jump -/

theorem and_bytes (a b c d : Nat) (ha : a < 256) (hc : c < 256) :
    (a + 256 * b) &&& (c + 256 * d) = (a &&& c) + 256 * (b &&& d) := by
  have hac : a &&& c < 2 ^ 8 := Nat.and_lt_two_pow a (by simpa using hc)
  apply Nat.eq_of_testBit_eq
  intro j
  have e1 : a + 256 * b = 2 ^ 8 * b + a := by norm_num; omega
  have e2 : c + 256 * d = 2 ^ 8 * d + c := by norm_num; omega
  have e3 : (a &&& c) + 256 * (b &&& d) = 2 ^ 8 * (b &&& d) + (a &&& c) := by norm_num; omega
  rw [Nat.testBit_and, e1, e2, e3, Nat.testBit_mul_pow_two_add _ (by simpa using ha),
    Nat.testBit_mul_pow_two_add _ (by simpa using hc), Nat.testBit_mul_pow_two_add _ hac]
  split <;> simp [Nat.testBit_and]

set_option maxRecDepth 10000 in
theorem byte_and_ff : ∀ a : Fin 256, (a.val &&& 0xff = 0x0f) ↔ a.val = 0x0f := by decide

set_option maxRecDepth 10000 in
theorem byte_and_f0 : ∀ b : Fin 256, (b.val &&& 0xf0 = 0x80) ↔ b.val / 16 = 8 := by decide

/-- The scan's test recognises exactly the byte `0x0F` followed by a byte `0x80..0x8F`. -/
theorem isJcc_iff (m : MCodeBuf) (o : Nat) :
    isJcc m o ↔ (m o).val = 0x0f ∧ (m (o + 1)).val / 16 = 8 := by
  unfold isJcc read_u16
  have h := and_bytes (m o).val (m (o + 1)).val 0xff 0xf0 (m o).isLt (by decide)
  have e : (0xff + 256 * 0xf0 : Nat) = 0xf0ff := by norm_num
  rw [e] at h
  rw [h, ← byte_and_ff (m o), ← byte_and_f0 (m (o + 1))]
  have h1 : (m o).val &&& 0xff < 2 ^ 8 := Nat.and_lt_two_pow _ (by norm_num)
  constructor
  · intro h2; omega
  · rintro ⟨h2, h3⟩; omega

/-! ## The scan -/

theorem scanVisits_bounds (mcode : Int) (len : Nat) (px target : Int) :
    ∀ (fuel o : Nat) (m : MCodeBuf) (s : Nat),
      s ∈ scanVisits mcode len px target fuel o m → o ≤ s ∧ s + 6 < len := by
  intro fuel
  induction fuel with
  | zero => intro o m s h; simp [scanVisits] at h
  | succ n ih =>
    intro o m s h
    by_cases h1 : o + 6 < len
    · by_cases h2 : isJcc m o ∧ jccRefs mcode px m o
      · simp only [scanVisits, h1, h2, and_self, if_true, List.mem_cons] at h
        rcases h with h | h
        · omega
        · have := ih _ _ _ h; omega
      · simp only [scanVisits, h1, h2, if_true, if_false, List.mem_cons] at h
        rcases h with h | h
        · omega
        · have := ih _ _ _ h; omega
    · simp [scanVisits, h1] at h

/-- Every byte that the scan changes lies in the displacement of a jump that the
scan examined and patched. -/
theorem patchLoop_changed (mcode : Int) (len : Nat) (px target : Int) :
    ∀ (fuel o : Nat) (m : MCodeBuf) (i : Nat),
      patchLoop mcode len px target fuel o m i ≠ m i →
      ∃ s, s ∈ scanVisits mcode len px target fuel o m ∧ isJcc m s ∧
        jccRefs mcode px m s ∧ s + 2 ≤ i ∧ i < s + 6 := by
  intro fuel
  induction fuel with
  | zero => intro o m i h; simp [patchLoop] at h
  | succ n ih =>
    intro o m i h
    by_cases h1 : o + 6 < len
    · by_cases h2 : isJcc m o ∧ jccRefs mcode px m o
      · simp only [patchLoop, h1, h2, and_self, if_true] at h
        simp only [scanVisits, h1, h2, and_self, if_true, List.mem_cons]
        by_cases hc : patchLoop mcode len px target n (o + 6)
            (write_i32 m (o + 2) (target - (mcode + o + 6))) i =
            write_i32 m (o + 2) (target - (mcode + o + 6)) i
        · rw [hc] at h
          have hb := write_i32_changed _ _ _ _ h
          exact ⟨o, Or.inl rfl, h2.1, h2.2, hb.1, by omega⟩
        · obtain ⟨s, hs, hj, hr, hlo, hhi⟩ := ih _ _ _ hc
          have hge := (scanVisits_bounds _ _ _ _ _ _ _ _ hs).1
          have hagree : ∀ j, s ≤ j →
              write_i32 m (o + 2) (target - (mcode + o + 6)) j = m j :=
            fun j hj => write_i32_outside _ _ _ _ (by omega)
          refine ⟨s, Or.inr hs, ?_, ?_, hlo, hhi⟩
          · exact (isJcc_congr _ _ s (fun j h1 _ => hagree j h1)).1 hj
          · exact (jccRefs_congr _ _ _ _ s (fun j h1 _ => hagree j (by omega))).1 hr
      · simp only [patchLoop, h1, h2, if_true, if_false] at h
        simp only [scanVisits, h1, h2, if_true, if_false, List.mem_cons]
        obtain ⟨s, hs, hrest⟩ := ih _ _ _ h
        exact ⟨s, Or.inr hs, hrest⟩
    · simp [patchLoop, h1] at h

/-- The scan from offset `o` leaves the bytes below `o + 2` alone. -/
theorem patchLoop_below (mcode : Int) (len : Nat) (px target : Int)
    (fuel o : Nat) (m : MCodeBuf) (i : Nat) (h : i < o + 2) :
    patchLoop mcode len px target fuel o m i = m i := by
  by_contra hc
  obtain ⟨s, hs, _, _, hlo, _⟩ := patchLoop_changed _ _ _ _ _ _ _ _ hc
  have := (scanVisits_bounds _ _ _ _ _ _ _ _ hs).1
  omega

/-- The scan leaves the last byte of the code and everything behind it alone. -/
theorem patchLoop_above (mcode : Int) (len : Nat) (px target : Int)
    (fuel o : Nat) (m : MCodeBuf) (i : Nat) (h : len ≤ i + 1) :
    patchLoop mcode len px target fuel o m i = m i := by
  by_contra hc
  obtain ⟨s, hs, _, _, _, hhi⟩ := patchLoop_changed _ _ _ _ _ _ _ _ hc
  have := (scanVisits_bounds _ _ _ _ _ _ _ _ hs).2
  omega

/-- A jump that the scan examines and that refers to the exit stub then is a
jump to the target afterwards. -/
theorem patchLoop_patched (mcode : Int) (len : Nat) (px target : Int) :
    ∀ (fuel o : Nat) (m : MCodeBuf) (s : Nat),
      s ∈ scanVisits mcode len px target fuel o m → isJcc m s → jccRefs mcode px m s →
      isJcc (patchLoop mcode len px target fuel o m) s ∧
        jccDest mcode (patchLoop mcode len px target fuel o m) s = wrap32 target := by
  intro fuel
  induction fuel with
  | zero => intro o m s h; simp [scanVisits] at h
  | succ n ih =>
    intro o m s h hj hr
    by_cases h1 : o + 6 < len
    · by_cases h2 : isJcc m o ∧ jccRefs mcode px m o
      · simp only [scanVisits, h1, h2, and_self, if_true, List.mem_cons] at h
        simp only [patchLoop, h1, h2, and_self, if_true]
        rcases h with h | h
        · subst h
          have hsame : ∀ j, s ≤ j → j < s + 6 →
              patchLoop mcode len px target n (s + 6)
                (write_i32 m (s + 2) (target - (mcode + s + 6))) j =
              write_i32 m (s + 2) (target - (mcode + s + 6)) j :=
            fun j _ hj2 => patchLoop_below _ _ _ _ _ _ _ _ (by omega)
          constructor
          · rw [isJcc_congr _ _ s (fun j h1 h2 => hsame j h1 (by omega))]
            rw [isJcc_congr _ m s (fun j h1 h2 => write_i32_outside _ _ _ _ (by omega))]
            exact hj
          · unfold jccDest
            rw [read_i32_congr _ _ (s + 2) (fun j h1 h2 => hsame j (by omega) (by omega))]
            have hw := wrap32_read_write m (s + 2) (target - (mcode + s + 6))
            unfold wrap32 at hw ⊢
            omega
        · have hge := (scanVisits_bounds _ _ _ _ _ _ _ _ h).1
          have hagree : ∀ j, s ≤ j →
              write_i32 m (o + 2) (target - (mcode + o + 6)) j = m j :=
            fun j hj => write_i32_outside _ _ _ _ (by omega)
          apply ih _ _ _ h
          · exact (isJcc_congr _ _ s (fun j h1 _ => hagree j h1)).2 hj
          · exact (jccRefs_congr _ _ _ _ s (fun j h1 _ => hagree j (by omega))).2 hr
      · simp only [scanVisits, h1, h2, if_true, if_false, List.mem_cons] at h
        simp only [patchLoop, h1, h2, if_true, if_false]
        rcases h with h | h
        · subst h; exact absurd ⟨hj, hr⟩ h2
        · exact ih _ _ _ h hj hr
    · simp [scanVisits, h1] at h

/-- The bound on the iterations of the scan is never reached: more iterations
give the same machine code. -/
theorem patchLoop_fuel (mcode : Int) (len : Nat) (px target : Int) :
    ∀ (fuel o : Nat) (m : MCodeBuf), len ≤ fuel + o + 6 → ∀ extra,
      patchLoop mcode len px target (fuel + extra) o m =
        patchLoop mcode len px target fuel o m := by
  intro fuel
  induction fuel with
  | zero =>
    intro o m h extra
    cases extra with
    | zero => rfl
    | succ x =>
      have h1 : ¬ o + 6 < len := by omega
      show patchLoop mcode len px target (0 + x + 1) o m = m
      unfold patchLoop
      rw [if_neg h1]
  | succ n ih =>
    intro o m h extra
    have e : n + 1 + extra = (n + extra) + 1 := by omega
    rw [e]
    unfold patchLoop
    split
    · split
      · exact ih _ _ (by omega) extra
      · exact ih _ _ (by omega) extra
    · rfl

/-! ## Properties of lj_asm_patchexit -/

theorem midCode_outside (g : Nat → Int) (T : Trace) (e : Nat) (t : Int) (i : Nat)
    (h : i + 4 < T.szmcode ∨ T.szmcode ≤ i) : midCode g T e t i = T.code i := by
  unfold midCode patchTail
  split
  · rename_i ht
    have : 5 < T.szmcode := ht.1
    exact write_i32_outside _ _ _ _ (by omega)
  · rfl

theorem midCode_changed (g : Nat → Int) (T : Trace) (e : Nat) (t : Int) (i : Nat)
    (h : midCode g T e t i ≠ T.code i) :
    tailRefs T.mcode T.szmcode (exitstub_addr g e - 6) T.code ∧
      T.szmcode - 4 ≤ i ∧ i < T.szmcode := by
  unfold midCode patchTail at h
  split at h
  · rename_i ht
    have h5 : 5 < T.szmcode := ht.1
    have := write_i32_changed _ _ _ _ h
    exact ⟨ht, by omega, by omega⟩
  · exact absurd rfl h

/-- C1 (amended). Every byte that `lj_asm_patchexit` changes lies in the 4-byte
displacement of the trailing near jmp (`0xE9` at offset `len-5`) whose
destination before the call was the exit stub, or in the 4-byte displacement of
a `0x0F 0x8x` pair at an offset `s` below `len-6` whose destination, decoded
when the scan starts (after the trailing jmp has been handled), was the exit
stub; when the pair ends before the displacement of the trailing jmp
(`s + 10 ≤ len`) that is its destination before the call. -/
theorem patchexit_changes_only_stub_jumps (g : Nat → Int) (T : Trace) (e : Nat) (t : Int)
    (i : Nat) (h : lj_asm_patchexit g T e t i ≠ T.code i) :
    (5 < T.szmcode ∧ T.code (T.szmcode - 5) = XI_JMP ∧
        jmpDest T.mcode T.code (T.szmcode - 5) = wrap32 (exitstub_addr g e) ∧
        T.szmcode - 4 ≤ i ∧ i < T.szmcode) ∨
      ∃ s, s + 6 < T.szmcode ∧ s + 2 ≤ i ∧ i < s + 6 ∧
        ((T.code s).val = 0x0f ∧ (T.code (s + 1)).val / 16 = 8) ∧
        jccDest T.mcode (midCode g T e t) s = wrap32 (exitstub_addr g e) ∧
        (s + 10 ≤ T.szmcode →
          jccDest T.mcode T.code s = wrap32 (exitstub_addr g e)) := by
  by_cases hc : lj_asm_patchexit g T e t i = midCode g T e t i
  · rw [hc] at h
    obtain ⟨ht, hlo, hhi⟩ := midCode_changed g T e t i h
    have hd := (tailRefs_iff_dest _ _ _ _).1 ht
    exact Or.inl ⟨hd.1, hd.2.1, hd.2.2, hlo, hhi⟩
  · right
    have hc2 : patchLoop T.mcode T.szmcode (exitstub_addr g e - 6) t T.szmcode 0
        (midCode g T e t) i ≠ midCode g T e t i := hc
    obtain ⟨s, hs, hj, hr, hlo, hhi⟩ := patchLoop_changed _ _ _ _ _ _ _ _ hc2
    have hb := (scanVisits_bounds _ _ _ _ _ _ _ _ hs).2
    have hd := (jccRefs_iff_dest _ _ _ _).1 hr
    have hj2 : isJcc T.code s :=
      (isJcc_congr _ _ s (fun j h1 h2 => midCode_outside g T e t j (by omega))).1 hj
    refine ⟨s, hb, hlo, hhi, (isJcc_iff _ _).1 hj2, hd, ?_⟩
    intro h10
    unfold jccDest at hd ⊢
    rw [← read_i32_congr _ _ (s + 2)
      (fun j h1 h2 => midCode_outside g T e t j (by omega))]
    exact hd

/-- Witness for C1: the displacement of the conditional jump of `sideTrace`. -/
theorem patchexit_changes_only_stub_jumps_witness :
    lj_asm_patchexit sideStubs sideTrace 33 0x9000 2 ≠ sideTrace.code 2 ∧
    ((5 < sideTrace.szmcode ∧ sideTrace.code (sideTrace.szmcode - 5) = XI_JMP ∧
        jmpDest sideTrace.mcode sideTrace.code (sideTrace.szmcode - 5) =
          wrap32 (exitstub_addr sideStubs 33) ∧
        sideTrace.szmcode - 4 ≤ 2 ∧ 2 < sideTrace.szmcode) ∨
      ∃ s, s + 6 < sideTrace.szmcode ∧ s + 2 ≤ 2 ∧ 2 < s + 6 ∧
        ((sideTrace.code s).val = 0x0f ∧ (sideTrace.code (s + 1)).val / 16 = 8) ∧
        jccDest sideTrace.mcode (midCode sideStubs sideTrace 33 0x9000) s =
          wrap32 (exitstub_addr sideStubs 33) ∧
        (s + 10 ≤ sideTrace.szmcode →
          jccDest sideTrace.mcode sideTrace.code s = wrap32 (exitstub_addr sideStubs 33))) :=
  ⟨by decide, patchexit_changes_only_stub_jumps sideStubs sideTrace 33 0x9000 2 (by decide)⟩

/-- C1 as stated fails: on `frameTrace` the call changes byte 4, the opcode of the
trailing jmp. That byte is not in the displacement of the trailing jmp (offsets
5 to 8), and the only `0x0F 0x8x` pair whose displacement contains it (offset 0)
did not lead to the exit stub before the call. -/
theorem patchexit_frame_counterexample :
    lj_asm_patchexit frameStubs frameTrace 0 0x1109 4 ≠ frameTrace.code 4 ∧
    ¬ (frameTrace.szmcode - 4 ≤ 4) ∧
    ∀ s, s + 6 < frameTrace.szmcode → s + 2 ≤ 4 → 4 < s + 6 →
      ¬ (isJcc frameTrace.code s ∧
          jccDest frameTrace.mcode frameTrace.code s = wrap32 (exitstub_addr frameStubs 0)) := by
  refine ⟨by decide, by decide, ?_⟩
  intro s h1 h2 h3
  have hlen : frameTrace.szmcode = 9 := rfl
  have h4 : s < 3 := by omega
  interval_cases s <;> decide

/-- C2 (amended). After `lj_asm_patchexit`, every `0x0F 0x8x` pair that the scan
examines and whose destination at that moment is the exit stub is a near
conditional jump to `target`; and the trailing near jmp, if its destination was
the exit stub before the call, is a near jmp to `target`, provided the scan
patches no conditional jump in the last 10 bytes of the code, whose
displacement would overlap the trailing jmp. -/
theorem patchexit_redirects_to_target (g : Nat → Int) (T : Trace) (e : Nat) (t : Int) :
    (∀ s, s ∈ patchVisits g T e t →
        isJcc (midCode g T e t) s →
        jccDest T.mcode (midCode g T e t) s = wrap32 (exitstub_addr g e) →
        isJcc (lj_asm_patchexit g T e t) s ∧
          jccDest T.mcode (lj_asm_patchexit g T e t) s = wrap32 t) ∧
    (5 < T.szmcode → T.code (T.szmcode - 5) = XI_JMP →
        jmpDest T.mcode T.code (T.szmcode - 5) = wrap32 (exitstub_addr g e) →
        (∀ s, s ∈ patchVisits g T e t → isJcc (midCode g T e t) s →
          jccDest T.mcode (midCode g T e t) s = wrap32 (exitstub_addr g e) →
          s + 11 ≤ T.szmcode) →
        lj_asm_patchexit g T e t (T.szmcode - 5) = XI_JMP ∧
          jmpDest T.mcode (lj_asm_patchexit g T e t) (T.szmcode - 5) = wrap32 t) := by
  constructor
  · intro s hs hj hd
    exact patchLoop_patched _ _ _ _ _ _ _ _ hs hj ((jccRefs_iff_dest _ _ _ _).2 hd)
  · intro h5 hop hd hfar
    have ht : tailRefs T.mcode T.szmcode (exitstub_addr g e - 6) T.code :=
      (tailRefs_iff_dest _ _ _ _).2 ⟨h5, hop, hd⟩
    have hkeep : ∀ j, T.szmcode - 5 ≤ j →
        lj_asm_patchexit g T e t j = midCode g T e t j := by
      intro j hj
      by_contra hc
      have hc2 : patchLoop T.mcode T.szmcode (exitstub_addr g e - 6) t T.szmcode 0
          (midCode g T e t) j ≠ midCode g T e t j := hc
      obtain ⟨s, hs, hj1, hr, hlo, hhi⟩ := patchLoop_changed _ _ _ _ _ _ _ _ hc2
      have := hfar s hs hj1 ((jccRefs_iff_dest _ _ _ _).1 hr)
      omega
    have hmid : midCode g T e t =
        write_i32 T.code (T.szmcode - 4) (t - (T.mcode + T.szmcode)) := by
      unfold midCode patchTail
      rw [if_pos ht]
    constructor
    · rw [hkeep _ (le_refl _), hmid, write_i32_outside _ _ _ _ (by omega)]
      exact hop
    · unfold jmpDest
      rw [read_i32_congr _ _ (T.szmcode - 5 + 1) (fun j h1 h2 => hkeep j (by omega))]
      have e1 : T.szmcode - 5 + 1 = T.szmcode - 4 := by omega
      rw [e1, hmid]
      have hw := wrap32_read_write T.code (T.szmcode - 4) (t - (T.mcode + T.szmcode))
      have e2 : ((T.szmcode - 5 : Nat) : Int) = (T.szmcode : Int) - 5 := by omega
      rw [e2]
      unfold wrap32 at hw ⊢
      omega

/-- Witness for C2: both jumps of `sideTrace` lead to the new target. -/
theorem patchexit_redirects_to_target_witness :
    (isJcc (lj_asm_patchexit sideStubs sideTrace 33 0x9000) 0 ∧
      jccDest sideTrace.mcode (lj_asm_patchexit sideStubs sideTrace 33 0x9000) 0 =
        wrap32 0x9000) ∧
    (lj_asm_patchexit sideStubs sideTrace 33 0x9000 (sideTrace.szmcode - 5) = XI_JMP ∧
      jmpDest sideTrace.mcode (lj_asm_patchexit sideStubs sideTrace 33 0x9000)
        (sideTrace.szmcode - 5) = wrap32 0x9000) :=
  ⟨(patchexit_redirects_to_target sideStubs sideTrace 33 0x9000).1 0
      (by decide) (by decide) (by decide),
    (patchexit_redirects_to_target sideStubs sideTrace 33 0x9000).2
      (by decide) (by decide) (by decide) (by decide)⟩

/-- C2 as stated fails: the trailing jmp of `tailTrace` leads to the exit stub
before the call, and after the call it is neither a jmp nor does its
displacement lead to the target, because the scan then patches the `0x0F 0x80`
pair at offset 0, whose displacement overlaps it. -/
theorem patchexit_redirect_counterexample :
    (5 < tailTrace.szmcode ∧ tailTrace.code (tailTrace.szmcode - 5) = XI_JMP ∧
      jmpDest tailTrace.mcode tailTrace.code (tailTrace.szmcode - 5) =
        wrap32 (exitstub_addr tailStubs 0)) ∧
    lj_asm_patchexit tailStubs tailTrace 0 0x110e (tailTrace.szmcode - 5) ≠ XI_JMP ∧
    jmpDest tailTrace.mcode (lj_asm_patchexit tailStubs tailTrace 0 0x110e)
      (tailTrace.szmcode - 5) ≠ wrap32 0x110e := by
  decide

/-! ### Calling twice -/

/-- A store of the value that is already there changes nothing. -/
theorem write_i32_same (m : MCodeBuf) (o : Nat) (v : Int)
    (h : (read_u32 m o : Int) = wrap32 v) : write_i32 m o v = m := by
  funext i
  unfold write_i32
  rw [← h, Int.toNat_ofNat]
  have h0 := (m o).isLt
  have h1 := (m (o + 1)).isLt
  have h2 := (m (o + 2)).isLt
  have h3 := (m (o + 3)).isLt
  split_ifs with c0 c1 c2 c3
  · subst c0; apply Fin.ext; rw [toByte_val]; unfold read_u32; omega
  · subst c1; apply Fin.ext; rw [toByte_val]; unfold read_u32; omega
  · subst c2; apply Fin.ext; rw [toByte_val]; unfold read_u32; omega
  · subst c3; apply Fin.ext; rw [toByte_val]; unfold read_u32; omega
  · rfl

/-- The bytes of a stored displacement. -/
theorem read_u32_bytes (m : MCodeBuf) (o : Nat) (v : Int)
    (h : (read_u32 m o : Int) = wrap32 v) (k : Nat) (hk : k < 4) :
    (m (o + k)).val = (wrap32 v).toNat / 256 ^ k % 256 := by
  rw [← h, Int.toNat_ofNat]
  have h0 := (m o).isLt
  have h1 := (m (o + 1)).isLt
  have h2 := (m (o + 2)).isLt
  have h3 := (m (o + 3)).isLt
  unfold read_u32
  interval_cases k
  · norm_num; omega
  · norm_num; omega
  · norm_num; omega
  · norm_num; omega

/-- A jump whose destination is the target holds the target's displacement. -/
theorem read_u32_of_dest (mcode : Int) (m : MCodeBuf) (s : Nat) (t : Int)
    (h : jccDest mcode m s = wrap32 t) :
    (read_u32 m (s + 2) : Int) = wrap32 (t - (mcode + s + 6)) := by
  rw [← wrap32_read_i32]
  unfold jccDest at h
  unfold wrap32 at h ⊢
  omega

/-- With enough iterations, the scan examines every offset below `len - 6` that
does not lie inside a jump it has patched. -/
theorem scanVisits_cover (mcode : Int) (len : Nat) (px target : Int) :
    ∀ (fuel o : Nat) (m : MCodeBuf), len ≤ fuel + o + 6 →
      ∀ s, o ≤ s → s + 6 < len →
        s ∈ scanVisits mcode len px target fuel o m ∨
        ∃ p, p ∈ scanVisits mcode len px target fuel o m ∧ isJcc m p ∧
          jccRefs mcode px m p ∧ p < s ∧ s < p + 6 := by
  intro fuel
  induction fuel with
  | zero => intro o m hf s h1 h2; omega
  | succ n ih =>
    intro o m hf s hs1 hs2
    have h1 : o + 6 < len := by omega
    by_cases h2 : isJcc m o ∧ jccRefs mcode px m o
    · simp only [scanVisits, h1, h2, and_self, if_true, List.mem_cons]
      by_cases e0 : s = o
      · exact Or.inl (Or.inl e0)
      · by_cases e1 : s < o + 6
        · exact Or.inr ⟨o, Or.inl rfl, h2.1, h2.2, by omega, e1⟩
        · rcases ih (o + 6) (write_i32 m (o + 2) (target - (mcode + o + 6)))
              (by omega) s (by omega) hs2 with h | ⟨p, hp, hj, hr, hlo, hhi⟩
          · exact Or.inl (Or.inr h)
          · have hge := (scanVisits_bounds _ _ _ _ _ _ _ _ hp).1
            have hagree : ∀ j, p ≤ j →
                write_i32 m (o + 2) (target - (mcode + o + 6)) j = m j :=
              fun j hj => write_i32_outside _ _ _ _ (by omega)
            refine Or.inr ⟨p, Or.inr hp, ?_, ?_, hlo, hhi⟩
            · exact (isJcc_congr _ _ p (fun j h1 _ => hagree j h1)).1 hj
            · exact (jccRefs_congr _ _ _ _ p (fun j h1 _ => hagree j (by omega))).1 hr
    · simp only [scanVisits, h1, h2, if_true, if_false, List.mem_cons]
      by_cases e0 : s = o
      · exact Or.inl (Or.inl e0)
      · rcases ih (o + 1) m (by omega) s (by omega) hs2 with h | ⟨p, hp, hrest⟩
        · exact Or.inl (Or.inr h)
        · exact Or.inr ⟨p, Or.inr hp, hrest⟩

/-- The scan is the identity on code in which every jump that refers to the
exit stub already holds the displacement of the target. -/
theorem patchLoop_settled (mcode : Int) (len : Nat) (px target : Int) :
    ∀ (fuel o : Nat) (m : MCodeBuf),
      (∀ s, o ≤ s → s + 6 < len → isJcc m s → jccRefs mcode px m s →
        (read_u32 m (s + 2) : Int) = wrap32 (target - (mcode + s + 6))) →
      patchLoop mcode len px target fuel o m = m := by
  intro fuel
  induction fuel with
  | zero => intro o m _; rfl
  | succ n ih =>
    intro o m h
    by_cases h1 : o + 6 < len
    · by_cases h2 : isJcc m o ∧ jccRefs mcode px m o
      · simp only [patchLoop, h1, h2, and_self, if_true]
        rw [write_i32_same m (o + 2) _ (h o (le_refl _) h1 h2.1 h2.2)]
        exact ih (o + 6) m (fun s hs => h s (by omega))
      · simp only [patchLoop, h1, h2, if_true, if_false]
        exact ih (o + 1) m (fun s hs => h s (by omega))
    · simp [patchLoop, h1]

/-- C3 (amended). For a trace in whose code no two `0x0F 0x8x` pairs lie within
6 bytes of one another and none lies in the last 10 bytes, and for a target
whose displacement from each jump that leads to the exit stub contains no byte
`0x0F`, calling `lj_asm_patchexit` a second time with the same arguments leaves
the machine code exactly as it was after the first call. -/
theorem patchexit_twice (g : Nat → Int) (T : Trace) (e : Nat) (t : Int)
    (hsep : ∀ s s', s < s' → s' < s + 6 → s' + 6 < T.szmcode →
      ¬ (isJcc T.code s ∧ isJcc T.code s'))
    (hend : ∀ s, s + 6 < T.szmcode → isJcc T.code s → s + 11 ≤ T.szmcode)
    (hnew : ∀ s, s + 6 < T.szmcode → isJcc T.code s →
      jccDest T.mcode T.code s = wrap32 (exitstub_addr g e) →
      ∀ k, k < 4 → (wrap32 (t - (T.mcode + s + 6))).toNat / 256 ^ k % 256 ≠ 0x0f) :
    lj_asm_patchexit g (T.withCode (lj_asm_patchexit g T e t)) e t =
      lj_asm_patchexit g T e t := by
  obtain ⟨m1, hm1⟩ : ∃ m1, m1 = lj_asm_patchexit g T e t := ⟨_, rfl⟩
  obtain ⟨mid, hmid⟩ : ∃ mid, mid = midCode g T e t := ⟨_, rfl⟩
  obtain ⟨px, hpx⟩ : ∃ px, px = exitstub_addr g e - 6 := ⟨_, rfl⟩
  have hloop : m1 = patchLoop T.mcode T.szmcode px t T.szmcode 0 mid := by
    rw [hm1, hmid, hpx]; rfl
  -- the jumps patched by the first call
  have hchg : ∀ j, m1 j ≠ mid j →
      ∃ p, (p ∈ scanVisits T.mcode T.szmcode px t T.szmcode 0 mid ∧ isJcc mid p ∧
        jccRefs T.mcode px mid p) ∧ p + 2 ≤ j ∧ j < p + 6 := by
    intro j hj
    rw [hloop] at hj
    obtain ⟨p, h1, h2, h3, h4, h5⟩ := patchLoop_changed _ _ _ _ _ _ _ _ hj
    exact ⟨p, ⟨h1, h2, h3⟩, h4, h5⟩
  have hB : ∀ p, (p ∈ scanVisits T.mcode T.szmcode px t T.szmcode 0 mid ∧ isJcc mid p ∧
        jccRefs T.mcode px mid p) →
      p + 6 < T.szmcode ∧ isJcc T.code p ∧ p + 11 ≤ T.szmcode ∧
        jccDest T.mcode T.code p = wrap32 (exitstub_addr g e) := by
    rintro p ⟨hv, hj, hr⟩
    have hb := (scanVisits_bounds _ _ _ _ _ _ _ _ hv).2
    have hjc : isJcc T.code p := by
      rw [hmid] at hj
      exact (isJcc_congr _ _ p (fun j h1 h2 => midCode_outside g T e t j (by omega))).1 hj
    have h11 := hend p hb hjc
    refine ⟨hb, hjc, h11, ?_⟩
    rw [hmid, hpx] at hr
    have hr2 := (jccRefs_congr _ _ _ _ p
      (fun j h1 h2 => midCode_outside g T e t j (by omega))).1 hr
    exact (jccRefs_iff_dest _ _ _ _).1 hr2
  have hC : ∀ p, (p ∈ scanVisits T.mcode T.szmcode px t T.szmcode 0 mid ∧ isJcc mid p ∧
        jccRefs T.mcode px mid p) →
      isJcc m1 p ∧ (read_u32 m1 (p + 2) : Int) = wrap32 (t - (T.mcode + p + 6)) := by
    rintro p ⟨hv, hj, hr⟩
    have h := patchLoop_patched _ _ _ _ _ _ _ _ hv hj hr
    rw [← hloop] at h
    exact ⟨h.1, read_u32_of_dest _ _ _ _ h.2⟩
  -- a pair in the patched code was a pair before
  have hpair : ∀ s, isJcc m1 s → ∀ j, s ≤ j → j ≤ s + 1 → m1 j = mid j := by
    intro s hj j hj1 hj2
    have b0 : (m1 s).val = 0x0f := ((isJcc_iff _ _).1 hj).1
    by_contra hne
    obtain ⟨p, hP, hlo, hhi⟩ := hchg j hne
    obtain ⟨hpj, hpu⟩ := hC p hP
    obtain ⟨hb1, hb2, hb3, hb4⟩ := hB p hP
    by_cases hin : p + 2 ≤ s
    · have hk := read_u32_bytes m1 (p + 2) _ hpu (s - (p + 2)) (by omega)
      have e1 : p + 2 + (s - (p + 2)) = s := by omega
      rw [e1, b0] at hk
      exact hnew p hb1 hb2 hb4 _ (by omega) hk.symm
    · have e1 : s = p + 1 := by omega
      subst e1
      have := ((isJcc_iff _ _).1 hpj).2
      omega
  -- the scan of the second call finds every jump settled
  have hsettled : ∀ s, 0 ≤ s → s + 6 < T.szmcode → isJcc m1 s → jccRefs T.mcode px m1 s →
      (read_u32 m1 (s + 2) : Int) = wrap32 (t - (T.mcode + s + 6)) := by
    intro s _ hs hj hr
    by_cases hPs : s ∈ scanVisits T.mcode T.szmcode px t T.szmcode 0 mid ∧ isJcc mid s ∧
        jccRefs T.mcode px mid s
    · exact (hC s hPs).2
    · exfalso
      have hjmid : isJcc mid s :=
        (isJcc_congr m1 mid s (fun j h1 h2 => hpair s hj j h1 (by omega))).1 hj
      have hjc : isJcc T.code s := by
        rw [hmid] at hjmid
        exact (isJcc_congr _ _ s
          (fun j h1 h2 => midCode_outside g T e t j (by omega))).1 hjmid
      have hdisp : ∀ j, s + 2 ≤ j → j < s + 6 → m1 j = mid j := by
        intro j h1 h2
        by_contra hne
        obtain ⟨p, hP, hlo, hhi⟩ := hchg j hne
        have hpne : p ≠ s := fun h => hPs (h ▸ hP)
        obtain ⟨hb1, hb2, _, _⟩ := hB p hP
        rcases Nat.lt_or_gt_of_ne hpne with hlt | hgt
        · exact hsep p s hlt (by omega) hs ⟨hb2, hjc⟩
        · exact hsep s p hgt (by omega) hb1 ⟨hjc, hb2⟩
      have hrmid : jccRefs T.mcode px mid s := (jccRefs_congr _ _ m1 mid s hdisp).1 hr
      rcases scanVisits_cover T.mcode T.szmcode px t T.szmcode 0 mid (by omega) s
          (Nat.zero_le _) hs with hv | ⟨p, hp, hpj, hpr, hlo, hhi⟩
      · exact hPs ⟨hv, hjmid, hrmid⟩
      · obtain ⟨hb1, hb2, _, _⟩ := hB p ⟨hp, hpj, hpr⟩
        exact hsep p s hlo hhi hs ⟨hb2, hjc⟩
  -- the trailing jump
  have htail : patchTail T.mcode T.szmcode px t m1 = m1 := by
    unfold patchTail
    split
    · rename_i ht
      apply write_i32_same
      have h5 : 5 < T.szmcode := ht.1
      have hkeep : ∀ j, T.szmcode - 5 ≤ j → m1 j = mid j := by
        intro j hj
        by_contra hne
        obtain ⟨p, hP, hlo, hhi⟩ := hchg j hne
        have := (hB p hP).2.2.1
        omega
      by_cases htc : tailRefs T.mcode T.szmcode px T.code
      · have hmid2 : mid = write_i32 T.code (T.szmcode - 4) (t - (T.mcode + T.szmcode)) := by
          rw [hmid, hpx] at *
          unfold midCode patchTail
          rw [if_pos htc]
        rw [read_u32_congr m1 mid (T.szmcode - 4) (fun j h1 _ => hkeep j (by omega)), hmid2]
        exact read_u32_write_i32 _ _ _
      · exfalso
        have hmid2 : mid = T.code := by
          rw [hmid, hpx] at *
          unfold midCode patchTail
          rw [if_neg htc]
        apply htc
        refine ⟨ht.1, ?_, ?_⟩
        · rw [← hmid2, ← hkeep _ (le_refl _)]
          exact ht.2.1
        · rw [← read_i32_congr m1 T.code (T.szmcode - 4)
            (fun j h1 _ => by rw [hkeep j (by omega), hmid2])]
          exact ht.2.2
    · rfl
  have hgoal : lj_asm_patchexit g (T.withCode m1) e t =
      patchLoop T.mcode T.szmcode px t T.szmcode 0 (patchTail T.mcode T.szmcode px t m1) := by
    rw [hpx]; rfl
  rw [← hm1, hgoal, htail]
  exact patchLoop_settled _ _ _ _ _ _ _ hsettled

/-- Witness for C3: `sideTrace` with the target `0x9000`. -/
theorem patchexit_twice_witness :
    (∀ s s', s < s' → s' < s + 6 → s' + 6 < sideTrace.szmcode →
      ¬ (isJcc sideTrace.code s ∧ isJcc sideTrace.code s')) ∧
    (∀ s, s + 6 < sideTrace.szmcode → isJcc sideTrace.code s → s + 11 ≤ sideTrace.szmcode) ∧
    lj_asm_patchexit sideStubs
        (sideTrace.withCode (lj_asm_patchexit sideStubs sideTrace 33 0x9000)) 33 0x9000 =
      lj_asm_patchexit sideStubs sideTrace 33 0x9000 := by
  have hlen : sideTrace.szmcode = 16 := rfl
  have h1 : ∀ s s', s < s' → s' < s + 6 → s' + 6 < sideTrace.szmcode →
      ¬ (isJcc sideTrace.code s ∧ isJcc sideTrace.code s') := by
    intro s s' a b c
    have hs' : s' < 10 := by omega
    interval_cases s' <;> interval_cases s <;> first | omega | decide
  have h2 : ∀ s, s + 6 < sideTrace.szmcode → isJcc sideTrace.code s →
      s + 11 ≤ sideTrace.szmcode := by
    intro s a
    have hs : s < 10 := by omega
    interval_cases s <;> decide
  exact ⟨h1, h2, patchexit_twice sideStubs sideTrace 33 0x9000 h1 h2 (by
    intro s a
    have hs : s < 10 := by omega
    interval_cases s <;> intro b c k hk <;> interval_cases k <;> revert b c <;> decide)⟩

/-- C3 as stated fails: on `twiceTrace` the first call stores the displacement
`0x0000800F`, whose low bytes form a new `0x0F 0x80` pair at offset 2; the
second call takes that pair for a jump to the exit stub and changes byte 4. -/
theorem patchexit_twice_counterexample :
    lj_asm_patchexit twiceStubs
        (twiceTrace.withCode (lj_asm_patchexit twiceStubs twiceTrace 0 0x9015)) 0 0x9015 4 ≠
      lj_asm_patchexit twiceStubs twiceTrace 0 0x9015 4 := by
  decide

/-! ## Properties of the loop optimiser -/

/-- C4 fails on the code: for `invPhiLoop` the candidate `0x8001` is invariant
(its substitution is itself) and is marked in pass #1; the candidate `0x8006`
needs pass #2, which clears the mark of `0x8001` again because the loop body
uses it (`MUL 0x8001 0x8001` at `0x8008`); pass #4 then appends `PHI 0x8001
0x8001` at the reference `0x800b`. -/
theorem loop_emit_phi_identical_operands :
    invPhiLoop.cur.nins ≤ 0x800b ∧
    0x800b < (loop_unroll exampleExtern invPhiLoop).state.cur.nins ∧
    (loop_unroll exampleExtern invPhiLoop).isOk ∧
    ((loop_unroll exampleExtern invPhiLoop).state.cur.ir 0x800b).o = IR_PHI ∧
    ((loop_unroll exampleExtern invPhiLoop).state.cur.ir 0x800b).op1 = 0x8001 ∧
    ((loop_unroll exampleExtern invPhiLoop).state.cur.ir 0x800b).op2 = 0x8001 := by
  decide!

/-- C5 as stated fails: for the loop that swaps two variables, the PHI emitted at
`0x8004` has the right operand `0x8001`, below the LOOP instruction at `0x8003`. -/
theorem loop_phi_right_operand_counterexample :
    ((loop_unroll exampleExtern swapLoop).state.cur.ir 0x8003).o = IR_LOOP ∧
    swapLoop.cur.nins ≤ 0x8004 ∧
    0x8004 < (loop_unroll exampleExtern swapLoop).state.cur.nins ∧
    ((loop_unroll exampleExtern swapLoop).state.cur.ir 0x8004).o = IR_PHI ∧
    ¬ (0x8003 < ((loop_unroll exampleExtern swapLoop).state.cur.ir 0x8004).op2) := by
  decide!

/-- C9 as stated fails: for a slot that is an integer in the pre-roll and a number
at the end of the body, `loop_unroll` throws the type instability error. -/
theorem loop_unroll_int_to_num_counterexample :
    irt_isinteger (intNumLoop.cur.ir 0x8001).t ∧
    irt_isnum (intNumLoop.cur.ir (tref_ref (intNumLoop.slot 1))).t ∧
    (loop_unroll exampleExtern intNumLoop).raises .TYPEINS := by
  decide

/-- C10 as stated fails: with `maxsnap = 100` and exactly 100 snapshots in a
buffer of 100 entries, `loop_unroll` throws the snapshot overflow error. -/
theorem loop_unroll_snap_ceiling_counterexample :
    (fullSnapLoop.cur.nsnap : Int) = fullSnapLoop.maxsnap ∧
    (loop_unroll exampleExtern fullSnapLoop).raises .SNAPOV := by
  decide

/-! ### Types of loop-carried values -/

theorem irt_type_le (t : Nat) : t &&& IRT_TYPE ≤ 31 := Nat.and_le_right

theorem irt_sametype_iff (t1 t2 : Nat) :
    irt_sametype t1 t2 ↔ (t1 &&& IRT_TYPE) = (t2 &&& IRT_TYPE) := by
  unfold irt_sametype
  rw [Nat.and_xor_distrib_right, Nat.xor_eq_zero]

theorem irt_isinteger_iff (t : Nat) :
    irt_isinteger t ↔ 13 ≤ (t &&& IRT_TYPE) ∧ (t &&& IRT_TYPE) ≤ 17 := by
  have h := irt_type_le t
  unfold irt_isinteger irt_typerange IRT_INT IRT_U16
  constructor
  · intro h1; omega
  · intro h1; omega

theorem irt_isnum_iff (t : Nat) : irt_isnum t ↔ (t &&& IRT_TYPE) = 12 := by
  unfold irt_isnum irt_type IRT_NUM
  exact Iff.rfl

/-- The type check of a loop-carried dependency, by the cases of the source: for
the original type `t` and the type `t'` of the re-emitted reference `ref`, if
the types are the same nothing is inserted; if `t` is number and `t'` is an
integer type the substitution of `ins` becomes the reference that the emission
of `TONUM ref` returns; if both are integer types no error is raised and
nothing is inserted; in every other case the type instability error is thrown.
The check of the PHI overflow comes before it in `loop_unroll`. -/
theorem unroll_typecheck_cases (E : Extern) (ins ref t : Nat) (subst : Nat → Nat)
    (J : jit_State) :
    (irt_sametype t (J.cur.ir ref).t → unroll_typecheck E ins ref t subst J = .ok subst J) ∧
    (irt_isnum t → irt_isinteger (J.cur.ir ref).t →
      unroll_typecheck E ins ref t subst J =
        match emitir E J (IRTN IR_TONUM) ref 0 with
        | .ok tr J1 => .ok (upd subst ins (tref_ref tr)) J1
        | .raise e J1 => .raise e J1) ∧
    (irt_isinteger t → irt_isinteger (J.cur.ir ref).t →
      unroll_typecheck E ins ref t subst J = .ok subst J) ∧
    (¬ irt_sametype t (J.cur.ir ref).t → ¬ (irt_isnum t ∧ irt_isinteger (J.cur.ir ref).t) →
      ¬ (irt_isinteger t ∧ irt_isinteger (J.cur.ir ref).t) →
      unroll_typecheck E ins ref t subst J = .raise (.trace .TYPEINS) J) := by
  refine ⟨?_, ?_, ?_, ?_⟩
  · intro h
    unfold unroll_typecheck
    rw [if_neg (not_not.2 h)]
  · intro h1 h2
    have hne : ¬ irt_sametype t (J.cur.ir ref).t := by
      rw [irt_sametype_iff]
      rw [irt_isnum_iff] at h1
      rw [irt_isinteger_iff] at h2
      omega
    unfold unroll_typecheck
    rw [if_pos hne, if_pos ⟨h1, h2⟩]
  · intro h1 h2
    have hnum : ¬ irt_isnum t := by
      rw [irt_isnum_iff]
      rw [irt_isinteger_iff] at h1
      omega
    unfold unroll_typecheck
    split
    · rw [if_neg (fun h => hnum h.1), if_neg (not_not.2 ⟨h1, h2⟩)]
    · rfl
  · intro h1 h2 h3
    unfold unroll_typecheck
    rw [if_pos h1, if_neg h2, if_pos h3]

/-- The type check of a loop-carried dependency for a number and an integer:
when the original instruction is number-typed and the re-emitted value is
integer-typed, the check emits `TONUM ref` and makes the returned reference the
substitution of `ins`; in the reverse case it throws the type instability
error. -/
theorem unroll_typecheck_num_int (E : Extern) (ins ref t : Nat) (subst : Nat → Nat)
    (J : jit_State) :
    (irt_isnum t → irt_isinteger (J.cur.ir ref).t →
      ∀ tr J1, emitir E J (IRTN IR_TONUM) ref 0 = .ok tr J1 →
        unroll_typecheck E ins ref t subst J = .ok (upd subst ins (tref_ref tr)) J1) ∧
    (irt_isinteger t → irt_isnum (J.cur.ir ref).t →
      unroll_typecheck E ins ref t subst J = .raise (.trace .TYPEINS) J) := by
  constructor
  · intro h1 h2 tr J1 he
    have hne : ¬ irt_sametype t (J.cur.ir ref).t := by
      rw [irt_sametype_iff]
      rw [irt_isnum_iff] at h1
      rw [irt_isinteger_iff] at h2
      omega
    unfold unroll_typecheck
    rw [if_pos hne, if_pos ⟨h1, h2⟩, he]
  · intro h1 h2
    have hi := (irt_isinteger_iff t).1 h1
    have hn := (irt_isnum_iff (J.cur.ir ref).t).1 h2
    have hne : ¬ irt_sametype t (J.cur.ir ref).t := by
      rw [irt_sametype_iff]; omega
    have hnum : ¬ (irt_isnum t ∧ irt_isinteger (J.cur.ir ref).t) := by
      rw [irt_isnum_iff]; omega
    have hint : ¬ (irt_isinteger t ∧ irt_isinteger (J.cur.ir ref).t) := by
      rw [irt_isinteger_iff, irt_isinteger_iff]; omega
    unfold unroll_typecheck
    rw [if_pos hne, if_neg hnum, if_pos hint]

/-! ### The capacity check -/

theorem snapOverflow_congr (J' J : jit_State) (h1 : J'.cur.nsnap = J.cur.nsnap)
    (h2 : J'.sizesnap = J.sizesnap) (h3 : J'.maxsnap = J.maxsnap) :
    snapOverflow J' ↔ snapOverflow J := by
  unfold snapOverflow
  rw [h1, h2, h3]

theorem unroll_reserve_raise (E : Extern) (J : jit_State) (h : snapOverflow J) :
    unroll_reserve E J = .raise (.trace .SNAPOV) J := by
  unfold snapOverflow at h
  unfold unroll_reserve
  rw [if_pos h.1, if_pos h.2]

theorem unroll_reserve_ok (E : Extern) (J : jit_State) (h : ¬ snapOverflow J) :
    (unroll_reserve E J).isOk := by
  unfold snapOverflow at h
  unfold unroll_reserve
  by_cases h1 : u32 (2 * (J.cur.nsnap : Int) - 2) > J.sizesnap
  · have h2 : ¬ u32 (2 * (J.cur.nsnap : Int) - 2) > u32 J.maxsnap := fun h2 => h ⟨h1, h2⟩
    rw [if_pos h1, if_neg h2]
    dsimp only
    split <;> trivial
  · rw [if_neg h1]
    dsimp only
    split <;> trivial

theorem emitir_raw_ok (J : jit_State) (ot a b : Nat) (h : J.cur.nins < J.irtoplim) :
    emitir_raw J ot a b = .ok (TREF J.cur.nins (ot % 256)) (lj_ir_set J ot a b).appendIns := by
  unfold emitir_raw lj_ir_emit
  have hn : ¬ (lj_ir_set J ot a b).cur.nins ≥ (lj_ir_set J ot a b).irtoplim := by
    show ¬ J.cur.nins ≥ J.irtoplim
    omega
  rw [if_neg hn]
  rfl

theorem unroll_body_snapov (E : Extern) (J : jit_State) (h : snapOverflow J)
    (hlim : J.cur.nins < J.irtoplim) :
    unroll_body E J =
      .raise (.trace .SNAPOV) (lj_ir_set J (IRTG IR_LOOP IRT_NIL) 0 0).appendIns := by
  have h1 : snapOverflow (lj_ir_set J (IRTG IR_LOOP IRT_NIL) 0 0).appendIns :=
    (snapOverflow_congr _ J rfl rfl rfl).2 h
  unfold unroll_body
  rw [emitir_raw_ok J _ 0 0 hlim]
  dsimp only
  rw [unroll_reserve_raise E _ h1]

/-- C10 (amended). The capacity check of `loop_unroll` throws the snapshot overflow
error exactly when `2*nsnap-2` exceeds both the size of the snapshot buffer and
`maxsnap`; then `loop_unroll` throws it as soon as the LOOP instruction has
been emitted, and otherwise the check passes. -/
theorem unroll_reserve_snapov (E : Extern) (J : jit_State) :
    ((unroll_reserve E J).raises .SNAPOV ↔ snapOverflow J) ∧
    (snapOverflow J → J.cur.nins < J.irtoplim → (loop_unroll E J).raises .SNAPOV) ∧
    (¬ snapOverflow J → (unroll_reserve E J).isOk) := by
  refine ⟨?_, ?_, unroll_reserve_ok E J⟩
  · constructor
    · intro hr
      by_contra hc
      have hok := unroll_reserve_ok E J hc
      revert hr hok
      cases unroll_reserve E J <;> simp [Res.raises, Res.isOk]
    · intro h
      rw [unroll_reserve_raise E J h]
      rfl
  · intro h hlim
    unfold loop_unroll
    rw [unroll_body_snapov E J h hlim]
    exact rfl

/-- Witness for C10: at the ceiling `maxsnap` the error is thrown, with two
snapshots it is not. -/
theorem unroll_reserve_snapov_witness :
    (loop_unroll exampleExtern fullSnapLoop).raises .SNAPOV ∧
    (unroll_reserve exampleExtern incLoop).isOk :=
  ⟨(unroll_reserve_snapov exampleExtern fullSnapLoop).2.1 (by decide) (by decide),
    (unroll_reserve_snapov exampleExtern incLoop).2.2 (by decide)⟩

/-! ### What the loop optimiser leaves alone -/

theorem Keeps.refl (J : jit_State) : Keeps J J := ⟨rfl, rfl, rfl⟩

theorem Keeps.trans {A B C : jit_State} (h1 : Keeps A B) (h2 : Keeps B C) : Keeps A C :=
  ⟨h2.1.trans h1.1, h2.2.1.trans h1.2.1, h2.2.2.trans h1.2.2⟩

theorem keeps_lj_ir_set (J : jit_State) (ot a b : Nat) : Keeps J (lj_ir_set J ot a b) :=
  ⟨rfl, rfl, rfl⟩

theorem keeps_appendIns (J : jit_State) : Keeps J J.appendIns := ⟨rfl, rfl, rfl⟩

theorem keeps_setT (J : jit_State) (ref : Nat) (f : Nat → Nat) : Keeps J (J.setT ref f) :=
  ⟨rfl, rfl, rfl⟩

theorem keeps_lj_ir_emit (J : jit_State) : Keeps J (lj_ir_emit J).state := by
  unfold lj_ir_emit
  split
  · exact Keeps.refl J
  · exact keeps_appendIns J

theorem keeps_emitir_raw (J : jit_State) (ot a b : Nat) :
    Keeps J (emitir_raw J ot a b).state :=
  (keeps_lj_ir_set J ot a b).trans (keeps_lj_ir_emit _)

theorem keeps_emitir (E : Extern) (hfold : ∀ J, Keeps J (E.lj_opt_fold J).state)
    (J : jit_State) (ot a b : Nat) : Keeps J (emitir E J ot a b).state :=
  (keeps_lj_ir_set J ot a b).trans (hfold _)

theorem keeps_unroll_reserve (E : Extern) (J : jit_State) :
    Keeps J (unroll_reserve E J).state := by
  unfold unroll_reserve
  by_cases h1 : u32 (2 * (J.cur.nsnap : Int) - 2) > J.sizesnap
  · by_cases h2 : u32 (2 * (J.cur.nsnap : Int) - 2) > u32 J.maxsnap
    · rw [if_pos h1, if_pos h2]
      exact Keeps.refl J
    · rw [if_pos h1, if_neg h2]
      dsimp only
      split <;> exact ⟨rfl, rfl, rfl⟩
  · rw [if_neg h1]
    dsimp only
    split <;> exact ⟨rfl, rfl, rfl⟩

theorem keeps_unroll_snapshot (loopmap loopslots : Nat) (S : UnrollState) (J : jit_State) :
    Keeps J (unroll_snapshot loopmap loopslots S J).2 := ⟨rfl, rfl, rfl⟩

theorem keeps_unroll_typecheck (E : Extern) (hfold : ∀ J, Keeps J (E.lj_opt_fold J).state)
    (ins ref t : Nat) (subst : Nat → Nat) (J : jit_State) :
    Keeps J (unroll_typecheck E ins ref t subst J).state := by
  unfold unroll_typecheck
  split
  · split
    · have h := keeps_emitir E hfold J (IRTN IR_TONUM) ref 0
      cases hr : emitir E J (IRTN IR_TONUM) ref 0 with
      | ok tr J1 => rw [hr] at h; exact h
      | raise e J1 => rw [hr] at h; exact h
    · split
      · exact Keeps.refl J
      · exact Keeps.refl J
  · exact Keeps.refl J

theorem keeps_unroll_carried (E : Extern) (hfold : ∀ J, Keeps J (E.lj_opt_fold J).state)
    (ins ref t : Nat) (S : UnrollState) (J : jit_State) :
    Keeps J (unroll_carried E ins ref t S J).state := by
  unfold unroll_carried
  split
  · split
    · exact keeps_setT J ref irt_setphi
    · have h := keeps_unroll_typecheck E hfold ins ref t S.subst (J.setT ref irt_setphi)
      cases hr : unroll_typecheck E ins ref t S.subst (J.setT ref irt_setphi) with
      | ok tr J1 => rw [hr] at h; exact (keeps_setT J ref irt_setphi).trans h
      | raise e J1 => rw [hr] at h; exact (keeps_setT J ref irt_setphi).trans h
  · have h := keeps_unroll_typecheck E hfold ins ref t S.subst J
    cases hr : unroll_typecheck E ins ref t S.subst J with
    | ok tr J1 => rw [hr] at h; exact h
    | raise e J1 => rw [hr] at h; exact h

theorem keeps_unroll_subst (E : Extern) (hfold : ∀ J, Keeps J (E.lj_opt_fold J).state)
    (invar ins : Nat) (S : UnrollState) (J : jit_State) :
    Keeps J (unroll_subst E invar ins S J).state := by
  unfold unroll_subst
  dsimp only
  generalize (if ¬ irref_isk (J.cur.ir ins).op1 then S.subst (J.cur.ir ins).op1
    else (J.cur.ir ins).op1) = op1
  generalize (if ¬ irref_isk (J.cur.ir ins).op2 then S.subst (J.cur.ir ins).op2
    else (J.cur.ir ins).op2) = op2
  by_cases hc : irm_kind (lj_ir_mode (J.cur.ir ins).o) = IRM_N ∧ op1 = (J.cur.ir ins).op1 ∧
      op2 = (J.cur.ir ins).op2
  · rw [if_pos hc]
    exact Keeps.refl J
  · rw [if_neg hc]
    have h1 := keeps_emitir E hfold J ((J.cur.ir ins).ot &&& (0xffff ^^^ IRT_ISPHI)) op1 op2
    cases hr : emitir E J ((J.cur.ir ins).ot &&& (0xffff ^^^ IRT_ISPHI)) op1 op2 with
    | raise e J1 => rw [hr] at h1; exact h1
    | ok tr J1 =>
      rw [hr] at h1
      dsimp only
      by_cases hd : tref_ref tr ≠ ins ∧ tref_ref tr < invar
      · rw [if_pos hd]
        exact h1.trans (keeps_unroll_carried E hfold _ _ _ _ _)
      · rw [if_neg hd]
        exact h1

theorem keeps_unroll_ins (E : Extern) (hfold : ∀ J, Keeps J (E.lj_opt_fold J).state)
    (invar loopmap loopslots ins : Nat) (S : UnrollState) (J : jit_State) :
    Keeps J (unroll_ins E invar loopmap loopslots ins S J).state := by
  unfold unroll_ins
  split
  · exact (keeps_unroll_snapshot loopmap loopslots S J).trans
      (keeps_unroll_subst E hfold _ _ _ _)
  · exact keeps_unroll_subst E hfold _ _ _ _

theorem keeps_unroll_loop (E : Extern) (hfold : ∀ J, Keeps J (E.lj_opt_fold J).state)
    (invar loopmap loopslots : Nat) :
    ∀ (fuel ins : Nat) (S : UnrollState) (J : jit_State),
      Keeps J (unroll_loop E invar loopmap loopslots fuel ins S J).state := by
  intro fuel
  induction fuel with
  | zero => intro ins S J; exact Keeps.refl J
  | succ n ih =>
    intro ins S J
    unfold unroll_loop
    split
    · have h := keeps_unroll_ins E hfold invar loopmap loopslots ins S J
      cases hr : unroll_ins E invar loopmap loopslots ins S J with
      | raise e J1 => rw [hr] at h; exact h
      | ok S1 J1 => rw [hr] at h; exact h.trans (ih _ _ _)
    · exact Keeps.refl J

/-- A throw of `unroll_body` leaves the unroll counter and the snapshot counts as
they were; a return leaves the unroll counter as it was. -/
theorem unroll_body_keeps (E : Extern) (hfold : ∀ J, Keeps J (E.lj_opt_fold J).state)
    (J : jit_State) :
    (unroll_body E J).state.instunroll = J.instunroll ∧
    (¬ (unroll_body E J).isOk → Keeps J (unroll_body E J).state) := by
  unfold unroll_body
  have h1 := keeps_emitir_raw J (IRTG IR_LOOP IRT_NIL) 0 0
  cases hr1 : emitir_raw J (IRTG IR_LOOP IRT_NIL) 0 0 with
  | raise e J1 => rw [hr1] at h1; exact ⟨h1.1, fun _ => h1⟩
  | ok tr J1 =>
    rw [hr1] at h1
    dsimp only
    have h2 := keeps_unroll_reserve E J1
    cases hr2 : unroll_reserve E J1 with
    | raise e J2 => rw [hr2] at h2; exact ⟨(h1.trans h2).1, fun _ => h1.trans h2⟩
    | ok u J2 =>
      rw [hr2] at h2
      dsimp only
      have h3 := keeps_unroll_loop E hfold J.cur.nins (J2.cur.snap (J2.cur.nsnap - 1)).mapofs
        (J2.cur.snap (J2.cur.nsnap - 1)).nslots J.cur.nins REF_FIRST
        { subst := upd E.tmpbuf REF_BASE REF_BASE, phi := [], snap := J2.cur.nsnap - 1,
          osnap := 1, osnapref := (J2.cur.snap 1).ref, nsnapmap := J2.cur.nsnapmap } J2
      cases hr3 : unroll_loop E J.cur.nins (J2.cur.snap (J2.cur.nsnap - 1)).mapofs
        (J2.cur.snap (J2.cur.nsnap - 1)).nslots J.cur.nins REF_FIRST
        { subst := upd E.tmpbuf REF_BASE REF_BASE, phi := [], snap := J2.cur.nsnap - 1,
          osnap := 1, osnapref := (J2.cur.snap 1).ref, nsnapmap := J2.cur.nsnapmap } J2 with
      | raise e J3 =>
        rw [hr3] at h3
        exact ⟨((h1.trans h2).trans h3).1, fun _ => (h1.trans h2).trans h3⟩
      | ok S J3 =>
        rw [hr3] at h3
        dsimp only
        split
        · exact ⟨((h1.trans h2).trans h3).1, fun h => absurd trivial h⟩
        · exact ⟨((h1.trans h2).trans h3).1, fun h => absurd trivial h⟩

theorem emitir_raw_raise (J : jit_State) (ot a b : Nat) (e : Thrown) (J1 : jit_State)
    (h : emitir_raw J ot a b = .raise e J1) : e = .trace .IROV := by
  unfold emitir_raw lj_ir_emit at h
  split at h
  · injection h with h1 h2
    exact h1.symm
  · exact Res.noConfusion h

theorem emitir_raw_state (J : jit_State) (ot a b : Nat) (tr : Nat) (J1 : jit_State)
    (h : emitir_raw J ot a b = .ok tr J1) : J1 = (lj_ir_set J ot a b).appendIns := by
  unfold emitir_raw lj_ir_emit at h
  split at h
  · exact Res.noConfusion h
  · injection h with h1 h2
    exact h2.symm

/-- Pass #3 only sets flags; it throws nothing but the PHI overflow error. -/
theorem phi_pass3_spec (M : Nat) (subst : Nat → Nat) (nslots : Nat) :
    ∀ (fuel i : Nat) (phi : List Nat) (J : jit_State),
      Keeps J (phi_pass3 M subst nslots fuel i phi J).state ∧
      (phi_pass3 M subst nslots fuel i phi J).state.cur.nins = J.cur.nins ∧
      (∀ e J1, phi_pass3 M subst nslots fuel i phi J = .raise e J1 → e = .trace .PHIOV) ∧
      (∀ phi1 J1, phi_pass3 M subst nslots fuel i phi J = .ok phi1 J1 →
        ∀ l, l ∈ phi1 → l ∈ phi ∨ ∃ k, i ≤ k ∧ k < nslots ∧ l = tref_ref (J.slot k)) := by
  intro fuel
  induction fuel with
  | zero =>
    intro i phi J
    refine ⟨Keeps.refl J, rfl, ?_, ?_⟩
    · intro e J1 h; exact Res.noConfusion h
    · intro phi1 J1 h l hl
      injection h with h1 h2
      subst h1
      exact Or.inl hl
  | succ n ih =>
    intro i phi J
    unfold phi_pass3
    by_cases hi : i < nslots
    · rw [if_pos hi]
      dsimp only
      by_cases hc : ¬ irref_isk (tref_ref (J.slot i)) ∧
          tref_ref (J.slot i) ≠ subst (tref_ref (J.slot i))
      · rw [if_pos hc]
        by_cases hd : ¬ irt_isphi ((J.setT (tref_ref (J.slot i)) irt_clearmark).cur.ir
            (tref_ref (J.slot i))).t ∧
            ¬ irt_ispri ((J.setT (tref_ref (J.slot i)) irt_clearmark).cur.ir
              (tref_ref (J.slot i))).t
        · rw [if_pos hd]
          by_cases hm : phi.length ≥ M
          · rw [if_pos hm]
            refine ⟨⟨rfl, rfl, rfl⟩, rfl, ?_, ?_⟩
            · intro e J1 h
              injection h with h1 h2
              exact h1.symm
            · intro phi1 J1 h; exact Res.noConfusion h
          · rw [if_neg hm]
            obtain ⟨k1, k2, k3, k4⟩ := ih (i + 1) (phi ++ [tref_ref (J.slot i)])
              ((J.setT (tref_ref (J.slot i)) irt_clearmark).setT (tref_ref (J.slot i))
                irt_setphi)
            refine ⟨Keeps.trans ⟨rfl, rfl, rfl⟩ k1, k2, k3, ?_⟩
            intro phi1 J1 h l hl
            rcases k4 phi1 J1 h l hl with h1 | ⟨k, hk⟩
            · rcases List.mem_append.1 h1 with h2 | h2
              · exact Or.inl h2
              · right
                refine ⟨i, le_refl _, hi, ?_⟩
                simpa using h2
            · exact Or.inr ⟨k, by omega, hk.2.1, hk.2.2⟩
        · rw [if_neg hd]
          obtain ⟨k1, k2, k3, k4⟩ := ih (i + 1) phi
            (J.setT (tref_ref (J.slot i)) irt_clearmark)
          refine ⟨Keeps.trans ⟨rfl, rfl, rfl⟩ k1, k2, k3, ?_⟩
          intro phi1 J1 h l hl
          rcases k4 phi1 J1 h l hl with h1 | ⟨k, hk⟩
          · exact Or.inl h1
          · exact Or.inr ⟨k, by omega, hk.2.1, hk.2.2⟩
      · rw [if_neg hc]
        obtain ⟨k1, k2, k3, k4⟩ := ih (i + 1) phi J
        refine ⟨k1, k2, k3, ?_⟩
        intro phi1 J1 h l hl
        rcases k4 phi1 J1 h l hl with h1 | ⟨k, hk⟩
        · exact Or.inl h1
        · exact Or.inr ⟨k, by omega, hk.2.1, hk.2.2⟩
    · rw [if_neg hi]
      refine ⟨Keeps.refl J, rfl, ?_, ?_⟩
      · intro e J1 h; exact Res.noConfusion h
      · intro phi1 J1 h l hl
        injection h with h1 h2
        subst h1
        exact Or.inl hl

theorem setT_o (ir : Nat → IRIns) (ref : Nat) (f : Nat → Nat) (r : Nat) :
    (setT ir ref f r).o = (ir r).o := by
  unfold setT upd
  split
  · rename_i h; subst h; rfl
  · rfl

theorem setT_op1 (ir : Nat → IRIns) (ref : Nat) (f : Nat → Nat) (r : Nat) :
    (setT ir ref f r).op1 = (ir r).op1 := by
  unfold setT upd
  split
  · rename_i h; subst h; rfl
  · rfl

theorem setT_op2 (ir : Nat → IRIns) (ref : Nat) (f : Nat → Nat) (r : Nat) :
    (setT ir ref f r).op2 = (ir r).op2 := by
  unfold setT upd
  split
  · rename_i h; subst h; rfl
  · rfl

set_option maxRecDepth 10000 in
theorem phi_opcode : ∀ ty : Fin 32, IRT IR_PHI ty.val / 256 % 256 = IR_PHI := by decide

theorem IsPhiOf_setT (subst : Nat → Nat) (bound : Nat) (ir : Nat → IRIns) (ref : Nat)
    (f : Nat → Nat) (r : Nat) (h : IsPhiOf subst bound (ir r)) :
    IsPhiOf subst bound (setT ir ref f r) := by
  unfold IsPhiOf at h ⊢
  rw [setT_o, setT_op1, setT_op2]
  exact h

/-- Pass #4 keeps the counters, throws nothing but the overflow error of the IR
buffer, and appends only PHIs of a candidate and its substitution. -/
theorem phi_pass4_spec (subst : Nat → Nat) (invar bound n0 : Nat) :
    ∀ (phi : List Nat) (J : jit_State),
      Keeps J (phi_pass4 subst invar phi J).state ∧
      (∀ e J1, phi_pass4 subst invar phi J = .raise e J1 → e = .trace .IROV) ∧
      ((∀ l, l ∈ phi → l < bound ∧ l < 65536) → n0 ≤ J.cur.nins →
        (∀ r, n0 ≤ r → r < J.cur.nins → IsPhiOf subst bound (J.cur.ir r)) →
        ∀ r, n0 ≤ r → r < (phi_pass4 subst invar phi J).state.cur.nins →
          IsPhiOf subst bound ((phi_pass4 subst invar phi J).state.cur.ir r)) := by
  intro phi
  induction phi with
  | nil =>
    intro J
    refine ⟨Keeps.refl J, ?_, ?_⟩
    · intro e J1 h; exact Res.noConfusion h
    · intro _ _ h r h1 h2; exact h r h1 h2
  | cons lref rest ih =>
    intro J
    unfold phi_pass4
    by_cases hm : ¬ irt_ismarked (J.cur.ir lref).t
    · rw [if_pos hm]
      dsimp only
      obtain ⟨J1, hJ1⟩ : ∃ J1, J1 = (if subst lref > invar then J.setT (subst lref) irt_setphi
          else J) := ⟨_, rfl⟩
      rw [← hJ1]
      have hk1 : Keeps J J1 := by
        rw [hJ1]; split
        · exact keeps_setT _ _ _
        · exact Keeps.refl J
      have hn1 : J1.cur.nins = J.cur.nins := by
        rw [hJ1]; split <;> rfl
      have hir1 : ∀ r, IsPhiOf subst bound (J.cur.ir r) → IsPhiOf subst bound (J1.cur.ir r) := by
        intro r hr
        rw [hJ1]; split
        · exact IsPhiOf_setT _ _ _ _ _ _ hr
        · exact hr
      have hk2 := keeps_emitir_raw J1 (IRT IR_PHI (irt_type (J1.cur.ir lref).t)) lref
        (subst lref)
      cases hr : emitir_raw J1 (IRT IR_PHI (irt_type (J1.cur.ir lref).t)) lref (subst lref) with
      | raise e J2 =>
        rw [hr] at hk2
        refine ⟨hk1.trans hk2, ?_, ?_⟩
        · intro e' J' h
          injection h with h1 h2
          rw [← h1]
          exact emitir_raw_raise _ _ _ _ _ _ hr
        · intro hphi hn0 hinv r h1 h2
          have hs : J2.cur = J1.cur := by
            unfold emitir_raw lj_ir_emit at hr
            split at hr
            · injection hr with _ h4
              rw [← h4]
              rfl
            · exact Res.noConfusion hr
          have h2' : r < J2.cur.nins := h2
          rw [hs, hn1] at h2'
          show IsPhiOf subst bound (J2.cur.ir r)
          rw [hs]
          exact hir1 r (hinv r h1 h2')
      | ok tr J2 =>
        rw [hr] at hk2
        dsimp only
        obtain ⟨k1, k2, k3⟩ := ih J2
        refine ⟨(hk1.trans hk2).trans k1, k2, ?_⟩
        intro hphi hn0 hinv
        have hs := emitir_raw_state _ _ _ _ _ _ hr
        have hl := hphi lref (List.mem_cons_self _ _)
        apply k3 (fun l hl => hphi l (List.mem_cons_of_mem _ hl))
        · rw [hs]
          show n0 ≤ J1.cur.nins + 1
          omega
        · intro r h1 h2
          rw [hs] at h2 ⊢
          have h2' : r < J1.cur.nins + 1 := h2
          show IsPhiOf subst bound (upd J1.cur.ir J1.cur.nins _ r)
          unfold upd
          by_cases hrn : r = J1.cur.nins
          · rw [if_pos hrn]
            unfold IsPhiOf
            show IRT IR_PHI (irt_type (J1.cur.ir lref).t) / 256 % 256 = IR_PHI ∧
              lref % 65536 < bound ∧ subst lref % 65536 = subst (lref % 65536) % 65536
            have hty : irt_type (J1.cur.ir lref).t < 32 := by
              have := irt_type_le (J1.cur.ir lref).t
              unfold irt_type
              omega
            refine ⟨phi_opcode ⟨_, hty⟩, ?_, ?_⟩
            · rw [Nat.mod_eq_of_lt hl.2]; exact hl.1
            · rw [Nat.mod_eq_of_lt hl.2]
          · rw [if_neg hrn]
            exact hir1 r (hinv r h1 (by omega))
    · rw [if_neg hm]
      obtain ⟨k1, k2, k3⟩ := ih ((J.setT lref irt_clearmark).setT lref irt_clearphi)
      refine ⟨Keeps.trans ⟨rfl, rfl, rfl⟩ k1, k2, ?_⟩
      intro hphi hn0 hinv
      apply k3 (fun l hl => hphi l (List.mem_cons_of_mem _ hl)) hn0
      intro r h1 h2
      exact IsPhiOf_setT _ _ _ _ _ _ (IsPhiOf_setT _ _ _ _ _ _ (hinv r h1 h2))

/-- `loop_emit_phi` keeps the counters, throws nothing but the two overflow errors,
and appends only PHIs of a candidate or a slot and its substitution. -/
theorem loop_emit_phi_spec (M : Nat) (J : jit_State) (subst : Nat → Nat) (phi : List Nat)
    (bound : Nat) :
    Keeps J (loop_emit_phi M J subst phi).state ∧
    (∀ e J1, loop_emit_phi M J subst phi = .raise e J1 →
      e = .trace .PHIOV ∨ e = .trace .IROV) ∧
    ((∀ l, l ∈ phi → l < bound ∧ l < 65536) →
      (∀ k, 1 ≤ k → k < J.baseslot + J.maxslot → tref_ref (J.slot k) < bound) →
      ∀ r, J.cur.nins ≤ r → r < (loop_emit_phi M J subst phi).state.cur.nins →
        IsPhiOf subst bound ((loop_emit_phi M J subst phi).state.cur.ir r)) := by
  unfold loop_emit_phi
  dsimp only
  obtain ⟨J2, hJ2⟩ : ∃ J2 : jit_State, J2 = phi_mark J subst phi := ⟨_, rfl⟩
  rw [← hJ2]
  have hk0 : Keeps J J2 := by rw [hJ2]; exact ⟨rfl, rfl, rfl⟩
  have hn0 : J2.cur.nins = J.cur.nins := by rw [hJ2]; rfl
  have hsl : J2.slot = J.slot := by rw [hJ2]; rfl
  obtain ⟨p1, p2, p3, p4⟩ := phi_pass3_spec M subst (J.baseslot + J.maxslot)
    (J.baseslot + J.maxslot) 1 phi J2
  cases hr : phi_pass3 M subst (J.baseslot + J.maxslot) (J.baseslot + J.maxslot) 1 phi J2 with
  | raise e J3 =>
    rw [hr] at p1 p2
    dsimp only
    refine ⟨hk0.trans p1, ?_, ?_⟩
    · intro e' J' h
      injection h with h1 h2
      rw [← h1]
      exact Or.inl (p3 e J3 hr)
    · intro _ _ r h1 h2
      have h2' : r < J3.cur.nins := h2
      have p2' : J3.cur.nins = J2.cur.nins := p2
      omega
  | ok phi3 J3 =>
    rw [hr] at p1 p2
    dsimp only
    have p2' : J3.cur.nins = J2.cur.nins := p2
    obtain ⟨q1, q2, q3⟩ := phi_pass4_spec subst (J.chain IR_LOOP) bound J.cur.nins phi3 J3
    refine ⟨(hk0.trans p1).trans q1, ?_, ?_⟩
    · intro e' J' h
      exact Or.inr (q2 e' J' h)
    · intro hphi hslot r h1 h2
      apply q3 _ (by omega) _ r h1 h2
      · intro l hl
        rcases p4 phi3 J3 hr l hl with h3 | ⟨k, hk1, hk2, hk3⟩
        · exact hphi l h3
        · rw [hk3, hsl]
          exact ⟨hslot k hk1 hk2, Nat.mod_lt _ (by norm_num)⟩
      · intro r' h3 h4
        omega

/-- `loop_unroll` leaves the unroll counter as it was, and the snapshot counts too
when it throws the type instability or the failing guard error. -/
theorem loop_unroll_keeps (E : Extern) (hfold : ∀ J, Keeps J (E.lj_opt_fold J).state)
    (J : jit_State) :
    (loop_unroll E J).state.instunroll = J.instunroll ∧
    ((loop_unroll E J).raises .TYPEINS ∨ (loop_unroll E J).raises .GFAIL →
      Keeps J (loop_unroll E J).state) := by
  obtain ⟨b1, b2⟩ := unroll_body_keeps E hfold J
  unfold loop_unroll
  cases hr : unroll_body E J with
  | raise e J1 =>
    rw [hr] at b1 b2
    exact ⟨b1, fun _ => b2 (fun h => h)⟩
  | ok S J1 =>
    rw [hr] at b1
    dsimp only
    obtain ⟨p1, p2, _⟩ := loop_emit_phi_spec E.LJ_MAX_PHI J1 S.subst S.phi 0
    refine ⟨p1.1.trans b1, ?_⟩
    intro h
    exfalso
    cases hr2 : loop_emit_phi E.LJ_MAX_PHI J1 S.subst S.phi with
    | ok a J2 =>
      rw [hr2] at h
      rcases h with h | h <;> exact h
    | raise e J2 =>
      rw [hr2] at h
      rcases p2 e J2 hr2 with h1 | h1 <;> rcases h with h | h <;>
        · rw [h1] at h
          have h2 : Thrown.trace _ = Thrown.trace _ := h
          injection h2 with h3
          exact TraceError.noConfusion h3

/-- The bound on the iterations of the main loop of `loop_unroll` is never reached. -/
theorem unroll_loop_fuel (E : Extern) (invar loopmap loopslots : Nat) :
    ∀ (fuel ins : Nat) (S : UnrollState) (J : jit_State), invar ≤ fuel + ins → ∀ extra,
      unroll_loop E invar loopmap loopslots (fuel + extra) ins S J =
        unroll_loop E invar loopmap loopslots fuel ins S J := by
  intro fuel
  induction fuel with
  | zero =>
    intro ins S J h extra
    cases extra with
    | zero => rfl
    | succ x =>
      have h1 : ¬ ins < invar := by omega
      show unroll_loop E invar loopmap loopslots (0 + x + 1) ins S J = .ok S J
      unfold unroll_loop
      rw [if_neg h1]
  | succ n ih =>
    intro ins S J h extra
    have e : n + 1 + extra = (n + extra) + 1 := by omega
    rw [e]
    unfold unroll_loop
    split
    · cases unroll_ins E invar loopmap loopslots ins S J with
      | raise e1 J1 => rfl
      | ok S1 J1 => exact ih _ _ _ (by omega) extra
    · rfl

/-- The bound on the iterations of pass #3 is never reached. -/
theorem phi_pass3_fuel (M : Nat) (subst : Nat → Nat) (nslots : Nat) :
    ∀ (fuel i : Nat) (phi : List Nat) (J : jit_State), nslots ≤ fuel + i → ∀ extra,
      phi_pass3 M subst nslots (fuel + extra) i phi J = phi_pass3 M subst nslots fuel i phi J := by
  intro fuel
  induction fuel with
  | zero =>
    intro i phi J h extra
    cases extra with
    | zero => rfl
    | succ x =>
      have h1 : ¬ i < nslots := by omega
      show phi_pass3 M subst nslots (0 + x + 1) i phi J = .ok phi J
      unfold phi_pass3
      rw [if_neg h1]
  | succ n ih =>
    intro i phi J h extra
    have e : n + 1 + extra = (n + extra) + 1 := by omega
    rw [e]
    unfold phi_pass3
    split
    · dsimp only
      split
      · split
        · split
          · rfl
          · exact ih _ _ _ (by omega) extra
        · exact ih _ _ _ (by omega) extra
      · exact ih _ _ _ (by omega) extra
    · rfl

/-! ### Retrying after an unstable loop -/

theorem clear_flags (t : Nat) :
    ¬ irt_isphi (irt_clearmark (irt_clearphi t)) ∧
      ¬ irt_ismarked (irt_clearmark (irt_clearphi t)) := by
  unfold irt_isphi irt_ismarked irt_clearmark irt_clearphi IRT_ISPHI IRT_MARK
  have e1 : (0xff ^^^ 0x80) &&& ((0xff ^^^ 0x20) &&& 0x80) = 0 := by decide
  have e2 : (0xff ^^^ 0x80) &&& ((0xff ^^^ 0x20) &&& 0x20) = 0 := by decide
  constructor
  · rw [Nat.and_assoc, Nat.and_assoc, e1]
    simp
  · rw [Nat.and_assoc, Nat.and_assoc, e2]
    simp

theorem undo_flags_above : ∀ (n : Nat) (ir : Nat → IRIns) (r : Nat), n ≤ r →
    undo_flags n ir r = ir r := by
  intro n
  induction n with
  | zero => intro ir r _; rfl
  | succ k ih =>
    intro ir r h
    unfold undo_flags
    split
    · rw [ih _ r (by omega)]
      unfold setT upd
      have h1 : r ≠ k := by omega
      simp [h1]
    · rfl

/-- The loop of `loop_undo` removes the PHI and MARK flags of every instruction
from `REF_FIRST` up to, and not including, `n`. -/
theorem undo_flags_clears : ∀ (n : Nat) (ir : Nat → IRIns) (r : Nat),
    REF_FIRST ≤ r → r < n →
    ¬ irt_isphi (undo_flags n ir r).t ∧ ¬ irt_ismarked (undo_flags n ir r).t := by
  intro n
  induction n with
  | zero => intro ir r _ h; omega
  | succ k ih =>
    intro ir r h1 h2
    unfold undo_flags
    have hk : k ≥ REF_FIRST := by omega
    rw [if_pos hk]
    by_cases hr : r = k
    · subst hr
      rw [undo_flags_above r _ r (le_refl _)]
      have e : (setT (setT ir r irt_clearphi) r irt_clearmark r).t =
          irt_clearmark (irt_clearphi (ir r).t) := by
        unfold setT upd
        simp
      rw [e]
      exact clear_flags _
    · exact ih _ r h1 (by omega)

/-- One invocation of the loop optimiser whose unrolling fails with the type
instability or the failing guard error: with a positive unroll counter it
returns 1 and decrements the counter, otherwise it throws the same error. -/
theorem lj_opt_loop_unstable (E : Extern) (hfold : ∀ J, Keeps J (E.lj_opt_fold J).state)
    (J : jit_State)
    (hf : (loop_unroll E J).raises .TYPEINS ∨ (loop_unroll E J).raises .GFAIL) :
    (0 < J.instunroll →
      (lj_opt_loop E J).value? = some 1 ∧
      (lj_opt_loop E J).state.instunroll = J.instunroll - 1) ∧
    (J.instunroll ≤ 0 →
      ((lj_opt_loop E J).raises .TYPEINS ∨ (lj_opt_loop E J).raises .GFAIL) ∧
      ∀ e, (loop_unroll E J).raises e → (lj_opt_loop E J).raises e) := by
  have hk := (loop_unroll_keeps E hfold J).1
  unfold lj_opt_loop
  cases hr : loop_unroll E J with
  | ok a J1 =>
    rw [hr] at hf
    rcases hf with h | h <;> exact absurd h (fun h => h)
  | raise e J1 =>
    rw [hr] at hf hk
    have hk1 : J1.instunroll = J.instunroll := hk
    have he : ∃ e0, e = .trace e0 ∧ (e0 = .TYPEINS ∨ e0 = .GFAIL) := by
      rcases hf with h | h
      · exact ⟨_, h, Or.inl rfl⟩
      · exact ⟨_, h, Or.inr rfl⟩
    obtain ⟨e0, rfl, he0⟩ := he
    dsimp only
    rw [if_pos he0]
    constructor
    · intro hpos
      have h1 : ¬ J1.instunroll - 1 < 0 := by omega
      rw [if_neg h1]
      refine ⟨rfl, ?_⟩
      show J1.instunroll - 1 = J.instunroll - 1
      rw [hk1]
    · intro hle
      have h1 : J1.instunroll - 1 < 0 := by omega
      rw [if_pos h1]
      refine ⟨?_, ?_⟩
      · rcases he0 with h | h
        · left; rw [h]; exact rfl
        · right; rw [h]; exact rfl
      · intro e h
        exact h

theorem invocationState_succ (E : Extern) (rec : jit_State → jit_State) (J0 J : jit_State)
    (k : Nat) (h1 : invocationState E rec J0 k = some J)
    (h2 : (lj_opt_loop E J).value? = some 1) :
    invocationState E rec J0 (k + 1) = some (rec (lj_opt_loop E J).state) := by
  show (match invocationState E rec J0 k with
    | none => none
    | some J =>
      match lj_opt_loop E J with
      | .ok r J1 => if r = 1 then some (rec J1) else none
      | .raise _ _ => none) = _
  rw [h1]
  dsimp only
  cases hr : lj_opt_loop E J with
  | ok r J1 =>
    rw [hr] at h2
    have hr1 : r = 1 := by
      injection h2
    dsimp only
    rw [if_pos hr1]
    rfl
  | raise e J1 =>
    rw [hr] at h2
    exact Option.noConfusion h2

/-- C6. Starting with the unroll counter `J->instunroll = n`, if every invocation
of the loop optimiser fails in `loop_unroll` with the type instability or the
failing guard error, then `lj_opt_loop` returns 1 (continue recording) on the
first `n` invocations and throws the error of `loop_unroll` on invocation
`n + 1`. The recorder `rec` that runs between two invocations and the fold
engine leave the unroll counter alone. -/
theorem opt_loop_retries (E : Extern) (rec : jit_State → jit_State) (J0 : jit_State) (n : Nat)
    (hfold : ∀ J, Keeps J (E.lj_opt_fold J).state)
    (hrec : ∀ J, (rec J).instunroll = J.instunroll)
    (hn : J0.instunroll = (n : Int))
    (hfail : ∀ k J, k ≤ n → invocationState E rec J0 k = some J →
      (loop_unroll E J).raises .TYPEINS ∨ (loop_unroll E J).raises .GFAIL) :
    (∀ k, k < n → ∃ J, invocationState E rec J0 k = some J ∧
      (lj_opt_loop E J).value? = some 1) ∧
    (∃ J, invocationState E rec J0 n = some J ∧
      ((lj_opt_loop E J).raises .TYPEINS ∨ (lj_opt_loop E J).raises .GFAIL) ∧
      ∀ e, (loop_unroll E J).raises e → (lj_opt_loop E J).raises e) := by
  have key : ∀ k, k ≤ n → ∃ J, invocationState E rec J0 k = some J ∧
      J.instunroll = (n : Int) - k := by
    intro k
    induction k with
    | zero =>
      intro _
      exact ⟨J0, rfl, by rw [hn]; simp⟩
    | succ m ih =>
      intro hm
      obtain ⟨J, hJ, hc⟩ := ih (by omega)
      have hstep := (lj_opt_loop_unstable E hfold J (hfail m J (by omega) hJ)).1 (by omega)
      refine ⟨rec (lj_opt_loop E J).state, invocationState_succ E rec J0 J m hJ hstep.1, ?_⟩
      rw [hrec, hstep.2, hc]
      push_cast
      omega
  constructor
  · intro k hk
    obtain ⟨J, hJ, hc⟩ := key k (by omega)
    exact ⟨J, hJ, ((lj_opt_loop_unstable E hfold J (hfail k J (by omega) hJ)).1 (by omega)).1⟩
  · obtain ⟨J, hJ, hc⟩ := key n (le_refl _)
    exact ⟨J, hJ, (lj_opt_loop_unstable E hfold J (hfail n J (le_refl _) hJ)).2 (by omega)⟩

/-- C7. Whenever `lj_opt_loop` returns 1, the partial work is undone: `nins` and the
snapshot counts `nsnap` and `nsnapmap` have their values from before the call,
`J->guardemit` is cleared, and no instruction in `[REF_FIRST, nins)` carries the
PHI or the MARK flag. The fold engine leaves the snapshot counts alone. -/
theorem opt_loop_retry_undoes (E : Extern) (hfold : ∀ J, Keeps J (E.lj_opt_fold J).state)
    (J : jit_State) (h : (lj_opt_loop E J).value? = some 1) :
    (lj_opt_loop E J).state.cur.nins = J.cur.nins ∧
    (lj_opt_loop E J).state.cur.nsnap = J.cur.nsnap ∧
    (lj_opt_loop E J).state.cur.nsnapmap = J.cur.nsnapmap ∧
    (lj_opt_loop E J).state.guardemit = 0 ∧
    ∀ r, REF_FIRST ≤ r → r < (lj_opt_loop E J).state.cur.nins →
      ¬ irt_isphi ((lj_opt_loop E J).state.cur.ir r).t ∧
      ¬ irt_ismarked ((lj_opt_loop E J).state.cur.ir r).t := by
  have hk := (loop_unroll_keeps E hfold J).2
  unfold lj_opt_loop at h ⊢
  cases hr : loop_unroll E J with
  | ok a J1 =>
    rw [hr] at h
    have h1 : some (0 : Int) = some 1 := h
    injection h1 with h2
    exact absurd h2 (by decide)
  | raise e J1 =>
    rw [hr] at h hk
    cases e with
    | other c => exact Option.noConfusion h
    | trace e0 =>
      dsimp only at h ⊢
      by_cases he0 : e0 = .TYPEINS ∨ e0 = .GFAIL
      · rw [if_pos he0] at h ⊢
        by_cases hneg : J1.instunroll - 1 < 0
        · rw [if_pos hneg] at h
          exact Option.noConfusion h
        · rw [if_neg hneg]
          have hkeep : Keeps J J1 := by
            apply hk
            rcases he0 with h1 | h1
            · left; rw [h1]; exact rfl
            · right; rw [h1]; exact rfl
          refine ⟨rfl, hkeep.2.1, hkeep.2.2, rfl, ?_⟩
          intro r h1 h2
          exact undo_flags_clears J.cur.nins J1.cur.ir r h1 h2
      · rw [if_neg he0] at h
        exact Option.noConfusion h

theorem exampleExtern_keeps : ∀ J, Keeps J (exampleExtern.lj_opt_fold J).state := by
  intro J
  show Keeps J (forwardFold J).state
  unfold forwardFold
  split
  · exact Keeps.refl J
  · exact keeps_lj_ir_emit J

/-- Witness for C6: the loop whose slot changes from string to number, with the
unroll counter 2 and a recorder that leaves the state as it is. -/
theorem opt_loop_retries_witness :
    (∀ k, k < 2 → ∃ J, invocationState exampleExtern id strNumLoop k = some J ∧
      (lj_opt_loop exampleExtern J).value? = some 1) ∧
    (∃ J, invocationState exampleExtern id strNumLoop 2 = some J ∧
      ((lj_opt_loop exampleExtern J).raises .TYPEINS ∨
        (lj_opt_loop exampleExtern J).raises .GFAIL) ∧
      ∀ e, (loop_unroll exampleExtern J).raises e → (lj_opt_loop exampleExtern J).raises e) :=
  opt_loop_retries exampleExtern id strNumLoop 2 exampleExtern_keeps (fun _ => rfl) rfl (by
    intro k J hk h
    have s0 : invocationState exampleExtern id strNumLoop 0 = some strNumLoop := rfl
    have s1 := invocationState_succ exampleExtern id strNumLoop _ 0 s0 (by decide!)
    have s2 := invocationState_succ exampleExtern id strNumLoop _ 1 s1 (by decide!)
    interval_cases k
    · rw [s0] at h; injection h with h; subst h; decide!
    · rw [s1] at h; injection h with h; subst h; decide!
    · rw [s2] at h; injection h with h; subst h; decide!)

/-- Witness for C7: the first invocation on the loop whose slot changes from string
to number. -/
theorem opt_loop_retry_undoes_witness :
    (lj_opt_loop exampleExtern strNumLoop).value? = some 1 ∧
    (lj_opt_loop exampleExtern strNumLoop).state.cur.nins = strNumLoop.cur.nins ∧
    (lj_opt_loop exampleExtern strNumLoop).state.cur.nsnap = strNumLoop.cur.nsnap ∧
    (lj_opt_loop exampleExtern strNumLoop).state.cur.nsnapmap = strNumLoop.cur.nsnapmap ∧
    (lj_opt_loop exampleExtern strNumLoop).state.guardemit = 0 ∧
    ∀ r, REF_FIRST ≤ r → r < (lj_opt_loop exampleExtern strNumLoop).state.cur.nins →
      ¬ irt_isphi ((lj_opt_loop exampleExtern strNumLoop).state.cur.ir r).t ∧
      ¬ irt_ismarked ((lj_opt_loop exampleExtern strNumLoop).state.cur.ir r).t :=
  ⟨by decide!, opt_loop_retry_undoes exampleExtern exampleExtern_keeps strNumLoop (by decide!)⟩

/-! ### The operands of the emitted PHIs -/

theorem tref_ref_lt (tr : Nat) : tref_ref tr < 65536 :=
  Nat.mod_lt tr (by norm_num)

theorem unroll_carried_phi (E : Extern) (ins ref t b : Nat) (S : UnrollState) (J : jit_State)
    (hS : ∀ l, l ∈ S.phi → l < b ∧ l < 65536) (href : ref < b ∧ ref < 65536)
    (S1 : UnrollState) (J1 : jit_State) (h : unroll_carried E ins ref t S J = .ok S1 J1) :
    ∀ l, l ∈ S1.phi → l < b ∧ l < 65536 := by
  unfold unroll_carried at h
  split at h
  · split at h
    · exact Res.noConfusion h
    · split at h
      · injection h with h1 h2
        rw [← h1]
        intro l hl
        rcases List.mem_append.1 hl with h3 | h3
        · exact hS l h3
        · have : l = ref := by simpa using h3
          rw [this]; exact href
      · exact Res.noConfusion h
  · split at h
    · injection h with h1 h2
      rw [← h1]
      exact hS
    · exact Res.noConfusion h

theorem unroll_subst_phi (E : Extern) (invar ins : Nat) (S : UnrollState) (J : jit_State)
    (hS : ∀ l, l ∈ S.phi → l < invar ∧ l < 65536)
    (S1 : UnrollState) (J1 : jit_State) (h : unroll_subst E invar ins S J = .ok S1 J1) :
    ∀ l, l ∈ S1.phi → l < invar ∧ l < 65536 := by
  unfold unroll_subst at h
  dsimp only at h
  generalize (if ¬ irref_isk (J.cur.ir ins).op1 then S.subst (J.cur.ir ins).op1
    else (J.cur.ir ins).op1) = op1 at h
  generalize (if ¬ irref_isk (J.cur.ir ins).op2 then S.subst (J.cur.ir ins).op2
    else (J.cur.ir ins).op2) = op2 at h
  by_cases hc : irm_kind (lj_ir_mode (J.cur.ir ins).o) = IRM_N ∧ op1 = (J.cur.ir ins).op1 ∧
      op2 = (J.cur.ir ins).op2
  · rw [if_pos hc] at h
    injection h with h1 h2
    rw [← h1]
    exact hS
  · rw [if_neg hc] at h
    cases hr : emitir E J ((J.cur.ir ins).ot &&& (0xffff ^^^ IRT_ISPHI)) op1 op2 with
    | raise e J2 => rw [hr] at h; exact Res.noConfusion h
    | ok tr J2 =>
      rw [hr] at h
      dsimp only at h
      by_cases hd : tref_ref tr ≠ ins ∧ tref_ref tr < invar
      · rw [if_pos hd] at h
        exact unroll_carried_phi E ins (tref_ref tr) (J.cur.ir ins).t invar
          { S with subst := upd S.subst ins (tref_ref tr) } J2 hS
          ⟨hd.2, tref_ref_lt tr⟩ S1 J1 h
      · rw [if_neg hd] at h
        injection h with h1 h2
        rw [← h1]
        exact hS

theorem unroll_ins_phi (E : Extern) (invar loopmap loopslots ins : Nat) (S : UnrollState)
    (J : jit_State) (hS : ∀ l, l ∈ S.phi → l < invar ∧ l < 65536)
    (S1 : UnrollState) (J1 : jit_State)
    (h : unroll_ins E invar loopmap loopslots ins S J = .ok S1 J1) :
    ∀ l, l ∈ S1.phi → l < invar ∧ l < 65536 := by
  unfold unroll_ins at h
  split at h
  · exact unroll_subst_phi E invar ins (unroll_snapshot loopmap loopslots S J).1 _ hS S1 J1 h
  · exact unroll_subst_phi E invar ins S J hS S1 J1 h

theorem unroll_loop_phi (E : Extern) (invar loopmap loopslots : Nat) :
    ∀ (fuel ins : Nat) (S : UnrollState) (J : jit_State),
      (∀ l, l ∈ S.phi → l < invar ∧ l < 65536) →
      ∀ (S1 : UnrollState) (J1 : jit_State),
        unroll_loop E invar loopmap loopslots fuel ins S J = .ok S1 J1 →
        ∀ l, l ∈ S1.phi → l < invar ∧ l < 65536 := by
  intro fuel
  induction fuel with
  | zero =>
    intro ins S J hS S1 J1 h
    injection h with h1 h2
    rw [← h1]
    exact hS
  | succ n ih =>
    intro ins S J hS S1 J1 h
    unfold unroll_loop at h
    split at h
    · cases hr : unroll_ins E invar loopmap loopslots ins S J with
      | raise e J2 => rw [hr] at h; exact Res.noConfusion h
      | ok S2 J2 =>
        rw [hr] at h
        exact ih _ S2 J2 (unroll_ins_phi E invar loopmap loopslots ins S J hS S2 J2 hr) S1 J1 h
    · injection h with h1 h2
      rw [← h1]
      exact hS

/-- The PHI candidates that `loop_unroll` collects lie below the LOOP instruction. -/
theorem unroll_body_phi (E : Extern) (J : jit_State) (S : UnrollState) (J1 : jit_State)
    (h : unroll_body E J = .ok S J1) : ∀ l, l ∈ S.phi → l < J.cur.nins ∧ l < 65536 := by
  unfold unroll_body at h
  cases hr1 : emitir_raw J (IRTG IR_LOOP IRT_NIL) 0 0 with
  | raise e J2 => rw [hr1] at h; exact Res.noConfusion h
  | ok tr J2 =>
    rw [hr1] at h
    dsimp only at h
    cases hr2 : unroll_reserve E J2 with
    | raise e J3 => rw [hr2] at h; exact Res.noConfusion h
    | ok u J3 =>
      rw [hr2] at h
      dsimp only at h
      cases hr3 : unroll_loop E J.cur.nins (J3.cur.snap (J3.cur.nsnap - 1)).mapofs
        (J3.cur.snap (J3.cur.nsnap - 1)).nslots J.cur.nins REF_FIRST
        { subst := upd E.tmpbuf REF_BASE REF_BASE, phi := [], snap := J3.cur.nsnap - 1,
          osnap := 1, osnapref := (J3.cur.snap 1).ref, nsnapmap := J3.cur.nsnapmap } J3 with
      | raise e J4 => rw [hr3] at h; exact Res.noConfusion h
      | ok S4 J4 =>
        rw [hr3] at h
        dsimp only at h
        have hphi := unroll_loop_phi E J.cur.nins _ _ _ _ _ J3
          (fun l hl => absurd hl (List.not_mem_nil l)) S4 J4 hr3
        split at h
        · injection h with h1 h2
          rw [← h1]
          exact hphi
        · injection h with h1 h2
          rw [← h1]
          exact hphi

/-- C5 (amended). When `loop_unroll` reaches the PHI emission, the LOOP instruction
is the one it has emitted at the reference `J.cur.nins` of the state in which it
was called, and every instruction that `loop_emit_phi` appends is a PHI whose
left operand lies below the LOOP instruction (in the pre-roll) and whose right
operand is the substitution of the left operand. The slots of the recorder hold
recorded references, which lie below the LOOP instruction. -/
theorem loop_phi_operands (E : Extern) (J : jit_State)
    (hok : (unroll_body E J).isOk)
    (hslot : ∀ k, 1 ≤ k →
      k < (unroll_body E J).state.baseslot + (unroll_body E J).state.maxslot →
      tref_ref ((unroll_body E J).state.slot k) < J.cur.nins) :
    ((emitir_raw J (IRTG IR_LOOP IRT_NIL) 0 0).state.cur.ir J.cur.nins).o = IR_LOOP ∧
    ∀ r, (unroll_body E J).state.cur.nins ≤ r → r < (loop_unroll E J).state.cur.nins →
      ((loop_unroll E J).state.cur.ir r).o = IR_PHI ∧
      ((loop_unroll E J).state.cur.ir r).op1 < J.cur.nins ∧
      ((loop_unroll E J).state.cur.ir r).op2 =
        unrollSubst E J ((loop_unroll E J).state.cur.ir r).op1 % 65536 := by
  constructor
  · cases hr1 : emitir_raw J (IRTG IR_LOOP IRT_NIL) 0 0 with
    | raise e J2 =>
      exfalso
      unfold unroll_body at hok
      rw [hr1] at hok
      exact hok
    | ok tr J2 =>
      rw [emitir_raw_state _ _ _ _ _ _ hr1]
      show (upd J.cur.ir J.cur.nins _ J.cur.nins).o = IR_LOOP
      unfold upd
      rw [if_pos rfl]
      show IRTG IR_LOOP IRT_NIL / 256 % 256 = IR_LOOP
      decide
  · unfold loop_unroll unrollSubst
    cases hr : unroll_body E J with
    | raise e J1 => rw [hr] at hok; exact absurd hok (fun h => h)
    | ok S J1 =>
      rw [hr] at hslot
      dsimp only
      exact (loop_emit_phi_spec E.LJ_MAX_PHI J1 S.subst S.phi J.cur.nins).2.2
        (unroll_body_phi E J S J1 hr) hslot

set_option maxRecDepth 100000 in
/-- Witness for C5: the integer increment loop, which gets the single PHI `0x8005`. -/
theorem loop_phi_operands_witness :
    ((emitir_raw incLoop (IRTG IR_LOOP IRT_NIL) 0 0).state.cur.ir incLoop.cur.nins).o =
      IR_LOOP ∧
    ∀ r, (unroll_body exampleExtern incLoop).state.cur.nins ≤ r →
      r < (loop_unroll exampleExtern incLoop).state.cur.nins →
      ((loop_unroll exampleExtern incLoop).state.cur.ir r).o = IR_PHI ∧
      ((loop_unroll exampleExtern incLoop).state.cur.ir r).op1 < incLoop.cur.nins ∧
      ((loop_unroll exampleExtern incLoop).state.cur.ir r).op2 =
        unrollSubst exampleExtern incLoop
          ((loop_unroll exampleExtern incLoop).state.cur.ir r).op1 % 65536 :=
  loop_phi_operands exampleExtern incLoop (by decide!) (by
    have hs : (unroll_body exampleExtern incLoop).state.baseslot +
        (unroll_body exampleExtern incLoop).state.maxslot = 2 := by decide!
    intro k h1 h2
    rw [hs] at h2
    interval_cases k
    decide!)

/-! ## The numbering of the opcodes -/

/-- The table of modes has one entry for every opcode and a final entry. -/
theorem lj_ir_mode_table_length : lj_ir_mode_table.length = IROp.IR__MAX.num + 1 := by decide

/-- The opcode numbers used by the loop optimiser are the positions in the
enumeration. -/
theorem opcode_numbers :
    IR_NOP = IROp.NOP.num ∧ IR_BASE = IROp.BASE.num ∧ IR_LOOP = IROp.LOOP.num ∧
    IR_PHI = IROp.PHI.num ∧ IR_ADD = IROp.ADD.num ∧ IR_MUL = IROp.MUL.num ∧
    IR_SLOAD = IROp.SLOAD.num ∧ IR_TONUM = IROp.TONUM.num ∧ IR_TOINT = IROp.TOINT.num ∧
    IR_STRTO = IROp.STRTO.num := by decide

/-- C18: XOR with 1 maps each comparison opcode to its opposite, XOR with 3
swaps LT with GT and GE with LE, and XOR with 4 maps the ordered comparisons
to their unordered counterparts. Applying one of the three maps twice gives
back the comparison opcode; XOR with 1 maps the comparison opcodes to
comparison opcodes, XOR with 3 the ordered comparisons to ordered comparisons,
and XOR with 4 the ordered to the unordered comparisons and back. -/
theorem comparison_opcode_xor :
    (IR_EQ ^^^ 1 = IR_NE ∧ IR_NE ^^^ 1 = IR_EQ ∧ IR_LT ^^^ 1 = IR_GE ∧ IR_GE ^^^ 1 = IR_LT ∧
      IR_LE ^^^ 1 = IR_GT ∧ IR_GT ^^^ 1 = IR_LE ∧ IR_ULT ^^^ 1 = IR_UGE ∧
      IR_UGE ^^^ 1 = IR_ULT ∧ IR_ULE ^^^ 1 = IR_UGT ∧ IR_UGT ^^^ 1 = IR_ULE) ∧
    (IR_LT ^^^ 3 = IR_GT ∧ IR_GT ^^^ 3 = IR_LT ∧ IR_GE ^^^ 3 = IR_LE ∧ IR_LE ^^^ 3 = IR_GE) ∧
    (IR_LT ^^^ 4 = IR_ULT ∧ IR_GE ^^^ 4 = IR_UGE ∧ IR_LE ^^^ 4 = IR_ULE ∧
      IR_GT ^^^ 4 = IR_UGT) ∧
    (∀ o ∈ comparisonOps, o ^^^ 1 ∈ comparisonOps ∧ (o ^^^ 1) ^^^ 1 = o ∧
      (o ^^^ 3) ^^^ 3 = o ∧ (o ^^^ 4) ^^^ 4 = o) ∧
    (∀ o ∈ orderedOps, o ^^^ 3 ∈ orderedOps ∧ o ^^^ 4 ∈ unorderedOps) ∧
    (∀ o ∈ unorderedOps, o ^^^ 4 ∈ orderedOps) := by
  decide

/-- C19, counterexample: SLOAD and XLOAD plus the delta are SNEW and TNEW, which
are no stores. -/
theorem load_store_delta_counterexample :
    IR_SLOAD + IRDELTA_L2S = IR_SNEW ∧ IR_XLOAD + IRDELTA_L2S = IR_TNEW ∧
    IR_SNEW ∉ storeOps ∧ IR_TNEW ∉ storeOps ∧
    irm_kind (lj_ir_mode IR_SNEW) ≠ IRM_S ∧ irm_kind (lj_ir_mode IR_TNEW) ≠ IRM_S := by
  decide

/-- C19, amended: for the four LOAD opcodes that have a STORE opcode (ALOAD,
HLOAD, ULOAD, FLOAD) the opcode number plus `IRDELTA_L2S` is the number of the
matching STORE opcode, which has the mode of a store; SLOAD and XLOAD have no
STORE opcode, and their numbers plus the delta are those of SNEW and TNEW. -/
theorem load_store_delta :
    (∀ p ∈ loadStorePairs, p.1 + IRDELTA_L2S = p.2 ∧ irm_kind (lj_ir_mode p.2) = IRM_S) ∧
    storeOps = loadStorePairs.map (fun p => p.2) ∧
    IR_SLOAD + IRDELTA_L2S = IR_SNEW ∧ IR_XLOAD + IRDELTA_L2S = IR_TNEW := by
  decide

/-- C20: for every mode byte that `IRMODE` builds from a kind, the commutative
bit, the guard bit and two operand modes, `irm_sideeff` holds if and only if
the kind of the byte is Store or its guard bit is set, that is, if and only if
the byte was built from the kind Store or with the guard bit. -/
theorem irm_sideeff_iff (kind : Fin 4) (comm guard : Bool) (m1 m2 : Fin 4) :
    (irm_sideeff (IRMODE (modeBits kind comm guard) m1.val m2.val) ↔
      (irm_kind (IRMODE (modeBits kind comm guard) m1.val m2.val) = IRM_S ∨
        irm_isguard (IRMODE (modeBits kind comm guard) m1.val m2.val) ≠ 0)) ∧
    (irm_sideeff (IRMODE (modeBits kind comm guard) m1.val m2.val) ↔
      (kind.val = 3 ∨ guard = true)) ∧
    irm_kind (IRMODE (modeBits kind comm guard) m1.val m2.val) =
      [IRM_N, IRM_A, IRM_L, IRM_S].getD kind.val 0 ∧
    (irm_isguard (IRMODE (modeBits kind comm guard) m1.val m2.val) ≠ 0 ↔ guard = true) := by
  revert kind comm guard m1 m2
  decide
/-! ## Properties of the spill slot allocation -/

theorem ra_setup_inv (T : Target) (as : ASMState) : SpillInv (ra_setup T as) := by
  unfold SpillInv ra_setup
  dsimp only
  constructor
  · omega
  · split <;> omega

theorem ra_spill_slot_inv (as : ASMState) (t : Nat) (h : SpillInv as) :
    SpillInv (ra_spill_slot as t).2 ∧ (ra_spill_slot as t).1 < (ra_spill_slot as t).2.evenspill ∧
    as.evenspill ≤ (ra_spill_slot as t).2.evenspill := by
  unfold SpillInv at *
  unfold ra_spill_slot
  by_cases hn : irt_isnum t
  · rw [if_pos hn]; dsimp only; omega
  · rw [if_neg hn]
    by_cases ho : as.oddspill ≠ 0
    · rw [if_pos ho]; dsimp only; omega
    · rw [if_neg ho]; dsimp only; omega

theorem ra_spill_inv (T : Target) (as as1 : ASMState) (ref : Nat) (ofs : Int)
    (h : SpillInv as) (hr : ra_spill T as ref = .ok (ofs, as1)) :
    SpillInv as1 ∧ as.evenspill ≤ as1.evenspill := by
  unfold ra_spill at hr
  by_cases hs : ¬ ra_hasspill (as.ir ref).s
  · rw [if_pos hs] at hr
    dsimp only at hr
    by_cases hov : (ra_spill_slot as (as.ir ref).t).2.evenspill > 256
    · rw [if_pos hov] at hr; cases hr
    · rw [if_neg hov] at hr
      injection hr with hr
      injection hr with _ hr
      subst hr
      have := ra_spill_slot_inv as (as.ir ref).t h
      exact ⟨this.1, this.2.2⟩
  · rw [if_neg hs] at hr
    injection hr with hr
    injection hr with _ hr
    subst hr
    exact ⟨h, le_refl _⟩

theorem ra_spills_inv (T : Target) (refs : List Nat) (as as1 : ASMState)
    (h : SpillInv as) (hr : ra_spills T as refs = .ok as1) :
    SpillInv as1 ∧ as.evenspill ≤ as1.evenspill := by
  induction refs generalizing as with
  | nil =>
    unfold ra_spills at hr
    injection hr with hr
    subst hr
    exact ⟨h, le_refl _⟩
  | cons ref refs ih =>
    unfold ra_spills at hr
    cases hc : ra_spill T as ref with
    | error e => rw [hc] at hr; cases hr
    | ok r =>
      rw [hc] at hr
      dsimp only at hr
      obtain ⟨ofs, as2⟩ := r
      have h2 := ra_spill_inv T as as2 ref ofs h hc
      have h3 := ih as2 h2.1 hr
      exact ⟨h3.1, le_trans h2.2 h3.2⟩

theorem ra_spill_slot_cases (as : ASMState) (t : Nat) :
    (ra_spill_slot as t).2.ir = as.ir ∧
    ((irt_isnum t ∧ (ra_spill_slot as t).1 = as.evenspill ∧
        (ra_spill_slot as t).2.evenspill = as.evenspill + 2 ∧
        (ra_spill_slot as t).2.oddspill = as.oddspill) ∨
      (¬ irt_isnum t ∧ as.oddspill ≠ 0 ∧ (ra_spill_slot as t).1 = as.oddspill ∧
        (ra_spill_slot as t).2.evenspill = as.evenspill ∧
        (ra_spill_slot as t).2.oddspill = 0) ∨
      (¬ irt_isnum t ∧ as.oddspill = 0 ∧ (ra_spill_slot as t).1 = as.evenspill ∧
        (ra_spill_slot as t).2.evenspill = as.evenspill + 2 ∧
        (ra_spill_slot as t).2.oddspill = as.evenspill + 1)) := by
  unfold ra_spill_slot
  by_cases hn : irt_isnum t
  · rw [if_pos hn]; exact ⟨rfl, Or.inl ⟨hn, rfl, rfl, rfl⟩⟩
  · rw [if_neg hn]
    by_cases ho : as.oddspill ≠ 0
    · rw [if_pos ho]; exact ⟨rfl, Or.inr (Or.inl ⟨hn, ho, rfl, rfl, rfl⟩)⟩
    · rw [if_neg ho]
      exact ⟨rfl, Or.inr (Or.inr ⟨hn, not_not.mp ho, rfl, rfl, rfl⟩)⟩

theorem setS_s (ir : IRIns) (slot : Nat) : (ir.setS slot).s = slot % 256 := by
  unfold IRIns.setS IRIns.s IRIns.r
  dsimp only
  omega

theorem setS_t (ir : IRIns) (slot : Nat) : (ir.setS slot).t = ir.t := rfl

/-- A call of `ra_spill` for an instruction without spill slot either throws the
spill overflow error or stores the chosen slot. -/
theorem ra_spill_new (T : Target) (as : ASMState) (ref : Nat)
    (hs : ¬ ra_hasspill (as.ir ref).s) :
    ((ra_spill_slot as (as.ir ref).t).2.evenspill > 256 ∧
      ra_spill T as ref = .error (.trace .SPILLOV)) ∨
    ((ra_spill_slot as (as.ir ref).t).2.evenspill ≤ 256 ∧
      ra_spill T as ref = .ok (T.sps_scale (ra_spill_slot as (as.ir ref).t).1,
        { (ra_spill_slot as (as.ir ref).t).2 with
          ir := upd as.ir ref ((as.ir ref).setS (ra_spill_slot as (as.ir ref).t).1) })) := by
  unfold ra_spill
  rw [if_pos hs]
  dsimp only
  by_cases hov : (ra_spill_slot as (as.ir ref).t).2.evenspill > 256
  · rw [if_pos hov]; exact Or.inl ⟨hov, rfl⟩
  · rw [if_neg hov, (ra_spill_slot_cases as (as.ir ref).t).1]
    exact Or.inr ⟨by omega, rfl⟩

/-- In the states that calls of `ra_spill` reach from `ra_setup`, the next even
slot is at most 256. -/
theorem ra_spill_le (T : Target) (as as1 : ASMState) (ref : Nat) (ofs : Int)
    (h : as.evenspill ≤ 256) (hr : ra_spill T as ref = .ok (ofs, as1)) :
    as1.evenspill ≤ 256 := by
  by_cases hs : ¬ ra_hasspill (as.ir ref).s
  · rcases ra_spill_new T as ref hs with ⟨_, he⟩ | ⟨hle, he⟩
    · rw [he] at hr; cases hr
    · rw [he] at hr
      injection hr with hr
      injection hr with _ hr
      subst hr
      exact hle
  · unfold ra_spill at hr
    rw [if_neg hs] at hr
    injection hr with hr
    injection hr with _ hr
    subst hr
    exact h

theorem ra_spills_le (T : Target) (refs : List Nat) (as as1 : ASMState)
    (h : as.evenspill ≤ 256) (hr : ra_spills T as refs = .ok as1) :
    as1.evenspill ≤ 256 := by
  induction refs generalizing as with
  | nil =>
    unfold ra_spills at hr
    injection hr with hr
    subst hr
    exact h
  | cons ref refs ih =>
    unfold ra_spills at hr
    cases hc : ra_spill T as ref with
    | error e => rw [hc] at hr; cases hr
    | ok r =>
      rw [hc] at hr
      dsimp only at hr
      obtain ⟨ofs, as2⟩ := r
      exact ih as2 (ra_spill_le T as as2 ref ofs h hc) hr

theorem ra_setup_le (T : Target) (as : ASMState) (hF : T.SPS_FIRST ≤ 255) :
    (ra_setup T as).evenspill ≤ 256 := by
  unfold ra_setup
  dsimp only
  omega

theorem spilledState_ok (T : Target) (as0 : ASMState) (refs : List Nat)
    (h : (ra_spills T (ra_setup T as0) refs).toBool = true) :
    ra_spills T (ra_setup T as0) refs = .ok (spilledState T as0 refs) := by
  unfold spilledState
  cases hc : ra_spills T (ra_setup T as0) refs with
  | ok as => rfl
  | error e => rw [hc] at h; cases h

/-- C11: in a state that calls of `ra_spill` reach from `ra_setup`, a call that
needs a new slot succeeds if the slot is at most 255 and throws the spill
overflow error if the slot is 256 or higher; on success the slot is at most
255 and is stored in `ir->s` without truncation. -/
theorem ra_spill_slot_limit (T : Target) (as0 as : ASMState) (refs : List Nat) (ref : Nat)
    (hF : T.SPS_FIRST ≤ 255)
    (hreach : ra_spills T (ra_setup T as0) refs = .ok as)
    (hs : ¬ ra_hasspill (as.ir ref).s) :
    ((ra_spill_slot as (as.ir ref).t).1 ≤ 255 →
      ∃ as1, ra_spill T as ref = .ok (T.sps_scale (ra_spill_slot as (as.ir ref).t).1, as1) ∧
        (as1.ir ref).s = (ra_spill_slot as (as.ir ref).t).1) ∧
    (256 ≤ (ra_spill_slot as (as.ir ref).t).1 →
      ra_spill T as ref = .error (.trace .SPILLOV)) ∧
    (∀ ofs as1, ra_spill T as ref = .ok (ofs, as1) →
      (as1.ir ref).s = (ra_spill_slot as (as.ir ref).t).1 ∧
      (ra_spill_slot as (as.ir ref).t).1 ≤ 255 ∧
      ofs = T.sps_scale (ra_spill_slot as (as.ir ref).t).1) := by
  have hinv := (ra_spills_inv T refs _ as (ra_setup_inv T as0) hreach).1
  have hle := ra_spills_le T refs _ as (ra_setup_le T as0 hF) hreach
  have hlt := (ra_spill_slot_inv as (as.ir ref).t hinv).2.1
  have hcases := (ra_spill_slot_cases as (as.ir ref).t).2
  unfold SpillInv at hinv
  refine ⟨?_, ?_, ?_⟩
  · intro h255
    rcases ra_spill_new T as ref hs with ⟨hov, _⟩ | ⟨_, he⟩
    · rcases hcases with ⟨_, h1, h2, _⟩ | ⟨_, _, h1, h2, _⟩ | ⟨_, _, h1, h2, _⟩ <;> omega
    · refine ⟨_, he, ?_⟩
      dsimp only
      rw [upd, if_pos rfl, setS_s]
      omega
  · intro h256
    rcases ra_spill_new T as ref hs with ⟨_, he⟩ | ⟨hok, _⟩
    · exact he
    · omega
  · intro ofs as1 hr
    rcases ra_spill_new T as ref hs with ⟨_, he⟩ | ⟨hok, he⟩
    · rw [he] at hr; cases hr
    · rw [he] at hr
      injection hr with hr
      injection hr with hofs hr
      subst hr
      dsimp only
      rw [upd, if_pos rfl, setS_s]
      exact ⟨by omega, by omega, hofs.symm⟩

set_option maxRecDepth 100000 in
theorem ra_spill_slot_limit_witness :
    (ra_spill_slot (spilledState exampleTarget { ir := spillIR } (firstRefs 127))
        ((spilledState exampleTarget { ir := spillIR } (firstRefs 127)).ir
          (REF_FIRST + 127)).t).1 = 255 ∧
    (∃ as1, ra_spill exampleTarget (spilledState exampleTarget { ir := spillIR } (firstRefs 127))
        (REF_FIRST + 127) = .ok (1020, as1) ∧ (as1.ir (REF_FIRST + 127)).s = 255) ∧
    (ra_spill exampleTarget (spilledState exampleTarget { ir := spillIR } (firstRefs 128))
        (REF_FIRST + 128)).toOption.isNone = true := by
  have h := ra_spill_slot_limit exampleTarget { ir := spillIR }
    (spilledState exampleTarget { ir := spillIR } (firstRefs 127)) (firstRefs 127)
    (REF_FIRST + 127) (by decide) (spilledState_ok _ _ _ (by decide!)) (by decide!)
  have h255 : (ra_spill_slot (spilledState exampleTarget { ir := spillIR } (firstRefs 127))
      ((spilledState exampleTarget { ir := spillIR } (firstRefs 127)).ir
        (REF_FIRST + 127)).t).1 = 255 := by decide!
  have h1 := h.1 (le_of_eq h255)
  rw [h255] at h1
  exact ⟨h255, h1, by decide!⟩

/-- C12, counterexample: the first integer that is spilled after `ra_setup` on a
target whose first slot is 2 gets the even slot 2. -/
theorem ra_spill_int_even_counterexample :
    ¬ irt_isnum (intIR REF_FIRST).t ∧
    ¬ ra_hasspill (intIR REF_FIRST).s ∧
    (ra_spill exampleTarget (ra_setup exampleTarget { ir := intIR }) REF_FIRST).toOption.map
      (fun r => (r.1, (r.2.ir REF_FIRST).s, r.2.oddspill)) = some (8, 2, 3) ∧
    (ra_spill exampleTarget (ra_setup exampleTarget { ir := intIR }) REF_FIRST).toOption.map
      (fun r => (r.2.ir REF_FIRST).s % 2) = some 0 := by
  decide

/-- C12, amended: in a state that calls of `ra_spill` reach from `ra_setup`, a
number gets the next even slot; an integer or address gets the free odd slot
if there is one, and otherwise the next even slot, whose odd companion becomes
the free odd slot. -/
theorem ra_spill_parity (T : Target) (as0 as as1 : ASMState) (refs : List Nat) (ref : Nat)
    (ofs : Int)
    (hreach : ra_spills T (ra_setup T as0) refs = .ok as)
    (hs : ¬ ra_hasspill (as.ir ref).s)
    (hr : ra_spill T as ref = .ok (ofs, as1)) :
    (irt_isnum (as.ir ref).t →
      (as1.ir ref).s = as.evenspill ∧ (as1.ir ref).s % 2 = 0) ∧
    (¬ irt_isnum (as.ir ref).t → as.oddspill ≠ 0 →
      (as1.ir ref).s = as.oddspill ∧ (as1.ir ref).s % 2 = 1 ∧ as1.oddspill = 0) ∧
    (¬ irt_isnum (as.ir ref).t → as.oddspill = 0 →
      (as1.ir ref).s = as.evenspill ∧ (as1.ir ref).s % 2 = 0 ∧
      as1.oddspill = (as1.ir ref).s + 1) := by
  have hinv := (ra_spills_inv T refs _ as (ra_setup_inv T as0) hreach).1
  have hlt := (ra_spill_slot_inv as (as.ir ref).t hinv).2.1
  have hcases := (ra_spill_slot_cases as (as.ir ref).t).2
  unfold SpillInv at hinv
  rcases ra_spill_new T as ref hs with ⟨_, he⟩ | ⟨hok, he⟩
  · rw [he] at hr; cases hr
  · rw [he] at hr
    injection hr with hr
    injection hr with hofs hr
    subst hr
    dsimp only
    rw [upd, if_pos rfl, setS_s]
    rcases hcases with ⟨hn, h1, h2, h3⟩ | ⟨hn, ho, h1, h2, h3⟩ | ⟨hn, ho, h1, h2, h3⟩
    · refine ⟨fun _ => by omega, fun hn1 => absurd hn hn1, fun hn1 => absurd hn hn1⟩
    · refine ⟨fun hn1 => absurd hn1 hn, fun _ _ => by omega, fun _ ho1 => absurd ho1 ho⟩
    · refine ⟨fun hn1 => absurd hn1 hn, fun _ ho1 => absurd ho ho1, fun _ _ => by omega⟩

theorem ra_spill_parity_witness :
    (ra_spill exampleTarget (ra_setup exampleTarget { ir := intIR }) REF_FIRST).toOption.map
      (fun r => r.1) = some 8 ∧
    ((spilledState exampleTarget { ir := intIR } [REF_FIRST]).ir REF_FIRST).s = 2 ∧
    ((spilledState exampleTarget { ir := intIR } [REF_FIRST, REF_FIRST + 1]).ir
      (REF_FIRST + 1)).s = 3 :=
  have h := ra_spill_parity exampleTarget { ir := intIR }
    (spilledState exampleTarget { ir := intIR } [REF_FIRST])
    (spilledState exampleTarget { ir := intIR } [REF_FIRST, REF_FIRST + 1])
    [REF_FIRST] (REF_FIRST + 1) 12
    (spilledState_ok _ _ _ (by decide)) (by decide) (by rfl)
  ⟨by decide, by decide, (h.2.1 (by decide) (by decide)).1.trans (by decide)⟩

theorem slotWidth_pos (t : Nat) : 1 ≤ slotWidth t ∧ slotWidth t ≤ 2 := by
  unfold slotWidth; split <;> omega

/-- One call of `ra_spill` for an instruction without spill slot keeps the
slots apart. -/
theorem ra_spill_slotsInv (T : Target) (as as1 : ASMState) (done : List Nat) (ref : Nat)
    (ofs : Int) (hinv : SpillInv as) (hd : SlotsInv as done) (hnot : ref ∉ done)
    (hs : ¬ ra_hasspill (as.ir ref).s) (hr : ra_spill T as ref = .ok (ofs, as1)) :
    SlotsInv as1 (ref :: done) ∧ ∀ a, a ≠ ref → as1.ir a = as.ir a := by
  have hlt := (ra_spill_slot_inv as (as.ir ref).t hinv).2.1
  have hcases := (ra_spill_slot_cases as (as.ir ref).t).2
  unfold SpillInv at hinv
  rcases ra_spill_new T as ref hs with ⟨_, he⟩ | ⟨hok, he⟩
  · rw [he] at hr; cases hr
  rw [he] at hr
  injection hr with hr
  injection hr with hofs hr
  subst hr
  have hother : ∀ a, a ≠ ref → (upd as.ir ref
      ((as.ir ref).setS (ra_spill_slot as (as.ir ref).t).1)) a = as.ir a := by
    intro a ha
    rw [upd, if_neg ha]
  have hself : (upd as.ir ref ((as.ir ref).setS (ra_spill_slot as (as.ir ref).t).1)) ref =
      (as.ir ref).setS (ra_spill_slot as (as.ir ref).t).1 := by
    rw [upd, if_pos rfl]
  refine ⟨?_, hother⟩
  have hne : ∀ a ∈ done, a ≠ ref := fun a ha h => hnot (h ▸ ha)
  have hw : slotWidth (as.ir ref).t = if irt_isnum (as.ir ref).t then 2 else 1 := rfl
  -- the new instruction against the next slots and against the old instructions
  have hnew : (ra_spill_slot as (as.ir ref).t).1 + slotWidth (as.ir ref).t ≤
        (ra_spill_slot as (as.ir ref).t).2.evenspill ∧
      ((ra_spill_slot as (as.ir ref).t).2.oddspill ≠ 0 →
        (ra_spill_slot as (as.ir ref).t).2.oddspill < (ra_spill_slot as (as.ir ref).t).1 ∨
        (ra_spill_slot as (as.ir ref).t).1 + slotWidth (as.ir ref).t ≤
          (ra_spill_slot as (as.ir ref).t).2.oddspill) ∧
      ∀ a ∈ done, ((as.ir a).s + slotWidth (as.ir a).t ≤ (ra_spill_slot as (as.ir ref).t).1 ∨
          (ra_spill_slot as (as.ir ref).t).1 + slotWidth (as.ir ref).t ≤ (as.ir a).s) ∧
        ((ra_spill_slot as (as.ir ref).t).2.oddspill ≠ 0 →
          (ra_spill_slot as (as.ir ref).t).2.oddspill < (as.ir a).s ∨
          (as.ir a).s + slotWidth (as.ir a).t ≤ (ra_spill_slot as (as.ir ref).t).2.oddspill) := by
    rcases hcases with ⟨hn, h1, h2, h3⟩ | ⟨hn, ho, h1, h2, h3⟩ | ⟨hn, ho, h1, h2, h3⟩
    · rw [if_pos hn] at hw
      refine ⟨by omega, by omega, ?_⟩
      intro a ha
      have := hd.1 a ha
      have := slotWidth_pos (as.ir a).t
      constructor
      · omega
      · rw [h3]; exact (hd.1 a ha).2.1
    · rw [if_neg hn] at hw
      refine ⟨by omega, by omega, ?_⟩
      intro a ha
      have := hd.1 a ha
      have := (hd.1 a ha).2.1 ho
      have := slotWidth_pos (as.ir a).t
      constructor
      · omega
      · omega
    · rw [if_neg hn] at hw
      refine ⟨by omega, by omega, ?_⟩
      intro a ha
      have := hd.1 a ha
      have := slotWidth_pos (as.ir a).t
      constructor
      · omega
      · omega
  have hslot : (ra_spill_slot as (as.ir ref).t).1 % 256 = (ra_spill_slot as (as.ir ref).t).1 := by
    omega
  unfold SlotsInv slotsDisjoint
  dsimp only
  constructor
  · intro a ha
    rcases List.mem_cons.mp ha with rfl | ha
    · rw [hself, setS_s, setS_t, hslot]
      refine ⟨hnew.1, hnew.2.1, fun hn => ?_⟩
      rcases hcases with ⟨_, h1, _⟩ | ⟨hn1, _⟩ | ⟨hn1, _⟩
      · omega
      · exact absurd hn hn1
      · exact absurd hn hn1
    · rw [hother a (hne a ha)]
      have h1 := (hnew.2.2 a ha).2
      have h2 := (hd.1 a ha).1
      have := (ra_spill_slot_inv as (as.ir ref).t (by unfold SpillInv; exact hinv)).2.2
      exact ⟨by omega, h1, (hd.1 a ha).2.2⟩
  · intro a ha b hb hab
    rcases List.mem_cons.mp ha with ha1 | ha1
    · rcases List.mem_cons.mp hb with hb1 | hb1
      · exact absurd (ha1.trans hb1.symm) hab
      · rw [ha1, hself, setS_s, setS_t, hslot, hother b (hne b hb1)]
        have := (hnew.2.2 b hb1).1
        omega
    · rcases List.mem_cons.mp hb with hb1 | hb1
      · rw [hb1, hself, setS_s, setS_t, hslot, hother a (hne a ha1)]
        have := (hnew.2.2 a ha1).1
        omega
      · rw [hother a (hne a ha1), hother b (hne b hb1)]
        exact hd.2 a ha1 b hb1 hab

/-- Calls of `ra_spill` for distinct instructions without spill slot keep the
slots apart. -/
theorem ra_spills_slotsInv (T : Target) (refs : List Nat) (as as1 : ASMState)
    (done : List Nat) (hinv : SpillInv as) (hd : SlotsInv as done)
    (hnodup : refs.Nodup) (hnot : ∀ r ∈ refs, r ∉ done)
    (hs : ∀ r ∈ refs, ¬ ra_hasspill (as.ir r).s)
    (hr : ra_spills T as refs = .ok as1) :
    ∀ a ∈ refs, (irt_isnum (as1.ir a).t → (as1.ir a).s % 2 = 0) ∧
      ∀ b ∈ refs, a ≠ b → slotsDisjoint as1 a b := by
  suffices h : ∃ done1, SlotsInv as1 done1 ∧ (∀ a ∈ done, a ∈ done1) ∧
      ∀ a ∈ refs, a ∈ done1 from by
    obtain ⟨done1, h1, _, h2⟩ := h
    exact fun a ha => ⟨(h1.1 a (h2 a ha)).2.2, fun b hb hab => h1.2 a (h2 a ha) b (h2 b hb) hab⟩
  induction refs generalizing as done with
  | nil => exact ⟨done, by unfold ra_spills at hr; injection hr with hr; subst hr; exact hd,
      fun a ha => ha, fun a ha => absurd ha (List.not_mem_nil a)⟩
  | cons ref refs ih =>
    unfold ra_spills at hr
    cases hc : ra_spill T as ref with
    | error e => rw [hc] at hr; cases hr
    | ok r =>
      rw [hc] at hr
      dsimp only at hr
      obtain ⟨ofs, as2⟩ := r
      have hstep := ra_spill_slotsInv T as as2 done ref ofs hinv hd
        (hnot ref (List.mem_cons_self _ _)) (hs ref (List.mem_cons_self _ _)) hc
      have hinv2 := (ra_spill_inv T as as2 ref ofs hinv hc).1
      have hnd := List.nodup_cons.mp hnodup
      obtain ⟨done1, h1, h2, h3⟩ := ih as2 (ref :: done) hinv2 hstep.1 hnd.2
        (fun r hr1 hmem => by
          rcases List.mem_cons.mp hmem with rfl | hmem
          · exact hnd.1 hr1
          · exact hnot r (List.mem_cons_of_mem _ hr1) hmem)
        (fun r hr1 => by
          rw [hstep.2 r (fun h => hnd.1 (h ▸ hr1))]
          exact hs r (List.mem_cons_of_mem _ hr1))
        hr
      refine ⟨done1, h1, fun a ha => h2 a (List.mem_cons_of_mem _ ha), fun a ha => ?_⟩
      rcases List.mem_cons.mp ha with ha1 | ha1
      · exact ha1 ▸ h2 ref (List.mem_cons_self _ _)
      · exact h3 a ha1

/-- C13: after calls of `ra_spill` from `ra_setup` for distinct instructions
that had no spill slot, a number has an even slot, and the slots of two of
these instructions never overlap, where a number owns its slot and the next
one and any other value owns its slot alone. -/
theorem ra_spill_no_overlap (T : Target) (as0 as : ASMState) (refs : List Nat)
    (hnodup : refs.Nodup)
    (hs : ∀ r ∈ refs, ¬ ra_hasspill (as0.ir r).s)
    (hreach : ra_spills T (ra_setup T as0) refs = .ok as) :
    ∀ a ∈ refs, (irt_isnum (as.ir a).t → (as.ir a).s % 2 = 0) ∧
      ∀ b ∈ refs, a ≠ b →
        (as.ir a).s + (if irt_isnum (as.ir a).t then 2 else 1) ≤ (as.ir b).s ∨
        (as.ir b).s + (if irt_isnum (as.ir b).t then 2 else 1) ≤ (as.ir a).s :=
  ra_spills_slotsInv T refs (ra_setup T as0) as [] (ra_setup_inv T as0)
    ⟨fun a ha => absurd ha (List.not_mem_nil a), fun a ha => absurd ha (List.not_mem_nil a)⟩
    hnodup (fun r _ => List.not_mem_nil r) hs hreach

theorem ra_spill_no_overlap_witness :
    ((spilledState exampleTarget { ir := mixedIR } (firstRefs 4)).ir REF_FIRST).s = 2 ∧
    ((spilledState exampleTarget { ir := mixedIR } (firstRefs 4)).ir (REF_FIRST + 1)).s = 4 ∧
    ((spilledState exampleTarget { ir := mixedIR } (firstRefs 4)).ir (REF_FIRST + 2)).s = 6 ∧
    ((spilledState exampleTarget { ir := mixedIR } (firstRefs 4)).ir (REF_FIRST + 3)).s = 5 ∧
    ∀ a ∈ firstRefs 4,
      (irt_isnum ((spilledState exampleTarget { ir := mixedIR } (firstRefs 4)).ir a).t →
        ((spilledState exampleTarget { ir := mixedIR } (firstRefs 4)).ir a).s % 2 = 0) ∧
      ∀ b ∈ firstRefs 4, a ≠ b →
        ((spilledState exampleTarget { ir := mixedIR } (firstRefs 4)).ir a).s +
            (if irt_isnum ((spilledState exampleTarget { ir := mixedIR } (firstRefs 4)).ir a).t
              then 2 else 1) ≤
          ((spilledState exampleTarget { ir := mixedIR } (firstRefs 4)).ir b).s ∨
        ((spilledState exampleTarget { ir := mixedIR } (firstRefs 4)).ir b).s +
            (if irt_isnum ((spilledState exampleTarget { ir := mixedIR } (firstRefs 4)).ir b).t
              then 2 else 1) ≤
          ((spilledState exampleTarget { ir := mixedIR } (firstRefs 4)).ir a).s :=
  ⟨by decide, by decide, by decide, by decide,
    ra_spill_no_overlap exampleTarget { ir := mixedIR }
      (spilledState exampleTarget { ir := mixedIR } (firstRefs 4)) (firstRefs 4)
      (by decide) (by decide) (spilledState_ok _ _ _ (by decide))⟩

/-! ## Properties of the machine code areas -/

theorem mcode_protect_fields (J : jit_State) (prot : Nat) :
    (mcode_protect J prot).sizemcode = J.sizemcode ∧
    (mcode_protect J prot).maxmcode = J.maxmcode ∧
    (mcode_protect J prot).szallmcarea = J.szallmcarea ∧
    (mcode_protect J prot).mcarea = J.mcarea ∧
    (mcode_protect J prot).szmcarea = J.szmcarea ∧
    (mcode_protect J prot).mctop = J.mctop ∧
    (mcode_protect J prot).mcbot = J.mcbot ∧
    (mcode_protect J prot).mclink = J.mclink ∧
    (mcode_protect J prot).mcprot = prot := by
  unfold mcode_protect
  by_cases h : J.mcprot ≠ prot
  · rw [if_pos h]; exact ⟨rfl, rfl, rfl, rfl, rfl, rfl, rfl, rfl, rfl⟩
  · rw [if_neg h]; exact ⟨rfl, rfl, rfl, rfl, rfl, rfl, rfl, rfl, not_not.mp h⟩

theorem mcode_areasize_congr (H : Host) (J J1 : jit_State) (h : J1.sizemcode = J.sizemcode) :
    mcode_areasize H J1 = mcode_areasize H J := by
  unfold mcode_areasize
  rw [h]

theorem mcode_maxsize_congr (J J1 : jit_State) (h : J1.maxmcode = J.maxmcode) :
    mcode_maxsize J1 = mcode_maxsize J := by
  unfold mcode_maxsize
  rw [h]

/-- The outcome of `mcode_allocarea`: the allocation error and the unchanged
state if the system provides no region, and the new current area otherwise. -/
theorem mcode_allocarea_spec (H : Host) (J : jit_State) :
    (H.os_alloc J (mcode_areasize H J) = none ∧
      mcode_allocarea H J = .raise (.trace .MCODEAL) J) ∨
    (∃ p J1, H.os_alloc J (mcode_areasize H J) = some p ∧
      mcode_allocarea H J = .ok () J1 ∧
      J1.mcarea = p ∧ J1.szmcarea = mcode_areasize H J ∧ J1.mcprot = MCPROT_GEN H ∧
      J1.mctop = p + mcode_areasize H J ∧ J1.mcbot = p + sizeof_MCLink ∧
      J1.mclink p = { next := J.mcarea, size := mcode_areasize H J } ∧
      (∀ a, a ≠ p → J1.mclink a = J.mclink a) ∧
      J1.szallmcarea = size_t ((J.szallmcarea : Int) + mcode_areasize H J) ∧
      J1.sizemcode = J.sizemcode ∧ J1.maxmcode = J.maxmcode ∧
      (∀ a, inArea p (mcode_areasize H J) a → J1.pageprot a = MCPROT_GEN H)) := by
  unfold mcode_allocarea mcode_alloc
  dsimp only
  cases h : H.os_alloc J (mcode_areasize H J) with
  | none => exact Or.inl ⟨rfl, rfl⟩
  | some p =>
    refine Or.inr ⟨p, _, rfl, rfl, rfl, rfl, rfl, rfl, rfl, ?_, ?_, rfl, rfl, rfl, ?_⟩
    · simp [upd, mcode_setprot]
    · intro a ha
      simp [upd, mcode_setprot, ha]
    · intro a ha
      simp [mcode_setprot, ha]

/-- C14, counterexample: with the default parameters, an empty arena and a host
that provides no pages, `lj_mcode_limiterr` throws the allocation error
although the total size plus one area stays below the maximum. -/
theorem lj_mcode_limiterr_alloc_counterexample :
    (lj_mcode_limiterr (exampleHost 0) {} 0).raises .MCODEAL ∧
    ¬ (0 > mcode_areasize (exampleHost 0) {}) ∧
    ¬ (({} : jit_State).szallmcarea + mcode_areasize (exampleHost 0) {} >
        1024 * (({} : jit_State).maxmcode).toNat) := by
  decide

/-- C14, amended: `lj_mcode_limiterr` never returns. With the size `sz` of an
area as the code computes it, it throws the overflow error if and only if
`need > sz`; otherwise it throws the allocation error if and only if the total
size plus `sz` exceeds the maximum or the system fails to provide a region;
otherwise it allocates one new area, links it in front of the list of areas,
and throws the limit error. -/
theorem lj_mcode_limiterr_raises (H : Host) (J : jit_State) (need : Nat) :
    ¬ (lj_mcode_limiterr H J need).isOk ∧
    ((lj_mcode_limiterr H J need).raises .MCODEOV ↔ need > mcode_areasize H J) ∧
    (need ≤ mcode_areasize H J →
      ((lj_mcode_limiterr H J need).raises .MCODEAL ↔
        (size_t ((J.szallmcarea : Int) + mcode_areasize H J) > mcode_maxsize J ∨
          H.os_alloc (lj_mcode_abort H J) (mcode_areasize H J) = none))) ∧
    (need ≤ mcode_areasize H J →
      size_t ((J.szallmcarea : Int) + mcode_areasize H J) ≤ mcode_maxsize J →
      ∀ p, H.os_alloc (lj_mcode_abort H J) (mcode_areasize H J) = some p →
        (lj_mcode_limiterr H J need).raises .MCODELM ∧
        (lj_mcode_limiterr H J need).state.mcarea = p ∧
        (lj_mcode_limiterr H J need).state.szmcarea = mcode_areasize H J ∧
        (lj_mcode_limiterr H J need).state.mclink p =
          { next := J.mcarea, size := mcode_areasize H J } ∧
        (lj_mcode_limiterr H J need).state.szallmcarea =
          size_t ((J.szallmcarea : Int) + mcode_areasize H J)) := by
  have hf := mcode_protect_fields J (MCPROT_RUN H)
  have hsz : mcode_areasize H (lj_mcode_abort H J) = mcode_areasize H J :=
    mcode_areasize_congr H J _ hf.1
  have hmax : mcode_maxsize (lj_mcode_abort H J) = mcode_maxsize J :=
    mcode_maxsize_congr J _ hf.2.1
  have hall : (lj_mcode_abort H J).szallmcarea = J.szallmcarea := hf.2.2.1
  have harea : (lj_mcode_abort H J).mcarea = J.mcarea := hf.2.2.2.1
  have hspec := mcode_allocarea_spec H (lj_mcode_abort H J)
  rw [hsz, hall, harea] at hspec
  unfold lj_mcode_limiterr
  dsimp only
  rw [hsz, hmax, hall]
  by_cases hov : need > mcode_areasize H J
  · rw [if_pos hov]
    refine ⟨fun h => h, ⟨fun _ => hov, fun _ => rfl⟩, fun h => absurd hov (by omega),
      fun h => absurd hov (by omega)⟩
  rw [if_neg hov]
  by_cases hal : size_t ((J.szallmcarea : Int) + mcode_areasize H J) > mcode_maxsize J
  · rw [if_pos hal]
    refine ⟨fun h => h, ⟨fun h => ?_, fun h => absurd h hov⟩,
      fun _ => ⟨fun _ => Or.inl hal, fun _ => rfl⟩, fun _ h => absurd hal (by omega)⟩
    exact absurd h (by intro h1; injection h1 with h1; cases h1)
  rw [if_neg hal]
  rcases hspec with ⟨hnone, he⟩ | ⟨p, J1, hsome, he, h1, h2, _, _, _, h6, _, h8, _⟩
  · rw [he]
    refine ⟨fun h => h, ⟨fun h => ?_, fun h => absurd h hov⟩,
      fun _ => ⟨fun _ => Or.inr hnone, fun _ => rfl⟩, fun _ _ p hp => ?_⟩
    · exact absurd h (by intro h1; injection h1 with h1; cases h1)
    · rw [hnone] at hp; cases hp
  · rw [he]
    refine ⟨fun h => h, ⟨fun h => ?_, fun h => absurd h hov⟩,
      fun _ => ⟨fun h => ?_, fun h => ?_⟩, fun _ _ q hq => ?_⟩
    · exact absurd h (by intro h1; injection h1 with h1; cases h1)
    · exact absurd h (by intro h1; injection h1 with h1; cases h1)
    · rcases h with h | h
      · exact absurd h hal
      · rw [hsome] at h; cases h
    · rw [hsome] at hq
      injection hq with hq
      subst hq
      exact ⟨rfl, h1, h2, h6, h8⟩

theorem lj_mcode_limiterr_raises_witness :
    mcode_areasize (exampleHost 0x100000) {} = 32768 ∧
    ((lj_mcode_limiterr (exampleHost 0x100000) {} 32768).raises .MCODELM ∧
      (lj_mcode_limiterr (exampleHost 0x100000) {} 32768).state.mcarea = 0x10000 ∧
      (lj_mcode_limiterr (exampleHost 0x100000) {} 32768).state.szmcarea = 32768 ∧
      (lj_mcode_limiterr (exampleHost 0x100000) {} 32768).state.mclink 0x10000 =
        { next := 0, size := 32768 } ∧
      (lj_mcode_limiterr (exampleHost 0x100000) {} 32768).state.szallmcarea = 32768) ∧
    (lj_mcode_limiterr (exampleHost 0x100000) {} 32769).raises .MCODEOV ∧
    (lj_mcode_limiterr (exampleHost 0x100000) { szallmcarea := 507904 } 0).raises .MCODEAL :=
  ⟨by decide,
    (lj_mcode_limiterr_raises (exampleHost 0x100000) {} 32768).2.2.2 (by decide) (by decide)
      0x10000 (by decide),
    by decide, by decide⟩

/-- C16, counterexample: the first reservation in an empty arena reports the
limit 0x10008, the bottom of the usable part of the area at 0x10000, and not
that address plus 64; the assembler adds the 64 bytes. -/
theorem lj_mcode_reserve_limit_counterexample :
    (lj_mcode_reserve (exampleHost 0x100000) {}).value? = some (0x10000 + 32768, 0x10008) ∧
    (lj_mcode_reserve (exampleHost 0x100000) {}).state.mcarea = 0x10000 ∧
    (lj_mcode_reserve (exampleHost 0x100000) {}).state.mcbot = 0x10008 ∧
    (0x10008 : Nat) ≠ 0x10008 + 64 ∧
    ((lj_asm_trace_reserve (exampleHost 0x100000) {} {}).value?.map
      (fun as => (as.mctop, as.mcp, as.mcbot, as.mclim))) =
        some (0x10000 + 32768, 0x10000 + 32768, 0x10008, 0x10008 + 64) := by
  decide

/-- C16, amended: `lj_mcode_reserve` returns `J->mctop` and reports as limit
`J->mcbot`, the bottom of the current area without a red zone; the current area
is then in the protection for generating code. It throws only the allocation
error, when there is no current area and the system fails to provide one. For
a new area the top is the end of the area and the bottom lies behind the
header. The assembler puts its limit `as->mclim` 64 bytes above the reported
limit, and starts at the returned top. -/
theorem lj_mcode_reserve_spec (H : Host) (J : jit_State) :
    (∀ top lim J1, lj_mcode_reserve H J = .ok (top, lim) J1 →
      top = J1.mctop ∧ lim = J1.mcbot ∧ J1.mcprot = MCPROT_GEN H ∧
      (J.mcarea ≠ 0 → top = J.mctop ∧ lim = J.mcbot ∧ J1.mcarea = J.mcarea) ∧
      (J.mcarea = 0 → top = J1.mcarea + mcode_areasize H J ∧
        lim = J1.mcarea + sizeof_MCLink ∧ H.os_alloc J (mcode_areasize H J) = some J1.mcarea) ∧
      ∀ as, ∃ as1, lj_asm_trace_reserve H J as = .ok as1 J1 ∧
        as1.mctop = top ∧ as1.mcp = top ∧ as1.mcbot = lim ∧
        as1.mclim = lim + MCLIM_REDZONE) ∧
    (∀ e J1, lj_mcode_reserve H J = .raise e J1 →
      e = .trace .MCODEAL ∧ J1 = J ∧ J.mcarea = 0 ∧
      H.os_alloc J (mcode_areasize H J) = none) ∧
    ((J.mcarea ≠ 0 ∨ H.os_alloc J (mcode_areasize H J) ≠ none) →
      (lj_mcode_reserve H J).isOk) := by
  have hasm : ∀ top lim J1, lj_mcode_reserve H J = .ok (top, lim) J1 →
      ∀ as, ∃ as1, lj_asm_trace_reserve H J as = .ok as1 J1 ∧
        as1.mctop = top ∧ as1.mcp = top ∧ as1.mcbot = lim ∧
        as1.mclim = lim + MCLIM_REDZONE := by
    intro top lim J1 h as
    unfold lj_asm_trace_reserve
    rw [h]
    exact ⟨_, rfl, rfl, rfl, rfl, rfl⟩
  refine ⟨fun top lim J1 h => ?_, ?_, ?_⟩
  · have h4 := hasm top lim J1 h
    unfold lj_mcode_reserve at h
    by_cases hz : J.mcarea = 0
    · rw [if_pos hz] at h
      rcases mcode_allocarea_spec H J with ⟨_, he⟩ |
        ⟨p, J2, hsome, he, g1, _, g3, g4, g5, _⟩
      · rw [he] at h; cases h
      · rw [he] at h
        injection h with h1 h2
        injection h1 with h1 h3
        subst h2
        refine ⟨h1.symm, h3.symm, g3, fun hn => absurd hz hn, fun _ => ?_, h4⟩
        rw [g1]
        exact ⟨h1.symm.trans g4, h3.symm.trans g5, hsome⟩
    · rw [if_neg hz] at h
      have hf := mcode_protect_fields J (MCPROT_GEN H)
      injection h with h1 h2
      injection h1 with h1 h3
      subst h2
      exact ⟨h1.symm, h3.symm, hf.2.2.2.2.2.2.2.2,
        fun _ => ⟨h1.symm.trans hf.2.2.2.2.2.1, h3.symm.trans hf.2.2.2.2.2.2.1, hf.2.2.2.1⟩,
        fun hn => absurd hn hz, h4⟩
  · intro e J1 h
    unfold lj_mcode_reserve at h
    by_cases hz : J.mcarea = 0
    · rw [if_pos hz] at h
      rcases mcode_allocarea_spec H J with ⟨hnone, he⟩ | ⟨p, J2, _, he, _⟩
      · rw [he] at h
        injection h with h1 h2
        exact ⟨h1.symm, h2.symm, hz, hnone⟩
      · rw [he] at h; cases h
    · rw [if_neg hz] at h; cases h
  · intro h
    unfold lj_mcode_reserve
    by_cases hz : J.mcarea = 0
    · rw [if_pos hz]
      rcases mcode_allocarea_spec H J with ⟨hnone, _⟩ | ⟨p, J2, _, he, _⟩
      · rcases h with h | h
        · exact absurd hz h
        · exact absurd hnone h
      · rw [he]; exact trivial
    · rw [if_neg hz]; exact trivial

theorem lj_mcode_reserve_spec_witness :
    (lj_mcode_reserve (exampleHost 0x100000) {}).isOk ∧
    (lj_mcode_reserve (exampleHost 0x100000)
      { mcarea := 0x10000, mctop := 0x17000, mcbot := 0x10008, szmcarea := 32768,
        szallmcarea := 32768 }).value? = some (0x17000, 0x10008) :=
  ⟨(lj_mcode_reserve_spec (exampleHost 0x100000) {}).2.2 (Or.inr (by decide)), by decide⟩

/-- The search through the list of areas finds the first area behind `mc` that
contains the pointer, if there is one and the fuel covers the list. -/
theorem mcode_search_finds (J : jit_State) (ptr : Nat) (rest : List Nat) (mc fuel : Nat)
    (hchain : MCChain J (J.mclink mc).next rest)
    (hptr : ∃ a ∈ rest, inArea a (J.mclink a).size ptr)
    (hfuel : rest.length ≤ fuel) :
    ∃ b, mcode_search J ptr fuel mc = .found b ∧ b ∈ rest ∧
      inArea b (J.mclink b).size ptr := by
  induction rest generalizing mc fuel with
  | nil =>
    obtain ⟨a, ha, _⟩ := hptr
    exact absurd ha (List.not_mem_nil a)
  | cons a rest ih =>
    unfold MCChain at hchain
    obtain ⟨hnext, hne, hrest⟩ := hchain
    cases fuel with
    | zero => simp at hfuel
    | succ fuel =>
      unfold mcode_search
      rw [hnext, if_neg hne]
      by_cases hin : inArea a (J.mclink a).size ptr
      · rw [if_pos hin]
        exact ⟨a, rfl, List.mem_cons_self _ _, hin⟩
      · rw [if_neg hin]
        obtain ⟨b, hb, hbin⟩ := hptr
        have hb1 : b ∈ rest := by
          rcases List.mem_cons.mp hb with h | h
          · exact absurd (h ▸ hbin) hin
          · exact h
        obtain ⟨c, hc1, hc2, hc3⟩ := ih a fuel hrest ⟨b, hb1, hbin⟩
          (by simp only [List.length_cons] at hfuel; omega)
        exact ⟨c, hc1, List.mem_cons_of_mem _ hc2, hc3⟩

theorem mcode_setprot_areaProt (J : jit_State) (base prot : Nat) :
    areaProt (mcode_setprot J base (J.mclink base).size prot) base prot := by
  intro a ha
  exact if_pos ha

/-- C17: for a pointer inside one of the areas of the list, the call
`lj_mcode_patch(J, ptr, 0)` returns when the fuel covers the list; it returns
the base of an area of the list that contains the pointer, and all pages of
this area then have the protection for generating code. The call
`lj_mcode_patch(J, base, 1)` that follows returns `NULL` and leaves all pages
of the area in the protection for running code. The current area is assumed
to have the size that its header records and the protection that the cache
`J->mcprot` records. -/
theorem lj_mcode_patch_window (H : Host) (J : jit_State) (areas : List Nat) (ptr fuel : Nat)
    (hchain : MCChain J J.mcarea areas)
    (hsize : (J.mclink J.mcarea).size = J.szmcarea)
    (hcache : J.mcprot = MCPROT_GEN H → areaProt J J.mcarea (MCPROT_GEN H))
    (hptr : ∃ a ∈ areas, inArea a (J.mclink a).size ptr)
    (hfuel : areas.length ≤ fuel) :
    ∃ base J1, lj_mcode_patch H J ptr false fuel = some (base, J1) ∧
      base ∈ areas ∧ inArea base (J.mclink base).size ptr ∧
      J1.mclink = J.mclink ∧ areaProt J1 base (MCPROT_GEN H) ∧
      ∃ J2, lj_mcode_patch H J1 base true fuel = some (0, J2) ∧
        J2.mclink = J.mclink ∧ areaProt J2 base (MCPROT_RUN H) := by
  cases areas with
  | nil =>
    obtain ⟨a, ha, _⟩ := hptr
    exact absurd ha (List.not_mem_nil a)
  | cons a0 rest =>
    unfold MCChain at hchain
    obtain ⟨ha0, hne, hrest⟩ := hchain
    by_cases hin : inArea J.mcarea J.szmcarea ptr
    · -- the current area
      have hf := mcode_protect_fields J (MCPROT_GEN H)
      have hgen : areaProt (mcode_protect J (MCPROT_GEN H)) J.mcarea (MCPROT_GEN H) := by
        unfold mcode_protect
        by_cases hp : J.mcprot ≠ MCPROT_GEN H
        · rw [if_pos hp]
          intro a ha
          show (mcode_setprot J J.mcarea J.szmcarea (MCPROT_GEN H)).pageprot a = _
          rw [← hsize]
          exact mcode_setprot_areaProt J J.mcarea _ a ha
        · rw [if_neg hp]
          exact hcache (not_not.mp hp)
      refine ⟨J.mcarea, mcode_protect J (MCPROT_GEN H), ?_, ?_, ?_, hf.2.2.2.2.2.2.2.1, hgen, ?_⟩
      · unfold lj_mcode_patch
        rw [if_neg (by simp), if_pos hin]
      · rw [ha0]; exact List.mem_cons_self _ _
      · rw [hsize]; exact hin
      · have hf2 := mcode_protect_fields (mcode_protect J (MCPROT_GEN H)) (MCPROT_RUN H)
        refine ⟨mcode_protect (mcode_protect J (MCPROT_GEN H)) (MCPROT_RUN H), ?_,
          hf2.2.2.2.2.2.2.2.1.trans hf.2.2.2.2.2.2.2.1, ?_⟩
        · unfold lj_mcode_patch
          rw [if_pos rfl, if_pos hf.2.2.2.1]
        · generalize hJ1 : mcode_protect J (MCPROT_GEN H) = J1 at hf hgen ⊢
          have hlink : J1.mclink = J.mclink := hf.2.2.2.2.2.2.2.1
          unfold mcode_protect
          by_cases hp : J1.mcprot ≠ MCPROT_RUN H
          · rw [if_pos hp]
            intro a ha
            show (mcode_setprot J1 J1.mcarea J1.szmcarea (MCPROT_RUN H)).pageprot a = _
            have ha0 : inArea J.mcarea (J1.mclink J.mcarea).size a := ha
            have ha1 : inArea J1.mcarea J1.szmcarea a := by
              rw [hf.2.2.2.1, hf.2.2.2.2.1, ← hsize, ← hlink]
              exact ha0
            exact if_pos ha1
          · rw [if_neg hp]
            have hp1 : MCPROT_GEN H = MCPROT_RUN H := by
              rw [← hf.2.2.2.2.2.2.2.2]; exact not_not.mp hp
            rw [← hp1]
            exact hgen
    · -- another area of the list
      have hptr1 : ∃ a ∈ rest, inArea a (J.mclink a).size ptr := by
        obtain ⟨b, hb, hbin⟩ := hptr
        rcases List.mem_cons.mp hb with h | h
        · rw [h, ← ha0, hsize] at hbin
          exact absurd hbin hin
        · exact ⟨b, h, hbin⟩
      rw [← ha0] at hrest
      obtain ⟨b, hb1, hb2, hb3⟩ := mcode_search_finds J ptr rest J.mcarea fuel hrest hptr1
        (by simp only [List.length_cons] at hfuel; omega)
      have hnb : J.mcarea ≠ b := by
        intro h
        rw [← h, hsize] at hb3
        exact hin hb3
      refine ⟨b, mcode_setprot J b (J.mclink b).size (MCPROT_GEN H), ?_,
        List.mem_cons_of_mem _ hb2, hb3, rfl, mcode_setprot_areaProt J b _, ?_⟩
      · unfold lj_mcode_patch
        rw [if_neg (by simp), if_neg hin, hb1]
      · refine ⟨mcode_setprot (mcode_setprot J b (J.mclink b).size (MCPROT_GEN H)) b
          (J.mclink b).size (MCPROT_RUN H), ?_, rfl, ?_⟩
        · unfold lj_mcode_patch
          rw [if_pos rfl, if_neg (show (mcode_setprot J b (J.mclink b).size
            (MCPROT_GEN H)).mcarea ≠ b from hnb)]
          rfl
        · exact mcode_setprot_areaProt (mcode_setprot J b (J.mclink b).size (MCPROT_GEN H)) b _

theorem lj_mcode_patch_window_witness :
    (twoAreas.mcarea, twoAreas.mcprot, twoAreas.pageprot 0x10100) = (0x18000, 5, 5) ∧
    (lj_mcode_patch (exampleHost 0x100000) twoAreas 0x10100 false 2).map
      (fun r => (r.1, r.2.pageprot 0x10100, r.2.pageprot 0x18100)) = some (0x10000, 3, 5) ∧
    ∃ base J1, lj_mcode_patch (exampleHost 0x100000) twoAreas 0x10100 false 2 = some (base, J1) ∧
      base ∈ [0x18000, 0x10000] ∧ inArea base (twoAreas.mclink base).size 0x10100 ∧
      J1.mclink = twoAreas.mclink ∧ areaProt J1 base (MCPROT_GEN (exampleHost 0x100000)) ∧
      ∃ J2, lj_mcode_patch (exampleHost 0x100000) J1 base true 2 = some (0, J2) ∧
        J2.mclink = twoAreas.mclink ∧ areaProt J2 base (MCPROT_RUN (exampleHost 0x100000)) :=
  ⟨by decide, by decide,
    lj_mcode_patch_window (exampleHost 0x100000) twoAreas [0x18000, 0x10000] 0x10100 2
      (by decide) (by decide) (fun h => absurd h (by decide))
      ⟨0x10000, by decide, by decide⟩ (by decide)⟩

/-! ## The first pass over the PHI candidates -/

theorem irt_setmark_idem (t : Nat) : irt_setmark (irt_setmark t) = irt_setmark t := by
  unfold irt_setmark
  rw [Nat.lor_assoc, Nat.or_self]

theorem setT_apply (ir : Nat → IRIns) (l ref : Nat) (f : Nat → Nat) :
    setT ir l f ref = if ref = l then { ir l with t := f (ir l).t } else ir ref := by
  unfold setT upd
  rfl

theorem phiMarked_setT (subst : Nat → Nat) (ir : Nat → IRIns) (l ref : Nat) (f : Nat → Nat) :
    phiMarked subst (setT ir l f) ref ↔ phiMarked subst ir ref := by
  unfold phiMarked
  rw [setT_apply]
  by_cases h : subst ref = l
  · rw [if_pos h, h]
  · rw [if_neg h]

/-- C25, counterexample: in the increment loop the candidate `0x8002` has the
right reference `0x8004`, an ADD with the operand `0x8002`; pass 1 leaves it
unmarked. -/
theorem phi_pass1_direct_ref_counterexample :
    unrollPhi exampleExtern incLoop = [0x8002] ∧
    unrollSubst exampleExtern incLoop 0x8002 = 0x8004 ∧
    ((unrollState exampleExtern incLoop).cur.ir 0x8004).op1 = 0x8002 ∧
    ¬ irt_ismarked ((phi_pass1 (unrollSubst exampleExtern incLoop) [0x8002]
      (unrollState exampleExtern incLoop).cur.ir false).1 0x8002).t := by
  decide!

/-- C25, amended: pass 1 of `loop_emit_phi` marks a candidate with the left
reference `l` and the right reference `r = subst[l]` when `l = r`, when
`r = REF_DROP`, or when the instruction at `r` does not refer to `l` as one of
its operands; a candidate whose right instruction refers to it directly, and
every instruction that is no candidate, keeps its type byte. Pass 2 is
requested for the candidates marked for the third reason. -/
theorem phi_pass1_marks (subst : Nat → Nat) (phi : List Nat) (ir : Nat → IRIns) (pass2 : Bool) :
    (∀ ref, (phi_pass1 subst phi ir pass2).1 ref =
      if ref ∈ phi ∧ phiMarked subst ir ref then { ir ref with t := irt_setmark (ir ref).t }
      else ir ref) ∧
    ((phi_pass1 subst phi ir pass2).2 = true ↔
      (pass2 = true ∨ ∃ l ∈ phi, ¬ (l = subst l ∨ subst l = REF_DROP) ∧
        ¬ ((ir (subst l)).op1 = l ∨ (ir (subst l)).op2 = l))) := by
  induction phi generalizing ir pass2 with
  | nil =>
    unfold phi_pass1
    exact ⟨fun ref => by simp, by simp⟩
  | cons l rest ih =>
    unfold phi_pass1
    by_cases h1 : l = subst l ∨ subst l = REF_DROP
    · rw [if_pos h1]
      have hm : phiMarked subst ir l := by
        unfold phiMarked
        rcases h1 with h | h
        · exact Or.inl h
        · exact Or.inr (Or.inl h)
      obtain ⟨iha, ihb⟩ := ih (setT ir l irt_setmark) pass2
      refine ⟨fun ref => ?_, ?_⟩
      · rw [iha ref]
        simp only [phiMarked_setT, setT_apply]
        by_cases hr : ref = l
        · subst hr
          simp [hm, irt_setmark_idem]
        · simp [hr]
      · rw [ihb]
        constructor
        · rintro (h | ⟨l1, hl1, h2, h3⟩)
          · exact Or.inl h
          · refine Or.inr ⟨l1, List.mem_cons_of_mem _ hl1, h2, ?_⟩
            rw [setT_apply] at h3
            by_cases hs : subst l1 = l
            · rw [if_pos hs] at h3; rw [hs]; exact h3
            · rw [if_neg hs] at h3; exact h3
        · rintro (h | ⟨l1, hl1, h2, h3⟩)
          · exact Or.inl h
          · rcases List.mem_cons.mp hl1 with hl | hl
            · rw [hl] at h2; exact absurd h1 h2
            · refine Or.inr ⟨l1, hl, h2, ?_⟩
              rw [setT_apply]
              by_cases hs : subst l1 = l
              · rw [if_pos hs]; rw [hs] at h3; exact h3
              · rw [if_neg hs]; exact h3
    · rw [if_neg h1]
      by_cases h2 : ¬ ((ir (subst l)).op1 = l ∨ (ir (subst l)).op2 = l)
      · rw [if_pos h2]
        have hm : phiMarked subst ir l := by
          unfold phiMarked
          exact Or.inr (Or.inr h2)
        obtain ⟨iha, ihb⟩ := ih (setT ir l irt_setmark) true
        refine ⟨fun ref => ?_, ?_⟩
        · rw [iha ref]
          simp only [phiMarked_setT, setT_apply]
          by_cases hr : ref = l
          · subst hr
            simp [hm, irt_setmark_idem]
          · simp [hr]
        · rw [ihb]
          exact ⟨fun _ => Or.inr ⟨l, List.mem_cons_self _ _, h1, h2⟩, fun _ => Or.inl rfl⟩
      · rw [if_neg h2]
        have hm : ¬ phiMarked subst ir l := by
          unfold phiMarked
          intro h
          rcases h with h | h | h
          · exact h1 (Or.inl h)
          · exact h1 (Or.inr h)
          · exact h2 h
        obtain ⟨iha, ihb⟩ := ih ir pass2
        refine ⟨fun ref => ?_, ?_⟩
        · rw [iha ref]
          by_cases hr : ref = l
          · subst hr
            simp [hm]
          · simp [hr]
        · rw [ihb]
          constructor
          · rintro (h | ⟨l1, hl1, h3, h4⟩)
            · exact Or.inl h
            · exact Or.inr ⟨l1, List.mem_cons_of_mem _ hl1, h3, h4⟩
          · rintro (h | ⟨l1, hl1, h3, h4⟩)
            · exact Or.inl h
            · rcases List.mem_cons.mp hl1 with hl | hl
              · rw [hl] at h4; exact absurd h4 h2
              · exact Or.inr ⟨l1, hl, h3, h4⟩
/-! ## The main loop of the loop optimiser -/

theorem res_eq_ok (r : Res Nat) (h : r.isOk) : r = .ok r.get r.state := by
  cases r with
  | ok a J => rfl
  | raise e J => exact absurd h (by intro h1; exact h1)

/-- The outcome of `unroll_subst`, by the cases of the source. -/
theorem unroll_subst_cases (E : Extern) (invar ins : Nat) (S : UnrollState) (J : jit_State) :
    (unrollShortcut S.subst (J.cur.ir ins) →
      unroll_subst E invar ins S J = .ok { S with subst := upd S.subst ins (ins % 65536) } J) ∧
    (¬ unrollShortcut S.subst (J.cur.ir ins) →
      (∀ e J1, emitir E J ((J.cur.ir ins).ot &&& (0xffff ^^^ IRT_ISPHI))
          (substOp S.subst (J.cur.ir ins).op1) (substOp S.subst (J.cur.ir ins).op2) =
            .raise e J1 →
        unroll_subst E invar ins S J = .raise e J1) ∧
      (∀ tr J1, emitir E J ((J.cur.ir ins).ot &&& (0xffff ^^^ IRT_ISPHI))
          (substOp S.subst (J.cur.ir ins).op1) (substOp S.subst (J.cur.ir ins).op2) =
            .ok tr J1 →
        unroll_subst E invar ins S J =
          if tref_ref tr ≠ ins ∧ tref_ref tr < invar then
            unroll_carried E ins (tref_ref tr) (J.cur.ir ins).t
              { S with subst := upd S.subst ins (tref_ref tr) } J1
          else .ok { S with subst := upd S.subst ins (tref_ref tr) } J1)) := by
  unfold unroll_subst unrollShortcut substOp
  dsimp only
  refine ⟨fun h => by rw [if_pos h], fun h => ⟨fun e J1 he => ?_, fun tr J1 he => ?_⟩⟩
  · rw [if_neg h, he]
  · rw [if_neg h, he]

/-- The outcome of `unroll_typecheck` keeps the table, except in the case of the
conversion, where the entry of `ins` becomes the emitted TONUM. -/
theorem unroll_typecheck_subst (E : Extern) (ins ref t : Nat) (subst subst1 : Nat → Nat)
    (J J1 : jit_State) (h : unroll_typecheck E ins ref t subst J = .ok subst1 J1) :
    (¬ typeFix J t ref → subst1 = subst) ∧
    (typeFix J t ref → ∃ tr, emitir E J (IRTN IR_TONUM) ref 0 = .ok tr J1 ∧
      subst1 = upd subst ins (tref_ref tr)) := by
  unfold unroll_typecheck at h
  unfold typeFix
  by_cases h1 : ¬ irt_sametype t (J.cur.ir ref).t
  · rw [if_pos h1] at h
    by_cases h2 : irt_isnum t ∧ irt_isinteger (J.cur.ir ref).t
    · rw [if_pos h2] at h
      refine ⟨fun hn => absurd ⟨h1, h2.1, h2.2⟩ hn, fun _ => ?_⟩
      cases he : emitir E J (IRTN IR_TONUM) ref 0 with
      | raise e J2 => rw [he] at h; cases h
      | ok tr J2 =>
        rw [he] at h
        injection h with h3 h4
        subst h4
        exact ⟨tr, rfl, h3.symm⟩
    · rw [if_neg h2] at h
      refine ⟨fun _ => ?_, fun hf => absurd ⟨hf.2.1, hf.2.2⟩ h2⟩
      by_cases h3 : ¬ (irt_isinteger t ∧ irt_isinteger (J.cur.ir ref).t)
      · rw [if_pos h3] at h; cases h
      · rw [if_neg h3] at h
        injection h with h4 _
        exact h4.symm
  · rw [if_neg h1] at h
    refine ⟨fun _ => ?_, fun hf => absurd hf.1 h1⟩
    injection h with h4 _
    exact h4.symm

/-- The outcome of `unroll_carried`: the candidate is appended exactly under the
test for a PHI candidate, and the table changes by the type check only. -/
theorem unroll_carried_spec (E : Extern) (ins ref t : Nat) (S S1 : UnrollState)
    (J J1 : jit_State) (cand : Prop)
    (hc : cand ↔ (¬ irref_isk ref ∧ ¬ irt_isphi (J.cur.ir ref).t ∧ ¬ irt_ispri (J.cur.ir ref).t))
    (h : unroll_carried E ins ref t S J = .ok S1 J1) :
    (cand → S1.phi = S.phi ++ [ref] ∧ S.phi.length < E.LJ_MAX_PHI ∧
      unroll_typecheck E ins ref t S.subst (J.setT ref irt_setphi) = .ok S1.subst J1) ∧
    (¬ cand → S1.phi = S.phi ∧ unroll_typecheck E ins ref t S.subst J = .ok S1.subst J1) := by
  unfold unroll_carried at h
  by_cases h1 : ¬ irref_isk ref ∧ ¬ irt_isphi (J.cur.ir ref).t ∧ ¬ irt_ispri (J.cur.ir ref).t
  · rw [if_pos h1] at h
    refine ⟨fun _ => ?_, fun hn => absurd (hc.mpr h1) hn⟩
    by_cases h2 : S.phi.length ≥ E.LJ_MAX_PHI
    · rw [if_pos h2] at h; cases h
    · rw [if_neg h2] at h
      cases he : unroll_typecheck E ins ref t S.subst (J.setT ref irt_setphi) with
      | raise e J2 => rw [he] at h; cases h
      | ok subst J2 =>
        rw [he] at h
        injection h with h3 h4
        subst h3 h4
        exact ⟨rfl, by omega, rfl⟩
  · rw [if_neg h1] at h
    refine ⟨fun hy => absurd (hc.mp hy) h1, fun _ => ?_⟩
    cases he : unroll_typecheck E ins ref t S.subst J with
    | raise e J2 => rw [he] at h; cases h
    | ok subst J2 =>
      rw [he] at h
      injection h with h3 h4
      subst h3 h4
      exact ⟨rfl, rfl⟩

/-- C26, counterexample: in the loop that swaps two variables the load at
`0x8001` is re-emitted as `0x8002`, which is larger than `0x8001`, and
`0x8002` is recorded as a PHI candidate. -/
theorem unroll_phi_candidate_counterexample :
    tref_ref (emitir exampleExtern (loopStart swapLoop)
      (((loopStart swapLoop).cur.ir 0x8001).ot &&& (0xffff ^^^ IRT_ISPHI))
      (substOp (unrollStart swapLoop).subst ((loopStart swapLoop).cur.ir 0x8001).op1)
      (substOp (unrollStart swapLoop).subst ((loopStart swapLoop).cur.ir 0x8001).op2)).get
        = 0x8002 ∧
    ¬ (0x8002 < 0x8001) ∧
    (unroll_subst exampleExtern 0x8003 0x8001 (unrollStart swapLoop)
      (loopStart swapLoop)).value?.map (fun S => S.phi) = some [0x8002] ∧
    unrollPhi exampleExtern swapLoop = [0x8002, 0x8001] := by
  decide!

/-- C26, amended: when `loop_unroll` re-emits the instruction `ins` and gets the
reference `ref`, it records `ref` as a PHI candidate exactly when `ref` differs
from `ins`, lies before the loop (`ref < invar`), is no constant, is not
flagged PHI and is not primitive-typed; with `LJ_MAX_PHI` candidates already
recorded it throws the PHI overflow error instead. A reference below `ins`
differs from `ins` and lies before the loop. -/
theorem unroll_subst_phi_candidate (E : Extern) (invar ins : Nat) (S : UnrollState)
    (J J1 : jit_State) (tr : Nat)
    (hre : ¬ unrollShortcut S.subst (J.cur.ir ins))
    (hemit : emitir E J ((J.cur.ir ins).ot &&& (0xffff ^^^ IRT_ISPHI))
      (substOp S.subst (J.cur.ir ins).op1) (substOp S.subst (J.cur.ir ins).op2) = .ok tr J1) :
    (phiCandidate J1 invar ins (tref_ref tr) → E.LJ_MAX_PHI ≤ S.phi.length →
      (unroll_subst E invar ins S J).raises .PHIOV) ∧
    (∀ S1 J2, unroll_subst E invar ins S J = .ok S1 J2 →
      S1.phi = if phiCandidate J1 invar ins (tref_ref tr) then S.phi ++ [tref_ref tr]
        else S.phi) ∧
    (ins < invar → tref_ref tr < ins → tref_ref tr ≠ ins ∧ tref_ref tr < invar) := by
  have hcase := ((unroll_subst_cases E invar ins S J).2 hre).2 tr J1 hemit
  refine ⟨fun hc hfull => ?_, fun S1 J2 hok => ?_, fun h1 h2 => ⟨by omega, by omega⟩⟩
  · rw [hcase, if_pos ⟨hc.1, hc.2.1⟩]
    unfold unroll_carried
    rw [if_pos hc.2.2, if_pos hfull]
    exact rfl
  · rw [hcase] at hok
    by_cases hcar : tref_ref tr ≠ ins ∧ tref_ref tr < invar
    · rw [if_pos hcar] at hok
      have hspec := unroll_carried_spec E ins (tref_ref tr) (J.cur.ir ins).t _ S1 J1 J2
        (phiCandidate J1 invar ins (tref_ref tr))
        (by unfold phiCandidate; exact ⟨fun h => h.2.2, fun h => ⟨hcar.1, hcar.2, h⟩⟩) hok
      by_cases hc : phiCandidate J1 invar ins (tref_ref tr)
      · rw [if_pos hc]; exact (hspec.1 hc).1
      · rw [if_neg hc]; exact (hspec.2 hc).1
    · rw [if_neg hcar] at hok
      injection hok with h1 _
      subst h1
      rw [if_neg (fun hc : phiCandidate J1 invar ins (tref_ref tr) => hcar ⟨hc.1, hc.2.1⟩)]

theorem unroll_subst_phi_candidate_witness :
    phiCandidate (emitir exampleExtern (loopStart incLoop)
      (((loopStart incLoop).cur.ir 0x8001).ot &&& (0xffff ^^^ IRT_ISPHI))
      (substOp (unrollStart incLoop).subst ((loopStart incLoop).cur.ir 0x8001).op1)
      (substOp (unrollStart incLoop).subst ((loopStart incLoop).cur.ir 0x8001).op2)).state
      0x8003 0x8001 0x8002 ∧
    (unroll_subst exampleExtern 0x8003 0x8001 (unrollStart incLoop)
      (loopStart incLoop)).value?.map (fun S => S.phi) = some [0x8002] ∧
    ∀ S1 J2, unroll_subst exampleExtern 0x8003 0x8001 (unrollStart incLoop)
        (loopStart incLoop) = .ok S1 J2 →
      S1.phi = if phiCandidate (emitir exampleExtern (loopStart incLoop)
          (((loopStart incLoop).cur.ir 0x8001).ot &&& (0xffff ^^^ IRT_ISPHI))
          (substOp (unrollStart incLoop).subst ((loopStart incLoop).cur.ir 0x8001).op1)
          (substOp (unrollStart incLoop).subst ((loopStart incLoop).cur.ir 0x8001).op2)).state
          0x8003 0x8001 (tref_ref (emitir exampleExtern (loopStart incLoop)
          (((loopStart incLoop).cur.ir 0x8001).ot &&& (0xffff ^^^ IRT_ISPHI))
          (substOp (unrollStart incLoop).subst ((loopStart incLoop).cur.ir 0x8001).op1)
          (substOp (unrollStart incLoop).subst ((loopStart incLoop).cur.ir 0x8001).op2)).get)
        then (unrollStart incLoop).phi ++ [tref_ref (emitir exampleExtern (loopStart incLoop)
          (((loopStart incLoop).cur.ir 0x8001).ot &&& (0xffff ^^^ IRT_ISPHI))
          (substOp (unrollStart incLoop).subst ((loopStart incLoop).cur.ir 0x8001).op1)
          (substOp (unrollStart incLoop).subst ((loopStart incLoop).cur.ir 0x8001).op2)).get]
        else (unrollStart incLoop).phi :=
  ⟨by decide!, by decide!,
    (unroll_subst_phi_candidate exampleExtern 0x8003 0x8001 (unrollStart incLoop)
      (loopStart incLoop) _ _ (by decide!) (res_eq_ok _ (by decide!))).2.1⟩

/-- C27, counterexample: the guard `LT x k` of the example has a side effect,
its operands are invariant and its kind is Normal; `loop_unroll` records
`subst[0x8002] = 0x8002` and emits only the LOOP instruction at `0x8003`. -/
theorem unroll_guard_shortcut_counterexample :
    irm_sideeff (lj_ir_mode (guardLoop.cur.ir 0x8002).o) ∧
    irt_isguard (guardLoop.cur.ir 0x8002).t ∧
    irm_kind (lj_ir_mode (guardLoop.cur.ir 0x8002).o) = IRM_N ∧
    unrollSubst exampleExtern guardLoop 0x8002 = 0x8002 ∧
    guardLoop.cur.nins = 0x8003 ∧
    (unrollState exampleExtern guardLoop).cur.nins = 0x8004 := by
  decide!

/-- The kinds of the opcodes: the allocations, the loads and the stores of
`IRDEF`, by the kind bits of `lj_ir_mode`; every other opcode, and every number
that is not an opcode (mode 0 in the model of `lj_ir_mode`), has the kind
Normal. -/
theorem irm_kind_classes (o : Nat) :
    (irm_kind (lj_ir_mode o) = IRM_A ↔ o ∈ [IROp.TNEW, IROp.TDUP].map IROp.num) ∧
    (irm_kind (lj_ir_mode o) = IRM_L ↔
      o ∈ [IROp.HREF, IROp.UREFO, IROp.UREFC, IROp.ALOAD, IROp.HLOAD, IROp.ULOAD,
        IROp.FLOAD, IROp.SLOAD, IROp.XLOAD, IROp.TLEN].map IROp.num) ∧
    (irm_kind (lj_ir_mode o) = IRM_S ↔
      o ∈ [IROp.PHI, IROp.RENAME, IROp.NEWREF, IROp.ASTORE, IROp.HSTORE, IROp.USTORE,
        IROp.FSTORE, IROp.TBAR, IROp.OBAR].map IROp.num) ∧
    (irm_kind (lj_ir_mode o) ≠ IRM_N ↔
      o ∈ [IROp.PHI, IROp.RENAME, IROp.HREF, IROp.NEWREF, IROp.UREFO, IROp.UREFC,
        IROp.ALOAD, IROp.HLOAD, IROp.ULOAD, IROp.FLOAD, IROp.SLOAD, IROp.XLOAD,
        IROp.ASTORE, IROp.HSTORE, IROp.USTORE, IROp.FSTORE,
        IROp.TNEW, IROp.TDUP, IROp.TLEN, IROp.TBAR, IROp.OBAR].map IROp.num) ∧
    (irm_kind (lj_ir_mode o) ≠ IRM_N ↔
      (irm_kind (lj_ir_mode o) = IRM_A ∨ irm_kind (lj_ir_mode o) = IRM_L ∨
        irm_kind (lj_ir_mode o) = IRM_S)) := by
  by_cases h : o < 78
  · have key : ∀ o < 78,
        (irm_kind (lj_ir_mode o) = IRM_A ↔ o ∈ [IROp.TNEW, IROp.TDUP].map IROp.num) ∧
        (irm_kind (lj_ir_mode o) = IRM_L ↔
          o ∈ [IROp.HREF, IROp.UREFO, IROp.UREFC, IROp.ALOAD, IROp.HLOAD, IROp.ULOAD,
            IROp.FLOAD, IROp.SLOAD, IROp.XLOAD, IROp.TLEN].map IROp.num) ∧
        (irm_kind (lj_ir_mode o) = IRM_S ↔
          o ∈ [IROp.PHI, IROp.RENAME, IROp.NEWREF, IROp.ASTORE, IROp.HSTORE, IROp.USTORE,
            IROp.FSTORE, IROp.TBAR, IROp.OBAR].map IROp.num) ∧
        (irm_kind (lj_ir_mode o) ≠ IRM_N ↔
          o ∈ [IROp.PHI, IROp.RENAME, IROp.HREF, IROp.NEWREF, IROp.UREFO, IROp.UREFC,
            IROp.ALOAD, IROp.HLOAD, IROp.ULOAD, IROp.FLOAD, IROp.SLOAD, IROp.XLOAD,
            IROp.ASTORE, IROp.HSTORE, IROp.USTORE, IROp.FSTORE,
            IROp.TNEW, IROp.TDUP, IROp.TLEN, IROp.TBAR, IROp.OBAR].map IROp.num) ∧
        (irm_kind (lj_ir_mode o) ≠ IRM_N ↔
          (irm_kind (lj_ir_mode o) = IRM_A ∨ irm_kind (lj_ir_mode o) = IRM_L ∨
            irm_kind (lj_ir_mode o) = IRM_S)) := by
      decide!
    exact key o h
  · have hm : lj_ir_mode o = 0 := by
      unfold lj_ir_mode
      exact List.getD_eq_default _ _ (by simp [lj_ir_mode_table]; omega)
    have hlt : ∀ x ∈ [IROp.PHI, IROp.RENAME, IROp.HREF, IROp.NEWREF, IROp.UREFO, IROp.UREFC,
        IROp.ALOAD, IROp.HLOAD, IROp.ULOAD, IROp.FLOAD, IROp.SLOAD, IROp.XLOAD,
        IROp.ASTORE, IROp.HSTORE, IROp.USTORE, IROp.FSTORE,
        IROp.TNEW, IROp.TDUP, IROp.TLEN, IROp.TBAR, IROp.OBAR].map IROp.num, x < 78 := by
      decide!
    have hA : ∀ x ∈ [IROp.TNEW, IROp.TDUP].map IROp.num, x < 78 := by decide!
    have hL : ∀ x ∈ [IROp.HREF, IROp.UREFO, IROp.UREFC, IROp.ALOAD, IROp.HLOAD, IROp.ULOAD,
        IROp.FLOAD, IROp.SLOAD, IROp.XLOAD, IROp.TLEN].map IROp.num, x < 78 := by decide!
    have hS : ∀ x ∈ [IROp.PHI, IROp.RENAME, IROp.NEWREF, IROp.ASTORE, IROp.HSTORE, IROp.USTORE,
        IROp.FSTORE, IROp.TBAR, IROp.OBAR].map IROp.num, x < 78 := by decide!
    rw [hm]
    exact ⟨⟨fun hk => absurd hk (by decide), fun hin => absurd (hA o hin) h⟩,
      ⟨fun hk => absurd hk (by decide), fun hin => absurd (hL o hin) h⟩,
      ⟨fun hk => absurd hk (by decide), fun hin => absurd (hS o hin) h⟩,
      ⟨fun hk => absurd (by decide) hk, fun hin => absurd (hlt o hin) h⟩,
      by decide⟩

/-- C27, amended: `loop_unroll` records `subst[I] = I` without re-emitting `I`
exactly when the substituted operands are the original ones and the kind bits
of the mode of the opcode are Normal. Normal is also the kind of the references
(`IRM_R` is `IRM_N`), of SNEW and of the guarded comparisons, so that such an
instruction with unchanged operands is not re-emitted. Re-emitted through the
fold pipeline are the instructions with a changed operand and those whose kind
is allocation (TNEW, TDUP), load (the loads, HREF, UREFO, UREFC, TLEN) or store
(the stores, NEWREF, TBAR, OBAR, PHI, RENAME); an error of the pipeline
propagates, and when the iteration ends without an error `subst[I]` is the
returned reference, or the reference of the TONUM that converts it when a
loop-carried integer replaces a number. -/
theorem unroll_subst_shortcut (E : Extern) (invar ins : Nat) (S : UnrollState) (J : jit_State) :
    (unrollShortcut S.subst (J.cur.ir ins) →
      unroll_subst E invar ins S J = .ok { S with subst := upd S.subst ins (ins % 65536) } J) ∧
    (¬ unrollShortcut S.subst (J.cur.ir ins) →
      (∀ e J1, emitir E J ((J.cur.ir ins).ot &&& (0xffff ^^^ IRT_ISPHI))
          (substOp S.subst (J.cur.ir ins).op1) (substOp S.subst (J.cur.ir ins).op2) =
            .raise e J1 →
        unroll_subst E invar ins S J = .raise e J1) ∧
      (∀ tr J1, emitir E J ((J.cur.ir ins).ot &&& (0xffff ^^^ IRT_ISPHI))
          (substOp S.subst (J.cur.ir ins).op1) (substOp S.subst (J.cur.ir ins).op2) =
            .ok tr J1 →
        ∀ S1 J2, unroll_subst E invar ins S J = .ok S1 J2 →
          S1.subst = upd S.subst ins (tref_ref tr) ∨
          (tref_ref tr ≠ ins ∧ tref_ref tr < invar ∧
            ∃ J3 tr2, emitir E J3 (IRTN IR_TONUM) (tref_ref tr) 0 = .ok tr2 J2 ∧
              typeFix J3 (J.cur.ir ins).t (tref_ref tr) ∧
              S1.subst = upd (upd S.subst ins (tref_ref tr)) ins (tref_ref tr2)))) ∧
    (¬ unrollShortcut S.subst (J.cur.ir ins) ↔
      (irm_kind (lj_ir_mode (J.cur.ir ins).o) ≠ IRM_N ∨
        substOp S.subst (J.cur.ir ins).op1 ≠ (J.cur.ir ins).op1 ∨
        substOp S.subst (J.cur.ir ins).op2 ≠ (J.cur.ir ins).op2)) ∧
    (irm_kind (lj_ir_mode (J.cur.ir ins).o) ≠ IRM_N ↔
      (irm_kind (lj_ir_mode (J.cur.ir ins).o) = IRM_A ∨
        irm_kind (lj_ir_mode (J.cur.ir ins).o) = IRM_L ∨
        irm_kind (lj_ir_mode (J.cur.ir ins).o) = IRM_S)) ∧
    (irm_kind (lj_ir_mode (J.cur.ir ins).o) = IRM_A ↔
      (J.cur.ir ins).o ∈ [IROp.TNEW, IROp.TDUP].map IROp.num) ∧
    (irm_kind (lj_ir_mode (J.cur.ir ins).o) = IRM_L ↔
      (J.cur.ir ins).o ∈ [IROp.HREF, IROp.UREFO, IROp.UREFC, IROp.ALOAD, IROp.HLOAD,
        IROp.ULOAD, IROp.FLOAD, IROp.SLOAD, IROp.XLOAD, IROp.TLEN].map IROp.num) ∧
    (irm_kind (lj_ir_mode (J.cur.ir ins).o) = IRM_S ↔
      (J.cur.ir ins).o ∈ [IROp.PHI, IROp.RENAME, IROp.NEWREF, IROp.ASTORE, IROp.HSTORE,
        IROp.USTORE, IROp.FSTORE, IROp.TBAR, IROp.OBAR].map IROp.num) ∧
    IRM_R = IRM_N ∧
    (∀ o ∈ [IROp.AREF, IROp.HREFK, IROp.FREF, IROp.STRREF, IROp.SNEW,
        IROp.EQ, IROp.NE, IROp.ABC, IROp.FRAME, IROp.LT, IROp.GE, IROp.LE, IROp.GT,
        IROp.ULT, IROp.UGE, IROp.ULE, IROp.UGT, IROp.ADDOV, IROp.SUBOV,
        IROp.STRTO].map IROp.num,
      irm_kind (lj_ir_mode o) = IRM_N) := by
  have hcases := unroll_subst_cases E invar ins S J
  have hk := irm_kind_classes (J.cur.ir ins).o
  refine ⟨hcases.1, fun hre => ⟨(hcases.2 hre).1, fun tr J1 hemit S1 J2 hok => ?_⟩,
    by unfold unrollShortcut; rw [not_and_or, not_and_or], hk.2.2.2.2, hk.1, hk.2.1, hk.2.2.1, rfl,
    by decide!⟩
  rw [(hcases.2 hre).2 tr J1 hemit] at hok
  by_cases hcar : tref_ref tr ≠ ins ∧ tref_ref tr < invar
  · rw [if_pos hcar] at hok
    have hspec := unroll_carried_spec E ins (tref_ref tr) (J.cur.ir ins).t _ S1 J1 J2
      (phiCandidate J1 invar ins (tref_ref tr))
      (by unfold phiCandidate; exact ⟨fun h => h.2.2, fun h => ⟨hcar.1, hcar.2, h⟩⟩) hok
    have key : ∀ J3, unroll_typecheck E ins (tref_ref tr) (J.cur.ir ins).t
        (upd S.subst ins (tref_ref tr)) J3 = .ok S1.subst J2 →
        S1.subst = upd S.subst ins (tref_ref tr) ∨
        (tref_ref tr ≠ ins ∧ tref_ref tr < invar ∧
          ∃ J3 tr2, emitir E J3 (IRTN IR_TONUM) (tref_ref tr) 0 = .ok tr2 J2 ∧
            typeFix J3 (J.cur.ir ins).t (tref_ref tr) ∧
            S1.subst = upd (upd S.subst ins (tref_ref tr)) ins (tref_ref tr2)) := by
      intro J3 h3
      have ht := unroll_typecheck_subst E ins (tref_ref tr) (J.cur.ir ins).t _ _ J3 J2 h3
      by_cases hf : typeFix J3 (J.cur.ir ins).t (tref_ref tr)
      · obtain ⟨tr2, he2, hs2⟩ := ht.2 hf
        exact Or.inr ⟨hcar.1, hcar.2, J3, tr2, he2, hf, hs2⟩
      · exact Or.inl (ht.1 hf)
    by_cases hc : phiCandidate J1 invar ins (tref_ref tr)
    · exact key _ (hspec.1 hc).2.2
    · exact key _ (hspec.2 hc).2
  · rw [if_neg hcar] at hok
    injection hok with h1 _
    subst h1
    exact Or.inl rfl

theorem unroll_subst_shortcut_witness :
    unrollShortcut (unrollSubst exampleExtern guardLoop)
      ((unrollState exampleExtern guardLoop).cur.ir 0x8002) ∧
    (unroll_subst exampleExtern 0x8003 0x8002
        { unrollStart guardLoop with subst := unrollSubst exampleExtern guardLoop }
        (unrollState exampleExtern guardLoop)).value?.map (fun S => S.subst 0x8002)
      = some 0x8002 ∧
    ¬ unrollShortcut (unrollStart incLoop).subst ((loopStart incLoop).cur.ir 0x8001) :=
  ⟨by decide!,
    by
      rw [(unroll_subst_shortcut exampleExtern 0x8003 0x8002
        { unrollStart guardLoop with subst := unrollSubst exampleExtern guardLoop }
        (unrollState exampleExtern guardLoop)).1 (by decide!)]
      decide!,
    by decide!⟩

/-! ### The check of a loop-carried dependency in the main loop -/

theorem irt_type_setphi (t : Nat) : (irt_setphi t &&& IRT_TYPE) = (t &&& IRT_TYPE) := by
  unfold irt_setphi IRT_ISPHI IRT_TYPE
  have h : (31 : Nat) &&& 128 = 0 := by decide
  rw [Nat.and_comm, Nat.and_or_distrib_left, h, Nat.or_zero, Nat.and_comm]

theorem setT_self (ir : Nat → IRIns) (ref : Nat) (f : Nat → Nat) :
    (setT ir ref f ref).t = f (ir ref).t := by
  unfold setT upd
  rw [if_pos rfl]

/-- The type of the loop-carried dependency `ref` in the state in which it is
checked is the type of `IR(ref)` after the re-emission, up to the PHI flag. -/
theorem carriedState_type (J1 : jit_State) (invar ins ref : Nat) :
    (((carriedState J1 invar ins ref).cur.ir ref).t &&& IRT_TYPE) =
      ((J1.cur.ir ref).t &&& IRT_TYPE) := by
  unfold carriedState
  by_cases hc : phiCandidate J1 invar ins ref
  · rw [if_pos hc]
    show ((setT J1.cur.ir ref irt_setphi ref).t &&& IRT_TYPE) = _
    rw [setT_self, irt_type_setphi]
  · rw [if_neg hc]

theorem carriedState_sametype (J1 : jit_State) (invar ins ref t : Nat) :
    irt_sametype t ((carriedState J1 invar ins ref).cur.ir ref).t ↔
      irt_sametype t (J1.cur.ir ref).t := by
  rw [irt_sametype_iff, irt_sametype_iff, carriedState_type]

theorem carriedState_isinteger (J1 : jit_State) (invar ins ref : Nat) :
    irt_isinteger ((carriedState J1 invar ins ref).cur.ir ref).t ↔
      irt_isinteger (J1.cur.ir ref).t := by
  rw [irt_isinteger_iff, irt_isinteger_iff, carriedState_type]

theorem carriedState_isnum (J1 : jit_State) (invar ins ref : Nat) :
    irt_isnum ((carriedState J1 invar ins ref).cur.ir ref).t ↔
      irt_isnum (J1.cur.ir ref).t := by
  rw [irt_isnum_iff, irt_isnum_iff, carriedState_type]

/-- The outcome of `unroll_subst` for a re-emitted instruction with a
loop-carried dependency: the PHI overflow error if the reference is a PHI
candidate and the table of candidates is full, and the outcome of the type
check otherwise. -/
theorem unroll_subst_carried (E : Extern) (invar ins : Nat) (S : UnrollState)
    (J J1 : jit_State) (tr : Nat)
    (hre : ¬ unrollShortcut S.subst (J.cur.ir ins))
    (hemit : emitir E J ((J.cur.ir ins).ot &&& (0xffff ^^^ IRT_ISPHI))
      (substOp S.subst (J.cur.ir ins).op1) (substOp S.subst (J.cur.ir ins).op2) = .ok tr J1)
    (hdep : tref_ref tr ≠ ins ∧ tref_ref tr < invar) :
    (phiOverflow E S J1 invar ins (tref_ref tr) →
      unroll_subst E invar ins S J =
        .raise (.trace .PHIOV) (J1.setT (tref_ref tr) irt_setphi)) ∧
    (¬ phiOverflow E S J1 invar ins (tref_ref tr) →
      unroll_subst E invar ins S J =
        match unroll_typecheck E ins (tref_ref tr) (J.cur.ir ins).t
            (upd S.subst ins (tref_ref tr)) (carriedState J1 invar ins (tref_ref tr)) with
        | .ok subst J3 => .ok { carriedLocals S J1 invar ins (tref_ref tr) with subst := subst } J3
        | .raise e J3 => .raise e J3) := by
  have hcase := ((unroll_subst_cases E invar ins S J).2 hre).2 tr J1 hemit
  rw [if_pos hdep] at hcase
  rw [hcase]
  unfold unroll_carried phiOverflow carriedState carriedLocals
  by_cases hc : phiCandidate J1 invar ins (tref_ref tr)
  · have hc3 := hc.2.2
    rw [if_pos hc3, if_pos hc, if_pos hc]
    refine ⟨fun hfull => ?_, fun hn => ?_⟩
    · rw [if_pos hfull.2]
    · have hlen : ¬ (S.phi.length ≥ E.LJ_MAX_PHI) := fun h => hn ⟨hc, h⟩
      rw [if_neg hlen]
  · have hc3 : ¬ (¬ irref_isk (tref_ref tr) ∧ ¬ irt_isphi (J1.cur.ir (tref_ref tr)).t ∧
        ¬ irt_ispri (J1.cur.ir (tref_ref tr)).t) := fun h => hc ⟨hdep.1, hdep.2, h⟩
    rw [if_neg hc3, if_neg hc, if_neg hc]
    refine ⟨fun hfull => absurd hfull.1 hc, fun _ => ?_⟩
    cases unroll_typecheck E ins (tref_ref tr) (J.cur.ir ins).t
      (upd S.subst ins (tref_ref tr)) J1 <;> rfl

/-- C8 (amended). When `loop_unroll` re-emits the instruction `ins` with the type
`t` and gets a loop-carried dependency `ref` (`ref != ins && ref < invar`) with
the type `t'`: if `ref` is a new PHI candidate and `LJ_MAX_PHI` candidates are
already recorded, the PHI overflow error is thrown, whatever the types are.
Otherwise, if the types are the same nothing is inserted; if `t` is number and
`t'` is an integer type, `TONUM ref` goes through the fold pipeline and the
reference it returns becomes the substitution of `ins` (an error thrown by the
pipeline propagates); if both are integer types no error is thrown and nothing
is inserted; in every other case the type instability error is thrown. -/
theorem unroll_subst_type_cases (E : Extern) (invar ins : Nat) (S : UnrollState)
    (J J1 : jit_State) (tr : Nat)
    (hre : ¬ unrollShortcut S.subst (J.cur.ir ins))
    (hemit : emitir E J ((J.cur.ir ins).ot &&& (0xffff ^^^ IRT_ISPHI))
      (substOp S.subst (J.cur.ir ins).op1) (substOp S.subst (J.cur.ir ins).op2) = .ok tr J1)
    (hdep : tref_ref tr ≠ ins ∧ tref_ref tr < invar) :
    (phiOverflow E S J1 invar ins (tref_ref tr) →
      unroll_subst E invar ins S J =
        .raise (.trace .PHIOV) (J1.setT (tref_ref tr) irt_setphi)) ∧
    (¬ phiOverflow E S J1 invar ins (tref_ref tr) →
      (irt_sametype (J.cur.ir ins).t (J1.cur.ir (tref_ref tr)).t →
        unroll_subst E invar ins S J =
          .ok (carriedLocals S J1 invar ins (tref_ref tr))
            (carriedState J1 invar ins (tref_ref tr))) ∧
      (irt_isnum (J.cur.ir ins).t → irt_isinteger (J1.cur.ir (tref_ref tr)).t →
        unroll_subst E invar ins S J =
          match emitir E (carriedState J1 invar ins (tref_ref tr)) (IRTN IR_TONUM)
              (tref_ref tr) 0 with
          | .ok tr2 J3 =>
            .ok { carriedLocals S J1 invar ins (tref_ref tr) with
                  subst := upd (upd S.subst ins (tref_ref tr)) ins (tref_ref tr2) } J3
          | .raise e J3 => .raise e J3) ∧
      (irt_isinteger (J.cur.ir ins).t → irt_isinteger (J1.cur.ir (tref_ref tr)).t →
        unroll_subst E invar ins S J =
          .ok (carriedLocals S J1 invar ins (tref_ref tr))
            (carriedState J1 invar ins (tref_ref tr))) ∧
      (¬ irt_sametype (J.cur.ir ins).t (J1.cur.ir (tref_ref tr)).t →
        ¬ (irt_isnum (J.cur.ir ins).t ∧ irt_isinteger (J1.cur.ir (tref_ref tr)).t) →
        ¬ (irt_isinteger (J.cur.ir ins).t ∧ irt_isinteger (J1.cur.ir (tref_ref tr)).t) →
        unroll_subst E invar ins S J =
          .raise (.trace .TYPEINS) (carriedState J1 invar ins (tref_ref tr)))) := by
  have hcar := unroll_subst_carried E invar ins S J J1 tr hre hemit hdep
  refine ⟨hcar.1, fun hn => ?_⟩
  have hchk := hcar.2 hn
  have hty := unroll_typecheck_cases E ins (tref_ref tr) (J.cur.ir ins).t
    (upd S.subst ins (tref_ref tr)) (carriedState J1 invar ins (tref_ref tr))
  rw [carriedState_sametype, carriedState_isinteger] at hty
  refine ⟨fun h => ?_, fun h1 h2 => ?_, fun h1 h2 => ?_, fun h1 h2 h3 => ?_⟩
  · rw [hchk, hty.1 h]; rfl
  · rw [hchk, hty.2.1 h1 h2]
    cases emitir E (carriedState J1 invar ins (tref_ref tr)) (IRTN IR_TONUM) (tref_ref tr) 0 <;>
      rfl
  · rw [hchk, hty.2.2.1 h1 h2]; rfl
  · rw [hchk, hty.2.2.2 h1 h2 h3]

/-- C9 (amended). When `loop_unroll` re-emits the instruction `ins` and gets a
loop-carried dependency `ref`: if `ref` is a new PHI candidate and `LJ_MAX_PHI`
candidates are already recorded, the PHI overflow error is thrown. Otherwise,
if the original instruction is number-typed and `ref` is integer-typed,
`TONUM ref` goes through the fold pipeline: the reference it returns becomes
the substitution of `ins` and the iteration ends without an error, or the error
that the pipeline throws propagates; in the reverse case (integer in the
pre-roll, number in the body) the type instability error is thrown. -/
theorem unroll_subst_num_int (E : Extern) (invar ins : Nat) (S : UnrollState)
    (J J1 : jit_State) (tr : Nat)
    (hre : ¬ unrollShortcut S.subst (J.cur.ir ins))
    (hemit : emitir E J ((J.cur.ir ins).ot &&& (0xffff ^^^ IRT_ISPHI))
      (substOp S.subst (J.cur.ir ins).op1) (substOp S.subst (J.cur.ir ins).op2) = .ok tr J1)
    (hdep : tref_ref tr ≠ ins ∧ tref_ref tr < invar) :
    (phiOverflow E S J1 invar ins (tref_ref tr) →
      (unroll_subst E invar ins S J).raises .PHIOV) ∧
    (¬ phiOverflow E S J1 invar ins (tref_ref tr) →
      (irt_isnum (J.cur.ir ins).t → irt_isinteger (J1.cur.ir (tref_ref tr)).t →
        (∀ tr2 J3, emitir E (carriedState J1 invar ins (tref_ref tr)) (IRTN IR_TONUM)
            (tref_ref tr) 0 = .ok tr2 J3 →
          unroll_subst E invar ins S J =
            .ok { carriedLocals S J1 invar ins (tref_ref tr) with
                  subst := upd (upd S.subst ins (tref_ref tr)) ins (tref_ref tr2) } J3) ∧
        (∀ e J3, emitir E (carriedState J1 invar ins (tref_ref tr)) (IRTN IR_TONUM)
            (tref_ref tr) 0 = .raise e J3 →
          unroll_subst E invar ins S J = .raise e J3)) ∧
      (irt_isinteger (J.cur.ir ins).t → irt_isnum (J1.cur.ir (tref_ref tr)).t →
        unroll_subst E invar ins S J =
          .raise (.trace .TYPEINS) (carriedState J1 invar ins (tref_ref tr)))) := by
  have hcar := unroll_subst_carried E invar ins S J J1 tr hre hemit hdep
  refine ⟨fun hfull => ?_, fun hn => ?_⟩
  · rw [hcar.1 hfull]; exact rfl
  have hchk := hcar.2 hn
  have hty := unroll_typecheck_cases E ins (tref_ref tr) (J.cur.ir ins).t
    (upd S.subst ins (tref_ref tr)) (carriedState J1 invar ins (tref_ref tr))
  have hrev := (unroll_typecheck_num_int E ins (tref_ref tr) (J.cur.ir ins).t
    (upd S.subst ins (tref_ref tr)) (carriedState J1 invar ins (tref_ref tr))).2
  rw [carriedState_sametype, carriedState_isinteger] at hty
  rw [carriedState_isnum] at hrev
  refine ⟨fun h1 h2 => ⟨fun tr2 J3 he => ?_, fun e J3 he => ?_⟩, fun h1 h2 => ?_⟩
  · rw [hchk, hty.2.1 h1 h2, he]
  · rw [hchk, hty.2.1 h1 h2, he]
  · rw [hchk, hrev h1 h2]

/-- C8 as stated fails: in the loop with 32 integer recurrences and a slot that
is a string in the pre-roll and a number at the end of the body, the re-emitted
load of that slot is a loop-carried dependency of another type that is neither
number against integer nor integer against integer, and `loop_unroll` throws
the PHI overflow error, not the type instability error, which it throws when
the limit is 33. With an integer in the pre-roll and in the body the PHI
overflow error is thrown as well. -/
theorem loop_unroll_phi_overflow_counterexample :
    irt_isstr ((phiFullLoop IRT_STR IR_STRTO (IRT_NUM ||| IRT_GUARD)).cur.ir 0x8021).t ∧
    tref_ref ((phiFullLoop IRT_STR IR_STRTO (IRT_NUM ||| IRT_GUARD)).slot 33) = 0x8042 ∧
    irt_isnum ((phiFullLoop IRT_STR IR_STRTO (IRT_NUM ||| IRT_GUARD)).cur.ir 0x8042).t ∧
    exampleExtern.LJ_MAX_PHI = 32 ∧
    (loop_unroll exampleExtern
      (phiFullLoop IRT_STR IR_STRTO (IRT_NUM ||| IRT_GUARD))).raises .PHIOV ∧
    ¬ (loop_unroll exampleExtern
      (phiFullLoop IRT_STR IR_STRTO (IRT_NUM ||| IRT_GUARD))).raises .TYPEINS ∧
    (loop_unroll { exampleExtern with LJ_MAX_PHI := 33 }
      (phiFullLoop IRT_STR IR_STRTO (IRT_NUM ||| IRT_GUARD))).raises .TYPEINS ∧
    irt_isinteger ((phiFullLoop IRT_INT IROp.BNOT.num IRT_INT).cur.ir 0x8021).t ∧
    irt_isinteger ((phiFullLoop IRT_INT IROp.BNOT.num IRT_INT).cur.ir 0x8042).t ∧
    (loop_unroll exampleExtern (phiFullLoop IRT_INT IROp.BNOT.num IRT_INT)).raises .PHIOV := by
  decide!

/-- Witness for C8: the first iteration for the loop whose slot is a string in the
pre-roll and a number in the body throws the type instability error; the
iteration number 33 for the loop with 32 integer recurrences, which have been
recorded as PHI candidates, throws the PHI overflow error. -/
theorem unroll_subst_type_cases_witness :
    (unroll_subst exampleExtern 0x8003 0x8001 (unrollStart strNumLoop)
      (loopStart strNumLoop)).raises .TYPEINS ∧
    (unrollAfter exampleExtern (phiFullLoop IRT_STR IR_STRTO (IRT_NUM ||| IRT_GUARD))
      32).1.phi.length = 32 ∧
    (unroll_subst exampleExtern 0x8043 0x8021
      (unrollAfter exampleExtern (phiFullLoop IRT_STR IR_STRTO (IRT_NUM ||| IRT_GUARD)) 32).1
      (unrollAfter exampleExtern (phiFullLoop IRT_STR IR_STRTO (IRT_NUM ||| IRT_GUARD))
        32).2).raises .PHIOV :=
  ⟨by
      rw [((unroll_subst_type_cases exampleExtern 0x8003 0x8001 (unrollStart strNumLoop)
        (loopStart strNumLoop) _ _ (by decide!) (res_eq_ok _ (by decide!)) (by decide!)).2
        (by decide!)).2.2.2 (by decide!) (by decide!) (by decide!)]
      exact rfl,
    by decide!,
    by
      rw [(unroll_subst_type_cases exampleExtern 0x8043 0x8021
        (unrollAfter exampleExtern (phiFullLoop IRT_STR IR_STRTO (IRT_NUM ||| IRT_GUARD)) 32).1
        (unrollAfter exampleExtern (phiFullLoop IRT_STR IR_STRTO (IRT_NUM ||| IRT_GUARD)) 32).2
        _ _ (by decide!) (res_eq_ok _ (by decide!)) (by decide!)).1 (by decide!)]
      exact rfl⟩

/-- Witness for C9: number in the pre-roll and integer in the body (`numIntLoop`):
the substitution of the load is the TONUM emitted at `0x8004`; the reverse
(`intNumLoop`): type instability; and with 32 PHI candidates recorded the PHI
overflow error in both directions. -/
theorem unroll_subst_num_int_witness :
    (unroll_subst exampleExtern 0x8003 0x8001 (unrollStart numIntLoop)
      (loopStart numIntLoop)).value?.map (fun S => (S.subst 0x8001, S.phi)) =
        some (0x8004, [0x8002]) ∧
    ((unroll_subst exampleExtern 0x8003 0x8001 (unrollStart numIntLoop)
      (loopStart numIntLoop)).state.cur.ir 0x8004).o = IR_TONUM ∧
    ((unroll_subst exampleExtern 0x8003 0x8001 (unrollStart numIntLoop)
      (loopStart numIntLoop)).state.cur.ir 0x8004).op1 = 0x8002 ∧
    (unroll_subst exampleExtern 0x8003 0x8001 (unrollStart intNumLoop)
      (loopStart intNumLoop)).raises .TYPEINS ∧
    (unroll_subst exampleExtern 0x8043 0x8021
      (unrollAfter exampleExtern (phiFullLoop IRT_NUM IR_TOINT IRT_INT) 32).1
      (unrollAfter exampleExtern (phiFullLoop IRT_NUM IR_TOINT IRT_INT) 32).2).raises .PHIOV ∧
    (unroll_subst exampleExtern 0x8043 0x8021
      (unrollAfter exampleExtern (phiFullLoop IRT_INT IR_TONUM IRT_NUM) 32).1
      (unrollAfter exampleExtern (phiFullLoop IRT_INT IR_TONUM IRT_NUM) 32).2).raises .PHIOV :=
  ⟨by
      rw [(((unroll_subst_num_int exampleExtern 0x8003 0x8001 (unrollStart numIntLoop)
        (loopStart numIntLoop) _ _ (by decide!) (res_eq_ok _ (by decide!)) (by decide!)).2
        (by decide!)).1 (by decide!) (by decide!)).1 _ _ (res_eq_ok _ (by decide!))]
      decide!,
    by decide!, by decide!,
    by
      rw [((unroll_subst_num_int exampleExtern 0x8003 0x8001 (unrollStart intNumLoop)
        (loopStart intNumLoop) _ _ (by decide!) (res_eq_ok _ (by decide!)) (by decide!)).2
        (by decide!)).2 (by decide!) (by decide!)]
      exact rfl,
    (unroll_subst_num_int exampleExtern 0x8043 0x8021
      (unrollAfter exampleExtern (phiFullLoop IRT_NUM IR_TOINT IRT_INT) 32).1
      (unrollAfter exampleExtern (phiFullLoop IRT_NUM IR_TOINT IRT_INT) 32).2
      _ _ (by decide!) (res_eq_ok _ (by decide!)) (by decide!)).1 (by decide!),
    (unroll_subst_num_int exampleExtern 0x8043 0x8021
      (unrollAfter exampleExtern (phiFullLoop IRT_INT IR_TONUM IRT_NUM) 32).1
      (unrollAfter exampleExtern (phiFullLoop IRT_INT IR_TONUM IRT_NUM) 32).2
      _ _ (by decide!) (res_eq_ok _ (by decide!)) (by decide!)).1 (by decide!)⟩

/-! ## The copy of a snapshot -/

theorem snap_subst_slots_spec (subst : Nat → Nat) (loopmap loopslots omap nmap n s : Nat)
    (m : Nat → Nat)
    (hO : nmap ≤ omap ∨ omap + (s + n) ≤ nmap)
    (hL : nmap ≤ loopmap ∨ loopmap + loopslots ≤ nmap) :
    (∀ k, s ≤ k → k < s + n →
      snap_subst_slots subst loopmap loopslots omap nmap n s m (nmap + k) =
        snapEntrySpec subst loopmap loopslots omap m k) ∧
    (∀ a, (a < nmap + s ∨ nmap + (s + n) ≤ a) →
      snap_subst_slots subst loopmap loopslots omap nmap n s m a = m a) := by
  induction n generalizing s m with
  | zero =>
    unfold snap_subst_slots
    exact ⟨fun k h1 h2 => by omega, fun a _ => rfl⟩
  | succ n ih =>
    unfold snap_subst_slots
    dsimp only
    generalize hv : (if snap_ref (m (omap + s)) ≠ 0 then
        if ¬ irref_isk (snap_ref (m (omap + s))) then subst (snap_ref (m (omap + s)))
        else snap_ref (m (omap + s))
      else if s < loopslots then m (loopmap + s) else snap_ref (m (omap + s))) = v
    have hvs : v = snapEntrySpec subst loopmap loopslots omap m s := by
      rw [← hv]
      unfold snapEntrySpec
      have hk0 : irref_isk 0 := by decide
      by_cases h0 : snap_ref (m (omap + s)) = 0
      · by_cases hs : s < loopslots
        · simp [h0, hk0, hs]
        · simp [h0, hk0, hs]
      · by_cases hk : irref_isk (snap_ref (m (omap + s)))
        · simp [h0, hk]
        · simp [h0, hk]
    obtain ⟨ih1, ih2⟩ := ih (s + 1) (upd m (nmap + s) v) (by omega)
    have hm : ∀ a, a ≠ nmap + s → upd m (nmap + s) v a = m a := by
      intro a ha
      unfold upd
      rw [if_neg ha]
    refine ⟨fun k h1 h2 => ?_, fun a ha => ?_⟩
    · by_cases hk : k = s
      · subst hk
        rw [ih2 (nmap + k) (by omega)]
        unfold upd
        rw [if_pos rfl, hvs]
      · rw [ih1 k (by omega) (by omega)]
        unfold snapEntrySpec
        rw [hm (omap + k) (by omega)]
        by_cases hs : k < loopslots
        · rw [hm (loopmap + k) (by omega)]
        · simp only [hs, if_false]
    · rw [ih2 a (by omega), hm a (by omega)]

theorem snap_copy_links_spec (omap nmap n s : Nat) (m : Nat → Nat)
    (hO : nmap ≤ omap ∨ omap + (s + n) ≤ nmap) :
    (∀ k, s ≤ k → k < s + n → snap_copy_links omap nmap n s m (nmap + k) = m (omap + k)) ∧
    (∀ a, (a < nmap + s ∨ nmap + (s + n) ≤ a) → snap_copy_links omap nmap n s m a = m a) := by
  induction n generalizing s m with
  | zero =>
    unfold snap_copy_links
    exact ⟨fun k h1 h2 => by omega, fun a _ => rfl⟩
  | succ n ih =>
    unfold snap_copy_links
    obtain ⟨ih1, ih2⟩ := ih (s + 1) (upd m (nmap + s) (m (omap + s))) (by omega)
    have hm : ∀ a, a ≠ nmap + s → upd m (nmap + s) (m (omap + s)) a = m a := by
      intro a ha
      unfold upd
      rw [if_neg ha]
    refine ⟨fun k h1 h2 => ?_, fun a ha => ?_⟩
    · by_cases hk : k = s
      · subst hk
        rw [ih2 (nmap + k) (by omega)]
        unfold upd
        rw [if_pos rfl]
      · rw [ih1 k (by omega) (by omega), hm (omap + k) (by omega)]
    · rw [ih2 a (by omega), hm a (by omega)]

/-- C28: when `loop_unroll` copies the snapshot `osnap` to the offset it has
chosen, the new map entry of every slot `s < nslots` is the original reference
if that is a constant other than 0, the substitution of the reference if it
is an instruction, the entry of the loop snapshot for `s` if the original
reference is 0 and `s` is below the number of slots of the loop snapshot, and
0 otherwise; the frame links are copied unchanged. The copy is written at or
below the original map or behind it, and at or below the map of the loop
snapshot or behind it. -/
theorem unroll_snapshot_map (loopmap loopslots : Nat) (S : UnrollState) (J : jit_State)
    (hO : snapNewOfs S J ≤ (J.cur.snap S.osnap).mapofs ∨
      (J.cur.snap S.osnap).mapofs + (J.cur.snap S.osnap).nslots +
        (J.cur.snap S.osnap).nframelinks ≤ snapNewOfs S J)
    (hL : snapNewOfs S J ≤ loopmap ∨ loopmap + loopslots ≤ snapNewOfs S J) :
    (∀ s, s < (J.cur.snap S.osnap).nslots →
      (unroll_snapshot loopmap loopslots S J).2.cur.snapmap (snapNewOfs S J + s) =
        snapEntrySpec S.subst loopmap loopslots (J.cur.snap S.osnap).mapofs J.cur.snapmap s) ∧
    (∀ k, k < (J.cur.snap S.osnap).nframelinks →
      (unroll_snapshot loopmap loopslots S J).2.cur.snapmap
          (snapNewOfs S J + (J.cur.snap S.osnap).nslots + k) =
        J.cur.snapmap ((J.cur.snap S.osnap).mapofs + (J.cur.snap S.osnap).nslots + k)) ∧
    (unroll_snapshot loopmap loopslots S J).1.nsnapmap =
      snapNewOfs S J + (J.cur.snap S.osnap).nslots + (J.cur.snap S.osnap).nframelinks := by
  generalize hn : snapNewOfs S J = nmap at hO hL
  generalize ho : (J.cur.snap S.osnap).mapofs = omap at hO
  generalize hs : (J.cur.snap S.osnap).nslots = nslots at hO
  generalize hf : (J.cur.snap S.osnap).nframelinks = nfl at hO
  have hmap : (unroll_snapshot loopmap loopslots S J).2.cur.snapmap =
      snap_copy_links (omap + nslots) (nmap + nslots) nfl 0
        (snap_subst_slots S.subst loopmap loopslots omap nmap nslots 0 J.cur.snapmap) := by
    rw [← hn, ← ho, ← hs, ← hf]
    rfl
  have hnm : (unroll_snapshot loopmap loopslots S J).1.nsnapmap = nmap + nslots + nfl := by
    rw [← hn, ← hs, ← hf]
    rfl
  have h1 := snap_subst_slots_spec S.subst loopmap loopslots omap nmap nslots 0 J.cur.snapmap
    (by omega) hL
  have h2 := snap_copy_links_spec (omap + nslots) (nmap + nslots) nfl 0
    (snap_subst_slots S.subst loopmap loopslots omap nmap nslots 0 J.cur.snapmap) (by omega)
  refine ⟨fun s hlt => ?_, fun k hlt => ?_, hnm⟩
  · rw [hmap, h2.2 (nmap + s) (by omega), h1.1 s (by omega) (by omega)]
  · rw [hmap, h2.1 k (by omega) (by omega),
      h1.2 (omap + nslots + k) (by omega)]

theorem unroll_snapshot_map_witness :
    snapNewOfs snapLoopState snapLoop = 9 ∧
    ((List.range 4).map (fun i =>
      (unroll_snapshot 5 3 snapLoopState snapLoop).2.cur.snapmap (9 + i))) =
        [0x7ffe, 0x8002, 0x8001, 0x22] ∧
    ∀ s, s < (snapLoop.cur.snap snapLoopState.osnap).nslots →
      (unroll_snapshot 5 3 snapLoopState snapLoop).2.cur.snapmap
          (snapNewOfs snapLoopState snapLoop + s) =
        snapEntrySpec snapLoopState.subst 5 3 (snapLoop.cur.snap snapLoopState.osnap).mapofs
          snapLoop.cur.snapmap s :=
  ⟨by decide, by decide,
    (unroll_snapshot_map 5 3 snapLoopState snapLoop (by decide) (by decide)).1⟩
/-! ## The search for a conflicting store -/

theorem u32_pred (i : Nat) (h0 : 0 < i) (h : i < 4294967296) : u32 ((i : Int) - 1) = i - 1 := by
  unfold u32
  omega

theorem u32_add_lim (ref : Nat) (h : ref + 15 < 4294967296) :
    u32 ((ref : Int) + CONFLICT_SEARCH_LIM) = ref + 15 := by
  unfold u32 CONFLICT_SEARCH_LIM
  omega

/-- The loop of `noconflict` returns within `i - ref` steps and tells whether no
instruction strictly between `ref` and `i` has the opcode `conflict`. -/
theorem noconflict_loop_spec (ir : Nat → IRIns) (ref conflict : Nat) (fuel i : Nat)
    (h0 : 0 < i) (h : i < 4294967296) (hfuel : i - ref ≤ fuel) (hfuel0 : 0 < fuel) :
    ∃ b, noconflict_loop ir ref conflict fuel i = some b ∧
      (b = true ↔ ∀ j, ref < j → j < i → (ir j).o ≠ conflict) := by
  induction fuel generalizing i with
  | zero => omega
  | succ fuel ih =>
    unfold noconflict_loop
    rw [u32_pred i h0 h]
    by_cases hgt : i - 1 > ref
    · rw [if_pos hgt]
      by_cases hc : (ir (i - 1)).o = conflict
      · rw [if_pos hc]
        refine ⟨false, rfl, ⟨fun hb => (by cases hb), fun hall => ?_⟩⟩
        exact absurd hc (hall (i - 1) hgt (by omega))
      · rw [if_neg hc]
        obtain ⟨b, hb1, hb2⟩ := ih (i - 1) (by omega) (by omega) (by omega) (by omega)
        refine ⟨b, hb1, ?_⟩
        rw [hb2]
        constructor
        · intro hall j hj1 hj2
          by_cases hj : j = i - 1
          · rw [hj]; exact hc
          · exact hall j hj1 (by omega)
        · intro hall j hj1 hj2
          exact hall j hj1 (by omega)
    · rw [if_neg hgt]
      refine ⟨true, rfl, ⟨fun _ j hj1 hj2 => by omega, fun _ => rfl⟩⟩

/-- C30: `noconflict(as, ref, op)` returns, within 15 steps of its loop, true if
and only if the current instruction is at most `CONFLICT_SEARCH_LIM = 15`
references after `ref` and no instruction strictly between `ref` and the
current instruction has the opcode `op`. The opcode that `asm_fuseload` passes
for a load that has a store is the opcode of that store. -/
theorem noconflict_iff (as : ASMState) (ref op fuel : Nat)
    (hcur : 0 < as.curins) (hcur32 : as.curins < 4294967296)
    (href : ref + 15 < 4294967296) (hfuel : 15 ≤ fuel) :
    (∃ b, noconflict as ref op fuel = some b ∧
      (b = true ↔ (as.curins ≤ ref + CONFLICT_SEARCH_LIM ∧
        ∀ j, ref < j → j < as.curins → (as.ir j).o ≠ op))) ∧
    CONFLICT_SEARCH_LIM = 15 ∧
    (∀ p ∈ loadStorePairs, fuseload_conflict p.1 = some p.2) := by
  refine ⟨?_, rfl, by decide⟩
  unfold noconflict
  rw [u32_add_lim ref href]
  by_cases hfar : as.curins > ref + 15
  · rw [if_pos hfar]
    refine ⟨false, rfl, ⟨fun hb => (by cases hb), fun hall => ?_⟩⟩
    have := hall.1
    unfold CONFLICT_SEARCH_LIM at this
    omega
  · rw [if_neg hfar]
    obtain ⟨b, hb1, hb2⟩ := noconflict_loop_spec as.ir ref op fuel as.curins hcur hcur32
      (by omega) (by omega)
    refine ⟨b, hb1, ?_⟩
    rw [hb2]
    unfold CONFLICT_SEARCH_LIM
    exact ⟨fun hall => ⟨by omega, hall⟩, fun hall => hall.2⟩

theorem noconflict_iff_witness :
    noconflict { ir := storeIR, curins := 0x8005 } 0x8002 IR_FSTORE 15 = some false ∧
    noconflict { ir := storeIR, curins := 0x8005 } 0x8003 IR_FSTORE 15 = some true ∧
    noconflict { ir := storeIR, curins := 0x8012 } 0x8003 IR_FSTORE 15 = some true ∧
    noconflict { ir := storeIR, curins := 0x8013 } 0x8003 IR_FSTORE 15 = some false ∧
    ∃ b, noconflict { ir := storeIR, curins := 0x8005 } 0x8003 IR_FSTORE 15 = some b ∧
      (b = true ↔ ((0x8005 : Nat) ≤ 0x8003 + CONFLICT_SEARCH_LIM ∧
        ∀ j, 0x8003 < j → j < 0x8005 → (storeIR j).o ≠ IR_FSTORE)) :=
  ⟨by decide, by decide, by decide, by decide,
    (noconflict_iff { ir := storeIR, curins := 0x8005 } 0x8003 IR_FSTORE 15
      (by decide) (by decide) (by decide) (by decide)).1⟩
/-! ## The code of an exit stub group -/

theorem upd_same {α : Type} (f : Nat → α) (i : Nat) (v : α) : upd f i v i = v := by
  unfold upd
  rw [if_pos rfl]

theorem upd_other {α : Type} (f : Nat → α) (i j : Nat) (v : α) (h : j ≠ i) :
    upd f i v j = f j := by
  unfold upd
  rw [if_neg h]

/-- The loop of `asm_exitstub_gen` from the stub `i` on: the address behind the
last stub, the four bytes written for each stub, and the bytes left alone. -/
theorem exitstub_loop_spec (T : Target) (groupofs fuel i mxp : Nat) (m : MCodeBuf)
    (hi : i ≤ 32) (hfuel : 32 - i ≤ fuel) :
    (exitstub_loop T groupofs fuel i mxp m).1 = mxp + 4 * (32 - i) ∧
    (∀ k, i ≤ k → k < 32 →
      (exitstub_loop T groupofs fuel i mxp m).2 (mxp + 4 * (k - i)) = toByte T.XI_JMPs ∧
      (exitstub_loop T groupofs fuel i mxp m).2 (mxp + 4 * (k - i) + 1) =
        toByte (4 * (32 - k) - 2) ∧
      (exitstub_loop T groupofs fuel i mxp m).2 (mxp + 4 * (k - i) + 2) = toByte T.XI_PUSHi8 ∧
      (exitstub_loop T groupofs fuel i mxp m).2 (mxp + 4 * (k - i) + 3) =
        toByte (groupofs + k)) ∧
    (∀ a, (a < mxp ∨ mxp + 4 * (32 - i) ≤ a) →
      (exitstub_loop T groupofs fuel i mxp m).2 a = m a) := by
  induction fuel generalizing i mxp m with
  | zero =>
    unfold exitstub_loop
    have hi32 : i = 32 := by omega
    subst hi32
    exact ⟨rfl, fun k h1 h2 => by omega, fun a _ => rfl⟩
  | succ fuel ih =>
    unfold exitstub_loop
    by_cases hlt : i < EXITSTUBS_PER_GROUP
    · rw [if_pos hlt]
      have hlt32 : i < 32 := hlt
      obtain ⟨ih1, ih2, ih3⟩ := ih (i + 1) (mxp + 4)
        (upd (upd (upd (upd m mxp (toByte T.XI_JMPs))
          (mxp + 1) (toByte ((2 + 2) * (EXITSTUBS_PER_GROUP - i) - 2)))
          (mxp + 2) (toByte T.XI_PUSHi8))
          (mxp + 3) (toByte (groupofs + i))) (by omega) (by omega)
      refine ⟨by rw [ih1]; omega, fun k hk1 hk2 => ?_, fun a ha => ?_⟩
      · by_cases hk : k = i
        · subst hk
          have e0 : mxp + 4 * (k - k) = mxp := by omega
          rw [e0, ih3 mxp (by omega), ih3 (mxp + 1) (by omega), ih3 (mxp + 2) (by omega),
            ih3 (mxp + 3) (by omega)]
          refine ⟨?_, ?_, ?_, ?_⟩
          · rw [upd_other _ _ _ _ (by omega), upd_other _ _ _ _ (by omega),
              upd_other _ _ _ _ (by omega), upd_same]
          · rw [upd_other _ _ _ _ (by omega), upd_other _ _ _ _ (by omega), upd_same]
            rfl
          · rw [upd_other _ _ _ _ (by omega), upd_same]
          · rw [upd_same]
        · have e1 : mxp + 4 * (k - i) = mxp + 4 + 4 * (k - (i + 1)) := by omega
          rw [e1]
          exact ih2 k (by omega) hk2
      · rw [ih3 a (by omega), upd_other _ _ _ _ (by omega), upd_other _ _ _ _ (by omega),
          upd_other _ _ _ _ (by omega), upd_other _ _ _ _ (by omega)]
    · rw [if_neg hlt]
      have hi32 : i = 32 := by
        have : ¬ i < 32 := hlt
        omega
      subst hi32
      exact ⟨rfl, fun k h1 h2 => by omega, fun a _ => rfl⟩

theorem and_ff_mod (x : Nat) : x &&& 0xff = x % 256 :=
  Nat.and_pow_two_sub_one_eq_mod x 8

/-- The code of an exit stub group, byte by byte. -/
theorem exitstub_code_spec (T : Target) (dispatch handler : Int) (group mxp : Nat)
    (m : MCodeBuf) (hg : group * 32 < 4294967296) :
    (exitstub_code T dispatch handler group mxp m).1 = mxp + 141 ∧
    (∀ i, i < 32 →
      (exitstub_code T dispatch handler group mxp m).2 (mxp + 4 * i) = toByte T.XI_PUSHi8 ∧
      (exitstub_code T dispatch handler group mxp m).2 (mxp + 4 * i + 1) =
        toByte ((group * 32) % 256 + i) ∧
      (i < 31 →
        (exitstub_code T dispatch handler group mxp m).2 (mxp + 4 * i + 2) = toByte T.XI_JMPs ∧
        (exitstub_code T dispatch handler group mxp m).2 (mxp + 4 * i + 3) =
          toByte (4 * (31 - i) - 2))) ∧
    (exitstub_code T dispatch handler group mxp m).2 (mxp + 126) = toByte T.XI_PUSHi8 ∧
    (exitstub_code T dispatch handler group mxp m).2 (mxp + 127) =
      toByte ((group * 32) >>> 8) ∧
    (exitstub_code T dispatch handler group mxp m).2 (mxp + 136) = XI_JMP ∧
    wrap32 (read_i32 (exitstub_code T dispatch handler group mxp m).2 (mxp + 137)) =
      wrap32 (handler - ((mxp + 141 : Nat) : Int)) ∧
    (∀ a, (a < mxp ∨ mxp + 141 ≤ a) →
      (exitstub_code T dispatch handler group mxp m).2 a = m a) := by
  have hu : u32 ((group * EXITSTUBS_PER_GROUP : Nat) : Int) = group * 32 := by
    unfold u32 EXITSTUBS_PER_GROUP
    omega
  unfold exitstub_code
  dsimp only
  rw [hu, and_ff_mod]
  generalize hm1 : upd (upd m mxp (toByte T.XI_PUSHi8)) (mxp + 1)
    (toByte ((group * 32) % 256)) = m1
  obtain ⟨hl1, hl2, hl3⟩ := exitstub_loop_spec T ((group * 32) % 256) EXITSTUBS_PER_GROUP 1
    (mxp + 2) m1 (by omega) (by unfold EXITSTUBS_PER_GROUP; omega)
  generalize hr : exitstub_loop T ((group * 32) % 256) EXITSTUBS_PER_GROUP 1 (mxp + 2) m1 = r
    at hl1 hl2 hl3
  have hr1 : r.1 = mxp + 126 := by rw [hl1]
  rw [hr1]
  -- the bytes behind the stubs leave the stubs alone
  have hlow : ∀ a, (a < mxp + 126 ∨ mxp + 141 ≤ a) →
      write_i32 (upd (write_i32 (upd (upd (upd (upd (upd (upd r.2 (mxp + 126)
        (toByte T.XI_PUSHi8)) (mxp + 126 + 1) (toByte ((group * 32) >>> 8)))
        (mxp + 126 + 2) (toByte T.XI_MOVmi)) (mxp + 126 + 3) (MODRM T.XM_OFS8 0 T.RID_ESP))
        (mxp + 126 + 4) (MODRM T.XM_SCALE1 T.RID_ESP T.RID_ESP))
        (mxp + 126 + 5) (toByte (2 * 4))) (mxp + 126 + 6) dispatch)
        (mxp + 126 + 10) XI_JMP) (mxp + 126 + 11)
        (handler - ((mxp + 126 + 15 : Nat) : Int)) a = r.2 a := by
    intro a ha
    rw [write_i32_outside _ _ _ _ (by omega), upd_other _ _ _ _ (by omega),
      write_i32_outside _ _ _ _ (by omega), upd_other _ _ _ _ (by omega),
      upd_other _ _ _ _ (by omega), upd_other _ _ _ _ (by omega),
      upd_other _ _ _ _ (by omega), upd_other _ _ _ _ (by omega),
      upd_other _ _ _ _ (by omega)]
  refine ⟨by omega, fun i hi => ⟨?_, ?_, fun hi31 => ⟨?_, ?_⟩⟩, ?_, ?_, ?_, ?_, fun a ha => ?_⟩
  · rw [hlow _ (by omega)]
    by_cases h0 : i = 0
    · subst h0
      have e0 : mxp + 4 * 0 = mxp := by omega
      rw [e0, hl3 _ (by omega), ← hm1, upd_other _ _ _ _ (by omega), upd_same]
    · have e : mxp + 4 * i = mxp + 2 + 4 * (i - 1) + 2 := by omega
      rw [e]
      exact (hl2 i (by omega) hi).2.2.1
  · rw [hlow _ (by omega)]
    by_cases h0 : i = 0
    · subst h0
      have e0 : mxp + 4 * 0 + 1 = mxp + 1 := by omega
      rw [e0, hl3 _ (by omega), ← hm1, upd_same]
      rfl
    · have e : mxp + 4 * i + 1 = mxp + 2 + 4 * (i - 1) + 3 := by omega
      rw [e]
      exact (hl2 i (by omega) hi).2.2.2
  · rw [hlow _ (by omega)]
    have e : mxp + 4 * i + 2 = mxp + 2 + 4 * (i + 1 - 1) := by omega
    rw [e]
    exact (hl2 (i + 1) (by omega) (by omega)).1
  · rw [hlow _ (by omega)]
    have e : mxp + 4 * i + 3 = mxp + 2 + 4 * (i + 1 - 1) + 1 := by omega
    rw [e, (hl2 (i + 1) (by omega) (by omega)).2.1]
    have e2 : 4 * (32 - (i + 1)) - 2 = 4 * (31 - i) - 2 := by omega
    rw [e2]
  · rw [write_i32_outside _ _ _ _ (by omega), upd_other _ _ _ _ (by omega),
      write_i32_outside _ _ _ _ (by omega), upd_other _ _ _ _ (by omega),
      upd_other _ _ _ _ (by omega), upd_other _ _ _ _ (by omega),
      upd_other _ _ _ _ (by omega), upd_other _ _ _ _ (by omega), upd_same]
  · rw [write_i32_outside _ _ _ _ (by omega), upd_other _ _ _ _ (by omega),
      write_i32_outside _ _ _ _ (by omega), upd_other _ _ _ _ (by omega),
      upd_other _ _ _ _ (by omega), upd_other _ _ _ _ (by omega),
      upd_other _ _ _ _ (by omega), upd_same]
  · rw [write_i32_outside _ _ _ _ (by omega), upd_same]
  · have e : mxp + 137 = mxp + 126 + 11 := by omega
    have e2 : mxp + 141 = mxp + 126 + 15 := by omega
    rw [e, e2]
    exact wrap32_read_write _ _ _
  · rw [hlow a (by omega), hl3 a (by omega), ← hm1, upd_other _ _ _ _ (by omega),
      upd_other _ _ _ _ (by omega)]

/-- C21: the code that `asm_exitstub_gen` writes for the group `g` at the bottom
`mxp` of the reserved area places the stub `i` of the group at the offset
`4*i`, the address that `exitstub_addr` computes for the exit `e = 32*g + i`;
the stub pushes the byte `e & 0xff`; every stub except the last is followed by
a short jump to the offset 126 of the group, where the epilogue pushes the byte
`e >> 8`; the epilogue ends with a jump to the exit handler at the offset 136,
and the bottom of the area moves behind it. -/
theorem asm_exitstub_gen_layout (T : Target) (H : Host) (dispatch handler : Int)
    (J : jit_State) (as : ASMState) (g i : Nat)
    (hroom : as.mcbot + 141 < as.mctop) (hi : i < 32) (he : 32 * g + i < 65536) :
    ∃ as1 J1, asm_exitstub_gen T H dispatch handler J as g = .ok (as.mcbot, as1) J1 ∧
      exitstub_addr (fun group => if group = g then (as.mcbot : Int) else 0) (32 * g + i) =
        ((as.mcbot + 4 * i : Nat) : Int) ∧
      as1.mem (as.mcbot + 4 * i) = toByte T.XI_PUSHi8 ∧
      (as1.mem (as.mcbot + 4 * i + 1)).val = (32 * g + i) &&& 0xff ∧
      (i < 31 → as1.mem (as.mcbot + 4 * i + 2) = toByte T.XI_JMPs ∧
        sjmpDest as1.mem (as.mcbot + 4 * i + 2) = ((as.mcbot + 126 : Nat) : Int)) ∧
      as1.mem (as.mcbot + 126) = toByte T.XI_PUSHi8 ∧
      (as1.mem (as.mcbot + 127)).val = (32 * g + i) >>> 8 ∧
      as1.mem (as.mcbot + 136) = XI_JMP ∧
      jmpDest 0 as1.mem (as.mcbot + 136) = wrap32 handler ∧
      as1.mcbot = as.mcbot + 141 ∧ J1.mcbot = as.mcbot + 141 ∧
      as1.mclim = as.mcbot + 141 + MCLIM_REDZONE := by
  obtain ⟨h1, h2, h3, h4, h5, h6, _⟩ :=
    exitstub_code_spec T dispatch handler g as.mcbot as.mem (by omega)
  obtain ⟨hs1, hs2, hs3⟩ := h2 i hi
  refine ⟨{ as with
      mem := (exitstub_code T dispatch handler g as.mcbot as.mem).2
      mcbot := (exitstub_code T dispatch handler g as.mcbot as.mem).1
      mclim := (exitstub_code T dispatch handler g as.mcbot as.mem).1 + MCLIM_REDZONE },
    lj_mcode_commitbot J (exitstub_code T dispatch handler g as.mcbot as.mem).1,
    ?_, ?_, hs1, ?_, fun hi31 => ⟨(hs3 hi31).1, ?_⟩, h3, ?_, h5, ?_, h1, h1, ?_⟩
  · unfold asm_exitstub_gen
    rw [if_neg (by unfold EXITSTUBS_PER_GROUP; omega)]
  · unfold exitstub_addr EXITSTUBS_PER_GROUP EXITSTUB_SPACING
    have e1 : (32 * g + i) / 32 = g := by omega
    have e2 : (32 * g + i) % 32 = i := by omega
    rw [e1, e2]
    simp only [if_pos]
    push_cast
    ring
  · show ((exitstub_code T dispatch handler g as.mcbot as.mem).2 (as.mcbot + 4 * i + 1)).val = _
    rw [hs2, toByte_val, and_ff_mod]
    omega
  · unfold sjmpDest
    show ((as.mcbot + 4 * i + 2 : Nat) : Int) + 2 +
      (if ((exitstub_code T dispatch handler g as.mcbot as.mem).2
          (as.mcbot + 4 * i + 2 + 1)).val < 128
        then (((exitstub_code T dispatch handler g as.mcbot as.mem).2
          (as.mcbot + 4 * i + 2 + 1)).val : Int)
        else (((exitstub_code T dispatch handler g as.mcbot as.mem).2
          (as.mcbot + 4 * i + 2 + 1)).val : Int) - 256) = _
    have e : as.mcbot + 4 * i + 2 + 1 = as.mcbot + 4 * i + 3 := by omega
    rw [e, (hs3 hi31).2, toByte_val]
    have hv : (4 * (31 - i) - 2) % 256 = 4 * (31 - i) - 2 := by omega
    rw [hv, if_pos (by omega)]
    omega
  · show ((exitstub_code T dispatch handler g as.mcbot as.mem).2 (as.mcbot + 127)).val = _
    rw [h4, toByte_val, Nat.shiftRight_eq_div_pow, Nat.shiftRight_eq_div_pow]
    omega
  · unfold jmpDest
    show wrap32 (0 + ((as.mcbot + 136 : Nat) : Int) + 5 +
      read_i32 (exitstub_code T dispatch handler g as.mcbot as.mem).2 (as.mcbot + 136 + 1)) = _
    have e : as.mcbot + 136 + 1 = as.mcbot + 137 := by omega
    rw [e]
    unfold wrap32 at h6 ⊢
    omega
  · show (exitstub_code T dispatch handler g as.mcbot as.mem).1 + MCLIM_REDZONE = _
    rw [h1]

theorem asm_exitstub_gen_layout_witness :
    ((asm_exitstub_gen exampleTarget (exampleHost 0) 0x1234 0x5000 {}
        { mcbot := 0x1000, mctop := 0x2000 } 1).value?.map
      (fun r => (r.1, (List.range 8).map (fun k => (r.2.mem (0x1000 + 4 * 3 + k)).val),
        (List.range 15).map (fun k => (r.2.mem (0x1000 + 126 + k)).val)))) =
      some (0x1000, [0x6a, 35, 0xeb, 110, 0x6a, 36, 0xeb, 106],
        [0x6a, 0, 0xc7, 0x44, 0x24, 8, 0x34, 0x12, 0, 0, 0xe9, 0x73, 0x3f, 0, 0]) ∧
    ∃ as1 J1, asm_exitstub_gen exampleTarget (exampleHost 0) 0x1234 0x5000 {}
        { mcbot := 0x1000, mctop := 0x2000 } 1 = .ok (0x1000, as1) J1 ∧
      exitstub_addr (fun group => if group = 1 then ((0x1000 : Nat) : Int) else 0)
        (32 * 1 + 3) = ((0x1000 + 4 * 3 : Nat) : Int) ∧
      as1.mem (0x1000 + 4 * 3) = toByte exampleTarget.XI_PUSHi8 ∧
      (as1.mem (0x1000 + 4 * 3 + 1)).val = (32 * 1 + 3) &&& 0xff ∧
      (3 < 31 → as1.mem (0x1000 + 4 * 3 + 2) = toByte exampleTarget.XI_JMPs ∧
        sjmpDest as1.mem (0x1000 + 4 * 3 + 2) = ((0x1000 + 126 : Nat) : Int)) ∧
      as1.mem (0x1000 + 126) = toByte exampleTarget.XI_PUSHi8 ∧
      (as1.mem (0x1000 + 127)).val = (32 * 1 + 3) >>> 8 ∧
      as1.mem (0x1000 + 136) = XI_JMP ∧
      jmpDest 0 as1.mem (0x1000 + 136) = wrap32 0x5000 ∧
      as1.mcbot = 0x1000 + 141 ∧ J1.mcbot = 0x1000 + 141 ∧
      as1.mclim = 0x1000 + 141 + MCLIM_REDZONE :=
  ⟨by decide,
    asm_exitstub_gen_layout exampleTarget (exampleHost 0) 0x1234 0x5000 {}
      { mcbot := 0x1000, mctop := 0x2000 } 1 3 (by decide) (by decide) (by decide)⟩
/-! ## The branch of a guard -/

/-- The near conditional jump that `emit_jcc` writes below the code pointer. -/
theorem emit_jcc_spec (T : Target) (as : ASMState) (cc : Nat) (target : Int)
    (hp : 6 ≤ as.mcp) :
    (emit_jcc T as cc target).mcp = as.mcp - 6 ∧
    (emit_jcc T as cc target).mem (as.mcp - 6) = 0x0f ∧
    (emit_jcc T as cc target).mem (as.mcp - 5) = toByte (T.XI_JCCn + (cc &&& 15)) ∧
    jccDest 0 (emit_jcc T as cc target).mem (as.mcp - 6) = wrap32 target ∧
    (∀ a, (a < as.mcp - 6 ∨ as.mcp ≤ a) → (emit_jcc T as cc target).mem a = as.mem a) ∧
    (emit_jcc T as cc target).loopinv = as.loopinv := by
  unfold emit_jcc
  dsimp only
  refine ⟨rfl, upd_same _ _ _, ?_, ?_, fun a ha => ?_, rfl⟩
  · rw [upd_other _ _ _ _ (by omega), upd_same]
  · unfold jccDest
    have e : as.mcp - 6 + 2 = as.mcp - 4 := by omega
    rw [e, read_i32_congr _ (write_i32 as.mem (as.mcp - 4) (target - as.mcp)) (as.mcp - 4)
      (fun j h1 h2 => by
        rw [upd_other _ _ _ _ (by omega), upd_other _ _ _ _ (by omega)])]
    have h := wrap32_read_write as.mem (as.mcp - 4) (target - as.mcp)
    unfold wrap32 at h ⊢
    omega
  · rw [upd_other _ _ _ _ (by omega), upd_other _ _ _ _ (by omega),
      write_i32_outside _ _ _ _ (by omega)]

/-- The short conditional jump to the code pointer itself that `emit_sjcc`
writes below the code pointer. -/
theorem emit_sjcc_self (T : Target) (as : ASMState) (cc : Nat) (hp : 2 ≤ as.mcp) :
    (emit_sjcc T as cc as.mcp).mcp = as.mcp - 2 ∧
    (emit_sjcc T as cc as.mcp).mem (as.mcp - 2) = toByte (T.XI_JCCs + (cc &&& 15)) ∧
    sjmpDest (emit_sjcc T as cc as.mcp).mem (as.mcp - 2) = as.mcp ∧
    (∀ a, (a < as.mcp - 2 ∨ as.mcp ≤ a) → (emit_sjcc T as cc as.mcp).mem a = as.mem a) ∧
    (emit_sjcc T as cc as.mcp).loopinv = as.loopinv := by
  unfold emit_sjcc
  dsimp only
  refine ⟨rfl, upd_same _ _ _, ?_, fun a ha => ?_, rfl⟩
  · unfold sjmpDest
    have e : as.mcp - 2 + 1 = as.mcp - 1 := by omega
    have hz : u32 ((as.mcp : Int) - as.mcp) = 0 := by unfold u32; omega
    rw [e, upd_other _ _ _ _ (by omega), upd_same, hz, toByte_val]
    simp only [Nat.zero_mod, Nat.cast_zero]
    rw [if_pos (by omega)]
    omega
  · rw [upd_other _ _ _ _ (by omega), upd_other _ _ _ _ (by omega)]

/-- C29: `asm_guardcc(cc)` emits the 6-byte near conditional jump
`0x0F, XI_JCCn + cc, rel32` that ends at the old code pointer `p` and whose
destination is the exit stub of the current snapshot. If `p` is the address
`invmcp` of the pending loop branch, it stores into the jump at `p` the
displacement that makes it jump to the exit stub, records the inversion, and
emits the conditional jump with the inverted condition `cc XOR 1` and the
destination `p`: the near jump, or the 2-byte short jump if a realignment of
the loop is pending. -/
theorem asm_guardcc_spec (T : Target) (exitstubgroup : Nat → Int) (as : ASMState) (cc : Nat)
    (hp : 6 ≤ as.mcp) :
    (as.mcp ≠ as.invmcp →
      (asm_guardcc T exitstubgroup as cc).mcp = as.mcp - 6 ∧
      (asm_guardcc T exitstubgroup as cc).mem (as.mcp - 6) = 0x0f ∧
      (asm_guardcc T exitstubgroup as cc).mem (as.mcp - 5) = toByte (T.XI_JCCn + (cc &&& 15)) ∧
      (T.XI_JCCn = 0x80 → cc < 16 →
        ((asm_guardcc T exitstubgroup as cc).mem (as.mcp - 5)).val = 0x80 + cc) ∧
      jccDest 0 (asm_guardcc T exitstubgroup as cc).mem (as.mcp - 6) =
        wrap32 (exitstub_addr exitstubgroup as.snapno)) ∧
    (as.mcp = as.invmcp →
      jmpDest 0 (asm_guardcc T exitstubgroup as cc).mem as.mcp =
        wrap32 (exitstub_addr exitstubgroup as.snapno) ∧
      (asm_guardcc T exitstubgroup as cc).loopinv = 1 ∧
      (as.realign = 0 →
        (asm_guardcc T exitstubgroup as cc).mcp = as.mcp - 6 ∧
        (asm_guardcc T exitstubgroup as cc).mem (as.mcp - 6) = 0x0f ∧
        (asm_guardcc T exitstubgroup as cc).mem (as.mcp - 5) =
          toByte (T.XI_JCCn + ((cc ^^^ 1) &&& 15)) ∧
        jccDest 0 (asm_guardcc T exitstubgroup as cc).mem (as.mcp - 6) = wrap32 as.mcp) ∧
      (as.realign ≠ 0 →
        (asm_guardcc T exitstubgroup as cc).mcp = as.mcp - 2 ∧
        (asm_guardcc T exitstubgroup as cc).mem (as.mcp - 2) =
          toByte (T.XI_JCCs + ((cc ^^^ 1) &&& 15)) ∧
        sjmpDest (asm_guardcc T exitstubgroup as cc).mem (as.mcp - 2) = as.mcp)) := by
  constructor
  · intro hne
    unfold asm_guardcc
    rw [if_neg hne]
    obtain ⟨h1, h2, h3, h4, _, _⟩ :=
      emit_jcc_spec T as cc (exitstub_addr exitstubgroup as.snapno) hp
    refine ⟨h1, h2, h3, fun hn hcc => ?_, h4⟩
    rw [h3, toByte_val, hn]
    have hand : cc &&& 15 = cc := by
      have := Nat.and_pow_two_sub_one_eq_mod cc 4
      have e : (2 : Nat) ^ 4 - 1 = 15 := by decide
      rw [e] at this
      rw [this]
      omega
    rw [hand]
    omega
  · intro heq
    generalize hpend : ({ as with
        loopinv := 1
        mem := write_i32 as.mem (as.mcp + 1)
          (exitstub_addr exitstubgroup as.snapno - ((as.mcp : Int) + 5)) } : ASMState) = as1
    have hmcp : as1.mcp = as.mcp := by rw [← hpend]
    have hinv : as1.loopinv = 1 := by rw [← hpend]
    have hmem : as1.mem = write_i32 as.mem (as.mcp + 1)
        (exitstub_addr exitstubgroup as.snapno - ((as.mcp : Int) + 5)) := by rw [← hpend]
    have hdest : ∀ m : MCodeBuf, (∀ a, as.mcp ≤ a → m a = as1.mem a) →
        jmpDest 0 m as.mcp = wrap32 (exitstub_addr exitstubgroup as.snapno) := by
      intro m hm
      unfold jmpDest
      rw [read_i32_congr m as1.mem (as.mcp + 1) (fun j h1 _ => hm j (by omega)), hmem]
      have h := wrap32_read_write as.mem (as.mcp + 1)
        (exitstub_addr exitstubgroup as.snapno - ((as.mcp : Int) + 5))
      unfold wrap32 at h ⊢
      omega
    by_cases hre : as.realign ≠ 0
    · have hres : asm_guardcc T exitstubgroup as cc = emit_sjcc T as1 (cc ^^^ 1) as1.mcp := by
        unfold asm_guardcc
        rw [if_pos heq, if_pos hre, ← hpend]
      obtain ⟨h1, h2, h3, h4, h5⟩ := emit_sjcc_self T as1 (cc ^^^ 1) (by omega)
      rw [hmcp] at h1 h2 h3 h4
      rw [hres]
      refine ⟨hdest _ (fun a ha => ?_), h5.trans hinv, fun h0 => absurd h0 hre,
        fun _ => ⟨?_, ?_, ?_⟩⟩
      · rw [hmcp]; exact h4 a (Or.inr ha)
      · rw [hmcp]; exact h1
      · rw [hmcp]; exact h2
      · rw [hmcp]; exact h3
    · have hres : asm_guardcc T exitstubgroup as cc = emit_jcc T as1 (cc ^^^ 1) as1.mcp := by
        unfold asm_guardcc
        rw [if_pos heq, if_neg hre, ← hpend]
      obtain ⟨h1, h2, h3, h4, h5, h6⟩ := emit_jcc_spec T as1 (cc ^^^ 1) as1.mcp (by omega)
      rw [hmcp] at h1 h2 h3 h4 h5
      rw [hres]
      refine ⟨hdest _ (fun a ha => ?_), h6.trans hinv,
        fun _ => ⟨?_, ?_, ?_, ?_⟩, fun h0 => absurd h0 hre⟩
      · rw [hmcp]; exact h5 a (Or.inr ha)
      · rw [hmcp]; exact h1
      · rw [hmcp]; exact h2
      · rw [hmcp]; exact h3
      · rw [hmcp]; exact h4

theorem asm_guardcc_spec_witness :
    ((List.range 6).map (fun i =>
      ((asm_guardcc exampleTarget (fun _ => 0x3000) { mcp := 0x2000, snapno := 2 } 5).mem
        (0x2000 - 6 + i)).val)) = [0x0f, 0x85, 0x08, 0x10, 0, 0] ∧
    ((asm_guardcc exampleTarget (fun _ => 0x3000) { mcp := 0x2000, snapno := 2 } 5).mcp = 0x2000 - 6 ∧
      (asm_guardcc exampleTarget (fun _ => 0x3000) { mcp := 0x2000, snapno := 2 } 5).mem
        (0x2000 - 6) = 0x0f ∧
      (asm_guardcc exampleTarget (fun _ => 0x3000) { mcp := 0x2000, snapno := 2 } 5).mem
        (0x2000 - 5) = toByte (exampleTarget.XI_JCCn + (5 &&& 15)) ∧
      (exampleTarget.XI_JCCn = 0x80 → 5 < 16 →
        ((asm_guardcc exampleTarget (fun _ => 0x3000) { mcp := 0x2000, snapno := 2 } 5).mem
          (0x2000 - 5)).val = 0x80 + 5) ∧
      jccDest 0 (asm_guardcc exampleTarget (fun _ => 0x3000) { mcp := 0x2000, snapno := 2 } 5).mem
        (0x2000 - 6) = wrap32 (exitstub_addr (fun _ => 0x3000) 2)) ∧
    ((List.range 7).map (fun i =>
      ((asm_guardcc exampleTarget (fun _ => 0x3000)
        { mcp := 0x2000, snapno := 2, invmcp := 0x2000, realign := 1 } 5).mem
        (0x2000 - 2 + i)).val)) = [0x74, 0, 0, 0x03, 0x10, 0, 0] :=
  ⟨by decide,
    (asm_guardcc_spec exampleTarget (fun _ => 0x3000) { mcp := 0x2000, snapno := 2 } 5
      (by decide)).1 (by decide),
    by decide⟩

/-! ## Register sets -/

theorem rset_test_set (rs r q : Nat) :
    rset_test (rset_set rs r) q = (rset_test rs q || decide (r = q)) := by
  unfold rset_test rset_set RID2RSET
  rw [Nat.testBit_or, Nat.one_shiftLeft, Nat.testBit_two_pow]

theorem rset_test_clear (rs r q : Nat) (hq : q < 32) :
    rset_test (rset_clear rs r) q = (rset_test rs q && !decide (r = q)) := by
  unfold rset_test rset_clear RID2RSET
  have e : (0xffffffff : Nat) = 2 ^ 32 - 1 := by norm_num
  rw [Nat.testBit_and, Nat.testBit_xor, Nat.one_shiftLeft, Nat.testBit_two_pow, e,
    Nat.testBit_two_pow_sub_one]
  simp [hq]

theorem rset_test_lt (rs r n : Nat) (hrs : rs < 2 ^ n) (h : rset_test rs r = true) : r < n := by
  by_contra hn
  have hle : 2 ^ n ≤ 2 ^ r := Nat.pow_le_pow_right (by norm_num) (by omega)
  have := Nat.testBit_lt_two_pow (Nat.lt_of_lt_of_le hrs hle)
  unfold rset_test at h
  rw [this] at h
  cases h

theorem rset_and_ne_zero (allow r : Nat) :
    allow &&& RID2RSET r ≠ 0 ↔ rset_test allow r = true := by
  unfold RID2RSET rset_test
  rw [Nat.one_shiftLeft, Nat.and_two_pow]
  cases allow.testBit r <;> simp

theorem rset_test_and (a b r : Nat) :
    rset_test (a &&& b) r = (rset_test a r && rset_test b r) := by
  unfold rset_test
  rw [Nat.testBit_and]

theorem setR_r (ir : IRIns) (r : Nat) : (ir.setR r).r = r % 256 := by
  unfold IRIns.setR IRIns.r
  show (r % 256 + 256 * ir.s) % 256 = r % 256
  omega

theorem setR_s (ir : IRIns) (r : Nat) : (ir.setR r).s = ir.s := by
  unfold IRIns.setR
  show (r % 256 + 256 * ir.s) / 256 % 256 = ir.s
  have : ir.s < 256 := by unfold IRIns.s; omega
  omega

theorem setR_t (ir : IRIns) (r : Nat) : (ir.setR r).t = ir.t := rfl

theorem setR_o (ir : IRIns) (r : Nat) : (ir.setR r).o = ir.o := rfl

theorem setS_r (ir : IRIns) (s : Nat) : (ir.setS s).r = ir.r := by
  unfold IRIns.setS
  show (ir.r + 256 * (s % 256)) % 256 = ir.r
  have : ir.r < 256 := by unfold IRIns.r; omega
  omega

/-! ## Renaming a register -/

theorem ra_rename_regs_s (T : Target) (as : ASMState) (down up : Nat) :
    ((ra_rename_regs T as down up).ir (T.regcost_ref (as.cost down))).s =
      (as.ir (T.regcost_ref (as.cost down))).s := by
  unfold ra_rename_regs
  simp only [upd, if_true]
  exact setR_s _ _

theorem rename_ot : IRT IR_RENAME IRT_NIL % 256 = IRT_NIL ∧
    IRT IR_RENAME IRT_NIL / 256 % 256 = IR_RENAME := by decide

/-- The outcome of `ra_rename` when the IR buffer has room. -/
theorem ra_rename_spec (T : Target) (J : jit_State) (as : ASMState) (down up : Nat)
    (hroom : J.cur.nins < J.irtoplim) (hn : J.cur.nins < 65536) :
    (¬ ra_hasspill (as.ir (T.regcost_ref (as.cost down))).s →
      ∃ as1 J1, ra_rename T J as down up = .ok as1 J1 ∧
        J1.cur.nins = J.cur.nins + 1 ∧ J1.cur.ir = as1.ir ∧
        as1.cost = (ra_rename_regs T as down up).cost ∧
        as1.freeset = (ra_rename_regs T as down up).freeset ∧
        (∀ ref, ref ≠ J.cur.nins → as1.ir ref = (ra_rename_regs T as down up).ir ref) ∧
        (as1.ir J.cur.nins).o = IR_RENAME ∧ (as1.ir J.cur.nins).t = IRT_NIL ∧
        (as1.ir J.cur.nins).op1 = T.regcost_ref (as.cost down) % 65536 ∧
        (as1.ir J.cur.nins).op2 = as.snapno % 65536 ∧
        (as1.ir J.cur.nins).r = down % 256 ∧ (as1.ir J.cur.nins).s = 0) ∧
    (ra_hasspill (as.ir (T.regcost_ref (as.cost down))).s →
      ra_rename T J as down up =
        .ok (ra_rename_regs T as down up)
          { J with cur := { J.cur with ir := (ra_rename_regs T as down up).ir } }) := by
  have hs := ra_rename_regs_s T as down up
  constructor
  · intro hsp
    have hsp1 : ¬ ra_hasspill
        ((ra_rename_regs T as down up).ir (T.regcost_ref (as.cost down))).s := by
      rw [hs]; exact hsp
    have hidx : tref_ref (TREF J.cur.nins (IRT IR_RENAME IRT_NIL % 256)) = J.cur.nins := by
      unfold tref_ref TREF
      rw [Nat.shiftLeft_eq]
      omega
    unfold ra_rename
    simp only [hsp1, not_false_eq_true, if_true]
    unfold lj_ir_emit
    have hroom1 : ¬ ((lj_ir_set { J with cur := { J.cur with
        ir := (ra_rename_regs T as down up).ir } } (IRT IR_RENAME IRT_NIL)
        (T.regcost_ref (as.cost down)) (ra_rename_regs T as down up).snapno).cur.nins ≥
        (lj_ir_set { J with cur := { J.cur with
        ir := (ra_rename_regs T as down up).ir } } (IRT IR_RENAME IRT_NIL)
        (T.regcost_ref (as.cost down)) (ra_rename_regs T as down up).snapno).irtoplim) := by
      show ¬ (J.cur.nins ≥ J.irtoplim)
      omega
    rw [if_neg hroom1]
    refine ⟨_, _, rfl, rfl, rfl, rfl, rfl, ?_, ?_⟩
    · intro ref hne
      show upd _ _ _ ref = _
      unfold lj_ir_set jit_State.appendIns
      simp only [hidx]
      unfold upd
      simp only [if_neg hne]
    · show IRIns.o (upd _ _ _ J.cur.nins) = _ ∧ IRIns.t (upd _ _ _ J.cur.nins) = _ ∧
        IRIns.op1 (upd _ _ _ J.cur.nins) = _ ∧ IRIns.op2 (upd _ _ _ J.cur.nins) = _ ∧
        IRIns.r (upd _ _ _ J.cur.nins) = _ ∧ IRIns.s (upd _ _ _ J.cur.nins) = _
      unfold lj_ir_set jit_State.appendIns
      simp only [hidx]
      simp only [upd, if_true]
      refine ⟨rename_ot.2, rename_ot.1, rfl, rfl, ?_, ?_⟩
      · rw [setS_r, setR_r]
      · rw [setS_s]
  · intro hsp
    have hsp1 : ra_hasspill
        ((ra_rename_regs T as down up).ir (T.regcost_ref (as.cost down))).s := by
      rw [hs]; exact hsp
    unfold ra_rename
    simp only [hsp1, not_true_eq_false, if_false]

/-- Claim C22, as the code has it: `ra_rename(down, up)` appends a RENAME
instruction for the renamed reference (operands: the reference and the number
of the current snapshot, register field `down`, no spill slot) to the IR when
the reference has NO spill slot; when the reference has a spill slot the IR
keeps its length. The IR buffer is assumed to have room. -/
theorem ra_rename_appends (T : Target) (J : jit_State) (as : ASMState) (down up : Nat)
    (hroom : J.cur.nins < J.irtoplim) (hn : J.cur.nins < 65536) :
    (¬ ra_hasspill (as.ir (T.regcost_ref (as.cost down))).s →
      ∃ as1 J1, ra_rename T J as down up = .ok as1 J1 ∧
        J1.cur.nins = J.cur.nins + 1 ∧
        (as1.ir J.cur.nins).o = IR_RENAME ∧
        (as1.ir J.cur.nins).op1 = T.regcost_ref (as.cost down) % 65536 ∧
        (as1.ir J.cur.nins).op2 = as.snapno % 65536 ∧
        (as1.ir J.cur.nins).r = down % 256 ∧ (as1.ir J.cur.nins).s = 0) ∧
    (ra_hasspill (as.ir (T.regcost_ref (as.cost down))).s →
      ∃ as1 J1, ra_rename T J as down up = .ok as1 J1 ∧ J1.cur.nins = J.cur.nins) := by
  have h := ra_rename_spec T J as down up hroom hn
  constructor
  · intro hsp
    obtain ⟨as1, J1, he, hn1, _, _, _, _, ho, _, h1, h2, hr, hs⟩ := h.1 hsp
    exact ⟨as1, J1, he, hn1, ho, h1, h2, hr, hs⟩
  · intro hsp
    exact ⟨_, _, h.2 hsp, rfl⟩

theorem ra_rename_appends_witness :
    (regsJit.cur.nins < regsJit.irtoplim ∧ regsJit.cur.nins < 65536) ∧
    ((¬ ra_hasspill (regsExample.ir (exampleTarget.regcost_ref (regsExample.cost 1))).s →
      ∃ as1 J1, ra_rename exampleTarget regsJit regsExample 1 3 = .ok as1 J1 ∧
        J1.cur.nins = regsJit.cur.nins + 1 ∧
        (as1.ir regsJit.cur.nins).o = IR_RENAME ∧
        (as1.ir regsJit.cur.nins).op1 =
          exampleTarget.regcost_ref (regsExample.cost 1) % 65536 ∧
        (as1.ir regsJit.cur.nins).op2 = regsExample.snapno % 65536 ∧
        (as1.ir regsJit.cur.nins).r = 1 % 256 ∧ (as1.ir regsJit.cur.nins).s = 0) ∧
    (ra_hasspill (regsExample.ir (exampleTarget.regcost_ref (regsExample.cost 1))).s →
      ∃ as1 J1, ra_rename exampleTarget regsJit regsExample 1 3 = .ok as1 J1 ∧
        J1.cur.nins = regsJit.cur.nins)) :=
  ⟨⟨by decide, by decide⟩,
    ra_rename_appends exampleTarget regsJit regsExample 1 3 (by decide) (by decide)⟩

/-- Claim C22, counterexample: the reference `0x8001` in EAX has the spill slot 3,
and renaming EAX to EBX appends nothing: the IR keeps its six instructions and
the place after them holds no RENAME. -/
theorem ra_rename_spill_counterexample :
    ra_hasspill (regsExample.ir (exampleTarget.regcost_ref (regsExample.cost 0))).s ∧
    exampleTarget.regcost_ref (regsExample.cost 0) = 0x8001 ∧
    (ra_rename exampleTarget regsJit regsExample 0 3).isOk ∧
    (ra_rename exampleTarget regsJit regsExample 0 3).state.cur.nins = regsJit.cur.nins ∧
    ((ra_rename exampleTarget regsJit regsExample 0 3).state.cur.ir regsJit.cur.nins).o ≠
      IR_RENAME := by
  decide

/-! ## The register invariant -/

theorem RegInv_distinct (T : Target) (nins : Nat) (as : ASMState) (h : RegInv T nins as) :
    RegDistinct T as := by
  intro r1 r2 h1 f1 h2 f2 hne he
  have e1 := (h r1 h1 f1).2
  have e2 := (h r2 h2 f2).2
  rw [he] at e1
  exact hne (e1.symm.trans e2)

/-- An operation that only frees the register of the instruction `k` and only
changes the register field of `k` keeps the invariant. -/
theorem RegInv_frame (T : Target) (nins : Nat) (as as1 : ASMState) (k : Nat)
    (hfs : as1.freeset = rset_set as.freeset (as.ir k).r)
    (hcost : as1.cost = as.cost)
    (hir : ∀ q, q ≠ k → (as1.ir q).r = (as.ir q).r)
    (h : RegInv T nins as) : RegInv T nins as1 := by
  intro r hr hf
  rw [hfs, rset_test_set] at hf
  have hf1 : rset_test as.freeset r = false := by
    cases hb : rset_test as.freeset r
    · rfl
    · rw [hb] at hf; cases hf
  have hne : (as.ir k).r ≠ r := by
    intro he
    rw [he] at hf
    simp at hf
  obtain ⟨h1, h2⟩ := h r hr hf1
  rw [hcost]
  refine ⟨h1, ?_⟩
  have hk : T.regcost_ref (as.cost r) ≠ k := by
    intro he
    rw [he] at h2
    exact hne h2
  rw [hir _ hk]
  exact h2

/-- What `ra_rematk` does to the registers. -/
theorem ra_rematk_spec (T : Target) (as : ASMState) (k : Nat) (hT : T.WF) :
    (ra_rematk T as k).1 = (as.ir k).r ∧
    (ra_rematk T as k).2.freeset = rset_set as.freeset (as.ir k).r ∧
    (ra_rematk T as k).2.cost = as.cost ∧
    (∀ q, q ≠ k → (ra_rematk T as k).2.ir q = as.ir q) ∧
    T.ra_noreg ((ra_rematk T as k).2.ir k).r = true ∧
    (∀ q, ((ra_rematk T as k).2.ir q).t = (as.ir q).t) := by
  obtain ⟨_, _, hs, hi1, hi2, hb, _⟩ := hT
  have hinit : T.ra_noreg (T.RID_INIT % 256) = true := by
    rw [Nat.mod_eq_of_lt hi1]; exact hi2
  have hbase : T.ra_noreg (T.ra_sethint T.RID_BASE % 256) = true := by
    rw [Nat.mod_eq_of_lt (hs _ hb).1]; exact (hs _ hb).2
  have ht : ∀ (f : Nat → IRIns) (v q : Nat), (upd f k ((f k).setR v) q).t = (f q).t := by
    intro f v q
    by_cases hq : q = k
    · rw [hq, upd_same, setR_t]
    · rw [upd_other _ _ _ _ hq]
  unfold ra_rematk
  dsimp only
  split
  · refine ⟨rfl, rfl, rfl, fun q hq => upd_other _ _ _ _ hq, ?_, fun q => ht _ _ q⟩
    show T.ra_noreg (IRIns.r (upd _ _ _ k)) = true
    rw [upd_same, setR_r]; exact hinit
  · split
    · refine ⟨rfl, rfl, rfl, fun q hq => ?_, ?_, fun q => ?_⟩
      · show upd _ _ _ q = _
        rw [upd_other _ _ _ _ hq]
        show upd _ _ _ q = _
        rw [upd_other _ _ _ _ hq]
        rfl
      · show T.ra_noreg (IRIns.r (upd _ _ _ k)) = true
        rw [upd_same, setR_r]; exact hbase
      · show IRIns.t (upd _ _ _ q) = _
        rw [ht]
        show IRIns.t (upd _ _ _ q) = _
        rw [ht]
        rfl
    · refine ⟨rfl, rfl, rfl, fun q hq => upd_other _ _ _ _ hq, ?_, fun q => ht _ _ q⟩
      show T.ra_noreg (IRIns.r (upd _ _ _ k)) = true
      rw [upd_same, setR_r]; exact hinit

/-- What `ra_spill` does to the registers, and when it throws. -/
theorem ra_spill_regs (T : Target) (as : ASMState) (k : Nat) :
    (ra_spill T as k = .error (.trace .SPILLOV) ∧ ¬ ra_hasspill (as.ir k).s ∧
      256 < as.evenspill + 2) ∨
    ∃ ofs as1, ra_spill T as k = .ok (ofs, as1) ∧ as1.freeset = as.freeset ∧
      as1.cost = as.cost ∧ (∀ q, (as1.ir q).r = (as.ir q).r) ∧
      (∀ q, (as1.ir q).t = (as.ir q).t) := by
  unfold ra_spill
  by_cases hs : ¬ ra_hasspill (as.ir k).s
  · rw [if_pos hs]
    dsimp only
    have hfr : (ra_spill_slot as (as.ir k).t).2.freeset = as.freeset ∧
        (ra_spill_slot as (as.ir k).t).2.cost = as.cost ∧
        (ra_spill_slot as (as.ir k).t).2.ir = as.ir ∧
        (ra_spill_slot as (as.ir k).t).2.evenspill ≤ as.evenspill + 2 := by
      unfold ra_spill_slot
      split
      · exact ⟨rfl, rfl, rfl, le_refl _⟩
      · split
        · exact ⟨rfl, rfl, rfl, Nat.le_add_right _ _⟩
        · exact ⟨rfl, rfl, rfl, le_refl _⟩
    by_cases hov : (ra_spill_slot as (as.ir k).t).2.evenspill > 256
    · rw [if_pos hov]
      exact Or.inl ⟨rfl, hs, by omega⟩
    · rw [if_neg hov]
      refine Or.inr ⟨_, _, rfl, hfr.1, hfr.2.1, fun q => ?_, fun q => ?_⟩
      · show IRIns.r (upd _ _ _ q) = _
        rw [hfr.2.2.1]
        by_cases hq : q = k
        · rw [hq, upd_same, setS_r]
        · rw [upd_other _ _ _ _ hq]
      · show IRIns.t (upd _ _ _ q) = _
        rw [hfr.2.2.1]
        by_cases hq : q = k
        · rw [hq, upd_same, setS_t]
        · rw [upd_other _ _ _ _ hq]
  · rw [if_neg hs]
    exact Or.inr ⟨_, _, rfl, rfl, rfl, fun _ => rfl, fun _ => rfl⟩

/-- What `ra_restore` does to the registers: it throws the spill overflow error,
which needs an instruction without spill slot and no room for a new one, or it
frees the register of the instruction and leaves a hint in its register field. -/
theorem ra_restore_spec (T : Target) (as : ASMState) (k : Nat) (hT : T.WF) :
    (ra_restore T as k = .error (.trace .SPILLOV) ∧ ¬ irref_isk k ∧ k ≠ REF_BASE ∧
      ¬ ra_hasspill (as.ir k).s ∧ 256 < as.evenspill + 2) ∨
    ∃ as1, ra_restore T as k = .ok ((as.ir k).r, as1) ∧
      as1.freeset = rset_set as.freeset (as.ir k).r ∧
      as1.cost = as.cost ∧
      (∀ q, q ≠ k → (as1.ir q).r = (as.ir q).r) ∧
      T.ra_noreg (as1.ir k).r = true ∧
      (∀ q, (as1.ir q).t = (as.ir q).t) := by
  unfold ra_restore
  by_cases hk : irref_isk k ∨ k = REF_BASE
  · rw [if_pos hk]
    obtain ⟨h1, h2, h3, h4, h5, h6⟩ := ra_rematk_spec T as k hT
    refine Or.inr ⟨(ra_rematk T as k).2, ?_, h2, h3, fun q hq => by rw [h4 q hq], h5, h6⟩
    rw [← h1]
  · rw [if_neg hk]
    dsimp only
    have hr256 : (as.ir k).r < 256 := by unfold IRIns.r; omega
    have hs2 := (hT.2.2.1 _ hr256)
    generalize has2 : ({ ra_modified (ra_free as (as.ir k).r) (as.ir k).r with
      ir := upd (ra_modified (ra_free as (as.ir k).r) (as.ir k).r).ir k
        (((ra_modified (ra_free as (as.ir k).r) (as.ir k).r).ir k).setR
          (T.ra_sethint (as.ir k).r)) } : ASMState) = as2
    have hfs2 : as2.freeset = rset_set as.freeset (as.ir k).r := by rw [← has2]; rfl
    have hc2 : as2.cost = as.cost := by rw [← has2]; rfl
    have hir2 : as2.ir = upd as.ir k ((as.ir k).setR (T.ra_sethint (as.ir k).r)) := by
      rw [← has2]; rfl
    have hev2 : as2.evenspill = as.evenspill := by rw [← has2]; rfl
    have hsp2 : (as2.ir k).s = (as.ir k).s := by rw [hir2, upd_same, setR_s]
    rcases ra_spill_regs T as2 k with ⟨he, hns, hov⟩ | ⟨ofs, as1, he, hf, hc, hr, ht⟩
    · rw [he]
      refine Or.inl ⟨rfl, fun h => hk (Or.inl h), fun h => hk (Or.inr h), ?_, ?_⟩
      · rw [← hsp2]; exact hns
      · rw [← hev2]; exact hov
    · rw [he]
      refine Or.inr ⟨as1, rfl, by rw [hf, hfs2], by rw [hc, hc2], fun q hq => ?_, ?_,
        fun q => ?_⟩
      · rw [hr, hir2, upd_other _ _ _ _ hq]
      · rw [hr, hir2, upd_same, setR_r, Nat.mod_eq_of_lt hs2.1]
        exact hs2.2
      · rw [ht, hir2]
        by_cases hq : q = k
        · rw [hq, upd_same, setR_t]
        · rw [upd_other _ _ _ _ hq]

/-- The last step of `ra_allocref` establishes the invariant for the register it
hands out. -/
theorem RegInv_alloc (T : Target) (nins : Nat) (as : ASMState) (ref r : Nat) (hT : T.WF)
    (h : RegInv T nins as) (hno : T.ra_noreg (as.ir ref).r = true)
    (href : ref < nins) (h16 : ref < 65536) (ht : (as.ir ref).t < 256) :
    RegInv T nins { as with
      ir := upd as.ir ref ((as.ir ref).setR r)
      freeset := rset_clear as.freeset r
      cost := upd as.cost r (T.REGCOST_REF_T ref (as.ir ref).t) } := by
  intro q hq hf
  have hq32 : q < 32 := rset_test_lt _ _ 32 hT.1 hq
  have hf1 : rset_test (rset_clear as.freeset r) q = false := hf
  rw [rset_test_clear _ _ _ hq32] at hf1
  show T.regcost_ref (upd as.cost r (T.REGCOST_REF_T ref (as.ir ref).t) q) < nins ∧
    (upd as.ir ref ((as.ir ref).setR r)
      (T.regcost_ref (upd as.cost r (T.REGCOST_REF_T ref (as.ir ref).t) q))).r = q
  by_cases hrq : r = q
  · subst hrq
    rw [upd_same, hT.2.2.2.2.2.2 ref h16 _ ht, upd_same, setR_r]
    exact ⟨href, Nat.mod_eq_of_lt (by omega)⟩
  · have hf2 : rset_test as.freeset q = false := by
      cases hb : rset_test as.freeset q
      · rfl
      · rw [hb] at hf1; simp [hrq] at hf1
    obtain ⟨h1, h2⟩ := h q hq hf2
    rw [upd_other _ _ _ _ (fun e => hrq e.symm)]
    have hk : T.regcost_ref (as.cost q) ≠ ref := by
      intro he
      rw [he] at h2
      rw [h2, hT.2.1 q hq32 hq] at hno
      cases hno
    rw [upd_other _ _ _ _ hk]
    exact ⟨h1, h2⟩

/-- Freeing the register of `k` and leaving a hint in its register field keeps
the invariant, and keeps every register field that held no register so. -/
theorem RegInv_freed (T : Target) (nins : Nat) (as as1 : ASMState) (k : Nat)
    (hfs : as1.freeset = rset_set as.freeset (as.ir k).r)
    (hcost : as1.cost = as.cost)
    (hir : ∀ q, q ≠ k → (as1.ir q).r = (as.ir q).r)
    (hk : T.ra_noreg (as1.ir k).r = true)
    (h : RegInv T nins as) :
    RegInv T nins as1 ∧
      ∀ ref, T.ra_noreg (as.ir ref).r = true → T.ra_noreg (as1.ir ref).r = true := by
  refine ⟨RegInv_frame T nins as as1 k hfs hcost hir h, fun ref hno => ?_⟩
  by_cases hq : ref = k
  · rw [hq]; exact hk
  · rw [hir ref hq]; exact hno

theorem ra_rematk_inv (T : Target) (nins : Nat) (as : ASMState) (k : Nat) (hT : T.WF)
    (h : RegInv T nins as) :
    RegInv T nins (ra_rematk T as k).2 ∧
      (∀ ref, T.ra_noreg (as.ir ref).r = true →
        T.ra_noreg ((ra_rematk T as k).2.ir ref).r = true) ∧
      ∀ ref, ((ra_rematk T as k).2.ir ref).t = (as.ir ref).t := by
  obtain ⟨_, h2, h3, h4, h5, h6⟩ := ra_rematk_spec T as k hT
  have h7 := RegInv_freed T nins as _ k h2 h3 (fun q hq => by rw [h4 q hq]) h5 h
  exact ⟨h7.1, h7.2, h6⟩

theorem ra_restore_inv (T : Target) (nins : Nat) (as : ASMState) (k : Nat) (hT : T.WF)
    (h : RegInv T nins as) :
    ra_restore T as k = .error (.trace .SPILLOV) ∨
    ∃ as1, ra_restore T as k = .ok ((as.ir k).r, as1) ∧ RegInv T nins as1 ∧
      (∀ ref, T.ra_noreg (as.ir ref).r = true → T.ra_noreg (as1.ir ref).r = true) ∧
      ∀ ref, (as1.ir ref).t = (as.ir ref).t := by
  rcases ra_restore_spec T as k hT with ⟨he, _⟩ | ⟨as1, he, h2, h3, h4, h5, h6⟩
  · exact Or.inl he
  · have h7 := RegInv_freed T nins as as1 k h2 h3 h4 h5 h
    exact Or.inr ⟨as1, he, h7.1, h7.2, h6⟩

/-- The choice of a register in `ra_allocref` keeps the invariant and leaves the
register field of `ref` without a register. -/
theorem ra_allocref_pick_inv (T : Target) (nins : Nat) (as : ASMState) (ref allow : Nat)
    (hT : T.WF) (h : RegInv T nins as) (hno : T.ra_noreg (as.ir ref).r = true) :
    ra_allocref_pick T as ref allow = .error (.trace .SPILLOV) ∨
    ∃ r as1, ra_allocref_pick T as ref allow = .ok (r, as1) ∧ RegInv T nins as1 ∧
      T.ra_noreg (as1.ir ref).r = true ∧ (as1.ir ref).t = (as.ir ref).t := by
  unfold ra_allocref_pick
  split
  · split
    · exact Or.inr ⟨_, _, rfl, h, hno, rfl⟩
    · split
      · have h1 := ra_rematk_inv T nins as
          (T.regcost_ref (as.cost (T.ra_gethint (as.ir ref).r))) hT h
        exact Or.inr ⟨_, _, rfl, h1.1, h1.2.1 ref hno, h1.2.2 ref⟩
      · split
        · split
          · exact Or.inr ⟨_, _, rfl, h, hno, rfl⟩
          · exact Or.inr ⟨_, _, rfl, h, hno, rfl⟩
        · exact Or.inr ⟨_, _, rfl, h, hno, rfl⟩
  · unfold ra_evict
    rcases ra_restore_inv T nins as (T.regcost_ref (evictCost T as allow)) hT h with
      he | ⟨as1, he, h1, h2, h3⟩
    · exact Or.inl he
    · exact Or.inr ⟨_, as1, he, h1, h2 ref hno, h3 ref⟩

theorem ra_allocref_inv (T : Target) (nins : Nat) (as : ASMState) (ref allow : Nat)
    (hT : T.WF) (h : RegInv T nins as) (hno : T.ra_noreg (as.ir ref).r = true)
    (href : ref < nins) (h16 : ref < 65536) (ht : (as.ir ref).t < 256) :
    ra_allocref T as ref allow = .error (.trace .SPILLOV) ∨
    ∃ r as1, ra_allocref T as ref allow = .ok (r, as1) ∧ RegInv T nins as1 := by
  unfold ra_allocref
  rcases ra_allocref_pick_inv T nins as ref allow hT h hno with he | ⟨r, as1, he, h1, h2, h3⟩
  · rw [he]; exact Or.inl rfl
  · rw [he]
    exact Or.inr ⟨_, _, rfl,
      RegInv_alloc T nins as1 ref r hT h1 h2 href h16 (by rw [h3]; exact ht)⟩

/-- The bookkeeping of `ra_rename` keeps the invariant. -/
theorem RegInv_rename_regs (T : Target) (nins : Nat) (as : ASMState) (down up : Nat)
    (hT : T.WF) (h : RegInv T nins as) (hd : rset_test T.RSET_ALL down = true)
    (hdf : rset_test as.freeset down = false) (huf : rset_test as.freeset up = true) :
    RegInv T nins (ra_rename_regs T as down up) := by
  have hud : up ≠ down := by
    intro he
    rw [he, hdf] at huf
    cases huf
  obtain ⟨hk1, hk2⟩ := h down hd hdf
  intro q hq hf
  have hq32 : q < 32 := rset_test_lt _ _ 32 hT.1 hq
  have hf1 : rset_test (rset_clear (rset_set as.freeset down) up) q = false := hf
  rw [rset_test_clear _ _ _ hq32, rset_test_set] at hf1
  show T.regcost_ref (upd (upd as.cost up (as.cost down)) down 0 q) < nins ∧
    (upd as.ir (T.regcost_ref (as.cost down))
      ((as.ir (T.regcost_ref (as.cost down))).setR up)
      (T.regcost_ref (upd (upd as.cost up (as.cost down)) down 0 q))).r = q
  by_cases huq : up = q
  · subst huq
    rw [upd_other _ _ _ _ hud, upd_same, upd_same, setR_r]
    exact ⟨hk1, Nat.mod_eq_of_lt (by omega)⟩
  · have hdq : down ≠ q := by
      intro he
      simp [he, huq] at hf1
    have hfq : rset_test as.freeset q = false := by
      cases hb : rset_test as.freeset q
      · rfl
      · simp [hb, huq] at hf1
    obtain ⟨h1, h2⟩ := h q hq hfq
    rw [upd_other _ _ _ _ (fun e => hdq e.symm), upd_other _ _ _ _ (fun e => huq e.symm)]
    have hk : T.regcost_ref (as.cost q) ≠ T.regcost_ref (as.cost down) := by
      intro he
      rw [he, hk2] at h2
      exact hdq h2
    rw [upd_other _ _ _ _ hk]
    exact ⟨h1, h2⟩

theorem ra_rename_inv (T : Target) (J : jit_State) (as : ASMState) (down up : Nat)
    (hT : T.WF) (h : RegInv T J.cur.nins as) (hn : J.cur.nins < 65536)
    (hd : rset_test T.RSET_ALL down = true)
    (hdf : rset_test as.freeset down = false) (huf : rset_test as.freeset up = true) :
    (∃ J1, ra_rename T J as down up = .raise (.trace .IROV) J1) ∨
    ∃ as1 J1, ra_rename T J as down up = .ok as1 J1 ∧ RegInv T J1.cur.nins as1 := by
  have hregs := RegInv_rename_regs T J.cur.nins as down up hT h hd hdf huf
  by_cases hroom : J.cur.nins < J.irtoplim
  · have hspec := ra_rename_spec T J as down up hroom hn
    by_cases hsp : ra_hasspill (as.ir (T.regcost_ref (as.cost down))).s
    · exact Or.inr ⟨_, _, hspec.2 hsp, hregs⟩
    · obtain ⟨as1, J1, he, hn1, _, hc, hf, hir, _⟩ := hspec.1 hsp
      refine Or.inr ⟨as1, J1, he, ?_⟩
      intro q hq hfq
      rw [hf] at hfq
      obtain ⟨h1, h2⟩ := hregs q hq hfq
      rw [hc, hn1]
      refine ⟨by omega, ?_⟩
      rw [hir _ (by omega)]
      exact h2
  · by_cases hsp : ra_hasspill (as.ir (T.regcost_ref (as.cost down))).s
    · have hsp1 : ra_hasspill
          ((ra_rename_regs T as down up).ir (T.regcost_ref (as.cost down))).s := by
        rw [ra_rename_regs_s]; exact hsp
      refine Or.inr ⟨ra_rename_regs T as down up,
        { J with cur := { J.cur with ir := (ra_rename_regs T as down up).ir } }, ?_, hregs⟩
      unfold ra_rename
      simp only [hsp1, not_true_eq_false, if_false]
    · have hsp1 : ¬ ra_hasspill
          ((ra_rename_regs T as down up).ir (T.regcost_ref (as.cost down))).s := by
        rw [ra_rename_regs_s]; exact hsp
      refine Or.inl ⟨lj_ir_set { J with cur := { J.cur with
          ir := (ra_rename_regs T as down up).ir } } (IRT IR_RENAME IRT_NIL)
          (T.regcost_ref (as.cost down)) (ra_rename_regs T as down up).snapno, ?_⟩
      unfold ra_rename
      simp only [hsp1, not_false_eq_true, if_true]
      unfold lj_ir_emit
      have hroom1 : (lj_ir_set { J with cur := { J.cur with
          ir := (ra_rename_regs T as down up).ir } } (IRT IR_RENAME IRT_NIL)
          (T.regcost_ref (as.cost down)) (ra_rename_regs T as down up).snapno).cur.nins ≥
          (lj_ir_set { J with cur := { J.cur with
          ir := (ra_rename_regs T as down up).ir } } (IRT IR_RENAME IRT_NIL)
          (T.regcost_ref (as.cost down)) (ra_rename_regs T as down up).snapno).irtoplim := by
        show J.cur.nins ≥ J.irtoplim
        omega
      rw [if_pos hroom1]

/-! ## The example target and the example allocator state -/

theorem regcost_ref_example (ref t : Nat) (ht : t < 256) :
    ((ref <<< 16) ||| t) >>> 16 = ref := by
  apply Nat.eq_of_testBit_eq
  intro i
  rw [Nat.testBit_shiftRight, Nat.testBit_or, Nat.testBit_shiftLeft]
  have h1 : t.testBit (16 + i) = false := by
    apply Nat.testBit_lt_two_pow
    calc t < 2 ^ 16 := by omega
      _ ≤ 2 ^ (16 + i) := Nat.pow_le_pow_right (by norm_num) (by omega)
  rw [h1]
  simp

set_option maxRecDepth 100000 in
theorem exampleTarget_WF : exampleTarget.WF := by
  refine ⟨by decide, by decide, ?_, by decide, by decide, by decide, ?_⟩
  · decide
  · intro ref _ t ht
    exact regcost_ref_example ref t ht

theorem RegInv_of_lt (T : Target) (nins : Nat) (as : ASMState) (n : Nat)
    (hn : T.RSET_ALL < 2 ^ n)
    (h : ∀ r, r < n → rset_test T.RSET_ALL r = true → rset_test as.freeset r = false →
      T.regcost_ref (as.cost r) < nins ∧ (as.ir (T.regcost_ref (as.cost r))).r = r) :
    RegInv T nins as :=
  fun r hr hf => h r (rset_test_lt _ _ n hn hr) hr hf

theorem regsExample_inv : RegInv exampleTarget 0x8006 regsExample :=
  RegInv_of_lt exampleTarget 0x8006 regsExample 16 (by decide) (by decide)

theorem regcost_ref_example_mono (a b : Nat) (h : a ≤ b) :
    exampleTarget.regcost_ref a ≤ exampleTarget.regcost_ref b := by
  show a >>> 16 ≤ b >>> 16
  rw [Nat.shiftRight_eq_div_pow, Nat.shiftRight_eq_div_pow]
  exact Nat.div_le_div_right h

/-- Claim C24: the allocator operations `ra_rematk`, `ra_restore`, `ra_allocref`
and `ra_rename` preserve the invariant that every allocated register `r` (a
register of `RSET_ALL` that is not in `freeset`) records in `cost[r]` an
instruction of the trace whose register field is `r`, and with it that two
distinct allocated registers never record the same instruction. `ra_restore`
and `ra_allocref` may throw the spill overflow error and `ra_rename` the IR
overflow error instead. `ra_allocref` is called for an instruction of the trace
without register and `ra_rename` for an allocated register `down` and a free
register `up`, as the source asserts. -/
theorem ra_ops_preserve_RegInv (T : Target) (nins : Nat) (as : ASMState) (hT : T.WF)
    (hinv : RegInv T nins as) :
    (∀ k, RegInv T nins (ra_rematk T as k).2 ∧ RegDistinct T (ra_rematk T as k).2) ∧
    (∀ k, ra_restore T as k = .error (.trace .SPILLOV) ∨
      ∃ r as1, ra_restore T as k = .ok (r, as1) ∧ RegInv T nins as1 ∧ RegDistinct T as1) ∧
    (∀ ref allow, T.ra_noreg (as.ir ref).r = true → ref < nins → ref < 65536 →
      (as.ir ref).t < 256 →
      ra_allocref T as ref allow = .error (.trace .SPILLOV) ∨
      ∃ r as1, ra_allocref T as ref allow = .ok (r, as1) ∧ RegInv T nins as1 ∧
        RegDistinct T as1) ∧
    (∀ J down up, J.cur.nins = nins → nins < 65536 →
      rset_test T.RSET_ALL down = true → rset_test as.freeset down = false →
      rset_test as.freeset up = true →
      (∃ J1, ra_rename T J as down up = .raise (.trace .IROV) J1) ∨
      ∃ as1 J1, ra_rename T J as down up = .ok as1 J1 ∧ RegInv T J1.cur.nins as1 ∧
        RegDistinct T as1) := by
  refine ⟨fun k => ?_, fun k => ?_, fun ref allow hno href h16 ht => ?_,
    fun J down up hJ hn hd hdf huf => ?_⟩
  · have h := (ra_rematk_inv T nins as k hT hinv).1
    exact ⟨h, RegInv_distinct T nins _ h⟩
  · rcases ra_restore_inv T nins as k hT hinv with he | ⟨as1, he, h, _⟩
    · exact Or.inl he
    · exact Or.inr ⟨_, as1, he, h, RegInv_distinct T nins _ h⟩
  · rcases ra_allocref_inv T nins as ref allow hT hinv hno href h16 ht with
      he | ⟨r, as1, he, h⟩
    · exact Or.inl he
    · exact Or.inr ⟨r, as1, he, h, RegInv_distinct T nins _ h⟩
  · subst hJ
    rcases ra_rename_inv T J as down up hT hinv hn hd hdf huf with he | ⟨as1, J1, he, h⟩
    · exact Or.inl he
    · exact Or.inr ⟨as1, J1, he, h, RegInv_distinct T _ _ h⟩

set_option maxRecDepth 100000 in
theorem ra_ops_preserve_RegInv_witness :
    exampleTarget.WF ∧ RegInv exampleTarget 0x8006 regsExample ∧
    (RegInv exampleTarget 0x8006 (ra_rematk exampleTarget regsExample 0x8002).2 ∧
      RegDistinct exampleTarget (ra_rematk exampleTarget regsExample 0x8002).2) ∧
    (∃ r as1, ra_restore exampleTarget regsExample 0x8002 = .ok (r, as1) ∧
      RegInv exampleTarget 0x8006 as1 ∧ RegDistinct exampleTarget as1) ∧
    (∃ r as1, ra_allocref exampleTarget regsExample 0x8005 0x07 = .ok (r, as1) ∧
      RegInv exampleTarget 0x8006 as1 ∧ RegDistinct exampleTarget as1) ∧
    (∃ as1 J1, ra_rename exampleTarget regsJit regsExample 1 3 = .ok as1 J1 ∧
      RegInv exampleTarget J1.cur.nins as1 ∧ RegDistinct exampleTarget as1) := by
  have h := ra_ops_preserve_RegInv exampleTarget 0x8006 regsExample exampleTarget_WF
    regsExample_inv
  refine ⟨exampleTarget_WF, regsExample_inv, h.1 0x8002, ?_, ?_, ?_⟩
  · rcases h.2.1 0x8002 with he | hok
    · have hb : (ra_restore exampleTarget regsExample 0x8002).toBool = true := by decide
      rw [he] at hb
      cases hb
    · exact hok
  · rcases h.2.2.1 0x8005 0x07 (by decide) (by decide) (by decide) (by decide) with he | hok
    · have hb : (ra_allocref exampleTarget regsExample 0x8005 0x07).toBool = true := by
        decide
      rw [he] at hb
      cases hb
    · exact hok
  · rcases h.2.2.2 regsJit 1 3 (by decide) (by decide) (by decide) (by decide)
      (by decide) with ⟨J1, he⟩ | hok
    · have hb : (ra_rename exampleTarget regsJit regsExample 1 3).isOk := by decide
      rw [he] at hb
      cases hb
    · exact hok

/-! ## Eviction -/

/-- The scan of `ra_evict` over a list of registers: the cost it ends with is a
lower bound of the costs of the allowed registers of the list, and it is the
cost it started with or the cost of an allowed register of the list. -/
theorem foldl_MINCOST (as : ASMState) (allow : Nat) (l : List Nat) (c0 : Nat) :
    l.foldl (fun cost r => MINCOST as allow r cost) c0 ≤ c0 ∧
    (∀ r ∈ l, rset_test allow r = true →
      l.foldl (fun cost r => MINCOST as allow r cost) c0 ≤ as.cost r) ∧
    (l.foldl (fun cost r => MINCOST as allow r cost) c0 = c0 ∨
      ∃ r ∈ l, rset_test allow r = true ∧
        as.cost r = l.foldl (fun cost r => MINCOST as allow r cost) c0) := by
  induction l generalizing c0 with
  | nil => exact ⟨le_refl _, fun r hr => (by cases hr), Or.inl rfl⟩
  | cons a l ih =>
    rw [List.foldl_cons]
    obtain ⟨h1, h2, h3⟩ := ih (MINCOST as allow a c0)
    have hm : MINCOST as allow a c0 ≤ c0 ∧
        (rset_test allow a = true → MINCOST as allow a c0 ≤ as.cost a) ∧
        (MINCOST as allow a c0 = c0 ∨
          (rset_test allow a = true ∧ as.cost a = MINCOST as allow a c0)) := by
      unfold MINCOST
      by_cases hc : allow &&& RID2RSET a ≠ 0 ∧ as.cost a < c0
      · rw [if_pos hc]
        exact ⟨by omega, fun _ => le_refl _, Or.inr ⟨(rset_and_ne_zero allow a).mp hc.1, rfl⟩⟩
      · rw [if_neg hc]
        refine ⟨le_refl _, fun ha => ?_, Or.inl rfl⟩
        by_contra hlt
        exact hc ⟨(rset_and_ne_zero allow a).mpr ha, by omega⟩
    refine ⟨le_trans h1 hm.1, fun r hr ha => ?_, ?_⟩
    · rcases List.mem_cons.mp hr with he | hr1
      · rw [he]; exact le_trans h1 (hm.2.1 (by rw [← he]; exact ha))
      · exact h2 r hr1 ha
    · rcases h3 with he | ⟨r, hr, ha, hcst⟩
      · rcases hm.2.2 with he0 | ⟨ha, hcst⟩
        · exact Or.inl (by rw [he, he0])
        · exact Or.inr ⟨a, List.mem_cons_self _ _, ha, by rw [he]; exact hcst⟩
      · exact Or.inr ⟨r, List.mem_cons_of_mem _ hr, ha, hcst⟩

/-- Claim C23: when no register of the set `allow` is free and every allocated
register records its owner in `cost`, `ra_evict` restores the instruction
recorded by an allowed register `r` of the examined class whose cost is the
minimum among the allowed registers of this class, which is also the lowest
recorded reference; `r` is the register of this instruction, a member of
`allow`, not the stack pointer, and free afterwards. The restore may throw the
spill overflow error instead, when the instruction has no spill slot and no
slot is left. The set `allow` holds registers of `RSET_ALL` and one of them is
in the examined class; the maximum cost names no instruction of the trace. -/
theorem ra_evict_min (T : Target) (nins : Nat) (as : ASMState) (allow r0 : Nat)
    (hT : T.WF) (hinv : RegInv T nins as) (hfree : as.freeset &&& allow = 0)
    (hsub : ∀ r, rset_test allow r = true → rset_test T.RSET_ALL r = true)
    (hr0 : r0 ∈ evictClass T allow) (hr0a : rset_test allow r0 = true)
    (hmax : nins ≤ T.regcost_ref 0xffffffff)
    (hmono : ∀ a b, a ≤ b → T.regcost_ref a ≤ T.regcost_ref b)
    (hesp : T.RID_ESP ∉ evictClass T allow) :
    ∃ r, r ∈ evictClass T allow ∧ rset_test allow r = true ∧ r ≠ T.RID_ESP ∧
      (∀ q ∈ evictClass T allow, rset_test allow q = true →
        as.cost r ≤ as.cost q ∧ T.regcost_ref (as.cost r) ≤ T.regcost_ref (as.cost q)) ∧
      (as.ir (T.regcost_ref (as.cost r))).r = r ∧
      ra_evict T as allow = ra_restore T as (T.regcost_ref (as.cost r)) ∧
      ((ra_evict T as allow = .error (.trace .SPILLOV) ∧
          ¬ ra_hasspill (as.ir (T.regcost_ref (as.cost r))).s ∧ 256 < as.evenspill + 2) ∨
        ∃ as1, ra_evict T as allow = .ok (r, as1) ∧ rset_test as1.freeset r = true ∧
          as1.cost = as.cost) := by
  have halloc : ∀ q, rset_test allow q = true →
      T.regcost_ref (as.cost q) < nins ∧ (as.ir (T.regcost_ref (as.cost q))).r = q := by
    intro q hq
    have hf : rset_test as.freeset q = false := by
      have h := rset_test_and as.freeset allow q
      rw [hfree, hq] at h
      cases hb : rset_test as.freeset q
      · rfl
      · rw [hb] at h
        unfold rset_test at h
        rw [Nat.zero_testBit] at h
        cases h
    exact hinv q (hsub q hq) hf
  obtain ⟨_, h2, h3⟩ := foldl_MINCOST as allow (evictClass T allow) 0xffffffff
  have hfound : ∃ r ∈ evictClass T allow, rset_test allow r = true ∧
      as.cost r = evictCost T as allow := by
    rcases h3 with he | hex
    · exfalso
      have hle := h2 r0 hr0 hr0a
      rw [he] at hle
      have := hmono _ _ hle
      have := (halloc r0 hr0a).1
      omega
    · exact hex
  obtain ⟨r, hr, hra, hrc⟩ := hfound
  have hown := halloc r hra
  refine ⟨r, hr, hra, fun he => hesp (he ▸ hr), fun q hq hqa => ?_, hown.2, ?_, ?_⟩
  · have hle : as.cost r ≤ as.cost q := by rw [hrc]; exact h2 q hq hqa
    exact ⟨hle, hmono _ _ hle⟩
  · unfold ra_evict; rw [hrc]
  · have hev : ra_evict T as allow = ra_restore T as (T.regcost_ref (as.cost r)) := by
      unfold ra_evict; rw [hrc]
    rw [hev]
    rcases ra_restore_spec T as (T.regcost_ref (as.cost r)) hT with
      ⟨he, _, _, hns, hov⟩ | ⟨as1, he, hf, hc, _⟩
    · exact Or.inl ⟨he, hns, hov⟩
    · rw [hown.2] at he hf
      refine Or.inr ⟨as1, he, ?_, hc⟩
      rw [hf, rset_test_set]
      simp

set_option maxRecDepth 100000 in
theorem ra_evict_min_witness :
    (exampleTarget.WF ∧ RegInv exampleTarget 0x8006 regsExample ∧
      regsExample.freeset &&& 0x07 = 0 ∧
      (∀ r, rset_test 0x07 r = true → rset_test exampleTarget.RSET_ALL r = true) ∧
      0 ∈ evictClass exampleTarget 0x07 ∧ rset_test 0x07 0 = true ∧
      0x8006 ≤ exampleTarget.regcost_ref 0xffffffff ∧
      (∀ a b, a ≤ b → exampleTarget.regcost_ref a ≤ exampleTarget.regcost_ref b) ∧
      exampleTarget.RID_ESP ∉ evictClass exampleTarget 0x07) ∧
    ∃ r, r ∈ evictClass exampleTarget 0x07 ∧ rset_test 0x07 r = true ∧
      r ≠ exampleTarget.RID_ESP ∧
      (∀ q ∈ evictClass exampleTarget 0x07, rset_test 0x07 q = true →
        regsExample.cost r ≤ regsExample.cost q ∧
        exampleTarget.regcost_ref (regsExample.cost r) ≤
          exampleTarget.regcost_ref (regsExample.cost q)) ∧
      (regsExample.ir (exampleTarget.regcost_ref (regsExample.cost r))).r = r ∧
      ra_evict exampleTarget regsExample 0x07 =
        ra_restore exampleTarget regsExample
          (exampleTarget.regcost_ref (regsExample.cost r)) ∧
      ((ra_evict exampleTarget regsExample 0x07 = .error (.trace .SPILLOV) ∧
          ¬ ra_hasspill
            (regsExample.ir (exampleTarget.regcost_ref (regsExample.cost r))).s ∧
          256 < regsExample.evenspill + 2) ∨
        ∃ as1, ra_evict exampleTarget regsExample 0x07 = .ok (r, as1) ∧
          rset_test as1.freeset r = true ∧ as1.cost = regsExample.cost) := by
  have hsub : ∀ r, rset_test 0x07 r = true → rset_test exampleTarget.RSET_ALL r = true := by
    intro r hr
    have h3 : r < 3 := rset_test_lt 0x07 r 3 (by norm_num) hr
    interval_cases r <;> decide
  exact ⟨⟨exampleTarget_WF, regsExample_inv, by decide, hsub, by decide, by decide, by decide,
      regcost_ref_example_mono, by decide⟩,
    ra_evict_min exampleTarget 0x8006 regsExample 0x07 0 exampleTarget_WF regsExample_inv
      (by decide) hsub (by decide) (by decide) (by decide) regcost_ref_example_mono
      (by decide)⟩

/-! ## Operand swapping -/

/-- C31, counterexample: in an addition whose right operand is a fusable load
without register and whose left operand is neither a load nor holds a
register, with different hints and no loop, `swapops` returns false; with the
load on the left and the addition on the right it returns true. The same
holds for an invariant right operand and a variant left one. -/
theorem swapops_right_load_counterexample :
    irm_iscomm (lj_ir_mode IR_ADD) ∧
    opisfusableload (swapExample.ir 0x8001).o ∧ ¬ opisfusableload (swapExample.ir 0x8002).o ∧
    swapops exampleTarget swapExample
      { o := IR_ADD, t := IRT_INT, op1 := 0x8002, op2 := 0x8001, prev := 0x81 } = false ∧
    swapops exampleTarget swapExample
      { o := IR_ADD, t := IRT_INT, op1 := 0x8001, op2 := 0x8002, prev := 0x81 } = true ∧
    swapops exampleTarget { swapExample with loopref := 0x8003 }
      { o := IR_ADD, t := IRT_INT, op1 := 0x8004, op2 := 0x8001, prev := 0x81 } = false := by
  decide

/-- C31, amended: `swapops` returns true exactly when the opcode is commutative,
the right operand is not a constant, and the left operand already has a
register, or the register fields of the destination and of the right operand
hold matching hints, or the LEFT operand is invariant (before the loop
reference and not a PHI) and the right one is not, or the LEFT operand is a
fusable load. It returns false for every opcode that is not commutative and
whenever the right operand is a constant. -/
theorem swapops_iff (T : Target) (as : ASMState) (ir : IRIns) :
    (swapops T as ir = true ↔
      irm_iscomm (lj_ir_mode ir.o) ∧ ¬ irref_isk ir.op2 ∧
      (T.ra_noreg (as.ir ir.op1).r = false ∨
        T.ra_samehint ir.r (as.ir ir.op2).r = true ∨
        (ir.op1 < as.loopref ∧ ¬ irt_isphi (as.ir ir.op1).t ∧
          ¬ (ir.op2 < as.loopref ∧ ¬ irt_isphi (as.ir ir.op2).t)) ∨
        opisfusableload (as.ir ir.op1).o)) ∧
    (¬ irm_iscomm (lj_ir_mode ir.o) → swapops T as ir = false) ∧
    (irref_isk ir.op2 → swapops T as ir = false) := by
  unfold swapops
  by_cases h1 : irm_iscomm (lj_ir_mode ir.o)
  · by_cases h2 : irref_isk ir.op2
    · simp [h1, h2]
    · by_cases h3 : T.ra_noreg (as.ir ir.op1).r = false
      · simp [h1, h2, h3]
      · by_cases h4 : T.ra_samehint ir.r (as.ir ir.op2).r = true
        · simp [h1, h2, h3, h4]
        · by_cases h5 : ir.op1 < as.loopref ∧ ¬ irt_isphi (as.ir ir.op1).t ∧
              ¬ (ir.op2 < as.loopref ∧ ¬ irt_isphi (as.ir ir.op2).t)
          · rw [if_neg (not_not.mpr h1), if_neg h2, if_neg h3, if_neg h4, if_pos h5]
            exact ⟨⟨fun _ => ⟨h1, h2, Or.inr (Or.inr (Or.inl h5))⟩, fun _ => rfl⟩,
              fun h => absurd h1 h, fun h => absurd h h2⟩
          · rw [if_neg (not_not.mpr h1), if_neg h2, if_neg h3, if_neg h4, if_neg h5]
            by_cases h6 : opisfusableload (as.ir ir.op1).o
            · rw [if_pos h6]
              exact ⟨⟨fun _ => ⟨h1, h2, Or.inr (Or.inr (Or.inr h6))⟩, fun _ => rfl⟩,
                fun h => absurd h1 h, fun h => absurd h h2⟩
            · rw [if_neg h6]
              refine ⟨⟨fun h => (by cases h), fun h => ?_⟩, fun h => absurd h1 h,
                fun h => absurd h h2⟩
              rcases h.2.2 with h | h | h | h
              · exact absurd h h3
              · exact absurd h h4
              · exact absurd h h5
              · exact absurd h h6
  · simp [h1]

/-! ## The hash of a table key -/

theorem u32_natCast (n : Nat) : u32 (n : Int) = n % 4294967296 := by
  unfold u32
  omega

theorem u32_lt (x : Int) : u32 x < 4294967296 := by
  unfold u32
  omega

theorem set_gpr_same (s : X86State) (r v : Nat) : (s.set r v).gpr r = v := by
  unfold X86State.set
  exact upd_same _ _ _

theorem set_gpr_other (s : X86State) (r v q : Nat) (h : q ≠ r) :
    (s.set r v).gpr q = s.gpr q := by
  unfold X86State.set
  exact upd_other _ _ _ _ h

theorem set_mem (s : X86State) (r v : Nat) : (s.set r v).mem = s.mem := rfl

theorem set_xmmlo (s : X86State) (r v : Nat) : (s.set r v).xmmlo = s.xmmlo := rfl

theorem exec_nil (s : X86State) : X86State.exec [] s = some s := by
  rw [X86State.exec]

theorem exec_imul (r1 r2 : Nat) (i : Int) (rest : List Emit) (s : X86State) :
    X86State.exec (.rr .XO_IMULi8 r1 r2 :: .i8 i :: rest) s =
      X86State.exec rest (s.imul r1 r2 i) := by
  rw [X86State.exec]

theorem exec_step (e : Emit) (rest : List Emit) (s s1 : X86State) (h : s.step e = some s1) :
    X86State.exec (e :: rest) s = X86State.exec rest s1 := by
  cases e with
  | rr xo r1 r2 =>
    cases xo with
    | XO_IMULi8 => simp [X86State.step] at h
    | XO_ARITH g => rw [X86State.exec, h]; intro _ _ _ _ he; cases he
    | XO_MOV => rw [X86State.exec, h]; intro _ _ _ _ he; cases he
    | XO_LEA => rw [X86State.exec, h]; intro _ _ _ _ he; cases he
    | XO_MOVDto => rw [X86State.exec, h]; intro _ _ _ _ he; cases he
  | rmro xo r rb ofs => rw [X86State.exec, h]; intro _ _ _ _ he; cases he
  | rmrxo xo r rb rx sc ofs => rw [X86State.exec, h]; intro _ _ _ _ he; cases he
  | shifti xg r i => rw [X86State.exec, h]; intro _ _ _ _ he; cases he
  | gri g r i => rw [X86State.exec, h]; intro _ _ _ _ he; cases he
  | i8 i => rw [X86State.exec, h]; intro _ _ _ _ he; cases he
  | loadi r i => rw [X86State.exec, h]; intro _ _ _ _ he; cases he

theorem exec_rr_arith (g : XOg) (r1 r2 : Nat) (rest : List Emit) (s : X86State) :
    X86State.exec (.rr (.XO_ARITH g) r1 r2 :: rest) s =
      X86State.exec rest (s.set r1 (g.apply (s.gpr r1) (s.gpr r2))) :=
  exec_step (.rr (.XO_ARITH g) r1 r2) rest s _ rfl

theorem exec_rr_mov (r1 r2 : Nat) (rest : List Emit) (s : X86State) :
    X86State.exec (.rr .XO_MOV r1 r2 :: rest) s = X86State.exec rest (s.set r1 (s.gpr r2)) :=
  exec_step (.rr .XO_MOV r1 r2) rest s _ rfl

theorem exec_rr_movd (r1 r2 : Nat) (rest : List Emit) (s : X86State) :
    X86State.exec (.rr .XO_MOVDto r1 r2 :: rest) s =
      X86State.exec rest (s.set r2 (s.xmmlo r1)) :=
  exec_step (.rr .XO_MOVDto r1 r2) rest s _ rfl

theorem exec_rmro_arith (g : XOg) (r rb : Nat) (ofs : Int) (rest : List Emit)
    (s : X86State) :
    X86State.exec (.rmro (.XO_ARITH g) r rb ofs :: rest) s =
      X86State.exec rest (s.set r (g.apply (s.gpr r) (s.mem (s.ea rb ofs)))) :=
  exec_step (.rmro (.XO_ARITH g) r rb ofs) rest s _ rfl

theorem exec_rmro_mov (r rb : Nat) (ofs : Int) (rest : List Emit) (s : X86State) :
    X86State.exec (.rmro .XO_MOV r rb ofs :: rest) s =
      X86State.exec rest (s.set r (s.mem (s.ea rb ofs))) :=
  exec_step (.rmro .XO_MOV r rb ofs) rest s _ rfl

theorem exec_rmro_lea (r rb : Nat) (ofs : Int) (rest : List Emit) (s : X86State) :
    X86State.exec (.rmro .XO_LEA r rb ofs :: rest) s =
      X86State.exec rest (s.set r (s.ea rb ofs)) :=
  exec_step (.rmro .XO_LEA r rb ofs) rest s _ rfl

theorem exec_rmrxo_lea (r rb rx : Nat) (scale : x86Scale) (ofs : Int) (rest : List Emit)
    (s : X86State) :
    X86State.exec (.rmrxo .XO_LEA r rb rx scale ofs :: rest) s =
      X86State.exec rest
        (s.set r (u32 ((s.gpr rb : Int) + s.gpr rx * scale.factor + ofs))) :=
  exec_step (.rmrxo .XO_LEA r rb rx scale ofs) rest s _ rfl

theorem exec_rol (r i : Nat) (rest : List Emit) (s : X86State) :
    X86State.exec (.shifti .ROL r i :: rest) s =
      X86State.exec rest (s.set r (lj_rol (s.gpr r) i)) :=
  exec_step (.shifti .ROL r i) rest s _ rfl

theorem exec_shl (r i : Nat) (rest : List Emit) (s : X86State) :
    X86State.exec (.shifti .SHL r i :: rest) s =
      X86State.exec rest (s.set r ((s.gpr r <<< i) % 4294967296)) :=
  exec_step (.shifti .SHL r i) rest s _ rfl

theorem exec_gri (g : XOg) (r : Nat) (i : Int) (rest : List Emit) (s : X86State) :
    X86State.exec (.gri g r i :: rest) s =
      X86State.exec rest (s.set r (g.apply (s.gpr r) (u32 i))) :=
  exec_step (.gri g r i) rest s _ rfl

theorem exec_loadi (r : Nat) (i : Int) (rest : List Emit) (s : X86State) :
    X86State.exec (.loadi r i :: rest) s = X86State.exec rest (s.set r (u32 i)) :=
  exec_step (.loadi r i) rest s _ rfl

/-- C36: the two sequences that `asm_href` can emit to scale the masked hash in
`dest` to the offset of a node, `imul dest, dest, sizeof(Node)` with the flag
`JIT_F_PREFER_IMUL` and `lea dest, [dest+dest*2]`, `shl dest, 3` without it,
read in the order of execution, leave the same state for every value of
`dest`: the register holds 24 times its value modulo `2^32`, and
`sizeof(Node)` is 24. -/
theorem asm_href_scale_equiv (flags dest : Nat) (s : X86State) :
    X86State.exec (asm_href_scale flags dest).reverse s =
      some (s.set dest (s.gpr dest * 24 % 4294967296)) ∧
    X86State.exec (asm_href_scale JIT_F_PREFER_IMUL dest).reverse s =
      X86State.exec (asm_href_scale 0 dest).reverse s ∧
    asm_href_scale JIT_F_PREFER_IMUL dest = [.i8 sizeof_Node, .rr .XO_IMULi8 dest dest] ∧
    asm_href_scale 0 dest =
      [.shifti .SHL dest 3, .rmrxo .XO_LEA dest dest dest .XM_SCALE2 0] ∧
    sizeof_Node = 24 := by
  have himul : X86State.exec [Emit.rr .XO_IMULi8 dest dest, Emit.i8 sizeof_Node] s =
      some (s.set dest (s.gpr dest * 24 % 4294967296)) := by
    rw [exec_imul, exec_nil]
    have hN : sizeof_Node = 24 := rfl
    have e : u32 ((s.gpr dest : Int) * (sizeof_Node : Nat)) = s.gpr dest * 24 % 4294967296 := by
      rw [hN, ← Nat.cast_mul, u32_natCast]
    unfold X86State.imul
    rw [e]
  have hlea : X86State.exec [Emit.rmrxo .XO_LEA dest dest dest .XM_SCALE2 0,
      Emit.shifti .SHL dest 3] s = some (s.set dest (s.gpr dest * 24 % 4294967296)) := by
    have e : (u32 ((s.gpr dest : Int) + s.gpr dest * (x86Scale.XM_SCALE2.factor : Nat) + 0)
        <<< 3) % 4294967296 = s.gpr dest * 24 % 4294967296 := by
      have hf : x86Scale.XM_SCALE2.factor = 2 := rfl
      have h8 : (2 : Nat) ^ 3 = 8 := by norm_num
      rw [Nat.shiftLeft_eq, hf, h8, add_zero, ← Nat.cast_mul, ← Nat.cast_add, u32_natCast]
      omega
    rw [exec_rmrxo_lea, exec_shl, exec_nil, set_gpr_same, e]
    unfold X86State.set
    congr 2
    funext q
    unfold upd
    by_cases hq : q = dest
    · simp only [hq, if_true]
    · simp only [hq, if_false]
  have hc1 : JIT_F_PREFER_IMUL &&& JIT_F_PREFER_IMUL ≠ 0 := by decide
  have hc0 : ¬ (0 &&& JIT_F_PREFER_IMUL ≠ 0) := by decide
  have h1 : asm_href_scale JIT_F_PREFER_IMUL dest =
      [.i8 sizeof_Node, .rr .XO_IMULi8 dest dest] := by
    unfold asm_href_scale
    rw [if_pos hc1]
  have h0 : asm_href_scale 0 dest =
      [.shifti .SHL dest 3, .rmrxo .XO_LEA dest dest dest .XM_SCALE2 0] := by
    unfold asm_href_scale
    rw [if_neg hc0]
  refine ⟨?_, ?_, h1, h0, by decide⟩
  · unfold asm_href_scale
    by_cases hf : flags &&& JIT_F_PREFER_IMUL ≠ 0
    · rw [if_pos hf]; exact himul
    · rw [if_neg hf]; exact hlea
  · rw [h1, h0]
    exact himul.trans hlea.symm

theorem u32_mask31 : u32 (0x7fffffff : Int) = 0x7fffffff := by
  unfold u32
  omega

theorem ea_gpr (s s1 : X86State) (rb : Nat) (ofs : Int) (h : s1.gpr rb = s.gpr rb) :
    s1.ea rb ofs = s.ea rb ofs := by
  unfold X86State.ea
  rw [h]

/-- C38: for a key that is neither a constant nor a string, the instructions
that `asm_href` emits behind the mask with `hmask`, read in the order of
execution (the reverse of the order of the calls), leave in `dest` the value
that `ir_khash` computes for a constant key of the same type from the same
two words: for an address key `lo` is the key and `hi = lo - 0x04c11db7`, for
a number key `lo` is the low word of the key and `hi` the high word, read from
the spill slot, masked with `0x7fffffff`. The instruction executed next masks
`dest` with the `hmask` of the table. The registers `dest`, `tmp`, `tab` and a
key in a general purpose register are distinct, and none of the first two is
the stack pointer. -/
theorem asm_href_hash_matches (K : IRIns → KeyConst) (irkey : IRIns)
    (RID_ESP dest key tmp tab : Nat) (spill : Int) (s : X86State)
    (hstr : ¬ irt_isstr irkey.t) (hd : dest ≠ tmp) (ht1 : tab ≠ dest) (ht2 : tab ≠ tmp) :
    (¬ irt_isnum irkey.t → ¬ irt_ispri irkey.t → key ≠ dest → key ≠ tmp →
      (K irkey).kgc = s.gpr key →
      ∃ s1, X86State.exec (asm_href_hashrot RID_ESP irkey.t dest key tmp spill).reverse s =
          some s1 ∧
        s1.gpr dest = ir_khash K irkey ∧
        X86State.exec (Emit.rmro (.XO_ARITH .AND) dest tab offsetof_GCtab_hmask ::
            asm_href_hashrot RID_ESP irkey.t dest key tmp spill).reverse s =
          some (s1.set dest (ir_khash K irkey &&& s.mem (s.ea tab offsetof_GCtab_hmask)))) ∧
    (irt_isnum irkey.t → RID_ESP ≠ dest → RID_ESP ≠ tmp →
      (K irkey).knum_lo = s.xmmlo key →
      (K irkey).knum_hi = s.mem (s.ea RID_ESP (spill + 4)) →
      ∃ s1, X86State.exec (asm_href_hashrot RID_ESP irkey.t dest key tmp spill).reverse s =
          some s1 ∧
        s1.gpr dest = ir_khash K irkey ∧
        X86State.exec (Emit.rmro (.XO_ARITH .AND) dest tab offsetof_GCtab_hmask ::
            asm_href_hashrot RID_ESP irkey.t dest key tmp spill).reverse s =
          some (s1.set dest (ir_khash K irkey &&& s.mem (s.ea tab offsetof_GCtab_hmask)))) := by
  constructor
  · intro hnum hpri hk1 hk2 hK
    have hval : ir_khash K irkey =
        ir_khash_rot (s.gpr key) (u32 ((s.gpr key : Int) + -0x04c11db7)) := by
      unfold ir_khash
      rw [if_neg hstr, if_neg hnum, if_neg hpri, hK, Int.sub_eq_add_neg]
    unfold asm_href_hashrot
    rw [if_neg hnum]
    simp only [List.reverse_append, List.reverse_cons, List.reverse_nil, List.nil_append,
      List.cons_append, List.append_assoc]
    simp only [exec_rmro_lea, exec_rr_mov, exec_rr_arith, exec_rol, exec_rmro_arith, exec_nil]
    refine ⟨_, rfl, ?_, ?_⟩
    · rw [hval]
      simp only [set_gpr_same, set_gpr_other _ _ _ _ hd, set_gpr_other _ _ _ _ hd.symm,
        set_gpr_other _ _ _ _ hk1]
      rfl
    · congr 2
      have hdv : ∀ v w : Nat, XOg.AND.apply v w = v &&& w := fun _ _ => rfl
      rw [hdv]
      congr 1
      · rw [hval]
        simp only [set_gpr_same, set_gpr_other _ _ _ _ hd, set_gpr_other _ _ _ _ hd.symm,
          set_gpr_other _ _ _ _ hk1]
        rfl
      · simp only [set_mem]
        congr 1
        apply ea_gpr
        simp only [set_gpr_other _ _ _ _ ht1, set_gpr_other _ _ _ _ ht2]
  · intro hnum he1 he2 hlo hhi
    have hval : ir_khash K irkey =
        ir_khash_rot (s.xmmlo key) (0x7fffffff &&& s.mem (s.ea RID_ESP (spill + 4))) := by
      unfold ir_khash
      rw [if_neg hstr, if_pos hnum, hlo, hhi, Nat.land_comm]
    unfold asm_href_hashrot
    rw [if_pos hnum]
    simp only [List.reverse_append, List.reverse_cons, List.reverse_nil, List.nil_append,
      List.cons_append, List.append_assoc]
    simp only [exec_rr_movd, exec_loadi, exec_rr_arith, exec_rol, exec_rmro_arith, exec_nil]
    have hdv : ∀ v w : Nat, XOg.AND.apply v w = v &&& w := fun _ _ => rfl
    have hea : ∀ v w : Nat, ((s.set tmp v).set dest w).ea RID_ESP (spill + 4) =
        s.ea RID_ESP (spill + 4) := by
      intro v w
      apply ea_gpr
      rw [set_gpr_other _ _ _ _ he1, set_gpr_other _ _ _ _ he2]
    refine ⟨_, rfl, ?_, ?_⟩
    · rw [hval]
      simp only [set_gpr_same, set_gpr_other _ _ _ _ hd, set_gpr_other _ _ _ _ hd.symm,
        set_mem, set_xmmlo, hdv, hea, u32_mask31]
      rfl
    · congr 2
      rw [hdv]
      congr 1
      · rw [hval]
        simp only [set_gpr_same, set_gpr_other _ _ _ _ hd, set_gpr_other _ _ _ _ hd.symm,
          set_mem, set_xmmlo, hdv, hea, u32_mask31]
        rfl
      · simp only [set_mem]
        congr 1
        apply ea_gpr
        simp only [set_gpr_other _ _ _ _ ht1, set_gpr_other _ _ _ _ ht2]

theorem asm_href_hash_matches_witness :
    ((¬ irt_isstr IRT_TAB ∧ ¬ irt_isnum IRT_TAB ∧ ¬ irt_ispri IRT_TAB ∧
        (hashConsts { t := IRT_TAB }).kgc = hashExample.gpr 1) ∧
      ∃ s1, X86State.exec (asm_href_hashrot 4 IRT_TAB 0 1 2 8).reverse hashExample = some s1 ∧
        s1.gpr 0 = ir_khash hashConsts { t := IRT_TAB } ∧
        X86State.exec (Emit.rmro (.XO_ARITH .AND) 0 3 offsetof_GCtab_hmask ::
            asm_href_hashrot 4 IRT_TAB 0 1 2 8).reverse hashExample =
          some (s1.set 0 (ir_khash hashConsts { t := IRT_TAB } &&&
            hashExample.mem (hashExample.ea 3 offsetof_GCtab_hmask)))) ∧
    ((¬ irt_isstr IRT_NUM ∧ irt_isnum IRT_NUM ∧
        (hashConsts { t := IRT_NUM }).knum_lo = hashExample.xmmlo 9 ∧
        (hashConsts { t := IRT_NUM }).knum_hi = hashExample.mem (hashExample.ea 4 (8 + 4))) ∧
      ∃ s1, X86State.exec (asm_href_hashrot 4 IRT_NUM 0 9 2 8).reverse hashExample = some s1 ∧
        s1.gpr 0 = ir_khash hashConsts { t := IRT_NUM } ∧
        X86State.exec (Emit.rmro (.XO_ARITH .AND) 0 3 offsetof_GCtab_hmask ::
            asm_href_hashrot 4 IRT_NUM 0 9 2 8).reverse hashExample =
          some (s1.set 0 (ir_khash hashConsts { t := IRT_NUM } &&&
            hashExample.mem (hashExample.ea 3 offsetof_GCtab_hmask)))) ∧
    ir_khash hashConsts { t := IRT_TAB } = 181589825 ∧
    ir_khash hashConsts { t := IRT_NUM } = 1073290648 ∧
    (X86State.exec (asm_href_mainpos 4 0 false IRT_TAB 1 0 3 1 2 8).reverse hashExample).map
      (fun s => s.gpr 0) = some (24 * (181589825 % 256)) := by
  have hhi : (hashConsts { t := IRT_NUM }).knum_hi =
      hashExample.mem (hashExample.ea 4 (8 + 4)) := by decide
  exact ⟨⟨⟨by decide, by decide, by decide, by decide⟩,
      (asm_href_hash_matches hashConsts { t := IRT_TAB } 4 0 1 2 3 8 hashExample (by decide)
        (by decide) (by decide) (by decide)).1 (by decide) (by decide) (by decide)
        (by decide) (by decide)⟩,
    ⟨⟨by decide, by decide, by decide, hhi⟩,
      (asm_href_hash_matches hashConsts { t := IRT_NUM } 4 0 9 2 3 8 hashExample (by decide)
        (by decide) (by decide) (by decide)).2 (by decide) (by decide) (by decide)
        (by decide) hhi⟩,
    by decide, by decide, by decide⟩

/-! ## Comparisons -/

theorem i32_lt (x : Nat) : -2147483648 ≤ i32 x ∧ i32 x < 2147483648 := by
  unfold i32
  split <;> omega

/-- The facts about the condition codes of the comparison opcodes, in a form
that is decided by evaluation. -/
theorem asm_ir_comp_table :
    ∀ o, o ∈ compOps →
      (asm_ir_comp { o := o }).isSome = true ∧
      (asm_comp_int_cc ((asm_ir_comp { o := o }).getD 0) &&& 15 =
          asm_comp_int_cc (((asm_ir_comp { o := o }).getD 0) &&& 15) ∧
        asm_comp_int_cc (asm_comp_int_cc ((asm_ir_comp { o := o }).getD 0)) =
          (asm_ir_comp { o := o }).getD 0) ∧
      (((asm_ir_comp { o := o }).getD 0) &&& VCC_S ≠ 0 →
        (asm_comp_num_swap ((asm_ir_comp { o := o }).getD 0) 1 2).1 >>> 4 &&& 15 =
          (((asm_ir_comp { o := o }).getD 0) >>> 4 &&& 15) ^^^ 5 ∧
        (asm_comp_num_swap ((asm_ir_comp { o := o }).getD 0) 1 2).1 &&& VCC_PS = 0 ∧
        (asm_comp_num_swap ((asm_ir_comp { o := o }).getD 0) 1 2).1 &&& VCC_U =
          ((asm_ir_comp { o := o }).getD 0) &&& VCC_U) ∧
      ∀ r, r ∈ [FPCmp.gt, FPCmp.lt, FPCmp.eq, FPCmp.unordered] →
        fpGuardExits ((asm_ir_comp { o := o }).getD 0) r =
          fpGuardExits (asm_comp_num_swap ((asm_ir_comp { o := o }).getD 0) 1 2).1
            (if ((asm_ir_comp { o := o }).getD 0) &&& VCC_S ≠ 0 then r.swap else r) := by
  decide

/-- C37: when `asm_comp_` swaps the operands of a comparison it rewrites the
condition code so that the guard tests the same relation on the swapped
operands. For integer compares L and G, LE and GE are exchanged (the code
XOR 3), B and A, AE and BE are exchanged (the code XOR 5), and E and NE stay;
the rewrite is an involution, and the condition after `cmp x, y` holds if and
only if the rewritten condition holds after `cmp y, x`. For floating point
compares the swap exchanges A and B, AE and BE in the FP condition and toggles
the flags `VCC_PS`; for every comparison opcode of `asm_ir` the branches emitted
for the swapped operands leave the trace for the same outcomes; the XOR is an
involution. -/
theorem asm_comp_swap_cc :
    (asm_comp_int_cc CC_L = CC_G ∧ asm_comp_int_cc CC_G = CC_L ∧
      asm_comp_int_cc CC_LE = CC_GE ∧ asm_comp_int_cc CC_GE = CC_LE ∧
      asm_comp_int_cc CC_B = CC_A ∧ asm_comp_int_cc CC_A = CC_B ∧
      asm_comp_int_cc CC_AE = CC_BE ∧ asm_comp_int_cc CC_BE = CC_AE ∧
      asm_comp_int_cc CC_E = CC_E ∧ asm_comp_int_cc CC_NE = CC_NE) ∧
    (∀ cc, cc < 16 →
      (cc ∈ [CC_L, CC_GE, CC_LE, CC_G] → asm_comp_int_cc cc = cc ^^^ 3) ∧
      (cc ∈ [CC_B, CC_AE, CC_BE, CC_A] → asm_comp_int_cc cc = cc ^^^ 5) ∧
      asm_comp_int_cc (asm_comp_int_cc cc) = cc) ∧
    (∀ cc, cc ∈ [CC_B, CC_AE, CC_E, CC_NE, CC_BE, CC_A, CC_L, CC_GE, CC_LE, CC_G] →
      ∀ x y, ccInt cc x y ↔ ccInt (asm_comp_int_cc cc) y x) ∧
    (∀ o, o ∈ compOps → ∀ cc, asm_ir_comp { o := o } = some cc →
      (asm_comp_int_cc cc &&& 15 = asm_comp_int_cc (cc &&& 15) ∧
        asm_comp_int_cc (asm_comp_int_cc cc) = cc) ∧
      (cc &&& VCC_S ≠ 0 →
        (asm_comp_num_swap cc 1 2).1 >>> 4 &&& 15 = (cc >>> 4 &&& 15) ^^^ 5 ∧
        (asm_comp_num_swap cc 1 2).1 &&& VCC_PS = 0 ∧
        (asm_comp_num_swap cc 1 2).1 &&& VCC_U = cc &&& VCC_U) ∧
      ∀ r : FPCmp, fpGuardExits cc r =
        fpGuardExits (asm_comp_num_swap cc 1 2).1 (if cc &&& VCC_S ≠ 0 then r.swap else r)) ∧
    (CC_A ^^^ 5 = CC_B ∧ CC_B ^^^ 5 = CC_A ∧ CC_AE ^^^ 5 = CC_BE ∧ CC_BE ^^^ 5 = CC_AE) ∧
    (∀ cc lref rref, cc &&& VCC_S ≠ 0 →
      asm_comp_num_swap cc lref rref = (cc ^^^ (VCC_PS ||| (5 <<< 4)), rref, lref) ∧
      (cc ^^^ (VCC_PS ||| (5 <<< 4))) ^^^ (VCC_PS ||| (5 <<< 4)) = cc) := by
  refine ⟨by decide, by decide, ?_, ?_, by decide, ?_⟩
  · intro cc hcc x y
    have hx := i32_lt x
    have hy := i32_lt y
    simp only [List.mem_cons, List.mem_singleton, List.not_mem_nil, or_false] at hcc
    rcases hcc with h | h | h | h | h | h | h | h | h | h <;> subst h
    · show (x < y) ↔ (y > x)
      omega
    · show (x ≥ y) ↔ (y ≤ x)
      omega
    · show (x = y) ↔ (y = x)
      omega
    · show (x ≠ y) ↔ (y ≠ x)
      omega
    · show (x ≤ y) ↔ (y ≥ x)
      omega
    · show (x > y) ↔ (y < x)
      omega
    · show (i32 x < i32 y) ↔ (i32 y > i32 x)
      omega
    · show (i32 x ≥ i32 y) ↔ (i32 y ≤ i32 x)
      omega
    · show (i32 x ≤ i32 y) ↔ (i32 y ≥ i32 x)
      omega
    · show (i32 x > i32 y) ↔ (i32 y < i32 x)
      omega
  · intro o ho cc hcc
    have h := asm_ir_comp_table o ho
    rw [hcc] at h
    refine ⟨h.2.1, h.2.2.1, fun r => h.2.2.2 r ?_⟩
    cases r <;> decide
  · intro cc lref rref hs
    refine ⟨?_, ?_⟩
    · unfold asm_comp_num_swap
      rw [if_pos hs]
    · rw [Nat.xor_assoc, Nat.xor_self, Nat.xor_zero]

/-! ## The tail of a trace -/

theorem tail_nops_spec (T : Target) (p : Nat) :
    ∀ (n : Nat) (m : MCodeBuf) (a : Nat),
      tail_nops T p n m a = if p ≤ a ∧ a < n then toByte T.XI_NOP else m a := by
  intro n
  induction n with
  | zero =>
    intro m a
    unfold tail_nops
    rw [if_neg (by omega)]
  | succ q ih =>
    intro m a
    unfold tail_nops
    by_cases hq : q ≥ p
    · rw [if_pos hq, ih]
      by_cases ha : p ≤ a ∧ a < q
      · rw [if_pos ha, if_pos ⟨ha.1, by omega⟩]
      · rw [if_neg ha]
        by_cases haq : a = q
        · rw [haq, upd_same, if_pos ⟨hq, by omega⟩]
        · rw [upd_other _ _ _ _ haq, if_neg (by omega)]
    · rw [if_neg hq, if_neg (by omega)]

/-- What `asm_tail_fixup` stores behind the stack adjustment: the near jump to the
link target at the end of the code, and NOPs in the tail it drops. -/
theorem asm_tail_fixup_jump (T : Target) (exit_interp : Int) (trace_mcode : Nat → Int)
    (J : jit_State) (as : ASMState) (lnk : Nat)
    (hr : 5 ≤ (tail_spadj T as (J.cur.spadjust : Int)).1) :
    (asm_tail_fixup T exit_interp trace_mcode J as lnk).mctop =
      (tail_spadj T as (J.cur.spadjust : Int)).1 ∧
    (∀ a, (tail_spadj T as (J.cur.spadjust : Int)).1 ≤ a → a < as.mctop →
      (asm_tail_fixup T exit_interp trace_mcode J as lnk).mem a = toByte T.XI_NOP) ∧
    (asm_tail_fixup T exit_interp trace_mcode J as lnk).mem
      ((tail_spadj T as (J.cur.spadjust : Int)).1 - 5) = XI_JMP ∧
    jmpDest 0 (asm_tail_fixup T exit_interp trace_mcode J as lnk).mem
      ((tail_spadj T as (J.cur.spadjust : Int)).1 - 5) =
        wrap32 (if lnk = TRACE_INTERP then exit_interp else trace_mcode lnk) ∧
    (∀ a, a < (tail_spadj T as (J.cur.spadjust : Int)).1 - 5 →
      (asm_tail_fixup T exit_interp trace_mcode J as lnk).mem a =
        (tail_spadj T as (J.cur.spadjust : Int)).2 a) := by
  generalize hrd : tail_spadj T as (J.cur.spadjust : Int) = r at hr
  generalize htd : (if lnk = TRACE_INTERP then exit_interp else trace_mcode lnk) = target
  have hmem : ∀ a, (asm_tail_fixup T exit_interp trace_mcode J as lnk).mem a =
      if r.1 ≤ a ∧ a < as.mctop then toByte T.XI_NOP
      else upd (write_i32 r.2 (r.1 - 4) (target - r.1)) (r.1 - 5) XI_JMP a := by
    intro a
    unfold asm_tail_fixup
    simp only [hrd, htd]
    exact tail_nops_spec T r.1 as.mctop _ a
  have hlow : ∀ a, a < r.1 →
      (asm_tail_fixup T exit_interp trace_mcode J as lnk).mem a =
        upd (write_i32 r.2 (r.1 - 4) (target - r.1)) (r.1 - 5) XI_JMP a := by
    intro a ha
    rw [hmem, if_neg (by omega)]
  refine ⟨?_, ?_, ?_, ?_, ?_⟩
  · unfold asm_tail_fixup
    simp only [hrd]
  · intro a h1 h2
    rw [hmem, if_pos ⟨h1, h2⟩]
  · rw [hlow _ (by omega), upd_same]
  · unfold jmpDest
    have e : r.1 - 5 + 1 = r.1 - 4 := by omega
    rw [e, read_i32_congr _ (write_i32 r.2 (r.1 - 4) (target - r.1)) (r.1 - 4)
      (fun j h1 h2 => by rw [hlow j (by omega), upd_other _ _ _ _ (by omega)])]
    have h := wrap32_read_write r.2 (r.1 - 4) (target - r.1)
    unfold wrap32 at h ⊢
    omega
  · intro a ha
    rw [hlow _ (by omega), upd_other _ _ _ _ (by omega), write_i32_outside _ _ _ _ (by omega)]

theorem checki8_iff (n : Nat) : checki8 (n : Int) ↔ n ≤ 127 := by
  unfold checki8
  omega

/-- C35, amended: for a trace without loop, `asm_tail_fixup` ends the machine code
with the 5-byte near jump (`0xE9 rel32`) to the link target
(`lj_vm_exit_interp` for `TRACE_INTERP`, else the machine code of the linked
trace), and fills the tail it drops with NOPs. What precedes the jump depends
on the stack adjustment: for `spadjust = 0` nothing is stored and the room of
6 bytes (7 with the flag `JIT_F_LEA_AGU`) is dropped; for a stack adjustment
that fits into a signed byte the instruction has 3 bytes (4 with the flag) and
3 bytes are dropped; only for a larger one the instruction has 6 bytes (7 with
the flag). -/
theorem asm_tail_fixup_layout (T : Target) (exit_interp : Int) (trace_mcode : Nat → Int)
    (J : jit_State) (as as1 : ASMState) (lnk : Nat)
    (hp : 12 ≤ as.mctop) (hs : J.cur.spadjust < 65536)
    (hres : asm_tail_fixup T exit_interp trace_mcode J as lnk = as1) :
    (as1.mem (as1.mctop - 5) = XI_JMP ∧
      jmpDest 0 as1.mem (as1.mctop - 5) =
        wrap32 (if lnk = TRACE_INTERP then exit_interp else trace_mcode lnk)) ∧
    (∀ a, as1.mctop ≤ a → a < as.mctop → as1.mem a = toByte T.XI_NOP) ∧
    (J.cur.spadjust = 0 →
      as1.mctop = as.mctop - (if as.flags &&& JIT_F_LEA_AGU ≠ 0 then 7 else 6) ∧
      ∀ a, a < as1.mctop - 5 → as1.mem a = as.mem a) ∧
    (0 < J.cur.spadjust → J.cur.spadjust ≤ 127 →
      as1.mctop = as.mctop - 3 ∧
      (as.flags &&& JIT_F_LEA_AGU = 0 →
        as1.mem (as1.mctop - 8) = toByte T.XI_ARITHi8 ∧
        as1.mem (as1.mctop - 7) = MODRM T.XM_REG T.XOg_ADD T.RID_ESP ∧
        (as1.mem (as1.mctop - 6)).val = J.cur.spadjust ∧
        ∀ a, a < as1.mctop - 8 → as1.mem a = as.mem a) ∧
      (as.flags &&& JIT_F_LEA_AGU ≠ 0 →
        as1.mem (as1.mctop - 9) = toByte T.XI_LEA ∧
        as1.mem (as1.mctop - 8) = MODRM T.XM_OFS8 T.RID_ESP T.RID_ESP ∧
        as1.mem (as1.mctop - 7) = MODRM T.XM_SCALE1 T.RID_ESP T.RID_ESP ∧
        (as1.mem (as1.mctop - 6)).val = J.cur.spadjust ∧
        ∀ a, a < as1.mctop - 9 → as1.mem a = as.mem a)) ∧
    (127 < J.cur.spadjust →
      as1.mctop = as.mctop ∧
      (as.flags &&& JIT_F_LEA_AGU = 0 →
        as1.mem (as1.mctop - 11) = toByte T.XI_ARITHi ∧
        as1.mem (as1.mctop - 10) = MODRM T.XM_REG T.XOg_ADD T.RID_ESP ∧
        read_u32 as1.mem (as1.mctop - 9) = J.cur.spadjust ∧
        ∀ a, a < as1.mctop - 11 → as1.mem a = as.mem a) ∧
      (as.flags &&& JIT_F_LEA_AGU ≠ 0 →
        as1.mem (as1.mctop - 12) = toByte T.XI_LEA ∧
        as1.mem (as1.mctop - 11) = MODRM T.XM_OFS32 T.RID_ESP T.RID_ESP ∧
        as1.mem (as1.mctop - 10) = MODRM T.XM_SCALE1 T.RID_ESP T.RID_ESP ∧
        read_u32 as1.mem (as1.mctop - 9) = J.cur.spadjust ∧
        ∀ a, a < as1.mctop - 12 → as1.mem a = as.mem a)) := by
  have hr1 : (tail_spadj T as (J.cur.spadjust : Int)).1 =
      if J.cur.spadjust = 0 then as.mctop - (if as.flags &&& JIT_F_LEA_AGU ≠ 0 then 7 else 6)
      else if J.cur.spadjust ≤ 127 then as.mctop - 3 else as.mctop := by
    unfold tail_spadj
    by_cases h0 : J.cur.spadjust = 0
    · rw [if_pos h0, if_pos (by omega)]
    · rw [if_neg h0, if_neg (by omega)]
      simp only [checki8_iff]
      split <;> rfl
  have hr5 : 5 ≤ (tail_spadj T as (J.cur.spadjust : Int)).1 := by
    rw [hr1]
    split
    · split <;> omega
    · split <;> omega
  obtain ⟨j1, j2, j3, j4, j5⟩ := asm_tail_fixup_jump T exit_interp trace_mcode J as lnk hr5
  rw [hres] at j1 j2 j3 j4 j5
  rw [← j1] at j2 j3 j4 j5
  refine ⟨⟨j3, j4⟩, j2, ?_, ?_, ?_⟩
  · intro h0
    have e1 : as1.mctop = as.mctop - (if as.flags &&& JIT_F_LEA_AGU ≠ 0 then 7 else 6) := by
      rw [j1, hr1, if_pos h0]
    refine ⟨e1, fun a ha => ?_⟩
    rw [j5 a ha]
    unfold tail_spadj
    rw [if_pos (by omega)]
  · intro h0 h127
    have hc : checki8 (J.cur.spadjust : Int) := (checki8_iff _).mpr h127
    have hne : ¬ ((J.cur.spadjust : Int) = 0) := by omega
    have e1 : as1.mctop = as.mctop - 3 := by
      rw [j1, hr1, if_neg (by omega), if_pos h127]
    have hval : (toByte (u32 (J.cur.spadjust : Int))).val = J.cur.spadjust := by
      rw [toByte_val, u32_natCast]
      omega
    refine ⟨e1, fun hf => ?_, fun hf => ?_⟩
    · have hr2 : (tail_spadj T as (J.cur.spadjust : Int)).2 =
          upd (upd (upd as.mem (as.mctop - 3 - 6) (toByte (u32 (J.cur.spadjust : Int))))
            (as.mctop - 3 - 6 - 2) (toByte T.XI_ARITHi8))
            (as.mctop - 3 - 6 - 1) (MODRM T.XM_REG T.XOg_ADD T.RID_ESP) := by
        unfold tail_spadj
        rw [if_neg hne]
        simp only [hc, if_true, hf, ne_eq, not_true_eq_false, if_false]
      rw [e1]
      refine ⟨?_, ?_, ?_, fun a ha => ?_⟩
      · rw [j5 _ (by omega), hr2, upd_other _ _ _ _ (by omega)]
        have e : as.mctop - 3 - 8 = as.mctop - 3 - 6 - 2 := by omega
        rw [e, upd_same]
      · rw [j5 _ (by omega), hr2]
        have e : as.mctop - 3 - 7 = as.mctop - 3 - 6 - 1 := by omega
        rw [e, upd_same]
      · rw [j5 _ (by omega), hr2, upd_other _ _ _ _ (by omega), upd_other _ _ _ _ (by omega),
          upd_same]
        exact hval
      · rw [j5 _ (by omega), hr2, upd_other _ _ _ _ (by omega), upd_other _ _ _ _ (by omega),
          upd_other _ _ _ _ (by omega)]
    · have hr2 : (tail_spadj T as (J.cur.spadjust : Int)).2 =
          upd (upd (upd (upd as.mem (as.mctop - 3 - 6) (toByte (u32 (J.cur.spadjust : Int))))
            (as.mctop - 3 - 6 - 3) (toByte T.XI_LEA))
            (as.mctop - 3 - 6 - 2) (MODRM T.XM_OFS8 T.RID_ESP T.RID_ESP))
            (as.mctop - 3 - 6 - 1) (MODRM T.XM_SCALE1 T.RID_ESP T.RID_ESP) := by
        unfold tail_spadj
        rw [if_neg hne]
        simp only [hc, if_true, hf, ne_eq, not_false_eq_true]
      rw [e1]
      refine ⟨?_, ?_, ?_, ?_, fun a ha => ?_⟩
      · rw [j5 _ (by omega), hr2, upd_other _ _ _ _ (by omega), upd_other _ _ _ _ (by omega)]
        have e : as.mctop - 3 - 9 = as.mctop - 3 - 6 - 3 := by omega
        rw [e, upd_same]
      · rw [j5 _ (by omega), hr2, upd_other _ _ _ _ (by omega)]
        have e : as.mctop - 3 - 8 = as.mctop - 3 - 6 - 2 := by omega
        rw [e, upd_same]
      · rw [j5 _ (by omega), hr2]
        have e : as.mctop - 3 - 7 = as.mctop - 3 - 6 - 1 := by omega
        rw [e, upd_same]
      · rw [j5 _ (by omega), hr2, upd_other _ _ _ _ (by omega), upd_other _ _ _ _ (by omega),
          upd_other _ _ _ _ (by omega), upd_same]
        exact hval
      · rw [j5 _ (by omega), hr2, upd_other _ _ _ _ (by omega), upd_other _ _ _ _ (by omega),
          upd_other _ _ _ _ (by omega), upd_other _ _ _ _ (by omega)]
  · intro h127
    have hc : ¬ checki8 (J.cur.spadjust : Int) := fun h => by
      have := (checki8_iff _).mp h
      omega
    have hne : ¬ ((J.cur.spadjust : Int) = 0) := by omega
    have e1 : as1.mctop = as.mctop := by
      rw [j1, hr1, if_neg (by omega), if_neg (by omega)]
    have hrd : ∀ m : MCodeBuf,
        (∀ j, as.mctop - 9 ≤ j → j < as.mctop - 9 + 4 →
          m j = write_i32 as.mem (as.mctop - 9) (J.cur.spadjust : Int) j) →
        read_u32 m (as.mctop - 9) = J.cur.spadjust := by
      intro m hm
      have h := read_u32_write_i32 as.mem (as.mctop - 9) (J.cur.spadjust : Int)
      rw [read_u32_congr m _ _ hm]
      unfold wrap32 at h
      omega
    refine ⟨e1, fun hf => ?_, fun hf => ?_⟩
    · have hr2 : (tail_spadj T as (J.cur.spadjust : Int)).2 =
          upd (upd (write_i32 as.mem (as.mctop - 9) (J.cur.spadjust : Int))
            (as.mctop - 9 - 2) (toByte T.XI_ARITHi))
            (as.mctop - 9 - 1) (MODRM T.XM_REG T.XOg_ADD T.RID_ESP) := by
        unfold tail_spadj
        rw [if_neg hne]
        simp only [hc, if_false, hf, ne_eq, not_true_eq_false]
      rw [e1]
      refine ⟨?_, ?_, ?_, fun a ha => ?_⟩
      · rw [j5 _ (by omega), hr2, upd_other _ _ _ _ (by omega)]
        have e : as.mctop - 11 = as.mctop - 9 - 2 := by omega
        rw [e, upd_same]
      · rw [j5 _ (by omega), hr2]
        have e : as.mctop - 10 = as.mctop - 9 - 1 := by omega
        rw [e, upd_same]
      · apply hrd
        intro j h1 h2
        rw [j5 _ (by omega), hr2, upd_other _ _ _ _ (by omega), upd_other _ _ _ _ (by omega)]
      · rw [j5 _ (by omega), hr2, upd_other _ _ _ _ (by omega), upd_other _ _ _ _ (by omega),
          write_i32_outside _ _ _ _ (by omega)]
    · have hr2 : (tail_spadj T as (J.cur.spadjust : Int)).2 =
          upd (upd (upd (write_i32 as.mem (as.mctop - 9) (J.cur.spadjust : Int))
            (as.mctop - 9 - 3) (toByte T.XI_LEA))
            (as.mctop - 9 - 2) (MODRM T.XM_OFS32 T.RID_ESP T.RID_ESP))
            (as.mctop - 9 - 1) (MODRM T.XM_SCALE1 T.RID_ESP T.RID_ESP) := by
        unfold tail_spadj
        rw [if_neg hne]
        simp only [hc, if_false, hf, ne_eq, not_false_eq_true, if_true]
      rw [e1]
      refine ⟨?_, ?_, ?_, ?_, fun a ha => ?_⟩
      · rw [j5 _ (by omega), hr2, upd_other _ _ _ _ (by omega), upd_other _ _ _ _ (by omega)]
        have e : as.mctop - 12 = as.mctop - 9 - 3 := by omega
        rw [e, upd_same]
      · rw [j5 _ (by omega), hr2, upd_other _ _ _ _ (by omega)]
        have e : as.mctop - 11 = as.mctop - 9 - 2 := by omega
        rw [e, upd_same]
      · rw [j5 _ (by omega), hr2]
        have e : as.mctop - 10 = as.mctop - 9 - 1 := by omega
        rw [e, upd_same]
      · apply hrd
        intro j h1 h2
        rw [j5 _ (by omega), hr2, upd_other _ _ _ _ (by omega), upd_other _ _ _ _ (by omega),
          upd_other _ _ _ _ (by omega)]
      · rw [j5 _ (by omega), hr2, upd_other _ _ _ _ (by omega), upd_other _ _ _ _ (by omega),
          upd_other _ _ _ _ (by omega), write_i32_outside _ _ _ _ (by omega)]

set_option maxRecDepth 100000 in
theorem asm_tail_fixup_layout_witness :
    (12 ≤ (tailExample 0).mctop ∧ (tailJit 0x208).cur.spadjust < 65536) ∧
    (tailResult.mem (tailResult.mctop - 5) = XI_JMP ∧
      jmpDest 0 tailResult.mem (tailResult.mctop - 5) =
        wrap32 (if 1 = TRACE_INTERP then 0x5000 else 0x6000)) ∧
    (tailResult.mctop = (tailExample 0).mctop ∧
      ((tailExample 0).flags &&& JIT_F_LEA_AGU = 0 →
        tailResult.mem (tailResult.mctop - 11) = toByte exampleTarget.XI_ARITHi ∧
        tailResult.mem (tailResult.mctop - 10) =
          MODRM exampleTarget.XM_REG exampleTarget.XOg_ADD exampleTarget.RID_ESP ∧
        read_u32 tailResult.mem (tailResult.mctop - 9) = (tailJit 0x208).cur.spadjust ∧
        ∀ a, a < tailResult.mctop - 11 → tailResult.mem a = (tailExample 0).mem a) ∧
      ((tailExample 0).flags &&& JIT_F_LEA_AGU ≠ 0 →
        tailResult.mem (tailResult.mctop - 12) = toByte exampleTarget.XI_LEA ∧
        tailResult.mem (tailResult.mctop - 11) =
          MODRM exampleTarget.XM_OFS32 exampleTarget.RID_ESP exampleTarget.RID_ESP ∧
        tailResult.mem (tailResult.mctop - 10) =
          MODRM exampleTarget.XM_SCALE1 exampleTarget.RID_ESP exampleTarget.RID_ESP ∧
        read_u32 tailResult.mem (tailResult.mctop - 9) = (tailJit 0x208).cur.spadjust ∧
        ∀ a, a < tailResult.mctop - 12 → tailResult.mem a = (tailExample 0).mem a)) ∧
    bytesAt tailResult.mem (tailResult.mctop - 11) 11 =
      [0x81, 0xc4, 0x08, 0x02, 0, 0, 0xe9, 0x00, 0x5f, 0, 0] :=
  ⟨⟨by decide, by decide⟩,
    (asm_tail_fixup_layout exampleTarget 0x5000 (fun _ => 0x6000) (tailJit 0x208)
      (tailExample 0) tailResult 1 (by decide) (by decide) rfl).1,
    (asm_tail_fixup_layout exampleTarget 0x5000 (fun _ => 0x6000) (tailJit 0x208)
      (tailExample 0) tailResult 1 (by decide) (by decide) rfl).2.2.2.2 (by decide),
    by decide⟩

set_option maxRecDepth 100000 in
/-- C35, counterexample: with the stack adjustment 8 the code ends with the
3-byte instruction `83 C4 08` and the jump, and the three bytes before them
are left as they were; with the stack adjustment 0 the code ends with the
jump alone, and the six bytes before it are left as they were. The top of the
code moves down by 3 and by 6 bytes. -/
theorem asm_tail_fixup_short_counterexample :
    (asm_tail_fixup exampleTarget 0x5000 (fun _ => 0x6000) (tailJit 8)
      (tailExample 0) 0).mctop = 0x100 - 3 ∧
    bytesAt (asm_tail_fixup exampleTarget 0x5000 (fun _ => 0x6000) (tailJit 8)
      (tailExample 0) 0).mem (0x100 - 3 - 11) 11 =
      [0, 0, 0, 0x83, 0xc4, 0x08, 0xe9, 0x03, 0x4f, 0, 0] ∧
    (asm_tail_fixup exampleTarget 0x5000 (fun _ => 0x6000) (tailJit 0)
      (tailExample 0) 0).mctop = 0x100 - 6 ∧
    bytesAt (asm_tail_fixup exampleTarget 0x5000 (fun _ => 0x6000) (tailJit 0)
      (tailExample 0) 0).mem (0x100 - 6 - 11) 11 =
      [0, 0, 0, 0, 0, 0, 0xe9, 0x06, 0x4f, 0, 0] ∧
    bytesAt (tailExample 0).mem (0x100 - 6 - 11) 11 = [0, 0, 0, 0, 0, 0, 0, 0, 0, 0, 0] := by
  decide

/-! ## Luabins: reads of the loader -/

theorem readData_end (data : List Nat) : readData data data.length = .oob data.length := by
  unfold readData
  rw [dif_neg (by omega)]

/-- In a state that has consumed all bytes of the data and is still good,
`lbsLS_readbyte` reads the byte behind the data. -/
theorem lbsLS_readbyte_end (C : LuabinsConf) (data : List Nat) (ls : lbs_LoadState)
    (h : ls.pos = some data.length) : lbsLS_readbyte C data ls = .oob data.length := by
  unfold lbsLS_readbyte
  rw [h]
  show (readData data data.length).bind _ = _
  rw [readData_end]
  rfl

theorem load_value_end (C : LuabinsConf) (data : List Nat) (ls : lbs_LoadState)
    (fuel : Nat) (L : LuaStack) (h : ls.pos = some data.length) :
    load_value C data (fuel + 1) L ls = .oob data.length := by
  unfold load_value load_step
  rw [lbsLS_readbyte_end C data ls h]
  rfl

theorem readDataN_inside (data : List Nat) :
    ∀ (n p : Nat), p + n ≤ data.length → ∃ bs, readDataN data p n = .done bs := by
  intro n
  induction n with
  | zero => intro p _; exact ⟨[], rfl⟩
  | succ n ih =>
    intro p hp
    obtain ⟨bs, hbs⟩ := ih (p + 1) (by omega)
    have hlt : p < data.length := by omega
    refine ⟨data.get ⟨p, hlt⟩ :: bs, ?_⟩
    unfold readDataN readData
    rw [dif_pos hlt, hbs]
    rfl

/-- In a state whose pointer and count of unread bytes add up to the length of
the data, `lbsLS_readbytes` reads inside the data only, and keeps the state so
if it leaves it good. -/
theorem lbsLS_readbytes_inside (data : List Nat) (ls : lbs_LoadState) (len p : Nat)
    (hp : ls.pos = some p) (hinv : p + ls.unread = data.length) :
    ∃ r, lbsLS_readbytes data ls len = .done r ∧
      (∀ q, r.2.2.pos = some q → q + r.2.2.unread = data.length) := by
  unfold lbsLS_readbytes lbsLS_eat
  rw [hp]
  by_cases hge : ls.unread ≥ len
  · simp only [hge, if_true]
    obtain ⟨bs, hbs⟩ := readDataN_inside data len p (by omega)
    rw [hbs]
    refine ⟨_, rfl, ?_⟩
    intro q hq
    injection hq with hq
    show q + (ls.unread - len) = data.length
    omega
  · simp only [hge, if_false]
    refine ⟨_, rfl, ?_⟩
    intro q hq
    cases hq

/-- Claim C40 does not hold of the code: `lbsLS_readbyte` tests the pointer only,
not the number of unread bytes. For the data of the single byte `n`, a count
of items between 1 and `LUABINS_MAXTUPLE`, `luabins_load` reads the count,
which leaves no unread byte and a pointer that is not `NULL`, and then
`load_value` reads the byte at the offset 1, behind the data. This is so in
every state that has consumed all bytes and is still good. -/
theorem luabins_load_reads_past_end (C : LuabinsConf) (L : LuaStack) (n fuel : Nat)
    (h1 : 1 ≤ n) (h2 : n ≤ C.LUABINS_MAXTUPLE) :
    luabins_load C L [n] (fuel + 1) = .oob 1 ∧
    lbsLS_readbyte C [n] (lbsLS_init 1) =
      .done (n, { pos := some 1, unread := (1 + C.size_mod - 1) % C.size_mod }) ∧
    (∀ (data : List Nat) (ls : lbs_LoadState) (L1 : LuaStack),
      ls.pos = some data.length →
      lbsLS_readbyte C data ls = .oob data.length ∧
      load_value C data (fuel + 1) L1 ls = .oob data.length) := by
  have hrb : lbsLS_readbyte C [n] (lbsLS_init 1) =
      .done (n, { pos := some 1, unread := (1 + C.size_mod - 1) % C.size_mod }) := rfl
  refine ⟨?_, hrb, fun data ls L1 h =>
    ⟨lbsLS_readbyte_end C data ls h, load_value_end C data ls fuel L1 h⟩⟩
  obtain ⟨m, rfl⟩ : ∃ m, n = m + 1 := ⟨n - 1, by omega⟩
  have hlv : load_value C [m + 1] (fuel + 1) L
      { pos := some 1, unread := (1 + C.size_mod - 1) % C.size_mod } = .oob 1 :=
    load_value_end C [m + 1] _ fuel L rfl
  unfold luabins_load
  show (lbsLS_readbyte C [m + 1] (lbsLS_init 1)).bind _ = _
  rw [hrb]
  show Run.bind (if ¬ lbsLS_good _ = true then _ else if m + 1 > C.LUABINS_MAXTUPLE then _
    else load_items C [m + 1] (fuel + 1) (m + 1) .LUABINS_ESUCCESS L _) _ = _
  rw [if_neg (fun h => h rfl), if_neg (by omega)]
  unfold load_items
  rw [if_pos rfl, hlv]
  rfl

theorem luabins_load_reads_past_end_witness :
    (1 ≤ 1 ∧ 1 ≤ exampleLuabins.LUABINS_MAXTUPLE) ∧
    luabins_load exampleLuabins [] [1] (9 + 1) = .oob 1 ∧
    lbsLS_readbyte exampleLuabins [1] (lbsLS_init 1) =
      .done (1,
        { pos := some 1
          unread := (1 + exampleLuabins.size_mod - 1) % exampleLuabins.size_mod }) ∧
    (∀ (data : List Nat) (ls : lbs_LoadState) (L1 : LuaStack),
      ls.pos = some data.length →
      lbsLS_readbyte exampleLuabins data ls = .oob data.length ∧
      load_value exampleLuabins data (9 + 1) L1 ls = .oob data.length) :=
  ⟨⟨by decide, by decide⟩,
    luabins_load_reads_past_end exampleLuabins [] 1 9 (by decide) (by decide)⟩

/-! ## The flags after `loop_emit_phi` -/

theorem sameCtl_refl (a : ASMState) : SameCtl a a :=
  ⟨rfl, rfl, rfl, rfl, rfl, rfl, rfl, fun _ => rfl⟩

theorem sameCtl_trans {a b c : ASMState} (h1 : SameCtl a b) (h2 : SameCtl b c) : SameCtl a c := by
  obtain ⟨a1, a2, a3, a4, a5, a6, a7, a8⟩ := h1
  obtain ⟨b1, b2, b3, b4, b5, b6, b7, b8⟩ := h2
  exact ⟨b1.trans a1, b2.trans a2, b3.trans a3, b4.trans a4, b5.trans a5, b6.trans a6,
    b7.trans a7, fun i => (b8 i).trans (a8 i)⟩

theorem key_upd_setR (ir : Nat → IRIns) (ref r i : Nat) :
    (upd ir ref ((ir ref).setR r) i).key = (ir i).key := by
  unfold upd
  split
  · rename_i h; rw [h]; rfl
  · rfl

theorem key_upd_setS (ir : Nat → IRIns) (ref s i : Nat) :
    (upd ir ref ((ir ref).setS s) i).key = (ir i).key := by
  unfold upd
  split
  · rename_i h; rw [h]; rfl
  · rfl

theorem sameCtl_ra_spill_slot (as : ASMState) (t : Nat) : SameCtl as (ra_spill_slot as t).2 := by
  unfold ra_spill_slot
  split
  · exact sameCtl_refl as
  · split
    · exact sameCtl_refl as
    · exact sameCtl_refl as

theorem sameCtl_ra_spill (T : Target) (as : ASMState) (ref : Nat) (p : Int × ASMState)
    (h : ra_spill T as ref = .ok p) : SameCtl as p.2 := by
  unfold ra_spill at h
  split at h
  · dsimp only at h
    split at h
    · cases h
    · injection h with h
      subst h
      obtain ⟨a1, a2, a3, a4, a5, a6, a7, a8⟩ := sameCtl_ra_spill_slot as (as.ir ref).t
      exact ⟨a1, a2, a3, a4, a5, a6, a7, fun i => (key_upd_setS _ _ _ i).trans (a8 i)⟩
  · injection h with h
    subst h
    exact sameCtl_refl as

theorem sameCtl_ra_rematk (T : Target) (as : ASMState) (ref : Nat) :
    SameCtl as (ra_rematk T as ref).2 := by
  unfold ra_rematk
  dsimp only
  have h1 : SameCtl as { ra_modified (ra_free as (as.ir ref).r) (as.ir ref).r with
      ir := upd (ra_modified (ra_free as (as.ir ref).r) (as.ir ref).r).ir ref
        (((ra_modified (ra_free as (as.ir ref).r) (as.ir ref).r).ir ref).setR T.RID_INIT) } :=
    ⟨rfl, rfl, rfl, rfl, rfl, rfl, rfl, fun i => key_upd_setR as.ir ref _ i⟩
  split
  · exact h1
  · split
    · obtain ⟨a1, a2, a3, a4, a5, a6, a7, a8⟩ := h1
      exact ⟨a1, a2, a3, a4, a5, a6, a7, fun i => (key_upd_setR _ ref _ i).trans (a8 i)⟩
    · exact h1

theorem sameCtl_ra_restore (T : Target) (as : ASMState) (ref : Nat) (p : Nat × ASMState)
    (h : ra_restore T as ref = .ok p) : SameCtl as p.2 := by
  unfold ra_restore at h
  split at h
  · injection h with h
    subst h
    exact sameCtl_ra_rematk T as ref
  · dsimp only at h
    split at h
    · cases h
    · rename_i q hq
      injection h with h
      subst h
      have h1 := sameCtl_ra_spill T _ ref q hq
      have h0 : SameCtl as { ra_modified (ra_free as (as.ir ref).r) (as.ir ref).r with
          ir := upd (ra_modified (ra_free as (as.ir ref).r) (as.ir ref).r).ir ref
            (((ra_modified (ra_free as (as.ir ref).r) (as.ir ref).r).ir ref).setR
              (T.ra_sethint (as.ir ref).r)) } :=
        ⟨rfl, rfl, rfl, rfl, rfl, rfl, rfl, fun i => key_upd_setR as.ir ref _ i⟩
      exact sameCtl_trans h0 h1

theorem sameCtl_ra_allocref_pick (T : Target) (as : ASMState) (ref allow : Nat)
    (p : Nat × ASMState) (h : ra_allocref_pick T as ref allow = .ok p) : SameCtl as p.2 := by
  unfold ra_allocref_pick at h
  split at h
  · split at h
    · injection h with h; subst h; exact sameCtl_refl as
    · split at h
      · injection h with h; subst h; exact sameCtl_ra_rematk T as _
      · split at h
        · split at h
          · injection h with h; subst h; exact sameCtl_refl as
          · injection h with h; subst h; exact sameCtl_refl as
        · injection h with h; subst h; exact sameCtl_refl as
  · exact sameCtl_ra_restore T as _ p h

theorem sameCtl_ra_allocref (T : Target) (as : ASMState) (ref allow : Nat)
    (p : Nat × ASMState) (h : ra_allocref T as ref allow = .ok p) : SameCtl as p.2 := by
  unfold ra_allocref at h
  split at h
  · cases h
  · rename_i q hq
    injection h with h
    subst h
    obtain ⟨a1, a2, a3, a4, a5, a6, a7, a8⟩ := sameCtl_ra_allocref_pick T as ref allow q hq
    exact ⟨a1, a2, a3, a4, a5, a6, a7, fun i => (key_upd_setR _ ref _ i).trans (a8 i)⟩

theorem sameCtl_asm_snap_alloc_ref (X : AsmGen) (T : Target) (as as1 : ASMState) (ref : Nat)
    (h : asm_snap_alloc_ref X T as ref = .ok as1) : SameCtl as as1 := by
  unfold asm_snap_alloc_ref at h
  split at h
  · split at h
    · dsimp only at h
      obtain ⟨allow, hallow⟩ : ∃ allow, allow =
          (if irt_isnum (as.ir ref).t then T.RSET_FPR else T.RSET_GPR) := ⟨_, rfl⟩
      rw [← hallow] at h
      by_cases hc : (¬ iscrossref as ref ∨ irt_isphi (as.ir ref).t) ∧
          (as.freeset &&& allow ≠ 0 ∨ (allow = T.RSET_FPR ∧ asm_snap_canremat T as))
      · rw [if_pos hc] at h
        cases hp : ra_allocref T as ref allow with
        | error e => rw [hp] at h; cases h
        | ok p =>
          rw [hp] at h
          dsimp only at h
          cases hm : checkmclim X p.2 with
          | error e => rw [hm] at h; cases h
          | ok u =>
            rw [hm] at h
            injection h with h
            subst h
            exact sameCtl_ra_allocref T as ref _ p hp
      · rw [if_neg hc] at h
        cases hp : ra_spill T as ref with
        | error e => rw [hp] at h; cases h
        | ok p =>
          rw [hp] at h
          injection h with h
          subst h
          exact sameCtl_ra_spill T as ref p hp
    · injection h with h; subst h; exact sameCtl_refl as
  · injection h with h; subst h; exact sameCtl_refl as

theorem sameCtl_asm_snap_alloc_loop (X : AsmGen) (T : Target) (map : Nat → Nat) :
    ∀ (k s : Nat) (as as1 : ASMState),
      asm_snap_alloc_loop X T map k s as = .ok as1 → SameCtl as as1 := by
  intro k
  induction k with
  | zero =>
    intro s as as1 h
    unfold asm_snap_alloc_loop at h
    injection h with h; subst h; exact sameCtl_refl as
  | succ k ih =>
    intro s as as1 h
    unfold asm_snap_alloc_loop at h
    split at h
    · cases h
    · rename_i as2 h2
      exact sameCtl_trans (sameCtl_asm_snap_alloc_ref X T as as2 _ h2) (ih _ _ _ h)

theorem sameCtl_asm_snap_checkrename (T : Target) (as : ASMState) (Tr : Trace) (ren : Nat)
    (p : Bool × ASMState) (h : asm_snap_checkrename T as Tr ren = .ok p) : SameCtl as p.2 := by
  unfold asm_snap_checkrename at h
  split at h
  · split at h
    · cases h
    · rename_i q hq
      injection h with h
      subst h
      exact sameCtl_ra_spill T as ren q hq
  · injection h with h; subst h; exact sameCtl_refl as

/-- The loop of `asm_snap_prep` stops at the largest snapshot number below `n`
whose reference is not above `curins`, if snapshot #0 is such a snapshot. -/
theorem snap_prep_loop_spec (snap : Nat → SnapShot) (curins : Nat)
    (h0 : (snap 0).ref ≤ curins) :
    ∀ n, 0 < n →
      ∃ m, snap_prep_loop snap curins n = some (m, (snap m).ref) ∧ m < n ∧
        (snap m).ref ≤ curins ∧ ∀ j, m < j → j < n → curins < (snap j).ref := by
  intro n
  induction n with
  | zero => intro h; exact absurd h (by decide)
  | succ n ih =>
    intro _
    unfold snap_prep_loop
    by_cases hc : curins < (snap n).ref
    · rw [if_pos hc]
      have hn : 0 < n := by
        rcases Nat.eq_zero_or_pos n with h | h
        · subst h; omega
        · exact h
      obtain ⟨m, h1, h2, h3, h4⟩ := ih hn
      refine ⟨m, h1, by omega, h3, ?_⟩
      intro j hj1 hj2
      by_cases hjn : j = n
      · rw [hjn]; exact hc
      · exact h4 j hj1 (by omega)
    · rw [if_neg hc]
      exact ⟨n, rfl, by omega, by omega, fun j hj1 hj2 => by omega⟩

theorem snap_rename_loop_spec (T : Target) (Tr : Trace) :
    ∀ (k i : Nat) (as as1 : ASMState), snap_rename_loop T Tr k i as = .ok as1 →
      as1.realign = as.realign ∧ as1.curins = as.curins ∧ as1.stopins = as.stopins ∧
      as1.orignins = as.orignins ∧ as1.snaprename = as.snaprename ∧
      as1.snapno = as.snapno ∧ as1.snapref = as.snapref ∧
      ∀ j, j < i → (as1.ir j).key = (as.ir j).key := by
  intro k
  induction k with
  | zero =>
    intro i as as1 h
    unfold snap_rename_loop at h
    injection h with h
    subst h
    exact ⟨rfl, rfl, rfl, rfl, rfl, rfl, rfl, fun _ _ => rfl⟩
  | succ k ih =>
    intro i as as1 h
    unfold snap_rename_loop at h
    cases hc : asm_snap_checkrename T as Tr (as.ir i).op1 with
    | error e => rw [hc] at h; cases h
    | ok p =>
      rw [hc] at h
      dsimp only at h
      obtain ⟨a1, a2, a3, a4, a5, a6, a7, a8⟩ := sameCtl_asm_snap_checkrename T as Tr _ p hc
      obtain ⟨b1, b2, b3, b4, b5, b6, b7, b8⟩ := ih _ _ _ h
      have hk : ∀ j, j < i →
          ((if p.1 = true then
            { p.2 with ir := upd p.2.ir i { p.2.ir i with op2 := REF_BIAS - 1 } }
            else p.2).ir j).key = (as.ir j).key := by
        intro j hj
        split
        · show (upd p.2.ir i _ j).key = _
          rw [upd_other _ _ _ _ (by omega)]
          exact a8 j
        · exact a8 j
      refine ⟨?_, ?_, ?_, ?_, ?_, ?_, ?_, ?_⟩
      · rw [b1]; split <;> exact a1
      · rw [b2]; split <;> exact a2
      · rw [b3]; split <;> exact a3
      · rw [b4]; split <;> exact a4
      · rw [b5]; split <;> exact a5
      · rw [b6]; split <;> exact a6
      · rw [b7]; split <;> exact a7
      · intro j hj
        rw [b8 j (by omega)]
        exact hk j hj

/-- The first branch of `asm_snap_prep`: the allocation for the snapshot that the
loop has found. -/
theorem asm_snap_prep_down (X : AsmGen) (T : Target) (as : ASMState) (Tr : Trace)
    (hc : as.curins < as.snapref) (hn : as.snapno ≠ 0) (h0 : (Tr.snap 0).ref ≤ as.curins) :
    ∃ m, m < as.snapno ∧ (Tr.snap m).ref ≤ as.curins ∧
      (∀ j, m < j → j < as.snapno → as.curins < (Tr.snap j).ref) ∧
      asm_snap_prep X T as Tr =
        match asm_snap_alloc X T { as with snapno := m, snapref := (Tr.snap m).ref } Tr with
        | .error e => .thrown e
        | .ok as1 => .done { as1 with snaprename := Tr.nins } := by
  obtain ⟨m, h1, h2, h3, h4⟩ := snap_prep_loop_spec Tr.snap as.curins h0 as.snapno
    (Nat.pos_of_ne_zero hn)
  refine ⟨m, h2, h3, h4, ?_⟩
  unfold asm_snap_prep
  rw [if_pos hc, h1]

/-- The second branch of `asm_snap_prep`: the renames above the highwater mark. -/
theorem asm_snap_prep_same (X : AsmGen) (T : Target) (as : ASMState) (Tr : Trace)
    (hc : ¬ as.curins < as.snapref) :
    asm_snap_prep X T as Tr =
      match snap_rename_loop T Tr (Tr.nins - as.snaprename) as.snaprename as with
      | .error e => .thrown e
      | .ok as1 =>
        .done { as1 with
          snaprename := if as.snaprename < Tr.nins then Tr.nins else as.snaprename } := by
  unfold asm_snap_prep
  rw [if_neg hc]

/-- C33: when `asm_snap_prep` is called with `curins < snapref`, with snapshot #0
at or below `curins` and a snapshot number other than 0, it either throws (from
the allocation of registers or spill slots) or returns with `snapno` the largest
snapshot number below the previous one whose reference is not above `curins`
and with `snapref` the reference of that snapshot; the decrement never goes
below 0. When `curins >= snapref` it throws or returns with the snapshot number
and its reference unchanged. -/
theorem asm_snap_prep_snapno (X : AsmGen) (T : Target) (as : ASMState) (Tr : Trace) :
    (as.curins < as.snapref → as.snapno ≠ 0 → (Tr.snap 0).ref ≤ as.curins →
      ∃ m, m < as.snapno ∧ (Tr.snap m).ref ≤ as.curins ∧
        (∀ j, m < j → j < as.snapno → as.curins < (Tr.snap j).ref) ∧
        ((∃ e, asm_snap_prep X T as Tr = .thrown e) ∨
          ∃ as1, asm_snap_prep X T as Tr = .done as1 ∧ as1.snapno = m ∧
            as1.snapref = (Tr.snap m).ref)) ∧
    (as.snapref ≤ as.curins →
      (∃ e, asm_snap_prep X T as Tr = .thrown e) ∨
        ∃ as1, asm_snap_prep X T as Tr = .done as1 ∧ as1.snapno = as.snapno ∧
          as1.snapref = as.snapref) := by
  constructor
  · intro hc hn h0
    obtain ⟨m, h1, h2, h3, h4⟩ := asm_snap_prep_down X T as Tr hc hn h0
    refine ⟨m, h1, h2, h3, ?_⟩
    rw [h4]
    cases ha : asm_snap_alloc X T { as with snapno := m, snapref := (Tr.snap m).ref } Tr with
    | error e => exact Or.inl ⟨e, rfl⟩
    | ok as1 =>
      right
      obtain ⟨_, _, _, _, _, a6, a7, _⟩ := sameCtl_asm_snap_alloc_loop X T _ _ _ _ _ ha
      exact ⟨_, rfl, a6, a7⟩
  · intro hc
    rw [asm_snap_prep_same X T as Tr (by omega)]
    cases ha : snap_rename_loop T Tr (Tr.nins - as.snaprename) as.snaprename as with
    | error e => exact Or.inl ⟨e, rfl⟩
    | ok as1 =>
      right
      obtain ⟨_, _, _, _, _, a6, a7, _⟩ := snap_rename_loop_spec T Tr _ _ _ _ ha
      exact ⟨_, rfl, a6, a7⟩

set_option maxRecDepth 100000 in
theorem asm_snap_prep_snapno_witness :
    ((walkState 0 0x8003 3 0x8006).curins < (walkState 0 0x8003 3 0x8006).snapref ∧
      (walkState 0 0x8003 3 0x8006).snapno ≠ 0 ∧
      (walkTrace.snap 0).ref ≤ (walkState 0 0x8003 3 0x8006).curins) ∧
    (∃ m, m < 3 ∧ (walkTrace.snap m).ref ≤ 0x8003 ∧
      (∀ j, m < j → j < 3 → 0x8003 < (walkTrace.snap j).ref) ∧
      ((∃ e, asm_snap_prep walkGen exampleTarget (walkState 0 0x8003 3 0x8006) walkTrace =
          .thrown e) ∨
        ∃ as1, asm_snap_prep walkGen exampleTarget (walkState 0 0x8003 3 0x8006) walkTrace =
            .done as1 ∧ as1.snapno = m ∧ as1.snapref = (walkTrace.snap m).ref)) ∧
    (asm_snap_prep walkGen exampleTarget (walkState 0 0x8003 3 0x8006) walkTrace).val?.map
      (fun a => (a.snapno, a.snapref, (a.ir 0x8002).s)) = some (1, 0x8003, 4) ∧
    ((walkState 0 0x8003 1 0x8003).snapref ≤ (walkState 0 0x8003 1 0x8003).curins ∧
      ((∃ e, asm_snap_prep walkGen exampleTarget (walkState 0 0x8003 1 0x8003) walkTrace =
          .thrown e) ∨
        ∃ as1, asm_snap_prep walkGen exampleTarget (walkState 0 0x8003 1 0x8003) walkTrace =
            .done as1 ∧ as1.snapno = 1 ∧ as1.snapref = 0x8003)) ∧
    (asm_snap_prep walkGen exampleTarget (walkState 0 0x8003 1 0x8003) walkTrace).val?.map
      (fun a => (a.snapno, a.snapref)) = some (1, 0x8003) :=
  ⟨⟨by decide, by decide, by decide⟩,
    (asm_snap_prep_snapno walkGen exampleTarget (walkState 0 0x8003 3 0x8006) walkTrace).1
      (by decide) (by decide) (by decide),
    by decide,
    ⟨by decide,
      (asm_snap_prep_snapno walkGen exampleTarget (walkState 0 0x8003 1 0x8003) walkTrace).2
        (by decide)⟩,
    by decide⟩

/-! ## Dead code elimination in the backward walk -/

/-- C32, amended: in the backward walk an instruction that is no guard, has no
side effect and has neither a register nor a spill slot is skipped if the
optimisation flag `JIT_F_OPT_DCE` is set: whatever the code generators are,
the body of the loop returns the state and the trace as they were, so
`asm_ir` is not called and no machine code is emitted. If the flag is not set,
the instruction is passed on to `checkmclim` and `asm_ir`. -/
theorem asm_trace_dce (X : AsmGen) (T : Target) (as : ASMState) (Tr : Trace)
    (hg : ¬ irt_isguard (as.ir as.curins).t) (hu : ¬ ra_used T (as.ir as.curins))
    (hs : ¬ irm_sideeff (lj_ir_mode (as.ir as.curins).o)) :
    (as.flags &&& JIT_F_OPT_DCE ≠ 0 → asm_trace_body X T as Tr = .done (as, Tr)) ∧
    (as.flags &&& JIT_F_OPT_DCE = 0 →
      asm_trace_body X T as Tr = asm_trace_ins X T as Tr as.curins) := by
  constructor
  · intro hf
    unfold asm_trace_body
    rw [if_neg hg, if_pos ⟨hu, hs, hf⟩]
  · intro hf
    unfold asm_trace_body
    rw [if_neg hg, if_neg (fun h => h.2.2 hf)]

set_option maxRecDepth 100000 in
theorem asm_trace_dce_witness :
    (¬ irt_isguard ((walkState JIT_F_OPT_DCE 0x8005 3 0x8006).ir 0x8005).t ∧
      ¬ ra_used exampleTarget ((walkState JIT_F_OPT_DCE 0x8005 3 0x8006).ir 0x8005) ∧
      ¬ irm_sideeff (lj_ir_mode ((walkState JIT_F_OPT_DCE 0x8005 3 0x8006).ir 0x8005).o) ∧
      (walkState JIT_F_OPT_DCE 0x8005 3 0x8006).flags &&& JIT_F_OPT_DCE ≠ 0) ∧
    asm_trace_body walkGen exampleTarget (walkState JIT_F_OPT_DCE 0x8005 3 0x8006) walkTrace =
      .done (walkState JIT_F_OPT_DCE 0x8005 3 0x8006, walkTrace) ∧
    ((walkState 0 0x8005 3 0x8006).flags &&& JIT_F_OPT_DCE = 0 ∧
      asm_trace_body walkGen exampleTarget (walkState 0 0x8005 3 0x8006) walkTrace =
        asm_trace_ins walkGen exampleTarget (walkState 0 0x8005 3 0x8006) walkTrace 0x8005) :=
  ⟨⟨by decide, by decide, by decide, by decide⟩,
    (asm_trace_dce walkGen exampleTarget (walkState JIT_F_OPT_DCE 0x8005 3 0x8006) walkTrace
      (by decide) (by decide) (by decide)).1 (by decide),
    ⟨by decide,
      (asm_trace_dce walkGen exampleTarget (walkState 0 0x8005 3 0x8006) walkTrace
        (by decide) (by decide) (by decide)).2 (by decide)⟩⟩

set_option maxRecDepth 100000 in
/-- C32, counterexample: without the flag `JIT_F_OPT_DCE` the unused
multiplication at `0x8005`, which is no guard and has no side effect, is
assembled: the code generator is called and emits its byte below `mcp`. With
the flag the state stays as it is. -/
theorem asm_trace_dce_flag_counterexample :
    ¬ irt_isguard ((walkState 0 0x8005 3 0x8006).ir 0x8005).t ∧
    ¬ ra_used exampleTarget ((walkState 0 0x8005 3 0x8006).ir 0x8005) ∧
    ¬ irm_sideeff (lj_ir_mode ((walkState 0 0x8005 3 0x8006).ir 0x8005).o) ∧
    (walkState 0 0x8005 3 0x8006).mcp = 0xffb ∧
    (asm_trace_body walkGen exampleTarget (walkState 0 0x8005 3 0x8006) walkTrace).val?.map
      (fun p => (p.1.mcp, (p.1.mem 0xffa).val)) = some (0xffa, 0x90) ∧
    (asm_trace_body walkGen exampleTarget (walkState JIT_F_OPT_DCE 0x8005 3 0x8006)
      walkTrace).val?.map (fun p => (p.1.mcp, (p.1.mem 0xffa).val)) = some (0xffb, 0) := by
  decide

/-! ## The retry loop of `lj_asm_trace` -/

theorem walkInv_keeps (ir0 : Nat → IRIns) (s0 n0 : Nat) (a b : ASMState) (t u : Trace)
    (h : WalkInv ir0 s0 n0 a t) (k : KeepsWalk a t b u) : WalkInv ir0 s0 n0 b u := by
  obtain ⟨h1, h2, h3, h4, h5⟩ := h
  obtain ⟨_, _, k3, k4, k5, k6, k7⟩ := k
  refine ⟨k3.trans h1, k4.trans h2, by omega, by omega, ?_⟩
  intro i hi
  rw [k7 i (by omega)]
  exact h5 i hi

/-- `asm_loop_fixup` clears the marker if it is set; it sets the marker only if it
is cleared, and then it ends the walk and removes the renames. -/
theorem asm_loop_fixup_spec (T : Target) (as : ASMState) (Tr : Trace) :
    (asm_loop_fixup T as Tr).1.stopins = as.stopins ∧
    (asm_loop_fixup T as Tr).1.orignins = as.orignins ∧
    (asm_loop_fixup T as Tr).1.snaprename = as.snaprename ∧
    (asm_loop_fixup T as Tr).1.ir = as.ir ∧
    (as.realign ≠ 0 → (asm_loop_fixup T as Tr).1.realign = 0 ∧
      (asm_loop_fixup T as Tr).1.curins = as.curins ∧ (asm_loop_fixup T as Tr).2 = Tr) ∧
    (as.realign = 0 →
      ((asm_loop_fixup T as Tr).1.realign = 0 ∧
        (asm_loop_fixup T as Tr).1.curins = as.curins ∧ (asm_loop_fixup T as Tr).2 = Tr) ∨
      ((asm_loop_fixup T as Tr).1.realign ≠ 0 ∧
        (asm_loop_fixup T as Tr).1.curins = as.stopins ∧
        (asm_loop_fixup T as Tr).2.nins = as.orignins)) := by
  unfold asm_loop_fixup
  dsimp only
  by_cases hr : as.realign ≠ 0
  · rw [if_pos hr]
    by_cases hl : as.loopinv ≠ 0
    · rw [if_pos hl]
      exact ⟨rfl, rfl, rfl, rfl, fun _ => ⟨rfl, rfl, rfl⟩, fun h => absurd h hr⟩
    · rw [if_neg hl]
      exact ⟨rfl, rfl, rfl, rfl, fun _ => ⟨rfl, rfl, rfl⟩, fun h => absurd h hr⟩
  · rw [if_neg hr]
    split_ifs <;>
      first
      | exact ⟨rfl, rfl, rfl, rfl, fun h => absurd h hr, fun h => Or.inl ⟨h, rfl, rfl⟩⟩
      | exact ⟨rfl, rfl, rfl, rfl, fun h => absurd h hr,
          fun _ => Or.inr ⟨Nat.succ_ne_zero _, rfl, rfl⟩⟩

/-- The middle part of a loop keeps the invariant of the walk; the marker changes
as in `asm_loop_fixup`. -/
theorem asm_loop_spec (X : AsmGen) (T : Target) (hX : X.Frame) (ir0 : Nat → IRIns)
    (s0 n0 : Nat) (as as1 : ASMState) (Tr Tr1 : Trace) (hinv : WalkInv ir0 s0 n0 as Tr)
    (h : asm_loop X T as Tr = .ok (as1, Tr1)) :
    WalkInv ir0 s0 n0 as1 Tr1 ∧
    (as.realign ≠ 0 → as1.realign = 0 ∧ as1.curins = as.curins) ∧
    (as.realign = 0 → (as1.realign = 0 ∧ as1.curins = as.curins) ∨
      (as1.realign ≠ 0 ∧ as1.curins = s0 ∧ Tr1.nins = n0)) := by
  obtain ⟨_, hphi, hgc, _⟩ := hX
  unfold asm_loop at h
  dsimp only at h
  obtain ⟨r2, hr2⟩ : ∃ r2, r2 = (if as.gcsteps ≠ 0 then
      X.asm_gc_check { as with loopsnapno := as.snapno } Tr as.snapno
      else .ok ({ as with loopsnapno := as.snapno }, Tr)) := ⟨_, rfl⟩
  rw [← hr2] at h
  cases r2 with
  | error e => cases h
  | ok p2 =>
    dsimp only at h
    have k2 : KeepsWalk as Tr p2.1 p2.2 := by
      by_cases hg : as.gcsteps ≠ 0
      · rw [if_pos hg] at hr2
        exact hgc { as with loopsnapno := as.snapno } Tr as.snapno p2.1 p2.2 hr2.symm
      · rw [if_neg hg] at hr2
        injection hr2 with hr2
        subst hr2
        exact ⟨rfl, rfl, rfl, rfl, rfl, le_refl _, fun _ _ => rfl⟩
    cases hp3 : X.asm_phi_shuffle
        { p2.1 with testmcp := 0, invmcp := 0, sectref := 0,
                    fuseref := if ¬ neverfuse p2.1 then 0 else p2.1.fuseref } p2.2 with
    | error e => rw [hp3] at h; cases h
    | ok p3 =>
      rw [hp3] at h
      dsimp only at h
      have k3 := hphi _ _ p3.1 p3.2 hp3
      have hinv2 : WalkInv ir0 s0 n0 p2.1 p2.2 := walkInv_keeps _ _ _ _ _ _ _ hinv k2
      have hinv3 : WalkInv ir0 s0 n0 p3.1 p3.2 :=
        walkInv_keeps ir0 s0 n0 _ _ _ _ (by exact hinv2) k3
      have e1 : p3.1.realign = as.realign := k3.1.trans k2.1
      have e2 : p3.1.curins = as.curins := k3.2.1.trans k2.2.1
      obtain ⟨f1, f2, f3, f4, f5, f6⟩ := asm_loop_fixup_spec T p3.1 p3.2
      injection h with h
      injection h with ha ht
      obtain ⟨i1, i2, i3, i4, i5⟩ := hinv3
      have hnins : n0 ≤ (asm_loop_fixup T p3.1 p3.2).2.nins := by
        by_cases hr : p3.1.realign ≠ 0
        · rw [(f5 hr).2.2]; exact i3
        · rcases f6 (not_not.1 hr) with g | g
          · rw [g.2.2]; exact i3
          · rw [g.2.2, i2]
      refine ⟨?_, ?_, ?_⟩
      · rw [← ha, ← ht]
        refine ⟨f1.trans i1, f2.trans i2, hnins, ?_, ?_⟩
        · show n0 ≤ (asm_loop_fixup T p3.1 p3.2).1.snaprename
          rw [f3]; exact i4
        · intro i hi
          show ((asm_loop_fixup T p3.1 p3.2).1.ir i).key = _
          rw [f4]
          exact i5 i hi
      · intro hr
        rw [← e1] at hr
        rw [← ha]
        exact ⟨(f5 hr).1, (f5 hr).2.1.trans e2⟩
      · intro hr
        rw [← e1] at hr
        rw [← ha, ← ht]
        rcases f6 hr with g | g
        · exact Or.inl ⟨g.1, g.2.1.trans e2⟩
        · exact Or.inr ⟨g.1, g.2.1.trans i1, g.2.2.trans i2⟩

/-- The preparation of a snapshot keeps the invariant of the walk, the marker and
the current instruction; it does not reach the bound of the model. -/
theorem asm_snap_prep_inv (X : AsmGen) (T : Target) (ir0 : Nat → IRIns) (s0 n0 : Nat)
    (as : ASMState) (Tr : Trace) (hinv : WalkInv ir0 s0 n0 as Tr) :
    asm_snap_prep X T as Tr ≠ .nofuel ∧
    ∀ as1, asm_snap_prep X T as Tr = .done as1 →
      WalkInv ir0 s0 n0 as1 Tr ∧ as1.realign = as.realign ∧ as1.curins = as.curins := by
  obtain ⟨i1, i2, i3, i4, i5⟩ := hinv
  by_cases hc : as.curins < as.snapref
  · unfold asm_snap_prep
    rw [if_pos hc]
    cases hl : snap_prep_loop Tr.snap as.curins as.snapno with
    | none =>
      dsimp only
      exact ⟨fun h => Walk.noConfusion h, fun as1 h => Walk.noConfusion h⟩
    | some p =>
      dsimp only
      cases ha : asm_snap_alloc X T { as with snapno := p.1, snapref := p.2 } Tr with
      | error e =>
        dsimp only
        exact ⟨fun h => Walk.noConfusion h, fun as1 h => Walk.noConfusion h⟩
      | ok as2 =>
        dsimp only
        refine ⟨fun h => Walk.noConfusion h, ?_⟩
        intro as1 h
        injection h with h
        subst h
        obtain ⟨a1, a2, a3, a4, _, _, _, a8⟩ := sameCtl_asm_snap_alloc_loop X T _ _ _ _ _ ha
        refine ⟨⟨a3.trans i1, a4.trans i2, i3, i3, ?_⟩, a1, a2⟩
        intro i hi
        exact (a8 i).trans (i5 i hi)
  · rw [asm_snap_prep_same X T as Tr hc]
    cases ha : snap_rename_loop T Tr (Tr.nins - as.snaprename) as.snaprename as with
    | error e =>
      dsimp only
      exact ⟨fun h => Walk.noConfusion h, fun as1 h => Walk.noConfusion h⟩
    | ok as2 =>
      dsimp only
      refine ⟨fun h => Walk.noConfusion h, ?_⟩
      intro as1 h
      injection h with h
      subst h
      obtain ⟨a1, a2, a3, a4, _, _, _, a8⟩ := snap_rename_loop_spec T Tr _ _ _ _ ha
      refine ⟨⟨a3.trans i1, a4.trans i2, i3, ?_, ?_⟩, a1, a2⟩
      · show n0 ≤ (if as.snaprename < Tr.nins then Tr.nins else as.snaprename)
        split <;> omega
      · intro i hi
        exact (a8 i (by omega)).trans (i5 i hi)

theorem key_o (a b : IRIns) (h : a.key = b.key) : a.o = b.o := congrArg Prod.fst h

/-- The statements `checkmclim(as); asm_ir(as, ir);` keep the invariant of the
walk; only the LOOP instruction changes the marker. -/
theorem asm_trace_ins_spec (X : AsmGen) (T : Target) (hX : X.Frame) (ir0 : Nat → IRIns)
    (s0 n0 : Nat) (as : ASMState) (Tr : Trace) (ref : Nat) (hinv : WalkInv ir0 s0 n0 as Tr)
    (href : ref < n0) :
    asm_trace_ins X T as Tr ref ≠ .nofuel ∧ asm_trace_ins X T as Tr ref ≠ .failed ∧
    ∀ as1 Tr1, asm_trace_ins X T as Tr ref = .done (as1, Tr1) →
      WalkInv ir0 s0 n0 as1 Tr1 ∧
      ((ir0 ref).o ≠ IR_LOOP → as1.realign = as.realign ∧ as1.curins = as.curins) ∧
      ((ir0 ref).o = IR_LOOP →
        (as.realign ≠ 0 → as1.realign = 0 ∧ as1.curins = as.curins) ∧
        (as.realign = 0 → (as1.realign = 0 ∧ as1.curins = as.curins) ∨
          (as1.realign ≠ 0 ∧ as1.curins = s0 ∧ Tr1.nins = n0))) := by
  have ho : (as.ir ref).o = (ir0 ref).o := key_o _ _ (hinv.2.2.2.2 ref href)
  unfold asm_trace_ins
  cases hm : checkmclim X as with
  | error e =>
    dsimp only
    exact ⟨fun h => Walk.noConfusion h, fun h => Walk.noConfusion h,
      fun _ _ h => Walk.noConfusion h⟩
  | ok u =>
    dsimp only
    cases hi : asm_ir X T as Tr ref with
    | error e =>
      dsimp only
      exact ⟨fun h => Walk.noConfusion h, fun h => Walk.noConfusion h,
        fun _ _ h => Walk.noConfusion h⟩
    | ok p =>
      dsimp only
      refine ⟨fun h => Walk.noConfusion h, fun h => Walk.noConfusion h, ?_⟩
      intro as1 Tr1 h
      injection h with h
      subst h
      unfold asm_ir at hi
      by_cases hl : (as.ir ref).o = IR_LOOP
      · rw [if_pos hl] at hi
        obtain ⟨l1, l2, l3⟩ := asm_loop_spec X T hX ir0 s0 n0 as as1 Tr Tr1 hinv hi
        exact ⟨l1, fun h => absurd (ho ▸ hl) h, fun _ => ⟨l2, l3⟩⟩
      · rw [if_neg hl] at hi
        have k := hX.1 as Tr ref as1 Tr1 hi
        exact ⟨walkInv_keeps _ _ _ _ _ _ _ hinv k, fun _ => ⟨k.1, k.2.1⟩,
          fun h => absurd (ho.trans h) hl⟩

/-- The body of the loop of `asm_trace` keeps the invariant of the walk; only the
LOOP instruction changes the marker. -/
theorem asm_trace_body_spec (X : AsmGen) (T : Target) (hX : X.Frame) (ir0 : Nat → IRIns)
    (s0 n0 : Nat) (as : ASMState) (Tr : Trace) (hinv : WalkInv ir0 s0 n0 as Tr)
    (hc : as.curins < n0) :
    asm_trace_body X T as Tr ≠ .nofuel ∧
    ∀ as1 Tr1, asm_trace_body X T as Tr = .done (as1, Tr1) →
      WalkInv ir0 s0 n0 as1 Tr1 ∧
      ((ir0 as.curins).o ≠ IR_LOOP → as1.realign = as.realign ∧ as1.curins = as.curins) ∧
      ((ir0 as.curins).o = IR_LOOP →
        (as.realign ≠ 0 → as1.realign = 0 ∧ as1.curins = as.curins) ∧
        (as.realign = 0 → (as1.realign = 0 ∧ as1.curins = as.curins) ∨
          (as1.realign ≠ 0 ∧ as1.curins = s0 ∧ Tr1.nins = n0))) := by
  unfold asm_trace_body
  by_cases hg : irt_isguard (as.ir as.curins).t
  · rw [if_pos hg]
    obtain ⟨p1, p2⟩ := asm_snap_prep_inv X T ir0 s0 n0 as Tr hinv
    cases hp : asm_snap_prep X T as Tr with
    | done as2 =>
      dsimp only
      obtain ⟨q1, q2, q3⟩ := p2 as2 hp
      obtain ⟨r1, _, r3⟩ := asm_trace_ins_spec X T hX ir0 s0 n0 as2 Tr as.curins q1 hc
      refine ⟨r1, ?_⟩
      intro as1 Tr1 h
      obtain ⟨t1, t2, t3⟩ := r3 as1 Tr1 h
      rw [q2, q3] at t2 t3
      exact ⟨t1, t2, t3⟩
    | thrown e =>
      dsimp only
      exact ⟨fun h => Walk.noConfusion h, fun _ _ h => Walk.noConfusion h⟩
    | failed =>
      dsimp only
      exact ⟨fun h => Walk.noConfusion h, fun _ _ h => Walk.noConfusion h⟩
    | nofuel => exact absurd hp p1
  · rw [if_neg hg]
    by_cases hd : ¬ ra_used T (as.ir as.curins) ∧
        ¬ irm_sideeff (lj_ir_mode (as.ir as.curins).o) ∧ as.flags &&& JIT_F_OPT_DCE ≠ 0
    · rw [if_pos hd]
      refine ⟨fun h => Walk.noConfusion h, ?_⟩
      intro as1 Tr1 h
      injection h with h
      injection h with h1 h2
      subst h1 h2
      refine ⟨hinv, fun _ => ⟨rfl, rfl⟩, ?_⟩
      intro hl
      have ho : (as.ir as.curins).o = IR_LOOP :=
        (key_o _ _ (hinv.2.2.2.2 as.curins hc)).trans hl
      have : irm_sideeff (lj_ir_mode IR_LOOP) := by decide
      rw [← ho] at this
      exact absurd this hd.2.1
    · rw [if_neg hd]
      obtain ⟨r1, _, r3⟩ := asm_trace_ins_spec X T hX ir0 s0 n0 as Tr as.curins hinv hc
      exact ⟨r1, r3⟩

theorem asm_trace_loop_stop (X : AsmGen) (T : Target) (fuel : Nat) (as : ASMState) (Tr : Trace)
    (hf : 0 < fuel) (hc : ¬ as.curins > as.stopins) :
    asm_trace_loop X T fuel as Tr = .done (as, Tr) := by
  cases fuel with
  | zero => exact absurd hf (by decide)
  | succ n =>
    unfold asm_trace_loop
    rw [if_neg hc]

theorem walkInv_curins (ir0 : Nat → IRIns) (s0 n0 : Nat) (as : ASMState) (Tr : Trace) (c : Nat)
    (h : WalkInv ir0 s0 n0 as Tr) : WalkInv ir0 s0 n0 { as with curins := c } Tr := h

/-- The backward walk ends within `curins + 1` iterations. The marker stays as it
is if no LOOP instruction is left to be assembled; it is cleared at the end if
it was set and the only LOOP instruction is still to be assembled; and if it
was cleared and is set at the end, then a LOOP instruction has been assembled
and the renames have been removed. -/
theorem asm_trace_loop_spec (X : AsmGen) (T : Target) (hX : X.Frame) (ir0 : Nat → IRIns)
    (s0 n0 : Nat) (hs0 : 0 < s0) (hn0 : n0 ≤ 4294967296) :
    ∀ (fuel : Nat) (as : ASMState) (Tr : Trace),
      WalkInv ir0 s0 n0 as Tr → as.curins < n0 → as.curins + 1 ≤ fuel →
      asm_trace_loop X T fuel as Tr ≠ .nofuel ∧
      ∀ as1 Tr1, asm_trace_loop X T fuel as Tr = .done (as1, Tr1) →
        WalkInv ir0 s0 n0 as1 Tr1 ∧
        ((∀ i, s0 < i → i ≤ as.curins → (ir0 i).o ≠ IR_LOOP) → as1.realign = as.realign) ∧
        (as.realign ≠ 0 → ∀ c, s0 < c → c ≤ as.curins → (ir0 c).o = IR_LOOP →
          (∀ i, i < n0 → (ir0 i).o = IR_LOOP → i = c) → as1.realign = 0) ∧
        (as.realign = 0 → as1.realign ≠ 0 →
          (∃ c, s0 < c ∧ c ≤ as.curins ∧ (ir0 c).o = IR_LOOP) ∧ Tr1.nins = n0) := by
  intro fuel
  induction fuel with
  | zero => intro as Tr _ _ hf; omega
  | succ n ih =>
    intro as Tr hinv hc hf
    have hst : as.stopins = s0 := hinv.1
    unfold asm_trace_loop
    by_cases hgt : as.curins > as.stopins
    · rw [if_pos hgt]
      obtain ⟨b1, b2⟩ := asm_trace_body_spec X T hX ir0 s0 n0 as Tr hinv hc
      cases hb : asm_trace_body X T as Tr with
      | thrown e =>
        dsimp only
        exact ⟨fun h => Walk.noConfusion h, fun _ _ h => Walk.noConfusion h⟩
      | failed =>
        dsimp only
        exact ⟨fun h => Walk.noConfusion h, fun _ _ h => Walk.noConfusion h⟩
      | nofuel => exact absurd hb b1
      | done p =>
        dsimp only
        obtain ⟨c1, c2, c3⟩ := b2 p.1 p.2 hb
        by_cases hl : (ir0 as.curins).o = IR_LOOP
        · obtain ⟨d1, d2⟩ := c3 hl
          -- the LOOP instruction
          have hcase : (p.1.realign = 0 ∧ p.1.curins = as.curins) ∨
              (as.realign = 0 ∧ p.1.realign ≠ 0 ∧ p.1.curins = s0 ∧ p.2.nins = n0) := by
            by_cases hr : as.realign ≠ 0
            · exact Or.inl (d1 hr)
            · rcases d2 (not_not.1 hr) with g | g
              · exact Or.inl g
              · exact Or.inr ⟨not_not.1 hr, g⟩
          rcases hcase with ⟨g1, g2⟩ | ⟨g0, g1, g2, g3⟩
          · have hu : u32 ((p.1.curins : Int) - 1) = as.curins - 1 := by
              rw [g2]; exact u32_pred _ (by omega) (by omega)
            rw [hu]
            obtain ⟨e1, e2⟩ := ih { p.1 with curins := as.curins - 1 } p.2
              (walkInv_curins _ _ _ _ _ _ c1) (by show as.curins - 1 < n0; omega)
              (by show as.curins - 1 + 1 ≤ n; omega)
            refine ⟨e1, ?_⟩
            intro as1 Tr1 h
            obtain ⟨f1, f2, f3, f4⟩ := e2 as1 Tr1 h
            refine ⟨f1, ?_, ?_, ?_⟩
            · intro hno
              exact absurd hl (hno as.curins (by omega) (le_refl _))
            · intro hr c hc1 hc2 hc3 huniq
              have h0 : as1.realign = p.1.realign := by
                apply f2
                intro i hi1 hi2 hi3
                have hi4 : i ≤ as.curins - 1 := hi2
                have := huniq i (by omega) hi3
                have := huniq as.curins hc hl
                omega
              rw [h0, g1]
            · intro hr hr1
              obtain ⟨⟨c, k1, k2, k3⟩, k4⟩ := f4 g1 hr1
              have k2' : c ≤ as.curins - 1 := k2
              exact ⟨⟨c, k1, by omega, k3⟩, k4⟩
          · have hu : u32 ((p.1.curins : Int) - 1) = s0 - 1 := by
              rw [g2]; exact u32_pred _ hs0 (by omega)
            rw [hu]
            have hstop := asm_trace_loop_stop X T n { p.1 with curins := s0 - 1 } p.2
              (by omega) (by
                show ¬ s0 - 1 > p.1.stopins
                rw [c1.1]; omega)
            rw [hstop]
            refine ⟨fun h => Walk.noConfusion h, ?_⟩
            intro as1 Tr1 h
            injection h with h
            injection h with h1 h2
            subst h1 h2
            refine ⟨walkInv_curins _ _ _ _ _ _ c1, ?_, ?_, ?_⟩
            · intro hno
              exact absurd hl (hno as.curins (by omega) (le_refl _))
            · intro hr
              exact absurd g0 hr
            · intro _ _
              exact ⟨⟨as.curins, by omega, le_refl _, hl⟩, g3⟩
        · obtain ⟨g1, g2⟩ := c2 hl
          have hu : u32 ((p.1.curins : Int) - 1) = as.curins - 1 := by
            rw [g2]; exact u32_pred _ (by omega) (by omega)
          rw [hu]
          obtain ⟨e1, e2⟩ := ih { p.1 with curins := as.curins - 1 } p.2
            (walkInv_curins _ _ _ _ _ _ c1) (by show as.curins - 1 < n0; omega)
            (by show as.curins - 1 + 1 ≤ n; omega)
          refine ⟨e1, ?_⟩
          intro as1 Tr1 h
          obtain ⟨f1, f2, f3, f4⟩ := e2 as1 Tr1 h
          refine ⟨f1, ?_, ?_, ?_⟩
          · intro hno
            have h0 : as1.realign = p.1.realign := by
              apply f2
              intro i hi1 hi2
              have hi3 : i ≤ as.curins - 1 := hi2
              exact hno i hi1 (by omega)
            rw [h0, g1]
          · intro hr c hc1 hc2 hc3 huniq
            have hne : c ≠ as.curins := fun e => hl (e ▸ hc3)
            exact f3 (by show p.1.realign ≠ 0; rw [g1]; exact hr) c hc1
              (by show c ≤ as.curins - 1; omega) hc3 huniq
          · intro hr hr1
            obtain ⟨⟨c, k1, k2, k3⟩, k4⟩ := f4 (by show p.1.realign = 0; rw [g1]; exact hr) hr1
            have k2' : c ≤ as.curins - 1 := k2
            exact ⟨⟨c, k1, by omega, k3⟩, k4⟩
    · rw [if_neg hgt]
      refine ⟨fun h => Walk.noConfusion h, ?_⟩
      intro as1 Tr1 h
      injection h with h
      injection h with h1 h2
      subst h1 h2
      refine ⟨hinv, fun _ => rfl, ?_, ?_⟩
      · intro _ c hc1 hc2
        omega
      · intro h0 h1
        exact absurd h0 h1

theorem key_op1 (a b : IRIns) (h : a.key = b.key) : a.op1 = b.op1 :=
  congrArg (fun k => k.2.1) h

theorem key_op2 (a b : IRIns) (h : a.key = b.key) : a.op2 = b.op2 :=
  congrArg (fun k => k.2.2) h

theorem key_upd_prev (ir : Nat → IRIns) (i v j : Nat) :
    (upd ir i { ir i with prev := v } j).key = (ir j).key := by
  unfold upd
  split
  · rename_i h; rw [h]; rfl
  · rfl

theorem sameCtl_setPrev (a b : ASMState) (i v : Nat) (h : SameCtl a b) :
    SameCtl a (setPrev b i v) := by
  obtain ⟨h1, h2, h3, h4, h5, h6, h7, h8⟩ := h
  exact ⟨h1, h2, h3, h4, h5, h6, h7, fun j => (key_upd_prev _ _ _ j).trans (h8 j)⟩

/-- The body of the main loop of `asm_setup_regsp` assigns no field that controls
the walk but the stop, which becomes `stopAfter`, and no opcode or operand. -/
theorem setup_regsp_ins_spec (T : Target) (parentmap : Nat → Nat) (i : Nat)
    (p : Bool × ASMState) :
    SameCtl { p.2 with stopins := stopAfter (p.2.ir i) i p.2.stopins }
      (setup_regsp_ins T parentmap i p).2 := by
  have base : ∀ a : ASMState, SameCtl { a with stopins := a.stopins } a :=
    fun a => ⟨rfl, rfl, rfl, rfl, rfl, rfl, rfl, fun _ => rfl⟩
  have mods : ∀ (a : ASMState) (m : Nat),
      SameCtl { a with stopins := a.stopins } { a with modset := m } :=
    fun a m => ⟨rfl, rfl, rfl, rfl, rfl, rfl, rfl, fun _ => rfl⟩
  unfold setup_regsp_ins stopAfter
  dsimp only
  by_cases h1 : (p.2.ir i).o = IR_LOOP
  · rw [if_pos h1, if_pos h1]
    exact sameCtl_setPrev _ _ _ _ (base _)
  · rw [if_neg h1, if_neg h1]
    by_cases h2 : (p.2.ir i).o = IR_SLOAD
    · rw [if_pos h2, if_pos h2]
      by_cases h3 : (p.2.ir i).op2 &&& IRSLOAD_PARENT ≠ 0
      · rw [if_pos h3, if_pos h3]
        split
        · exact sameCtl_setPrev _ _ _ _ (sameCtl_refl _)
        · exact sameCtl_setPrev _ _ _ _ (sameCtl_refl _)
      · rw [if_neg h3, if_neg h3]
        exact sameCtl_setPrev _ _ _ _ (base _)
    · rw [if_neg h2, if_neg h2]
      by_cases h3 : (p.2.ir i).o = IR_FRAME
      · rw [if_pos h3, if_pos h3]
        by_cases h4 : i = p.2.stopins + 1 ∧ (p.2.ir i).op1 = (p.2.ir i).op2
        · rw [if_pos h4, if_pos h4]
          exact sameCtl_setPrev _ _ _ _ (sameCtl_refl _)
        · rw [if_neg h4, if_neg h4]
          exact sameCtl_setPrev _ _ _ _ (base _)
      · rw [if_neg h3, if_neg h3]
        split
        · split
          · exact sameCtl_trans (sameCtl_setPrev _ _ _ _ (base _))
              ⟨rfl, rfl, rfl, rfl, rfl, rfl, rfl, fun _ => rfl⟩
          · exact sameCtl_setPrev _ _ _ _ (base _)
        · split
          · split
            · exact sameCtl_setPrev _ _ _ _ (mods _ _)
            · exact sameCtl_setPrev _ _ _ _ (base _)
          · split
            · split
              · exact sameCtl_setPrev _ _ _ _ (mods _ _)
              · exact sameCtl_setPrev _ _ _ _ (base _)
            · split
              · split
                · exact sameCtl_setPrev _ _ _ _
                    ⟨rfl, rfl, rfl, rfl, rfl, rfl, rfl, fun j => key_upd_setR _ _ _ j⟩
                · exact sameCtl_setPrev _ _ _ _ (base _)
              · split
                · exact sameCtl_setPrev _ _ _ _ (base _)
                · split
                  · exact sameCtl_setPrev _ _ _ _ (base _)
                  · exact sameCtl_setPrev _ _ _ _ (base _)

theorem stopAfter_pos (ir : IRIns) (i s : Nat) (hi : 0 < i) (hs : 0 < s) :
    0 < stopAfter ir i s := by
  unfold stopAfter
  split_ifs <;> omega

theorem stopAfter_congr (a b : IRIns) (i s : Nat) (h : a.key = b.key) :
    stopAfter a i s = stopAfter b i s := by
  unfold stopAfter
  rw [show a.o = b.o from congrArg Prod.fst h, key_op1 a b h, key_op2 a b h]

theorem setup_regsp_loop_spec (T : Target) (parentmap : Nat → Nat) (nins : Nat) :
    ∀ (fuel i : Nat) (p : Bool × ASMState), 0 < i → 0 < p.2.stopins →
      (setup_regsp_loop T parentmap nins fuel i p).2.realign = p.2.realign ∧
      (setup_regsp_loop T parentmap nins fuel i p).2.curins = p.2.curins ∧
      (setup_regsp_loop T parentmap nins fuel i p).2.orignins = p.2.orignins ∧
      (setup_regsp_loop T parentmap nins fuel i p).2.snaprename = p.2.snaprename ∧
      (∀ j, ((setup_regsp_loop T parentmap nins fuel i p).2.ir j).key = (p.2.ir j).key) ∧
      0 < (setup_regsp_loop T parentmap nins fuel i p).2.stopins := by
  intro fuel
  induction fuel with
  | zero =>
    intro i p _ hs
    exact ⟨rfl, rfl, rfl, rfl, fun _ => rfl, hs⟩
  | succ n ih =>
    intro i p hi hs
    unfold setup_regsp_loop
    split
    · obtain ⟨a1, a2, a3, a4, a5, _, _, a8⟩ := setup_regsp_ins_spec T parentmap i p
      have hs1 : 0 < (setup_regsp_ins T parentmap i p).2.stopins := by
        rw [a3]
        exact stopAfter_pos _ _ _ hi hs
      obtain ⟨b1, b2, b3, b4, b5, b6⟩ := ih (i + 1) (setup_regsp_ins T parentmap i p)
        (by omega) hs1
      exact ⟨b1.trans a1, b2.trans a2, b3.trans a4, b4.trans a5,
        fun j => (b5 j).trans (a8 j), b6⟩
    · exact ⟨rfl, rfl, rfl, rfl, fun _ => rfl, hs⟩

/-- The stop that the main loop of `asm_setup_regsp` computes depends on the
opcodes and operands of the instructions below `nins` only. -/
theorem setup_regsp_loop_congr (T : Target) (parentmap : Nat → Nat) (nins : Nat) :
    ∀ (fuel i : Nat) (p q : Bool × ASMState), p.2.stopins = q.2.stopins →
      (∀ j, j < nins → (p.2.ir j).key = (q.2.ir j).key) →
      (setup_regsp_loop T parentmap nins fuel i p).2.stopins =
        (setup_regsp_loop T parentmap nins fuel i q).2.stopins := by
  intro fuel
  induction fuel with
  | zero =>
    intro i p q hs _
    exact hs
  | succ n ih =>
    intro i p q hs hk
    unfold setup_regsp_loop
    by_cases hi : i < nins
    · rw [if_pos hi, if_pos hi]
      obtain ⟨_, _, a3, _, _, _, _, a8⟩ := setup_regsp_ins_spec T parentmap i p
      obtain ⟨_, _, b3, _, _, _, _, b8⟩ := setup_regsp_ins_spec T parentmap i q
      apply ih
      · rw [a3, b3]
        show stopAfter (p.2.ir i) i p.2.stopins = stopAfter (q.2.ir i) i q.2.stopins
        rw [hs, stopAfter_congr _ _ _ _ (hk i hi)]
      · intro j hj
        rw [a8 j, b8 j]
        exact hk j hj
    · rw [if_neg hi, if_neg hi]
      exact hs

theorem strip_renames_le (ir : Nat → IRIns) : ∀ n, strip_renames ir n ≤ n := by
  intro n
  induction n with
  | zero => exact le_refl _
  | succ n ih =>
    unfold strip_renames
    split
    · omega
    · exact le_refl _

theorem strip_renames_congr (ir ir1 : Nat → IRIns) :
    ∀ n, (∀ j, j < n → (ir j).o = (ir1 j).o) → strip_renames ir n = strip_renames ir1 n := by
  intro n
  induction n with
  | zero => intro _; rfl
  | succ n ih =>
    intro h
    unfold strip_renames
    rw [h n (by omega)]
    split
    · exact ih (fun j hj => h j (by omega))
    · rfl

theorem strip_renames_idem (ir : Nat → IRIns) :
    ∀ n, strip_renames ir (strip_renames ir n) = strip_renames ir n := by
  intro n
  induction n with
  | zero => rfl
  | succ n ih =>
    by_cases h : (ir n).o = IR_RENAME
    · have e : strip_renames ir (n + 1) = strip_renames ir n := by
        rw [strip_renames, if_pos h]
      rw [e]
      exact ih
    · have e : strip_renames ir (n + 1) = n + 1 := by
        rw [strip_renames, if_neg h]
      rw [e, e]

theorem strip_renames_gt (ir : Nat → IRIns) (k : Nat) (hk : (ir k).o ≠ IR_RENAME) :
    ∀ n, k < n → k < strip_renames ir n := by
  intro n
  induction n with
  | zero => intro h; omega
  | succ n ih =>
    intro h
    unfold strip_renames
    split
    · rename_i hr
      have : k ≠ n := fun e => hk (e ▸ hr)
      exact ih (by omega)
    · exact h

theorem key_setup_consts (T : Target) (as : ASMState) (nk j : Nat) :
    ((setPrev (setup_regsp_consts T as nk) REF_BASE (T.REGSP_HINT T.RID_BASE)).ir j).key =
      (as.ir j).key := by
  unfold setPrev
  refine (key_upd_prev _ _ _ j).trans ?_
  show (if nk ≤ j ∧ j < REF_BIAS then { as.ir j with prev := T.REGSP_INIT % 65536 }
    else as.ir j).key = _
  split <;> rfl

theorem strip_setup_consts (T : Target) (as : ASMState) (nk n : Nat) :
    strip_renames (setPrev (setup_regsp_consts T as nk) REF_BASE (T.REGSP_HINT T.RID_BASE)).ir n =
      strip_renames as.ir n :=
  strip_renames_congr _ _ _ (fun j _ => congrArg Prod.fst (key_setup_consts T as nk j))

/-- `asm_setup_regsp` keeps the marker, the opcodes and the operands; it removes
the trailing renames and starts the walk at the end of the trace, with a stop
that is not 0. -/
theorem asm_setup_regsp_spec (T : Target) (parentmap : Nat → Nat) (as : ASMState) (Tr : Trace) :
    (asm_setup_regsp T parentmap as Tr).1.realign = as.realign ∧
    (asm_setup_regsp T parentmap as Tr).1.curins = strip_renames as.ir Tr.nins ∧
    (asm_setup_regsp T parentmap as Tr).1.orignins = strip_renames as.ir Tr.nins ∧
    (asm_setup_regsp T parentmap as Tr).1.snaprename = strip_renames as.ir Tr.nins ∧
    (asm_setup_regsp T parentmap as Tr).2.nins = strip_renames as.ir Tr.nins ∧
    (∀ j, ((asm_setup_regsp T parentmap as Tr).1.ir j).key = (as.ir j).key) ∧
    0 < (asm_setup_regsp T parentmap as Tr).1.stopins := by
  unfold asm_setup_regsp
  dsimp only
  rw [strip_setup_consts]
  obtain ⟨b1, b2, b3, b4, b5, b6⟩ := setup_regsp_loop_spec T parentmap
    (strip_renames as.ir Tr.nins) (strip_renames as.ir Tr.nins) REF_FIRST
    (false, { setPrev (setup_regsp_consts T as Tr.nk) REF_BASE (T.REGSP_HINT T.RID_BASE) with
      snaprename := strip_renames as.ir Tr.nins, snapref := strip_renames as.ir Tr.nins,
      snapno := Tr.nsnap, stopins := REF_BASE, orignins := strip_renames as.ir Tr.nins,
      curins := strip_renames as.ir Tr.nins }) (by decide) (show 0 < REF_BASE by decide)
  exact ⟨b1, b2, b3, b4, rfl, fun j => (b5 j).trans (key_setup_consts T as Tr.nk j), b6⟩

/-- The stop that `asm_setup_regsp` computes is the same for two states whose
traces have the same length after the removal of the renames and whose
instructions below it have the same opcodes and operands. -/
theorem asm_setup_regsp_congr (T : Target) (parentmap : Nat → Nat) (as as1 : ASMState)
    (Tr Tr1 : Trace) (hn : strip_renames as.ir Tr.nins = strip_renames as1.ir Tr1.nins)
    (hk : ∀ j, j < strip_renames as.ir Tr.nins → (as.ir j).key = (as1.ir j).key) :
    (asm_setup_regsp T parentmap as Tr).1.stopins =
      (asm_setup_regsp T parentmap as1 Tr1).1.stopins := by
  unfold asm_setup_regsp
  dsimp only
  rw [strip_setup_consts, strip_setup_consts, ← hn]
  apply setup_regsp_loop_congr
  · rfl
  · intro j hj
    show ((setPrev _ REF_BASE (T.REGSP_HINT T.RID_BASE)).ir j).key =
      ((setPrev _ REF_BASE (T.REGSP_HINT T.RID_BASE)).ir j).key
    rw [key_setup_consts T as Tr.nk j, key_setup_consts T as1 Tr1.nk j]
    exact hk j hj

theorem asm_attempt_start_spec (T : Target) (as : ASMState) (Tr : Trace) :
    (ra_setup T (asm_attempt_start T as Tr)).realign = as.realign ∧
    (ra_setup T (asm_attempt_start T as Tr)).ir = as.ir := by
  unfold ra_setup asm_attempt_start
  dsimp only
  split <;> exact ⟨rfl, rfl⟩

/-- The backward walk from the end of the trace ends within `n0` iterations. -/
theorem asm_trace_spec (X : AsmGen) (T : Target) (hX : X.Frame) (ir0 : Nat → IRIns)
    (s0 n0 : Nat) (hs0 : 0 < s0) (hn0 : 0 < n0) (hlim : n0 < 4294967296) (fuel : Nat)
    (as : ASMState) (Tr : Trace) (hinv : WalkInv ir0 s0 n0 as Tr) (hc : as.curins = n0)
    (hf : n0 ≤ fuel) :
    asm_trace X T fuel as Tr ≠ .nofuel ∧
    ∀ as1 Tr1, asm_trace X T fuel as Tr = .done (as1, Tr1) →
      WalkInv ir0 s0 n0 as1 Tr1 ∧
      (as.realign ≠ 0 → ∀ c, s0 < c → c < n0 → (ir0 c).o = IR_LOOP →
        (∀ i, i < n0 → (ir0 i).o = IR_LOOP → i = c) → as1.realign = 0) ∧
      (as.realign = 0 → as1.realign ≠ 0 →
        (∃ c, s0 < c ∧ c < n0 ∧ (ir0 c).o = IR_LOOP) ∧ Tr1.nins = n0) := by
  unfold asm_trace
  have hu : u32 ((as.curins : Int) - 1) = n0 - 1 := by
    rw [hc]; exact u32_pred _ hn0 hlim
  rw [hu]
  obtain ⟨e1, e2⟩ := asm_trace_loop_spec X T hX ir0 s0 n0 hs0 (by omega) fuel
    { as with curins := n0 - 1 } Tr (walkInv_curins _ _ _ _ _ _ hinv)
    (by show n0 - 1 < n0; omega) (by show n0 - 1 + 1 ≤ fuel; omega)
  refine ⟨e1, ?_⟩
  intro as1 Tr1 h
  obtain ⟨f1, _, f3, f4⟩ := e2 as1 Tr1 h
  refine ⟨f1, ?_, ?_⟩
  · intro hr c hc1 hc2 hc3 huniq
    exact f3 hr c hc1 (by show c ≤ n0 - 1; omega) hc3 huniq
  · intro hr hr1
    obtain ⟨⟨c, k1, k2, k3⟩, k4⟩ := f4 hr hr1
    have k2' : c ≤ n0 - 1 := k2
    exact ⟨⟨c, k1, by omega, k3⟩, k4⟩

/-- One attempt to assemble the trace ends within `T->nins` iterations of the
walk. If the marker was set and the only LOOP instruction lies above the stop,
the marker is cleared at the end; if the marker was cleared and is set at the
end, a LOOP instruction lies above the stop and the renames have been
removed. -/
theorem asm_attempt_spec (X : AsmGen) (T : Target) (hX : X.Frame) (fuel : Nat) (as : ASMState)
    (Tr : Trace) (hN : 0 < strip_renames as.ir Tr.nins) (hlim : Tr.nins < 4294967296)
    (hfuel : Tr.nins ≤ fuel) :
    asm_attempt X T fuel as Tr ≠ .nofuel ∧
    ∀ as1 Tr1, asm_attempt X T fuel as Tr = .done (as1, Tr1) →
      WalkInv as.ir (asm_setup_regsp T X.parentmap as Tr).1.stopins
        (strip_renames as.ir Tr.nins) as1 Tr1 ∧
      (as.realign ≠ 0 → ∀ c, (asm_setup_regsp T X.parentmap as Tr).1.stopins < c →
        c < strip_renames as.ir Tr.nins → (as.ir c).o = IR_LOOP →
        (∀ i, i < strip_renames as.ir Tr.nins → (as.ir i).o = IR_LOOP → i = c) →
        as1.realign = 0) ∧
      (as.realign = 0 → as1.realign ≠ 0 →
        (∃ c, (asm_setup_regsp T X.parentmap as Tr).1.stopins < c ∧
          c < strip_renames as.ir Tr.nins ∧ (as.ir c).o = IR_LOOP) ∧
        Tr1.nins = strip_renames as.ir Tr.nins) := by
  obtain ⟨hr, hir⟩ := asm_attempt_start_spec T as Tr
  obtain ⟨pre, hpre⟩ : ∃ pre, pre = ra_setup T (asm_attempt_start T as Tr) := ⟨_, rfl⟩
  rw [← hpre] at hr hir
  obtain ⟨a1, a2, a3, a4, a5, a6, a7⟩ := asm_setup_regsp_spec T X.parentmap pre Tr
  have hs : (asm_setup_regsp T X.parentmap pre Tr).1.stopins =
      (asm_setup_regsp T X.parentmap as Tr).1.stopins :=
    asm_setup_regsp_congr T X.parentmap pre as Tr Tr (by rw [hir]) (fun j _ => by rw [hir])
  rw [hir] at a2 a3 a4 a5 a6
  rw [hs] at a7
  have hle := strip_renames_le as.ir Tr.nins
  have hinv : WalkInv as.ir (asm_setup_regsp T X.parentmap as Tr).1.stopins
      (strip_renames as.ir Tr.nins) (asm_setup_regsp T X.parentmap pre Tr).1
      (asm_setup_regsp T X.parentmap pre Tr).2 :=
    ⟨hs, a3, by rw [a5], by rw [a4], fun i _ => a6 i⟩
  unfold asm_attempt
  dsimp only
  rw [← hpre]
  by_cases hl : (asm_setup_regsp T X.parentmap pre Tr).1.loopref = 0
  · rw [if_pos hl]
    cases ht : X.asm_tail_sync
        { (asm_setup_regsp T X.parentmap pre Tr).1 with
          mcp := (asm_setup_regsp T X.parentmap pre Tr).1.mcp -
            (if (asm_setup_regsp T X.parentmap pre Tr).1.flags &&& JIT_F_LEA_AGU ≠ 0
              then 7 else 6)
          invmcp := 0 } (asm_setup_regsp T X.parentmap pre Tr).2 with
    | error e =>
      dsimp only
      exact ⟨fun h => Walk.noConfusion h, fun _ _ h => Walk.noConfusion h⟩
    | ok p5 =>
      dsimp only
      have k := hX.2.2.2 _ _ p5.1 p5.2 ht
      have hinv5 : WalkInv as.ir (asm_setup_regsp T X.parentmap as Tr).1.stopins
          (strip_renames as.ir Tr.nins) p5.1 p5.2 :=
        walkInv_keeps _ _ _ _ _ _ _ (by exact hinv) k
      have hc5 : p5.1.curins = strip_renames as.ir Tr.nins := k.2.1.trans a2
      have hr5 : p5.1.realign = as.realign := k.1.trans (a1.trans hr)
      obtain ⟨e1, e2⟩ := asm_trace_spec X T hX as.ir _ _ a7 hN (by omega) fuel p5.1 p5.2
        hinv5 hc5 (by omega)
      rw [hr5] at e2
      exact ⟨e1, e2⟩
  · rw [if_neg hl]
    have hr4 : (asm_setup_regsp T X.parentmap pre Tr).1.realign = as.realign := a1.trans hr
    obtain ⟨e1, e2⟩ := asm_trace_spec X T hX as.ir _ _ a7 hN (by omega) fuel _ _
      hinv a2 (by omega)
    rw [hr4] at e2
    exact ⟨e1, e2⟩

/-- C34: the loop `do { ... } while (as->realign)` of `lj_asm_trace`, entered with
the marker cleared, ends after at most two backward walks (each of them within
`T->nins` iterations): it returns, throws or fails an assertion, whatever the
code generators do, as long as they do not assign the fields that control the
walk, and the trace holds the BASE instruction at `REF_BASE` and at most one
LOOP instruction. `asm_loop_fixup` clears a marker that is set, and it sets the
marker only if it was cleared; it then ends the walk and removes the renames. -/
theorem asm_retry_two_walks (X : AsmGen) (T : Target) (fuel : Nat) (as : ASMState) (Tr : Trace)
    (hX : X.Frame) (h0 : as.realign = 0) (hbase : (as.ir REF_BASE).o = IR_BASE)
    (hn : REF_BASE < Tr.nins) (hlim : Tr.nins < 4294967296) (hfuel : Tr.nins ≤ fuel)
    (huniq : ∀ i j, i < Tr.nins → j < Tr.nins → (as.ir i).o = IR_LOOP →
      (as.ir j).o = IR_LOOP → i = j) :
    asm_retry X T fuel 2 as Tr ≠ .nofuel ∧
    (∀ a t, a.realign ≠ 0 → (asm_loop_fixup T a t).1.realign = 0) ∧
    (∀ a t, (asm_loop_fixup T a t).1.realign ≠ 0 →
      a.realign = 0 ∧ (asm_loop_fixup T a t).1.curins = a.stopins ∧
      (asm_loop_fixup T a t).2.nins = a.orignins) := by
  refine ⟨?_, ?_, ?_⟩
  · have hle := strip_renames_le as.ir Tr.nins
    have hN : REF_BASE < strip_renames as.ir Tr.nins :=
      strip_renames_gt as.ir REF_BASE (by rw [hbase]; decide) Tr.nins hn
    have hN0 : 0 < strip_renames as.ir Tr.nins := by omega
    obtain ⟨a1, a2⟩ := asm_attempt_spec X T hX fuel as Tr hN0 hlim hfuel
    unfold asm_retry
    cases h1 : asm_attempt X T fuel as Tr with
    | thrown e => dsimp only; exact fun h => Walk.noConfusion h
    | failed => dsimp only; exact fun h => Walk.noConfusion h
    | nofuel => exact absurd h1 a1
    | done p =>
      dsimp only
      by_cases hr : p.1.realign ≠ 0
      · rw [if_pos hr]
        obtain ⟨⟨i1, i2, i3, i4, i5⟩, _, b3⟩ := a2 p.1 p.2 h1
        obtain ⟨⟨c, c1, c2, c3⟩, c4⟩ := b3 h0 hr
        -- the second attempt starts from the same instructions
        have hn2 : strip_renames p.1.ir p.2.nins = strip_renames as.ir Tr.nins := by
          rw [c4, strip_renames_congr p.1.ir as.ir _ (fun j hj => key_o _ _ (i5 j hj))]
          exact strip_renames_idem as.ir Tr.nins
        have hs2 : (asm_setup_regsp T X.parentmap p.1 p.2).1.stopins =
            (asm_setup_regsp T X.parentmap as Tr).1.stopins :=
          asm_setup_regsp_congr T X.parentmap p.1 as p.2 Tr hn2
            (fun j hj => i5 j (by rw [hn2] at hj; exact hj))
        obtain ⟨d1, d2⟩ := asm_attempt_spec X T hX fuel p.1 p.2 (by rw [hn2]; exact hN0)
          (by rw [c4]; omega) (by rw [c4]; omega)
        unfold asm_retry
        cases h2 : asm_attempt X T fuel p.1 p.2 with
        | thrown e => dsimp only; exact fun h => Walk.noConfusion h
        | failed => dsimp only; exact fun h => Walk.noConfusion h
        | nofuel => exact absurd h2 d1
        | done q =>
          dsimp only
          obtain ⟨_, e2, _⟩ := d2 q.1 q.2 h2
          have hq : q.1.realign = 0 := by
            apply e2 hr c
            · rw [hs2]; exact c1
            · rw [hn2]; exact c2
            · rw [key_o _ _ (i5 c c2)]; exact c3
            · intro i hi hio
              rw [hn2] at hi
              rw [key_o _ _ (i5 i hi)] at hio
              exact huniq i c (by omega) (by omega) hio c3
          rw [if_neg (not_not.2 hq)]
          exact fun h => Walk.noConfusion h
      · rw [if_neg hr]
        exact fun h => Walk.noConfusion h
  · intro a t hr
    exact ((asm_loop_fixup_spec T a t).2.2.2.2.1 hr).1
  · intro a t hr
    by_cases ha : a.realign ≠ 0
    · exact absurd ((asm_loop_fixup_spec T a t).2.2.2.2.1 ha).1 hr
    · rcases (asm_loop_fixup_spec T a t).2.2.2.2.2 (not_not.1 ha) with g | g
      · exact absurd g.1 hr
      · exact ⟨not_not.1 ha, g.2.1, g.2.2⟩

theorem walkGen_frame : walkGen.Frame := by
  refine ⟨?_, ?_, ?_, ?_⟩
  · intro as Tr ref as1 Tr1 h
    injection h with h
    injection h with h1 h2
    subst h1 h2
    exact ⟨rfl, rfl, rfl, rfl, rfl, le_refl _, fun _ _ => rfl⟩
  · intro as Tr as1 Tr1 h
    injection h with h
    injection h with h1 h2
    subst h1 h2
    exact ⟨rfl, rfl, rfl, rfl, rfl, le_refl _, fun _ _ => rfl⟩
  · intro as Tr n as1 Tr1 h
    injection h with h
    injection h with h1 h2
    subst h1 h2
    exact ⟨rfl, rfl, rfl, rfl, rfl, le_refl _, fun _ _ => rfl⟩
  · intro as Tr as1 Tr1 h
    injection h with h
    injection h with h1 h2
    subst h1 h2
    exact ⟨rfl, rfl, rfl, rfl, rfl, le_refl _, fun _ _ => rfl⟩

theorem walkIR_loop (i : Nat) (h : (walkIR i).o = IR_LOOP) : i = 0x8003 := by
  unfold walkIR at h
  split at h
  · exact absurd h (by decide)
  · split at h
    · exact absurd h (by decide)
    · split at h
      · exact absurd h (by decide)
      · split at h
        · assumption
        · split at h
          · exact absurd h (by decide)
          · split at h
            · exact absurd h (by decide)
            · exact absurd h (by decide)

set_option maxRecDepth 100000 in
theorem asm_retry_two_walks_witness :
    (walkStart.realign = 0 ∧ (walkStart.ir REF_BASE).o = IR_BASE ∧ REF_BASE < walkTrace.nins ∧
      walkTrace.nins < 4294967296) ∧
    asm_retry walkGen exampleTarget 0x8006 2 walkStart walkTrace ≠ .nofuel ∧
    (asm_retry walkGen exampleTarget 0x8006 1 walkStart walkTrace).outOfFuel = true ∧
    (asm_attempt walkGen exampleTarget 0x8006 walkStart walkTrace).val?.map
      (fun p => (p.1.realign, p.1.curins, p.1.stopins, p.1.mctop, p.1.mcp, p.2.nins)) =
      some (0xffd, 0x7fff, 0x8000, 0x1000, 0xffa, 0x8006) ∧
    (asm_retry walkGen exampleTarget 0x8006 2 walkStart walkTrace).val?.map
      (fun p => (p.1.realign, p.1.curins, p.1.mctop, p.1.mcp, p.1.mcloop)) =
      some (0, 0x8000, 0xff3, 0xfee, 0xff0) ∧
    (asm_retry walkGen exampleTarget 0x8006 2 walkStart walkTrace).val?.map
      (fun p => bytesAt p.1.mem 0xfee 18) =
      some [0x90, 0x90, 0x90, 0xeb, 0xfd, 0x90, 0x90, 0x90, 0x90, 0x90, 0x90, 0x90, 0x90, 0x90,
        0x90, 0x90, 0x90, 0x90] :=
  ⟨⟨by decide, by decide, by decide, by decide⟩,
    (asm_retry_two_walks walkGen exampleTarget 0x8006 walkStart walkTrace walkGen_frame
      (by decide) (by decide) (by decide) (by decide) (by decide)
      (fun i j _ _ hi hj => (walkIR_loop i hi).trans (walkIR_loop j hj).symm)).1,
    by decide, by decide, by decide, by decide⟩

end LuaJIT
